import Mathlib

/-! # FreeRTOS `portable/MemMang` allocators: `heap_1.c`, `heap_2.c`, `heap_4.c`

A shallow embedding of the three allocators and proofs about them.

Modelling conventions.

* `size_t` and `portPOINTER_SIZE_TYPE` values are natural numbers below
  `2 ^ (8 * sizeof (size_t))`; every C addition and subtraction is taken modulo that
  number (`wadd`, `wsub`), so wrap-around is visible.
* Memory holding `BlockLink_t` headers is modelled field by field: one map from the
  address of a header to its `pxNextFreeBlock` field and one to its `xBlockSize` field.
  `NULL` is address `0`.  `xStart` (and `xEnd` in `heap_2.c`) are headers like any other,
  living at the addresses `Config.xStart` and `Config.xEnd`.
* The `while`/`for` walks over the free list take a fuel argument; running out of fuel is
  the outcome `Outcome.outOfFuel`.
* `configASSERT` halts the program when its argument is false (`Outcome.assertFailed`,
  carrying the state at the halt).
* `vTaskSuspendAll`/`xTaskResumeAll`, the trace macros and the malloc-failed hook do not
  touch allocator state and are left out; `configHEAP_CLEAR_MEMORY_ON_FREE` has its
  default value `0`.
-/

namespace FreeRTOS

/-! ## Port layer and configuration -/

/-- Constants supplied by `FreeRTOSConfig.h` and `portmacro.h`, together with the link-time
addresses of the static objects whose address the code takes. -/
structure Config where
  /-- The value of `sizeof( size_t )`, also the width of `portPOINTER_SIZE_TYPE`. -/
  sizeofSizeT : Nat
  /-- The alignment quantum `portBYTE_ALIGNMENT`. -/
  portBYTE_ALIGNMENT : Nat
  /-- The value of `sizeof( BlockLink_t )`. -/
  sizeofBlockLink : Nat
  /-- The array length `configTOTAL_HEAP_SIZE`. -/
  configTOTAL_HEAP_SIZE : Nat
  /-- The address of `ucHeap[ 0 ]`. -/
  ucHeap : Nat
  /-- The address of the static `xStart`. -/
  xStart : Nat
  /-- The address of the static `xEnd` of `heap_2.c`. -/
  xEnd : Nat
  /-- The constant `portMAX_DELAY` of `portmacro.h`: the largest `TickType_t` value. -/
  portMAX_DELAY : Nat

/-- Assumes 8bit bytes. -/
def heapBITS_PER_BYTE : Nat := 8

/-- Number of bits of a `size_t`. -/
def Config.bits (c : Config) : Nat := c.sizeofSizeT * heapBITS_PER_BYTE

/-- Number of values of a `size_t`: arithmetic is modulo this. -/
def Config.wordMod (c : Config) : Nat := 2 ^ c.bits

/-- Max value that fits in a `size_t` type: `~( ( size_t ) 0 )`. -/
def heapSIZE_MAX (c : Config) : Nat := c.wordMod - 1

/-- The mask `portBYTE_ALIGNMENT_MASK`, which `portmacro.h` defines as alignment minus one. -/
def portBYTE_ALIGNMENT_MASK (c : Config) : Nat := c.portBYTE_ALIGNMENT - 1

/-- Unsigned addition of `size_t` values. -/
def wadd (c : Config) (a b : Nat) : Nat := (a + b) % c.wordMod

/-- Unsigned subtraction of `size_t` values. -/
def wsub (c : Config) (a b : Nat) : Nat := (a + (c.wordMod - b % c.wordMod)) % c.wordMod

/-- Bitwise complement `~a` of a `size_t` value. -/
def wnot (c : Config) (a : Nat) : Nat := heapSIZE_MAX c ^^^ a

/-- Check if adding a and b will result in overflow. -/
def heapADD_WILL_OVERFLOW (c : Config) (a b : Nat) : Bool := decide (a > heapSIZE_MAX c - b)

/-- Check if multiplying a and b will result in overflow. -/
def heapMULTIPLY_WILL_OVERFLOW (c : Config) (a b : Nat) : Bool :=
  decide (a > 0) && decide (b > heapSIZE_MAX c / a)

/-- The most significant bit of a `size_t`. -/
def heapBLOCK_ALLOCATED_BITMASK (c : Config) : Nat :=
  1 <<< (c.sizeofSizeT * heapBITS_PER_BYTE - 1)

/-- The top bit of the size is clear. -/
def heapBLOCK_SIZE_IS_VALID (c : Config) (xBlockSize : Nat) : Bool :=
  (xBlockSize &&& heapBLOCK_ALLOCATED_BITMASK c) == 0

/-- The top bit of the `xBlockSize` field is set. -/
def heapBLOCK_IS_ALLOCATED (c : Config) (xBlockSize : Nat) : Bool :=
  (xBlockSize &&& heapBLOCK_ALLOCATED_BITMASK c) != 0

/-- New value of the `xBlockSize` field after `heapALLOCATE_BLOCK`. -/
def heapALLOCATE_BLOCK (c : Config) (xBlockSize : Nat) : Nat :=
  xBlockSize ||| heapBLOCK_ALLOCATED_BITMASK c

/-- New value of the `xBlockSize` field after `heapFREE_BLOCK`. -/
def heapFREE_BLOCK (c : Config) (xBlockSize : Nat) : Nat :=
  xBlockSize &&& wnot c (heapBLOCK_ALLOCATED_BITMASK c)

/-- Write `v` at address `a` of a field map. -/
def store (m : Nat → Nat) (a v : Nat) : Nat → Nat := fun x => if x = a then v else m x

/-- How a call ends. -/
inductive Outcome (σ ρ : Type) where
  /-- The call returned `r`, leaving state `s`. -/
  | ok (s : σ) (r : ρ)
  /-- A `configASSERT` failed with the state being `s`: the program halts. -/
  | assertFailed (s : σ)
  /-- A list walk did not finish within the fuel given. -/
  | outOfFuel

/-- The search loop of `pvPortMalloc` in `heap_2.c` and `heap_4.c`:
`while( ( pxBlock->xBlockSize < xWantedSize ) && ( pxBlock->pxNextFreeBlock != NULL ) )`.
Returns the final `( pxPreviousBlock, pxBlock )`. -/
def searchLoop (next size : Nat → Nat) (xWantedSize : Nat) : Nat → Nat → Nat → Option (Nat × Nat)
  | 0, _, _ => none
  | fuel + 1, pxPreviousBlock, pxBlock =>
    if size pxBlock < xWantedSize ∧ next pxBlock ≠ 0 then
      searchLoop next size xWantedSize fuel pxBlock (next pxBlock)
    else
      some (pxPreviousBlock, pxBlock)

/-! ## `heap_4.c` -/

namespace Heap4

/-- The static variables of `heap_4.c` and the header memory. -/
structure State where
  /-- Field `pxNextFreeBlock` of the header at each address. -/
  pxNextFreeBlock : Nat → Nat
  /-- Field `xBlockSize` of the header at each address. -/
  xBlockSize : Nat → Nat
  /-- The pointer `pxEnd`. -/
  pxEnd : Nat
  xFreeBytesRemaining : Nat
  xMinimumEverFreeBytesRemaining : Nat
  xNumberOfSuccessfulAllocations : Nat
  xNumberOfSuccessfulFrees : Nat

/-- The assignment `p->xBlockSize = v`. -/
def State.setSize (s : State) (p v : Nat) : State :=
  { s with xBlockSize := store s.xBlockSize p v }

/-- The assignment `p->pxNextFreeBlock = v`. -/
def State.setNext (s : State) (p v : Nat) : State :=
  { s with pxNextFreeBlock := store s.pxNextFreeBlock p v }

/-- The size of the structure placed at the beginning of each allocated memory block,
rounded up to the alignment. -/
def xHeapStructSize (c : Config) : Nat :=
  wadd c c.sizeofBlockLink (c.portBYTE_ALIGNMENT - 1) &&& wnot c (portBYTE_ALIGNMENT_MASK c)

/-- Block sizes must not get too small. -/
def heapMINIMUM_BLOCK_SIZE (c : Config) : Nat := (xHeapStructSize c <<< 1) % c.wordMod

/-- The first step of `prvHeapInit`: the heap start rounded up to the alignment, and the
heap size that is left. -/
def alignedHeap (c : Config) : Nat × Nat :=
  let xTotalHeapSize := c.configTOTAL_HEAP_SIZE
  let uxAddress := c.ucHeap
  if uxAddress &&& portBYTE_ALIGNMENT_MASK c ≠ 0 then
    let uxAddress := wadd c uxAddress (c.portBYTE_ALIGNMENT - 1)
    let uxAddress := uxAddress &&& wnot c (portBYTE_ALIGNMENT_MASK c)
    (uxAddress, wsub c xTotalHeapSize (wsub c uxAddress c.ucHeap))
  else
    (uxAddress, xTotalHeapSize)

/-- The second step of `prvHeapInit`: the address at which `pxEnd` is placed. -/
def endAddress (c : Config) : Nat :=
  let uxAddress := wadd c (alignedHeap c).1 (alignedHeap c).2
  let uxAddress := wsub c uxAddress (xHeapStructSize c)
  uxAddress &&& wnot c (portBYTE_ALIGNMENT_MASK c)

/-- The function `prvHeapInit`. -/
def prvHeapInit (c : Config) (s : State) : State :=
  let pucAlignedHeap := (alignedHeap c).1
  let s := s.setNext c.xStart pucAlignedHeap
  let s := s.setSize c.xStart 0
  let uxAddress := endAddress c
  let s := { s with pxEnd := uxAddress }
  let s := s.setSize s.pxEnd 0
  let s := s.setNext s.pxEnd 0
  let pxFirstFreeBlock := pucAlignedHeap
  let s := s.setSize pxFirstFreeBlock (wsub c uxAddress pxFirstFreeBlock)
  let s := s.setNext pxFirstFreeBlock s.pxEnd
  let s := { s with xMinimumEverFreeBytesRemaining := s.xBlockSize pxFirstFreeBlock }
  { s with xFreeBytesRemaining := s.xBlockSize pxFirstFreeBlock }

/-- The `for` loop of `prvInsertBlockIntoFreeList`:
`for( pxIterator = &xStart; pxIterator->pxNextFreeBlock < pxBlockToInsert; ... )`.
Returns the final `pxIterator`. -/
def insertLoop (next : Nat → Nat) (pxBlockToInsert : Nat) : Nat → Nat → Option Nat
  | 0, _ => none
  | fuel + 1, pxIterator =>
    if next pxIterator < pxBlockToInsert then
      insertLoop next pxBlockToInsert fuel (next pxIterator)
    else
      some pxIterator

/-- The second part of `prvInsertBlockIntoFreeList`: when the block being inserted ends
where the block it is inserted before starts, the two are merged, unless that block is
`pxEnd`. -/
def mergeBehind (c : Config) (s : State) (pxIterator pxBlockToInsert : Nat) : State :=
  if wadd c pxBlockToInsert (s.xBlockSize pxBlockToInsert) = s.pxNextFreeBlock pxIterator then
    if s.pxNextFreeBlock pxIterator ≠ s.pxEnd then
      let s := s.setSize pxBlockToInsert
        (wadd c (s.xBlockSize pxBlockToInsert) (s.xBlockSize (s.pxNextFreeBlock pxIterator)))
      s.setNext pxBlockToInsert (s.pxNextFreeBlock (s.pxNextFreeBlock pxIterator))
    else
      s.setNext pxBlockToInsert s.pxEnd
  else
    s.setNext pxBlockToInsert (s.pxNextFreeBlock pxIterator)

/-- The function `prvInsertBlockIntoFreeList`; `none` when the walk runs out of fuel. -/
def prvInsertBlockIntoFreeList (c : Config) (fuel : Nat) (s : State) (pxBlockToInsert : Nat) :
    Option State :=
  match insertLoop s.pxNextFreeBlock pxBlockToInsert fuel c.xStart with
  | none => none
  | some pxIterator =>
    -- does the block being inserted follow the block it is inserted after?
    let front : State × Nat :=
      if wadd c pxIterator (s.xBlockSize pxIterator) = pxBlockToInsert then
        (s.setSize pxIterator
            (wadd c (s.xBlockSize pxIterator) (s.xBlockSize pxBlockToInsert)),
          pxIterator)
      else
        (s, pxBlockToInsert)
    let s := front.1
    let pxBlockToInsert := front.2
    let s := mergeBehind c s pxIterator pxBlockToInsert
    if pxIterator ≠ pxBlockToInsert then
      some (s.setNext pxIterator pxBlockToInsert)
    else
      some s

/-- The size computation at the head of `pvPortMalloc`: the header and the alignment
padding are added to the request, and an overflowing sum is replaced by `0`. -/
def adjustWantedSize (c : Config) (xWantedSize : Nat) : Nat :=
  if xWantedSize > 0 then
    let xAdditionalRequiredSize :=
      wsub c (wadd c (xHeapStructSize c) c.portBYTE_ALIGNMENT)
        (xWantedSize &&& portBYTE_ALIGNMENT_MASK c)
    if heapADD_WILL_OVERFLOW c xWantedSize xAdditionalRequiredSize = false then
      wadd c xWantedSize xAdditionalRequiredSize
    else
      0
  else
    xWantedSize

/-- The part of `pvPortMalloc` that splits the block found when the rest is large enough. -/
def splitBlock (c : Config) (fuel : Nat) (s : State) (pxBlock xWantedSize : Nat) :
    Outcome State Unit :=
  if wsub c (s.xBlockSize pxBlock) xWantedSize > heapMINIMUM_BLOCK_SIZE c then
    let pxNewBlockLink := wadd c pxBlock xWantedSize
    if pxNewBlockLink &&& portBYTE_ALIGNMENT_MASK c ≠ 0 then
      Outcome.assertFailed s
    else
      let s := s.setSize pxNewBlockLink (wsub c (s.xBlockSize pxBlock) xWantedSize)
      let s := s.setSize pxBlock xWantedSize
      match prvInsertBlockIntoFreeList c fuel s pxNewBlockLink with
      | none => Outcome.outOfFuel
      | some s => Outcome.ok s ()
  else
    Outcome.ok s ()

/-- The part of `pvPortMalloc` after the split: the counters are updated and the block is
marked as allocated. -/
def takeBlock (c : Config) (s : State) (pxBlock : Nat) : State :=
  let xFree := wsub c s.xFreeBytesRemaining (s.xBlockSize pxBlock)
  let s := { s with xFreeBytesRemaining := xFree }
  let s :=
    if s.xFreeBytesRemaining < s.xMinimumEverFreeBytesRemaining then
      { s with xMinimumEverFreeBytesRemaining := s.xFreeBytesRemaining }
    else
      s
  let s := s.setSize pxBlock (heapALLOCATE_BLOCK c (s.xBlockSize pxBlock))
  let s := s.setNext pxBlock 0
  { s with xNumberOfSuccessfulAllocations := wadd c s.xNumberOfSuccessfulAllocations 1 }

/-- The part of `pvPortMalloc` of `heap_4.c` that follows the size computation: the size
check, the search of the free list and the taking of the block found. -/
def allocateBlock (c : Config) (fuel : Nat) (s : State) (xWantedSize : Nat) :
    Outcome State Nat :=
  if heapBLOCK_SIZE_IS_VALID c xWantedSize = true ∧
      (xWantedSize > 0 ∧ xWantedSize ≤ s.xFreeBytesRemaining) then
    match searchLoop s.pxNextFreeBlock s.xBlockSize xWantedSize fuel c.xStart
        (s.pxNextFreeBlock c.xStart) with
    | none => Outcome.outOfFuel
    | some (pxPreviousBlock, pxBlock) =>
      if pxBlock ≠ s.pxEnd then
        let pvReturn := wadd c (s.pxNextFreeBlock pxPreviousBlock) (xHeapStructSize c)
        let s := s.setNext pxPreviousBlock (s.pxNextFreeBlock pxBlock)
        match splitBlock c fuel s pxBlock xWantedSize with
        | Outcome.outOfFuel => Outcome.outOfFuel
        | Outcome.assertFailed s => Outcome.assertFailed s
        | Outcome.ok s _ =>
          let s := takeBlock c s pxBlock
          if pvReturn &&& portBYTE_ALIGNMENT_MASK c ≠ 0 then
            Outcome.assertFailed s
          else
            Outcome.ok s pvReturn
      else
        Outcome.ok s 0
  else
    Outcome.ok s 0

/-- The function `pvPortMalloc` of `heap_4.c`.  The result is the returned pointer. -/
def pvPortMalloc (c : Config) (fuel : Nat) (s : State) (xWantedSize : Nat) : Outcome State Nat :=
  let s := if s.pxEnd = 0 then prvHeapInit c s else s
  let xWantedSize := adjustWantedSize c xWantedSize
  allocateBlock c fuel s xWantedSize

/-- The function `vPortFree` of `heap_4.c`. -/
def vPortFree (c : Config) (fuel : Nat) (s : State) (pv : Nat) : Outcome State Unit :=
  if pv ≠ 0 then
    let puc := wsub c pv (xHeapStructSize c)
    let pxLink := puc
    if heapBLOCK_IS_ALLOCATED c (s.xBlockSize pxLink) = false then
      Outcome.assertFailed s
    else if s.pxNextFreeBlock pxLink ≠ 0 then
      Outcome.assertFailed s
    else if heapBLOCK_IS_ALLOCATED c (s.xBlockSize pxLink) = true then
      if s.pxNextFreeBlock pxLink = 0 then
        let s := s.setSize pxLink (heapFREE_BLOCK c (s.xBlockSize pxLink))
        let xFree := wadd c s.xFreeBytesRemaining (s.xBlockSize pxLink)
        let s := { s with xFreeBytesRemaining := xFree }
        match prvInsertBlockIntoFreeList c fuel s pxLink with
        | none => Outcome.outOfFuel
        | some s =>
          Outcome.ok { s with xNumberOfSuccessfulFrees := wadd c s.xNumberOfSuccessfulFrees 1 } ()
      else
        Outcome.ok s ()
    else
      Outcome.ok s ()
  else
    Outcome.ok s ()

/-- The function `xPortGetFreeHeapSize`. -/
def xPortGetFreeHeapSize (s : State) : Nat := s.xFreeBytesRemaining

/-- The function `xPortGetMinimumEverFreeHeapSize`. -/
def xPortGetMinimumEverFreeHeapSize (s : State) : Nat := s.xMinimumEverFreeBytesRemaining

/-- The function `vPortInitialiseBlocks`: this just exists to keep the linker quiet. -/
def vPortInitialiseBlocks (s : State) : State := s

/-- The state at program start: the statics hold their initialisers and the header memory
holds `next0`, `size0`. -/
def boot (next0 size0 : Nat → Nat) : State :=
  { pxNextFreeBlock := next0
    xBlockSize := size0
    pxEnd := 0
    xFreeBytesRemaining := 0
    xMinimumEverFreeBytesRemaining := 0
    xNumberOfSuccessfulAllocations := 0
    xNumberOfSuccessfulFrees := 0 }

end Heap4

/-! ## `heap_2.c` -/

namespace Heap2

/-- The static variables of `heap_2.c` and the header memory. -/
structure State where
  /-- Field `pxNextFreeBlock` of the header at each address. -/
  pxNextFreeBlock : Nat → Nat
  /-- Field `xBlockSize` of the header at each address. -/
  xBlockSize : Nat → Nat
  /-- The function-local static `xHeapHasBeenInitialised` of `pvPortMalloc`. -/
  xHeapHasBeenInitialised : Bool
  xFreeBytesRemaining : Nat

/-- The assignment `p->xBlockSize = v`. -/
def State.setSize (s : State) (p v : Nat) : State :=
  { s with xBlockSize := store s.xBlockSize p v }

/-- The assignment `p->pxNextFreeBlock = v`. -/
def State.setNext (s : State) (p v : Nat) : State :=
  { s with pxNextFreeBlock := store s.pxNextFreeBlock p v }

/-- A few bytes might be lost to byte aligning the heap start address. -/
def configADJUSTED_HEAP_SIZE (c : Config) : Nat :=
  wsub c c.configTOTAL_HEAP_SIZE c.portBYTE_ALIGNMENT

/-- The constant `heapSTRUCT_SIZE`, a `uint16_t`. -/
def heapSTRUCT_SIZE (c : Config) : Nat :=
  (wadd c c.sizeofBlockLink (c.portBYTE_ALIGNMENT - 1) &&& wnot c (portBYTE_ALIGNMENT_MASK c))
    % 2 ^ 16

/-- The macro `heapMINIMUM_BLOCK_SIZE`. -/
def heapMINIMUM_BLOCK_SIZE (c : Config) : Nat := (heapSTRUCT_SIZE c * 2) % c.wordMod

/-- The `for` loop of the macro `prvInsertBlockIntoFreeList`:
`for( pxIterator = &xStart; pxIterator->pxNextFreeBlock->xBlockSize < xBlockSize; ... )`.
Returns the final `pxIterator`. -/
def insertLoop (next size : Nat → Nat) (xBlockSize : Nat) : Nat → Nat → Option Nat
  | 0, _ => none
  | fuel + 1, pxIterator =>
    if size (next pxIterator) < xBlockSize then
      insertLoop next size xBlockSize fuel (next pxIterator)
    else
      some pxIterator

/-- The macro `prvInsertBlockIntoFreeList`; `none` when the walk runs out of fuel. -/
def prvInsertBlockIntoFreeList (c : Config) (fuel : Nat) (s : State) (pxBlockToInsert : Nat) :
    Option State :=
  let xBlockSize := s.xBlockSize pxBlockToInsert
  match insertLoop s.pxNextFreeBlock s.xBlockSize xBlockSize fuel c.xStart with
  | none => none
  | some pxIterator =>
    let s := s.setNext pxBlockToInsert (s.pxNextFreeBlock pxIterator)
    some (s.setNext pxIterator pxBlockToInsert)

/-- The function `prvHeapInit` of `heap_2.c`. -/
def prvHeapInit (c : Config) (s : State) : State :=
  let pucAlignedHeap :=
    wadd c c.ucHeap (c.portBYTE_ALIGNMENT - 1) &&& wnot c (portBYTE_ALIGNMENT_MASK c)
  let s := s.setNext c.xStart pucAlignedHeap
  let s := s.setSize c.xStart 0
  let s := s.setSize c.xEnd (configADJUSTED_HEAP_SIZE c)
  let s := s.setNext c.xEnd 0
  let pxFirstFreeBlock := pucAlignedHeap
  let s := s.setSize pxFirstFreeBlock (configADJUSTED_HEAP_SIZE c)
  s.setNext pxFirstFreeBlock c.xEnd

/-- The size computation at the head of `pvPortMalloc`: the header and the alignment
padding are added to the request, and an overflowing sum is replaced by `0`. -/
def adjustWantedSize (c : Config) (xWantedSize : Nat) : Nat :=
  if xWantedSize > 0 then
    let xAdditionalRequiredSize :=
      wsub c (wadd c (heapSTRUCT_SIZE c) c.portBYTE_ALIGNMENT)
        (xWantedSize &&& portBYTE_ALIGNMENT_MASK c)
    if heapADD_WILL_OVERFLOW c xWantedSize xAdditionalRequiredSize = false then
      wadd c xWantedSize xAdditionalRequiredSize
    else
      0
  else
    xWantedSize

/-- The part of `pvPortMalloc` that splits the block found when the rest is large enough. -/
def splitBlock (c : Config) (fuel : Nat) (s : State) (pxBlock xWantedSize : Nat) :
    Option State :=
  if wsub c (s.xBlockSize pxBlock) xWantedSize > heapMINIMUM_BLOCK_SIZE c then
    let pxNewBlockLink := wadd c pxBlock xWantedSize
    let s := s.setSize pxNewBlockLink (wsub c (s.xBlockSize pxBlock) xWantedSize)
    let s := s.setSize pxBlock xWantedSize
    prvInsertBlockIntoFreeList c fuel s pxNewBlockLink
  else
    some s

/-- The part of `pvPortMalloc` after the split: the counter is updated and the block is
marked as allocated. -/
def takeBlock (c : Config) (s : State) (pxBlock : Nat) : State :=
  let xFree := wsub c s.xFreeBytesRemaining (s.xBlockSize pxBlock)
  let s := { s with xFreeBytesRemaining := xFree }
  let s := s.setSize pxBlock (heapALLOCATE_BLOCK c (s.xBlockSize pxBlock))
  s.setNext pxBlock 0

/-- The part of `pvPortMalloc` of `heap_2.c` that follows the size computation: the size
check, the search of the free list and the taking of the block found. -/
def allocateBlock (c : Config) (fuel : Nat) (s : State) (xWantedSize : Nat) :
    Outcome State Nat :=
  if heapBLOCK_SIZE_IS_VALID c xWantedSize = true ∧
      (xWantedSize > 0 ∧ xWantedSize ≤ s.xFreeBytesRemaining) then
    match searchLoop s.pxNextFreeBlock s.xBlockSize xWantedSize fuel c.xStart
        (s.pxNextFreeBlock c.xStart) with
    | none => Outcome.outOfFuel
    | some (pxPreviousBlock, pxBlock) =>
      if pxBlock ≠ c.xEnd then
        let pvReturn := wadd c (s.pxNextFreeBlock pxPreviousBlock) (heapSTRUCT_SIZE c)
        let s := s.setNext pxPreviousBlock (s.pxNextFreeBlock pxBlock)
        match splitBlock c fuel s pxBlock xWantedSize with
        | none => Outcome.outOfFuel
        | some s => Outcome.ok (takeBlock c s pxBlock) pvReturn
      else
        Outcome.ok s 0
  else
    Outcome.ok s 0

/-- The function `pvPortMalloc` of `heap_2.c`.  The result is the returned pointer. -/
def pvPortMalloc (c : Config) (fuel : Nat) (s : State) (xWantedSize : Nat) : Outcome State Nat :=
  let s :=
    if s.xHeapHasBeenInitialised = false then
      { prvHeapInit c s with xHeapHasBeenInitialised := true }
    else
      s
  let xWantedSize := adjustWantedSize c xWantedSize
  allocateBlock c fuel s xWantedSize

/-- The function `vPortFree` of `heap_2.c`. -/
def vPortFree (c : Config) (fuel : Nat) (s : State) (pv : Nat) : Outcome State Unit :=
  if pv ≠ 0 then
    let puc := wsub c pv (heapSTRUCT_SIZE c)
    let pxLink := puc
    if heapBLOCK_IS_ALLOCATED c (s.xBlockSize pxLink) = false then
      Outcome.assertFailed s
    else if s.pxNextFreeBlock pxLink ≠ 0 then
      Outcome.assertFailed s
    else if heapBLOCK_IS_ALLOCATED c (s.xBlockSize pxLink) = true then
      if s.pxNextFreeBlock pxLink = 0 then
        let s := s.setSize pxLink (heapFREE_BLOCK c (s.xBlockSize pxLink))
        match prvInsertBlockIntoFreeList c fuel s pxLink with
        | none => Outcome.outOfFuel
        | some s =>
          let xFree := wadd c s.xFreeBytesRemaining (s.xBlockSize pxLink)
          Outcome.ok { s with xFreeBytesRemaining := xFree } ()
      else
        Outcome.ok s ()
    else
      Outcome.ok s ()
  else
    Outcome.ok s ()

/-- The function `xPortGetFreeHeapSize`. -/
def xPortGetFreeHeapSize (s : State) : Nat := s.xFreeBytesRemaining

/-- The function `vPortInitialiseBlocks`: this just exists to keep the linker quiet. -/
def vPortInitialiseBlocks (s : State) : State := s

/-- The state at program start: the statics hold their initialisers and the header memory
holds `next0`, `size0`. -/
def boot (c : Config) (next0 size0 : Nat → Nat) : State :=
  { pxNextFreeBlock := next0
    xBlockSize := size0
    xHeapHasBeenInitialised := false
    xFreeBytesRemaining := configADJUSTED_HEAP_SIZE c }

end Heap2

/-! ## `heap_1.c` -/

namespace Heap1

/-- The static variables of `heap_1.c`. -/
structure State where
  /-- Index into the `ucHeap` array. -/
  xNextFreeByte : Nat
  /-- The function-local static `pucAlignedHeap` of `pvPortMalloc`. -/
  pucAlignedHeap : Nat
deriving DecidableEq

/-- A few bytes might be lost to byte aligning the heap start address. -/
def configADJUSTED_HEAP_SIZE (c : Config) : Nat :=
  wsub c c.configTOTAL_HEAP_SIZE c.portBYTE_ALIGNMENT

/-- The block under `#if ( portBYTE_ALIGNMENT != 1 )` at the head of `pvPortMalloc`:
the request is rounded up to the alignment, or replaced by `0` when that wraps. -/
def alignWantedSize (c : Config) (xWantedSize : Nat) : Nat :=
  if c.portBYTE_ALIGNMENT ≠ 1 then
    if xWantedSize &&& portBYTE_ALIGNMENT_MASK c ≠ 0 then
      if wadd c xWantedSize
          (wsub c c.portBYTE_ALIGNMENT (xWantedSize &&& portBYTE_ALIGNMENT_MASK c))
          > xWantedSize then
        wadd c xWantedSize
          (wsub c c.portBYTE_ALIGNMENT (xWantedSize &&& portBYTE_ALIGNMENT_MASK c))
      else
        0
    else
      xWantedSize
  else
    xWantedSize

/-- The function `pvPortMalloc` of `heap_1.c`: the new state and the returned pointer. -/
def pvPortMalloc (c : Config) (s : State) (xWantedSize : Nat) : State × Nat :=
  let xWantedSize := alignWantedSize c xWantedSize
  let aligned :=
    wadd c c.ucHeap (c.portBYTE_ALIGNMENT - 1) &&& wnot c (portBYTE_ALIGNMENT_MASK c)
  let s := if s.pucAlignedHeap = 0 then { s with pucAlignedHeap := aligned } else s
  if xWantedSize > 0 ∧
      (wadd c s.xNextFreeByte xWantedSize < configADJUSTED_HEAP_SIZE c ∧
        wadd c s.xNextFreeByte xWantedSize > s.xNextFreeByte) then
    ({ s with xNextFreeByte := wadd c s.xNextFreeByte xWantedSize },
      wadd c s.pucAlignedHeap s.xNextFreeByte)
  else
    (s, 0)

/-- The function `vPortFree` of `heap_1.c`: memory cannot be freed using this scheme, and
the call asserts that its argument is `NULL`. -/
def vPortFree (s : State) (pv : Nat) : Outcome State Unit :=
  if pv = 0 then Outcome.ok s () else Outcome.assertFailed s

/-- The function `vPortInitialiseBlocks` of `heap_1.c`. -/
def vPortInitialiseBlocks (s : State) : State := { s with xNextFreeByte := 0 }

/-- The function `xPortGetFreeHeapSize` of `heap_1.c`. -/
def xPortGetFreeHeapSize (c : Config) (s : State) : Nat :=
  wsub c (configADJUSTED_HEAP_SIZE c) s.xNextFreeByte

/-- The state at program start. -/
def boot : State := { xNextFreeByte := 0, pucAlignedHeap := 0 }

end Heap1

/-! ## Specification vocabulary -/

/-- The configurations the proofs are about: the alignment is a power of two, the heap is
not at address `0`, fits in the address space, is smaller than half of it (the top bit of a
size is the allocation flag) and has room for a few headers, and `xStart` and `xEnd` are
objects outside `ucHeap`. -/
structure Config.WF (c : Config) : Prop where
  sizeT_pos : 0 < c.sizeofSizeT
  align_pow2 : ∃ k, c.portBYTE_ALIGNMENT = 2 ^ k
  link_pos : 0 < c.sizeofBlockLink
  link_small : c.sizeofBlockLink + c.portBYTE_ALIGNMENT ≤ 2 ^ 16
  heap_pos : 0 < c.ucHeap
  heap_fits : c.ucHeap + c.configTOTAL_HEAP_SIZE < c.wordMod
  heap_half : c.configTOTAL_HEAP_SIZE < 2 ^ (c.bits - 1)
  heap_big : c.sizeofBlockLink + 3 * c.portBYTE_ALIGNMENT ≤ c.configTOTAL_HEAP_SIZE
  xStart_pos : 0 < c.xStart
  xStart_lt : c.xStart < c.wordMod
  xStart_out : c.xStart < c.ucHeap ∨ c.ucHeap + c.configTOTAL_HEAP_SIZE ≤ c.xStart
  xEnd_pos : 0 < c.xEnd
  xEnd_lt : c.xEnd < c.wordMod
  xEnd_out : c.xEnd < c.ucHeap ∨ c.ucHeap + c.configTOTAL_HEAP_SIZE ≤ c.xEnd
  xStart_ne_xEnd : c.xStart ≠ c.xEnd

/-- A region of the heap as the proofs see it: the address of its header, its size with the
header counted and the flag left out, and whether it is free. -/
structure Blk where
  addr : Nat
  size : Nat
  free : Bool
deriving DecidableEq

/-- The regions `bs`, in this order, cover `[lo, hi)` exactly, each of them non-empty. -/
def Tiled : Nat → List Blk → Nat → Prop
  | lo, [], hi => lo = hi
  | lo, b :: bs, hi => b.addr = lo ∧ 0 < b.size ∧ Tiled (lo + b.size) bs hi

/-- Following `pxNextFreeBlock` from `p` visits exactly the nodes `l`, in this order, and
then arrives at `e`. -/
def Chain (next : Nat → Nat) : Nat → List Nat → Nat → Prop
  | p, [], e => next p = e
  | p, a :: l, e => next p = a ∧ Chain next a l e

/-- The free regions of `bs`. -/
def freeBlocks (bs : List Blk) : List Blk := bs.filter (fun b => b.free)

/-- The header addresses of the free regions of `bs`. -/
def freeAddrs (bs : List Blk) : List Nat := (freeBlocks bs).map (fun b => b.addr)

/-- The total size of the free regions of `bs`. -/
def freeSum (bs : List Blk) : Nat := ((freeBlocks bs).map (fun b => b.size)).sum

/-- The allocated regions of `bs`. -/
def usedBlocks (bs : List Blk) : List Blk := bs.filter (fun b => !b.free)

/-- What inserting the free region `[x, x + sz)` between the regions `pre` and the regions
`post` makes of them in `heap_4.c`: the region is merged with the last one of `pre` and
with the first one of `post` when these are free. -/
def coalesce (pre : List Blk) (x sz : Nat) (post : List Blk) : List Blk :=
  let front : List Blk × Nat × Nat :=
    match pre.getLast? with
    | some f => if f.free then (pre.dropLast, f.addr, f.size + sz) else (pre, x, sz)
    | none => (pre, x, sz)
  match post with
  | g :: post' =>
    if g.free then front.1 ++ ⟨front.2.1, front.2.2 + g.size, true⟩ :: post'
    else front.1 ++ ⟨front.2.1, front.2.2, true⟩ :: post
  | [] => front.1 ++ [⟨front.2.1, front.2.2, true⟩]

/-- The walk over the free list as `vPortGetHeapStats` does it: the nodes from `p` on, up to
and without `e`. -/
def listFrom (next : Nat → Nat) (e : Nat) : Nat → Nat → List Nat
  | 0, _ => []
  | fuel + 1, p => if p = e then [] else p :: listFrom next e fuel (next p)

/-- The live allocations `live`, pairs of a payload pointer and a region size, are the
allocated regions of `bs`, `hs` being the header size. -/
def LiveOK (hs : Nat) (bs : List Blk) (live : List (Nat × Nat)) : Prop :=
  ∀ p d, (p, d) ∈ live ↔ ∃ b ∈ bs, b.free = false ∧ p = b.addr + hs ∧ d = b.size

namespace Heap4

/-- The regions on the free list of `heap_4.c`: the walk from `xStart.pxNextFreeBlock` to
`pxEnd`. -/
def freeList (c : Config) (fuel : Nat) (s : State) : List Nat :=
  listFrom s.pxNextFreeBlock s.pxEnd fuel (s.pxNextFreeBlock c.xStart)

/-- The region size in the header of the allocation with payload pointer `pv`. -/
def regionSize (c : Config) (s : State) (pv : Nat) : Nat :=
  heapFREE_BLOCK c (s.xBlockSize (wsub c pv (xHeapStructSize c)))

/-- The first step of `pvPortMalloc`: the heap is set up if it has not been. -/
def initialised (c : Config) (s : State) : State :=
  if s.pxEnd = 0 then prvHeapInit c s else s

/-- The states of `heap_4.c` reachable from program start by calls of `pvPortMalloc` and by
calls of `vPortFree` on live pointers, with the live allocations: the pointers returned and
not yet freed, each with the region size its header had when it was returned. -/
inductive Reach (c : Config) : State → List (Nat × Nat) → Prop
  | boot (next0 size0 : Nat → Nat) : Reach c (boot next0 size0) []
  | malloc {s s' : State} {live : List (Nat × Nat)} {p : Nat} (fuel n : Nat) :
      Reach c s live → n < c.wordMod → pvPortMalloc c fuel s n = Outcome.ok s' p →
      Reach c s' (if p = 0 then live else (p, regionSize c s' p) :: live)
  | free {s s' : State} {live : List (Nat × Nat)} (fuel p d : Nat) :
      Reach c s live → (p, d) ∈ live → vPortFree c fuel s p = Outcome.ok s' () →
      Reach c s' (live.filter (fun x => x.1 ≠ p))

/-- The invariant of `heap_4.c` once the heap is set up, `bs` being the regions of the
heap in address order. -/
structure Inv (c : Config) (s : State) (bs : List Blk) : Prop where
  pxEnd_eq : s.pxEnd = endAddress c
  tiled : Tiled (alignedHeap c).1 bs s.pxEnd
  sizes : ∀ b ∈ bs, s.xBlockSize b.addr =
    if b.free then b.size else b.size + heapBLOCK_ALLOCATED_BITMASK c
  nexts : ∀ b ∈ bs, b.free = false → s.pxNextFreeBlock b.addr = 0
  aligned : ∀ b ∈ bs, b.addr % c.portBYTE_ALIGNMENT = 0
  chain : Chain s.pxNextFreeBlock c.xStart (freeAddrs bs) s.pxEnd
  start_size : s.xBlockSize c.xStart = 0
  end_size : s.xBlockSize s.pxEnd = 0
  end_next : s.pxNextFreeBlock s.pxEnd = 0
  free_eq : s.xFreeBytesRemaining = freeSum bs
  min_le : s.xMinimumEverFreeBytesRemaining ≤ s.xFreeBytesRemaining

/-- The situation in which `prvInsertBlockIntoFreeList` is called in `heap_4.c`: the block
`[x, x + sz)` carries its size, is on no list and lies between the regions `pre` and the
regions `post`, whose free ones make up the free list. -/
structure InsertPre (c : Config) (s : State) (pre post : List Blk) (x sz : Nat) : Prop where
  pxEnd_eq : s.pxEnd = endAddress c
  tiled_pre : Tiled (alignedHeap c).1 pre x
  size_pos : 0 < sz
  tiled_post : Tiled (x + sz) post (endAddress c)
  size_x : s.xBlockSize x = sz
  frees : ∀ b ∈ pre ++ post, b.free = true → s.xBlockSize b.addr = b.size
  chain : Chain s.pxNextFreeBlock c.xStart (freeAddrs (pre ++ post)) (endAddress c)
  start_size : s.xBlockSize c.xStart = 0

/-- The variables of `heap_4.c` other than the header memory are the same in `s` and `s'`. -/
def SameVars (s s' : State) : Prop :=
  s'.pxEnd = s.pxEnd ∧ s'.xFreeBytesRemaining = s.xFreeBytesRemaining ∧
    s'.xMinimumEverFreeBytesRemaining = s.xMinimumEverFreeBytesRemaining ∧
    s'.xNumberOfSuccessfulAllocations = s.xNumberOfSuccessfulAllocations ∧
    s'.xNumberOfSuccessfulFrees = s.xNumberOfSuccessfulFrees

/-- The invariant of `heap_4.c` in the middle of `pvPortMalloc`, when the region
`[a, a + sz)` has been taken off the free list and given its size, and is not yet marked as
allocated nor subtracted from the free bytes. -/
structure Taken (c : Config) (s : State) (bs : List Blk) (a sz : Nat) : Prop where
  pxEnd_eq : s.pxEnd = endAddress c
  tiled : Tiled (alignedHeap c).1 bs s.pxEnd
  mem : ⟨a, sz, false⟩ ∈ bs
  size_a : s.xBlockSize a = sz
  sizes : ∀ b ∈ bs, b.addr ≠ a → s.xBlockSize b.addr =
    if b.free then b.size else b.size + heapBLOCK_ALLOCATED_BITMASK c
  nexts : ∀ b ∈ bs, b.addr ≠ a → b.free = false → s.pxNextFreeBlock b.addr = 0
  aligned : ∀ b ∈ bs, b.addr % c.portBYTE_ALIGNMENT = 0
  chain : Chain s.pxNextFreeBlock c.xStart (freeAddrs bs) s.pxEnd
  start_size : s.xBlockSize c.xStart = 0
  end_size : s.xBlockSize s.pxEnd = 0
  end_next : s.pxNextFreeBlock s.pxEnd = 0
  free_eq : s.xFreeBytesRemaining = freeSum bs + sz
  min_le : s.xMinimumEverFreeBytesRemaining ≤ s.xFreeBytesRemaining

/-- The regions after `pvPortMalloc` of `heap_4.c` has taken the free region `b`, found
between the regions `pre` and `post`, for the adjusted size `w`: the region is split when
the rest is larger than the minimum block size, and the rest goes back to the free list. -/
def allocAt (c : Config) (w : Nat) (pre : List Blk) (b : Blk) (post : List Blk) : List Blk :=
  if b.size - w > heapMINIMUM_BLOCK_SIZE c then
    pre ++ ⟨b.addr, w, false⟩ :: coalesce [] (b.addr + w) (b.size - w) post
  else
    pre ++ ⟨b.addr, b.size, false⟩ :: post

/-- The size of the region that `pvPortMalloc` of `heap_4.c` marks as allocated when it
takes the free region `b` for the adjusted size `w`. -/
def allocSize (c : Config) (w : Nat) (b : Blk) : Nat :=
  if b.size - w > heapMINIMUM_BLOCK_SIZE c then w else b.size

end Heap4

namespace Heap2

/-- The address of the first block: the heap start rounded up to the alignment, as
`prvHeapInit` computes it. -/
def alignedHeap (c : Config) : Nat :=
  wadd c c.ucHeap (c.portBYTE_ALIGNMENT - 1) &&& wnot c (portBYTE_ALIGNMENT_MASK c)

/-- The regions on the free list of `heap_2.c`: the walk from `xStart.pxNextFreeBlock` to
`xEnd`. -/
def freeList (c : Config) (fuel : Nat) (s : State) : List Nat :=
  listFrom s.pxNextFreeBlock c.xEnd fuel (s.pxNextFreeBlock c.xStart)

/-- The region size in the header of the allocation with payload pointer `pv`. -/
def regionSize (c : Config) (s : State) (pv : Nat) : Nat :=
  heapFREE_BLOCK c (s.xBlockSize (wsub c pv (heapSTRUCT_SIZE c)))

/-- The first step of `pvPortMalloc`: the heap is set up if it has not been. -/
def initialised (c : Config) (s : State) : State :=
  if s.xHeapHasBeenInitialised = false then
    { prvHeapInit c s with xHeapHasBeenInitialised := true }
  else
    s

/-- The states of `heap_2.c` reachable from program start by calls of `pvPortMalloc` and by
calls of `vPortFree` on live pointers, with the live allocations: the pointers returned and
not yet freed, each with the region size its header had when it was returned. -/
inductive Reach (c : Config) : State → List (Nat × Nat) → Prop
  | boot (next0 size0 : Nat → Nat) : Reach c (boot c next0 size0) []
  | malloc {s s' : State} {live : List (Nat × Nat)} {p : Nat} (fuel n : Nat) :
      Reach c s live → n < c.wordMod → pvPortMalloc c fuel s n = Outcome.ok s' p →
      Reach c s' (if p = 0 then live else (p, regionSize c s' p) :: live)
  | free {s s' : State} {live : List (Nat × Nat)} (fuel p d : Nat) :
      Reach c s live → (p, d) ∈ live → vPortFree c fuel s p = Outcome.ok s' () →
      Reach c s' (live.filter (fun x => x.1 ≠ p))

/-- The invariant of `heap_2.c` once the heap is set up, `bs` being the regions of the heap
in address order and `fl` the nodes of the free list in list order. -/
structure Inv (c : Config) (s : State) (bs : List Blk) (fl : List Nat) : Prop where
  init : s.xHeapHasBeenInitialised = true
  tiled : Tiled (alignedHeap c) bs (alignedHeap c + configADJUSTED_HEAP_SIZE c)
  sizes : ∀ b ∈ bs, s.xBlockSize b.addr =
    if b.free then b.size else b.size + heapBLOCK_ALLOCATED_BITMASK c
  nexts : ∀ b ∈ bs, b.free = false → s.pxNextFreeBlock b.addr = 0
  aligned : ∀ b ∈ bs, b.addr % c.portBYTE_ALIGNMENT = 0
  perm : fl.Perm (freeAddrs bs)
  chain : Chain s.pxNextFreeBlock c.xStart fl c.xEnd
  start_size : s.xBlockSize c.xStart = 0
  end_size : s.xBlockSize c.xEnd = configADJUSTED_HEAP_SIZE c
  end_next : s.pxNextFreeBlock c.xEnd = 0
  free_eq : s.xFreeBytesRemaining = freeSum bs
  big : ∀ b ∈ bs, heapSTRUCT_SIZE c ≤ b.size
  sorted : fl.Pairwise (fun a b => s.xBlockSize a ≤ s.xBlockSize b)

/-- The free list of `heap_2.c` after the node `x` has been inserted into the list `fl`:
`x` goes behind the leading run of nodes whose size is below its own. -/
def insertBySize (size : Nat → Nat) (x : Nat) (fl : List Nat) : List Nat :=
  fl.takeWhile (fun a => decide (size a < size x)) ++
    x :: fl.dropWhile (fun a => decide (size a < size x))

/-- The regions after `pvPortMalloc` of `heap_2.c` has taken the free region `b`, found
between the regions `pre` and `post`, for the adjusted size `w`: the region is split when
the rest is larger than the minimum block size. -/
def allocAt (c : Config) (w : Nat) (pre : List Blk) (b : Blk) (post : List Blk) : List Blk :=
  if b.size - w > heapMINIMUM_BLOCK_SIZE c then
    pre ++ ⟨b.addr, w, false⟩ :: ⟨b.addr + w, b.size - w, true⟩ :: post
  else
    pre ++ ⟨b.addr, b.size, false⟩ :: post

/-- The size of the region that `pvPortMalloc` of `heap_2.c` marks as allocated when it
takes the free region `b` for the adjusted size `w`. -/
def allocSize (c : Config) (w : Nat) (b : Blk) : Nat :=
  if b.size - w > heapMINIMUM_BLOCK_SIZE c then w else b.size

/-- The invariant of `heap_2.c` in the middle of `pvPortMalloc`, when the region
`[a, a + sz)` has been taken off the free list and given its size, and is not yet marked as
allocated nor subtracted from the free bytes. -/
structure Taken (c : Config) (s : State) (bs : List Blk) (fl : List Nat) (a sz : Nat) :
    Prop where
  init : s.xHeapHasBeenInitialised = true
  tiled : Tiled (alignedHeap c) bs (alignedHeap c + configADJUSTED_HEAP_SIZE c)
  mem : ⟨a, sz, false⟩ ∈ bs
  size_a : s.xBlockSize a = sz
  sizes : ∀ b ∈ bs, b.addr ≠ a → s.xBlockSize b.addr =
    if b.free then b.size else b.size + heapBLOCK_ALLOCATED_BITMASK c
  nexts : ∀ b ∈ bs, b.addr ≠ a → b.free = false → s.pxNextFreeBlock b.addr = 0
  aligned : ∀ b ∈ bs, b.addr % c.portBYTE_ALIGNMENT = 0
  perm : fl.Perm (freeAddrs bs)
  chain : Chain s.pxNextFreeBlock c.xStart fl c.xEnd
  start_size : s.xBlockSize c.xStart = 0
  end_size : s.xBlockSize c.xEnd = configADJUSTED_HEAP_SIZE c
  end_next : s.pxNextFreeBlock c.xEnd = 0
  free_eq : s.xFreeBytesRemaining = freeSum bs + sz
  big : ∀ b ∈ bs, heapSTRUCT_SIZE c ≤ b.size
  sorted : fl.Pairwise (fun a b => s.xBlockSize a ≤ s.xBlockSize b)

end Heap2

/-- A 32-bit port with 8-byte alignment, 8-byte headers and a heap whose usable part is
1024 bytes in `heap_4.c`. -/
def demo : Config :=
  { sizeofSizeT := 4
    portBYTE_ALIGNMENT := 8
    sizeofBlockLink := 8
    configTOTAL_HEAP_SIZE := 1032
    ucHeap := 4096
    xStart := 256
    xEnd := 272
    portMAX_DELAY := 4294967295 }

/-- The state that an outcome carries, and `d` when it carries none. -/
def Outcome.state {σ ρ : Type} (d : σ) : Outcome σ ρ → σ
  | Outcome.ok s _ => s
  | Outcome.assertFailed s => s
  | Outcome.outOfFuel => d

/-- The words "rounded up to the next multiple of `A`" of the specification. -/
def specRoundUp (A x : Nat) : Nat := (x + A - 1) / A * A

namespace Heap4

/-- The size reserved for a request as the specification words it: the request rounded up
to the next multiple of the alignment, plus the aligned header size. -/
def specNeed (c : Config) (requested : Nat) : Nat :=
  specRoundUp c.portBYTE_ALIGNMENT requested + xHeapStructSize c

/-- The state of `heap_4.c` at program start with all header memory zero. -/
def demoBoot : State := Heap4.boot (fun _ => 0) (fun _ => 0)

/-- The state of `heap_4.c` on `demo` after `pvPortMalloc( 40 )`. -/
def demo1 : State := (pvPortMalloc demo 1033 demoBoot 40).state demoBoot

/-- The state of `heap_4.c` on `demo` after a second `pvPortMalloc( 40 )`. -/
def demo2 : State := (pvPortMalloc demo 1033 demo1 40).state demoBoot

/-- The state of `heap_4.c` on `demo` after the first of the two allocations has been
freed. -/
def demo3 : State := (vPortFree demo 1033 demo2 4104).state demoBoot

end Heap4

namespace Heap2

/-- The size reserved for a request as the specification words it: the request rounded up
to the next multiple of the alignment, plus the aligned header size. -/
def specNeed (c : Config) (requested : Nat) : Nat :=
  specRoundUp c.portBYTE_ALIGNMENT requested + heapSTRUCT_SIZE c

/-- The state of `heap_2.c` at program start with all header memory zero. -/
def demoBoot : State := Heap2.boot demo (fun _ => 0) (fun _ => 0)

/-- The state of `heap_2.c` on `demo` after `pvPortMalloc( 40 )`. -/
def demo1 : State := (pvPortMalloc demo 1033 demoBoot 40).state demoBoot

/-- The state of `heap_2.c` on `demo` after a second `pvPortMalloc( 40 )`. -/
def demo2 : State := (pvPortMalloc demo 1033 demo1 40).state demoBoot

/-- The state of `heap_2.c` on `demo` after the first of the two allocations has been
freed. -/
def demo3 : State := (vPortFree demo 1033 demo2 4104).state demoBoot

end Heap2

namespace Heap1

/-- The address that `pvPortMalloc` of `heap_1.c` stores in `pucAlignedHeap`: the heap start
rounded up to the alignment. -/
def alignedHeap (c : Config) : Nat :=
  wadd c c.ucHeap (c.portBYTE_ALIGNMENT - 1) &&& wnot c (portBYTE_ALIGNMENT_MASK c)

/-- The states of `heap_1.c` reachable from program start by calls of `pvPortMalloc`, of
`vPortInitialiseBlocks` and of `vPortFree` that return. -/
inductive Reach (c : Config) : State → Prop
  | boot : Reach c boot
  | malloc {s : State} (n : Nat) : Reach c s → n < c.wordMod → Reach c (pvPortMalloc c s n).1
  | init {s : State} : Reach c s → Reach c (vPortInitialiseBlocks s)
  | free {s s' : State} (pv : Nat) : Reach c s → vPortFree s pv = Outcome.ok s' () → Reach c s'

end Heap1

namespace Heap1

/-- The states that calls of `pvPortMalloc` and returning calls of `vPortFree` of `heap_1.c`
lead to from the state `s`, with no call of `vPortInitialiseBlocks` among them. -/
inductive Run (c : Config) (s : State) : State → Prop
  | refl : Run c s s
  | malloc {t : State} (n : Nat) : Run c s t → n < c.wordMod → Run c s (pvPortMalloc c t n).1
  | free {t u : State} (pv : Nat) : Run c s t → vPortFree t pv = Outcome.ok u () → Run c s u

end Heap1

/-- The address `base` of the specification: the smallest multiple of the alignment that
is not below `&ucHeap[ 0 ]`. -/
def specBase (c : Config) : Nat := specRoundUp c.portBYTE_ALIGNMENT c.ucHeap

/-- The number `usable` of the specification: `N_total - (base - &UCHEAP[0])`. -/
def specUsable (c : Config) : Nat := c.configTOTAL_HEAP_SIZE - (specBase c - c.ucHeap)

/-- The capacity `N_total_aligned` as the specification words it: `usable` rounded down to
a multiple of the alignment. -/
def specTotalAligned (c : Config) : Nat :=
  specUsable c / c.portBYTE_ALIGNMENT * c.portBYTE_ALIGNMENT

/-! ## `pvPortCalloc`, `vPortGetHeapStats` and runs of calls -/

/-- The value that a call returns, when it returns. -/
def Outcome.result {σ ρ : Type} : Outcome σ ρ → Option ρ
  | Outcome.ok _ r => some r
  | Outcome.assertFailed _ => none
  | Outcome.outOfFuel => none

/-- The library function `memset` on the bytes of memory: the `len` bytes from `pv` on are
set to `v` converted to `unsigned char`. -/
def memset (bytes : Nat → Nat) (pv v len : Nat) : Nat → Nat :=
  fun a => if pv ≤ a ∧ a < pv + len then v % 256 else bytes a

/-- What `memset( pv, 0, len )` does to a field of the block headers, which the model keeps
apart from the other bytes of memory: the field of the `BlockLink_t` at address `a` is left
as it is when the structure shares no byte with the range written, and reads `0` when it
does. -/
def memsetField (c : Config) (f : Nat → Nat) (pv len : Nat) : Nat → Nat :=
  fun a => if 0 < len ∧ (a < pv + len ∧ pv < a + c.sizeofBlockLink) then 0 else f a

namespace Heap4

/-- The state after `memset( pv, 0, len )`: the fields of the headers that the range
reaches are overwritten. -/
def memsetState (c : Config) (s : State) (pv len : Nat) : State :=
  { s with pxNextFreeBlock := memsetField c s.pxNextFreeBlock pv len, xBlockSize := memsetField c s.xBlockSize pv len }

/-- The function `pvPortCalloc` of `heap_4.c`, on the state and the bytes of memory. -/
def pvPortCalloc (c : Config) (fuel : Nat) (s : State) (bytes : Nat → Nat) (xNum xSize : Nat) :
    Outcome (State × (Nat → Nat)) Nat :=
  if heapMULTIPLY_WILL_OVERFLOW c xNum xSize = false then
    match pvPortMalloc c fuel s (xNum * xSize % c.wordMod) with
    | Outcome.ok s' pv =>
      if pv ≠ 0 then
        Outcome.ok (memsetState c s' pv (xNum * xSize % c.wordMod),
          memset bytes pv 0 (xNum * xSize % c.wordMod)) pv
      else
        Outcome.ok (s', bytes) pv
    | Outcome.assertFailed s' => Outcome.assertFailed (s', bytes)
    | Outcome.outOfFuel => Outcome.outOfFuel
  else
    Outcome.ok (s, bytes) 0

/-- The fields of `HeapStats_t` that `vPortGetHeapStats` fills in. -/
structure HeapStats where
  /-- The total heap size currently available. -/
  xAvailableHeapSpaceInBytes : Nat
  /-- The maximum size, in bytes, of all the free blocks. -/
  xSizeOfLargestFreeBlockInBytes : Nat
  /-- The minimum size, in bytes, of all the free blocks. -/
  xSizeOfSmallestFreeBlockInBytes : Nat
  /-- The number of free memory blocks. -/
  xNumberOfFreeBlocks : Nat
  /-- The minimum amount of total free memory since boot. -/
  xMinimumEverFreeBytesRemaining : Nat
  /-- The number of calls to `pvPortMalloc` that have returned a valid block. -/
  xNumberOfSuccessfulAllocations : Nat
  /-- The number of calls to `vPortFree` that have freed a block. -/
  xNumberOfSuccessfulFrees : Nat
deriving DecidableEq

/-- The loop `while( pxBlock != pxEnd )` of `vPortGetHeapStats`: the final
`( xBlocks, xMaxSize, xMinSize )`. -/
def statsLoop (c : Config) (s : State) : Nat → Nat → Nat → Nat → Nat → Option (Nat × Nat × Nat)
  | 0, _, _, _, _ => none
  | fuel + 1, pxBlock, xBlocks, xMaxSize, xMinSize =>
    if pxBlock ≠ s.pxEnd then
      let xBlocks := wadd c xBlocks 1
      let xMaxSize := if s.xBlockSize pxBlock > xMaxSize then s.xBlockSize pxBlock else xMaxSize
      let xMinSize := if s.xBlockSize pxBlock < xMinSize then s.xBlockSize pxBlock else xMinSize
      statsLoop c s fuel (s.pxNextFreeBlock pxBlock) xBlocks xMaxSize xMinSize
    else
      some (xBlocks, xMaxSize, xMinSize)

/-- The function `vPortGetHeapStats` of `heap_4.c`: the state it leaves and the structure it
fills in.  The local `xMinSize` starts at `portMAX_DELAY` converted to `size_t`. -/
def vPortGetHeapStats (c : Config) (fuel : Nat) (s : State) : Outcome State HeapStats :=
  let pxBlock := s.pxNextFreeBlock c.xStart
  match (if pxBlock ≠ 0 then statsLoop c s fuel pxBlock 0 0 (c.portMAX_DELAY % c.wordMod)
      else some (0, 0, c.portMAX_DELAY % c.wordMod)) with
  | none => Outcome.outOfFuel
  | some (xBlocks, xMaxSize, xMinSize) =>
    Outcome.ok s
      { xSizeOfLargestFreeBlockInBytes := xMaxSize
        xSizeOfSmallestFreeBlockInBytes := xMinSize
        xNumberOfFreeBlocks := xBlocks
        xAvailableHeapSpaceInBytes := s.xFreeBytesRemaining
        xNumberOfSuccessfulAllocations := s.xNumberOfSuccessfulAllocations
        xNumberOfSuccessfulFrees := s.xNumberOfSuccessfulFrees
        xMinimumEverFreeBytesRemaining := s.xMinimumEverFreeBytesRemaining }

/-- The runs of calls of `pvPortMalloc` and of calls of `vPortFree` on live pointers of
`heap_4.c` that lead from the state `s` with the live allocations `live` to a state with its
live allocations. -/
inductive Run (c : Config) (s : State) (live : List (Nat × Nat)) :
    State → List (Nat × Nat) → Prop
  | refl : Run c s live s live
  | malloc {t u : State} {l : List (Nat × Nat)} {p : Nat} (fuel n : Nat) :
      Run c s live t l → n < c.wordMod → pvPortMalloc c fuel t n = Outcome.ok u p →
      Run c s live u (if p = 0 then l else (p, regionSize c u p) :: l)
  | free {t u : State} {l : List (Nat × Nat)} (fuel p d : Nat) :
      Run c s live t l → (p, d) ∈ l → vPortFree c fuel t p = Outcome.ok u () →
      Run c s live u (l.filter (fun x => x.1 ≠ p))

/-- Calls of `pvPortMalloc( n )` of `heap_4.c` one after the other until one returns `NULL`,
at most `k` of them: the state that the call returning `NULL` leaves. -/
def mallocUntilNull (c : Config) (fuel n : Nat) : Nat → State → Option State
  | 0, _ => none
  | k + 1, s =>
    match pvPortMalloc c fuel s n with
    | Outcome.ok s' p => if p = 0 then some s' else mallocUntilNull c fuel n k s'
    | Outcome.assertFailed _ => none
    | Outcome.outOfFuel => none

/-- The outcome of `pvPortCalloc( 16, 4 )` at program start on `demo`, every byte of memory
holding `170` before. -/
def demoCalloc : State × (Nat → Nat) :=
  (pvPortCalloc demo 1033 demoBoot (fun _ => 170) 16 4).state (demoBoot, fun _ => 170)

end Heap4

namespace Heap2

/-- The state after `memset( pv, 0, len )`: the fields of the headers that the range
reaches are overwritten. -/
def memsetState (c : Config) (s : State) (pv len : Nat) : State :=
  { s with pxNextFreeBlock := memsetField c s.pxNextFreeBlock pv len, xBlockSize := memsetField c s.xBlockSize pv len }

/-- The function `pvPortCalloc` of `heap_2.c`, on the state and the bytes of memory. -/
def pvPortCalloc (c : Config) (fuel : Nat) (s : State) (bytes : Nat → Nat) (xNum xSize : Nat) :
    Outcome (State × (Nat → Nat)) Nat :=
  if heapMULTIPLY_WILL_OVERFLOW c xNum xSize = false then
    match pvPortMalloc c fuel s (xNum * xSize % c.wordMod) with
    | Outcome.ok s' pv =>
      if pv ≠ 0 then
        Outcome.ok (memsetState c s' pv (xNum * xSize % c.wordMod),
          memset bytes pv 0 (xNum * xSize % c.wordMod)) pv
      else
        Outcome.ok (s', bytes) pv
    | Outcome.assertFailed s' => Outcome.assertFailed (s', bytes)
    | Outcome.outOfFuel => Outcome.outOfFuel
  else
    Outcome.ok (s, bytes) 0

/-- Calls of `pvPortMalloc( n )` of `heap_2.c` one after the other until one returns `NULL`,
at most `k` of them: the state that the call returning `NULL` leaves. -/
def mallocUntilNull (c : Config) (fuel n : Nat) : Nat → State → Option State
  | 0, _ => none
  | k + 1, s =>
    match pvPortMalloc c fuel s n with
    | Outcome.ok s' p => if p = 0 then some s' else mallocUntilNull c fuel n k s'
    | Outcome.assertFailed _ => none
    | Outcome.outOfFuel => none

/-- The outcome of `pvPortCalloc( 16, 4 )` at program start on `demo`, every byte of memory
holding `170` before. -/
def demoCalloc : State × (Nat → Nat) :=
  (pvPortCalloc demo 1033 demoBoot (fun _ => 170) 16 4).state (demoBoot, fun _ => 170)

end Heap2

/-- A 32-bit port as `demo` with 16-bit ticks, `portMAX_DELAY` being `0xffff`, and a heap
of 200008 bytes. -/
def demoTick16 : Config :=
  { demo with configTOTAL_HEAP_SIZE := 200008, portMAX_DELAY := 65535 }

/-- A 64-bit port with 8-byte alignment and 16-byte headers whose heap is an aligned array
of 47 bytes. -/
def demoTight : Config :=
  { sizeofSizeT := 8
    portBYTE_ALIGNMENT := 8
    sizeofBlockLink := 16
    configTOTAL_HEAP_SIZE := 47
    ucHeap := 4096
    xStart := 256
    xEnd := 288
    portMAX_DELAY := 18446744073709551615 }

/-- The port of `demoTight` with an array of 40 bytes at the address 4097, of which 33 bytes
are usable. -/
def demoCramped : Config :=
  { demoTight with configTOTAL_HEAP_SIZE := 40, ucHeap := 4097 }

namespace Heap4

/-- The state after `pvPortMalloc( 40 )` at program start on `demoTick16`. -/
def demoTick1 : State := (pvPortMalloc demoTick16 200009 demoBoot 40).state demoBoot

/-- The state on `demo` in which `pvPortMalloc( 100 )`, called again and again from program
start, first returns `NULL`. -/
def demoFull : State := (mallocUntilNull demo 1033 100 10 demoBoot).getD demoBoot

end Heap4

namespace Heap2

/-- The state on `demo` in which `pvPortMalloc( 100 )`, called again and again from program
start, first returns `NULL`. -/
def demoFull : State := (mallocUntilNull demo 1033 100 10 demoBoot).getD demoBoot

end Heap2

/-! ## Further vocabulary and example states -/

/-- No two regions that follow one another in `bs` are both free. -/
def NoAdj (bs : List Blk) : Prop :=
  bs.Chain' (fun a b => a.free = false ∨ b.free = false)

namespace Heap4

/-- The state on `demo` after `pvPortMalloc( 32 )` at program start, which returns 4104. -/
def demoA : State := (pvPortMalloc demo 1033 demoBoot 32).state demoBoot

/-- The state after a second `pvPortMalloc( 32 )`, which returns 4152. -/
def demoAB : State := (pvPortMalloc demo 1033 demoA 32).state demoBoot

/-- The state after a third `pvPortMalloc( 32 )`, which returns 4200. -/
def demoABC : State := (pvPortMalloc demo 1033 demoAB 32).state demoBoot

/-- The state after `vPortFree` of the second of the three regions. -/
def demoFreeB : State := (vPortFree demo 1033 demoABC 4152).state demoBoot

/-- The state after `vPortFree` of the first of the three regions. -/
def demoFreeBA : State := (vPortFree demo 1033 demoFreeB 4104).state demoBoot

/-- The state after `vPortFree` of the third of the three regions. -/
def demoFreeBAC : State := (vPortFree demo 1033 demoFreeBA 4200).state demoBoot

/-- The state in which `vPortFree( 4200 )` calls `prvInsertBlockIntoFreeList` in
`demoFreeBA`: the allocation flag of the header at 4192 is cleared. -/
def demoIns : State := demoFreeBA.setSize 4192 48

/-- The state on `demo` after `pvPortMalloc( 800 )` at program start, which returns 4104. -/
def demoG1 : State := (pvPortMalloc demo 1033 demoBoot 800).state demoBoot

/-- The state after `pvPortMalloc( 40 )` in `demoG1`, which returns 4920. -/
def demoG2 : State := (pvPortMalloc demo 1033 demoG1 40).state demoBoot

/-- The state after `vPortFree( 4104 )` in `demoG2`: the free list holds a region of 816
bytes at 4096 and a region of 152 bytes at 4968. -/
def demoG3 : State := (vPortFree demo 1033 demoG2 4104).state demoBoot

/-- The state on `demo` after `pvPortMalloc( 992 )` at program start, which takes the whole
heap. -/
def demoWhole : State := (pvPortMalloc demo 1033 demoBoot 992).state demoBoot

/-- The state after `vPortFree( 4104 )` in `demoWhole`. -/
def demoWholeFreed : State := (vPortFree demo 1033 demoWhole 4104).state demoBoot

end Heap4

/-- The port of `demoTight` with an array of 1047 bytes: a 64-bit port with 8-byte alignment
and 16-byte headers. -/
def demoWide : Config :=
  { demoTight with configTOTAL_HEAP_SIZE := 1047 }

namespace Heap4

/-- The state on `demoWide` after `pvPortMalloc( 1 )` at program start, which returns
4112. -/
def demoWide1 : State := (pvPortMalloc demoWide 1048 demoBoot 1).state demoBoot

end Heap4

namespace Heap2

/-- The state on `demo` after `pvPortMalloc( 992 )` at program start, which returns 4104. -/
def demoWhole : State := (pvPortMalloc demo 1033 demoBoot 992).state demoBoot

/-- The state of `heap_2.c` at program start on `demoWide` with all header memory zero. -/
def demoWideBoot : State := Heap2.boot demoWide (fun _ => 0) (fun _ => 0)

/-- The state on `demoWide` after `pvPortMalloc( 1 )` at program start, which returns
4112. -/
def demoWide1 : State := (pvPortMalloc demoWide 1048 demoWideBoot 1).state demoWideBoot

end Heap2

/-- The port of `demo` with an aligned array of 20 bytes, too small for the configurations
`Config.WF`: all 20 bytes are usable, and the first free region of `heap_4.c` has 8
bytes. -/
def demoTiny : Config := { demo with configTOTAL_HEAP_SIZE := 20 }

/-- The port of `demo` with an array of 4 bytes, shorter than a header of 8 bytes. -/
def demoSliver : Config := { demo with configTOTAL_HEAP_SIZE := 4 }

/-! ## Proofs -/

/-- Fuel above the heap size, and not below `fuel`. -/
theorem fuel_max (c : Config) (fuel : Nat) :
    c.configTOTAL_HEAP_SIZE < max fuel (c.configTOTAL_HEAP_SIZE + 1) := by
  have := Nat.le_max_right fuel (c.configTOTAL_HEAP_SIZE + 1)
  omega

theorem and_not_low_mask {x k w : Nat} (hx : x < 2 ^ w) (hk : k ≤ w) :
    x &&& ((2 ^ w - 1) ^^^ (2 ^ k - 1)) = x - x % 2 ^ k := by
  have hdiv : x - x % 2 ^ k = 2 ^ k * (x / 2 ^ k) := by
    have := Nat.div_add_mod x (2 ^ k)
    omega
  rw [hdiv]
  apply Nat.eq_of_testBit_eq
  intro i
  rw [Nat.testBit_and, Nat.testBit_xor, Nat.testBit_two_pow_sub_one, Nat.testBit_two_pow_sub_one,
    Nat.testBit_mul_pow_two, ← Nat.shiftRight_eq_div_pow, Nat.testBit_shiftRight]
  by_cases hik : k ≤ i
  · have e : k + (i - k) = i := by omega
    rw [e]
    by_cases hiw : i < w
    · have : ¬ i < k := by omega
      simp [hik, hiw, this]
    · have hxi : x.testBit i = false := by
        apply Nat.testBit_lt_two_pow
        calc x < 2 ^ w := hx
          _ ≤ 2 ^ i := Nat.pow_le_pow_right (by decide) (by omega)
      simp [hxi]
  · have h1 : i < k := by omega
    have h2 : i < w := by omega
    simp [h1, h2, hik]

theorem and_top_bit_of_lt {x n : Nat} (hx : x < 2 ^ n) : x &&& 2 ^ n = 0 := by
  apply Nat.eq_of_testBit_eq
  intro i
  rw [Nat.testBit_and, Nat.testBit_two_pow, Nat.zero_testBit]
  by_cases h : n = i
  · subst h
    simp [Nat.testBit_lt_two_pow hx]
  · simp [h]

theorem and_top_bit_of_ge {x n : Nat} (h1 : 2 ^ n ≤ x) (h2 : x < 2 ^ (n + 1)) :
    x &&& 2 ^ n = 2 ^ n := by
  obtain ⟨y, rfl⟩ : ∃ y, x = 2 ^ n + y := ⟨x - 2 ^ n, by omega⟩
  have hy : y < 2 ^ n := by rw [Nat.pow_succ] at h2; omega
  apply Nat.eq_of_testBit_eq
  intro i
  rw [Nat.testBit_and, Nat.testBit_two_pow]
  by_cases h : n = i
  · subst h
    simp [Nat.testBit_two_pow_add_eq, Nat.testBit_lt_two_pow hy]
  · simp [h]

theorem or_top_bit_of_lt {x n : Nat} (hx : x < 2 ^ n) : x ||| 2 ^ n = x + 2 ^ n := by
  have := Nat.mul_add_lt_is_or hx 1
  rw [Nat.mul_one] at this
  rw [Nat.or_comm, ← this, Nat.add_comm]

theorem clear_top_bit {x n : Nat} (hx : x < 2 ^ n) :
    (x + 2 ^ n) &&& ((2 ^ (n + 1) - 1) ^^^ 2 ^ n) = x := by
  apply Nat.eq_of_testBit_eq
  intro i
  rw [Nat.testBit_and, Nat.testBit_xor, Nat.testBit_two_pow_sub_one, Nat.testBit_two_pow,
    Nat.add_comm]
  by_cases h : n = i
  · subst h
    simp [Nat.testBit_two_pow_add_eq, Nat.testBit_lt_two_pow hx]
  · by_cases h2 : i < n
    · have h3 : i < n + 1 := by omega
      simp [h, h3, Nat.testBit_two_pow_add_gt h2]
    · have h3 : ¬ i < n + 1 := by omega
      have : x.testBit i = false := by
        apply Nat.testBit_lt_two_pow
        calc x < 2 ^ n := hx
          _ ≤ 2 ^ i := Nat.pow_le_pow_right (by decide) (by omega)
      simp [h, h3, this]

theorem clear_top_bit_of_lt {x n : Nat} (hx : x < 2 ^ n) :
    x &&& ((2 ^ (n + 1) - 1) ^^^ 2 ^ n) = x := by
  apply Nat.eq_of_testBit_eq
  intro i
  rw [Nat.testBit_and, Nat.testBit_xor, Nat.testBit_two_pow_sub_one, Nat.testBit_two_pow]
  by_cases h : n = i
  · subst h
    simp [Nat.testBit_lt_two_pow hx]
  · by_cases h2 : i < n
    · have h3 : i < n + 1 := by omega
      simp [h, h3]
    · have h3 : ¬ i < n + 1 := by omega
      have : x.testBit i = false := by
        apply Nat.testBit_lt_two_pow
        calc x < 2 ^ n := hx
          _ ≤ 2 ^ i := Nat.pow_le_pow_right (by decide) (by omega)
      simp [h, h3, this]

/-! ### Arithmetic of a well-formed configuration -/

theorem wadd_eq (c : Config) {a b : Nat} (h : a + b < c.wordMod) : wadd c a b = a + b :=
  Nat.mod_eq_of_lt h

theorem wsub_eq (c : Config) {a b : Nat} (hb : b ≤ a) (ha : a < c.wordMod) :
    wsub c a b = a - b := by
  unfold wsub
  have h1 : b % c.wordMod = b := Nat.mod_eq_of_lt (by omega)
  have h2 : a + (c.wordMod - b) = (a - b) + c.wordMod := by omega
  rw [h1, h2, Nat.add_mod_right]
  exact Nat.mod_eq_of_lt (by omega)

theorem wadd_lt (c : Config) (a b : Nat) : wadd c a b < c.wordMod :=
  Nat.mod_lt _ (by unfold Config.wordMod; exact Nat.pos_pow_of_pos _ (by decide))

namespace Config.WF

variable {c : Config}

theorem bits_eq (h : c.WF) : c.bits = (c.bits - 1) + 1 := by
  have := h.sizeT_pos
  unfold Config.bits heapBITS_PER_BYTE
  omega

theorem wordMod_eq (h : c.WF) : c.wordMod = 2 * 2 ^ (c.bits - 1) := by
  unfold Config.wordMod
  conv_lhs => rw [h.bits_eq]
  rw [Nat.pow_succ]; omega

theorem half_pos (_h : c.WF) : 0 < 2 ^ (c.bits - 1) := Nat.pos_pow_of_pos _ (by decide)

theorem wordMod_pos (h : c.WF) : 0 < c.wordMod := by
  rw [h.wordMod_eq]; have := h.half_pos; omega

theorem align_pos (h : c.WF) : 0 < c.portBYTE_ALIGNMENT := by
  obtain ⟨k, hk⟩ := h.align_pow2
  rw [hk]; exact Nat.pos_pow_of_pos _ (by decide)

theorem bitmask_eq (_h : c.WF) : heapBLOCK_ALLOCATED_BITMASK c = 2 ^ (c.bits - 1) := by
  unfold heapBLOCK_ALLOCATED_BITMASK
  rw [Nat.one_shiftLeft]; rfl

theorem sizeMax_eq (h : c.WF) : heapSIZE_MAX c = 2 ^ ((c.bits - 1) + 1) - 1 := by
  unfold heapSIZE_MAX Config.wordMod
  rw [← h.bits_eq]

theorem and_mask (h : c.WF) (x : Nat) :
    x &&& portBYTE_ALIGNMENT_MASK c = x % c.portBYTE_ALIGNMENT := by
  obtain ⟨k, hk⟩ := h.align_pow2
  unfold portBYTE_ALIGNMENT_MASK
  rw [hk, Nat.and_pow_two_sub_one_eq_mod]

theorem and_wnot_mask (h : c.WF) {x : Nat} (hx : x < c.wordMod) :
    x &&& wnot c (portBYTE_ALIGNMENT_MASK c) = x - x % c.portBYTE_ALIGNMENT := by
  obtain ⟨k, hk⟩ := h.align_pow2
  unfold wnot portBYTE_ALIGNMENT_MASK heapSIZE_MAX
  rw [hk]
  apply and_not_low_mask hx
  by_contra hlt
  have h1 : 2 ^ c.bits ≤ 2 ^ k := Nat.pow_le_pow_right (by decide) (by omega)
  have h2 := h.heap_big
  have h3 := h.heap_fits
  unfold Config.wordMod at h3
  omega

theorem valid_iff (h : c.WF) {x : Nat} (hx : x < c.wordMod) :
    heapBLOCK_SIZE_IS_VALID c x = true ↔ x < 2 ^ (c.bits - 1) := by
  unfold heapBLOCK_SIZE_IS_VALID
  rw [h.bitmask_eq, beq_iff_eq]
  constructor
  · intro h0
    by_contra hge
    have h1 := and_top_bit_of_ge (Nat.le_of_not_lt hge)
      (by rw [h.wordMod_eq] at hx; rw [Nat.pow_succ]; omega)
    have := h.half_pos
    omega
  · exact and_top_bit_of_lt

theorem isAllocated_flag (h : c.WF) {x : Nat} (hx : x < 2 ^ (c.bits - 1)) :
    heapBLOCK_IS_ALLOCATED c (x + heapBLOCK_ALLOCATED_BITMASK c) = true := by
  unfold heapBLOCK_IS_ALLOCATED
  rw [h.bitmask_eq, and_top_bit_of_ge (by omega) (by rw [Nat.pow_succ]; omega)]
  have := h.half_pos
  simp

theorem isAllocated_of_lt (h : c.WF) {x : Nat} (hx : x < 2 ^ (c.bits - 1)) :
    heapBLOCK_IS_ALLOCATED c x = false := by
  unfold heapBLOCK_IS_ALLOCATED
  rw [h.bitmask_eq, and_top_bit_of_lt hx]
  simp

theorem allocate_eq (h : c.WF) {x : Nat} (hx : x < 2 ^ (c.bits - 1)) :
    heapALLOCATE_BLOCK c x = x + heapBLOCK_ALLOCATED_BITMASK c := by
  unfold heapALLOCATE_BLOCK
  rw [h.bitmask_eq, or_top_bit_of_lt hx]

theorem free_flag (h : c.WF) {x : Nat} (hx : x < 2 ^ (c.bits - 1)) :
    heapFREE_BLOCK c (x + heapBLOCK_ALLOCATED_BITMASK c) = x := by
  unfold heapFREE_BLOCK wnot
  rw [h.bitmask_eq, h.sizeMax_eq, clear_top_bit hx]

theorem free_of_lt (h : c.WF) {x : Nat} (hx : x < 2 ^ (c.bits - 1)) :
    heapFREE_BLOCK c x = x := by
  unfold heapFREE_BLOCK wnot
  rw [h.bitmask_eq, h.sizeMax_eq, clear_top_bit_of_lt hx]

end Config.WF

theorem sub_mod_self_mod (y a : Nat) : (y - y % a) % a = 0 := by
  have h := Nat.div_add_mod y a
  have : y - y % a = a * (y / a) := by omega
  rw [this]; exact Nat.mul_mod_right _ _

/-- Rounding up as the code does it: add the mask and clear the low bits. -/
theorem Config.WF.roundUp_facts {c : Config} (h : c.WF) {x : Nat}
    (hx : x + c.portBYTE_ALIGNMENT ≤ c.wordMod) :
    (wadd c x (c.portBYTE_ALIGNMENT - 1) &&& wnot c (portBYTE_ALIGNMENT_MASK c))
        % c.portBYTE_ALIGNMENT = 0 ∧
      x ≤ wadd c x (c.portBYTE_ALIGNMENT - 1) &&& wnot c (portBYTE_ALIGNMENT_MASK c) ∧
      wadd c x (c.portBYTE_ALIGNMENT - 1) &&& wnot c (portBYTE_ALIGNMENT_MASK c)
        < x + c.portBYTE_ALIGNMENT ∧
      (x % c.portBYTE_ALIGNMENT = 0 →
        wadd c x (c.portBYTE_ALIGNMENT - 1) &&& wnot c (portBYTE_ALIGNMENT_MASK c) = x) := by
  have hA := h.align_pos
  have hy : x + (c.portBYTE_ALIGNMENT - 1) < c.wordMod := by omega
  have hr : wadd c x (c.portBYTE_ALIGNMENT - 1) &&& wnot c (portBYTE_ALIGNMENT_MASK c)
      = (x + (c.portBYTE_ALIGNMENT - 1))
        - (x + (c.portBYTE_ALIGNMENT - 1)) % c.portBYTE_ALIGNMENT := by
    rw [wadd_eq c hy, h.and_wnot_mask hy]
  have hlt := Nat.mod_lt (x + (c.portBYTE_ALIGNMENT - 1)) hA
  have hle := Nat.mod_le (x + (c.portBYTE_ALIGNMENT - 1)) c.portBYTE_ALIGNMENT
  rw [hr]
  refine ⟨sub_mod_self_mod _ _, ?_, ?_, ?_⟩
  · omega
  · omega
  · intro hx0
    have : (x + (c.portBYTE_ALIGNMENT - 1)) % c.portBYTE_ALIGNMENT = c.portBYTE_ALIGNMENT - 1 := by
      rw [Nat.add_mod, hx0, Nat.zero_add, Nat.mod_mod]
      exact Nat.mod_eq_of_lt (by omega)
    omega

/-! ### Tilings -/

theorem tiled_append {l1 l2 : List Blk} {lo hi : Nat} :
    Tiled lo (l1 ++ l2) hi ↔ ∃ mid, Tiled lo l1 mid ∧ Tiled mid l2 hi := by
  induction l1 generalizing lo with
  | nil => simp [Tiled]
  | cons b l ih =>
    show (b.addr = lo ∧ 0 < b.size ∧ Tiled (lo + b.size) (l ++ l2) hi) ↔
      ∃ mid, (b.addr = lo ∧ 0 < b.size ∧ Tiled (lo + b.size) l mid) ∧ Tiled mid l2 hi
    rw [ih]
    constructor
    · rintro ⟨h1, h2, mid, h3, h4⟩
      exact ⟨mid, ⟨h1, h2, h3⟩, h4⟩
    · rintro ⟨mid, ⟨h1, h2, h3⟩, h4⟩
      exact ⟨h1, h2, mid, h3, h4⟩

theorem tiled_le {bs : List Blk} {lo hi : Nat} (h : Tiled lo bs hi) : lo ≤ hi := by
  induction bs generalizing lo with
  | nil => exact Nat.le_of_eq h
  | cons b l ih =>
    obtain ⟨_, _, h3⟩ := h
    have := ih h3
    omega

theorem tiled_split {l1 l2 : List Blk} {b : Blk} {lo hi : Nat}
    (h : Tiled lo (l1 ++ b :: l2) hi) :
    Tiled lo l1 b.addr ∧ 0 < b.size ∧ Tiled (b.addr + b.size) l2 hi := by
  obtain ⟨mid, h1, h2, h3, h4⟩ := tiled_append.1 h
  subst h2
  exact ⟨h1, h3, h4⟩

theorem tiled_join {l1 l2 : List Blk} {b : Blk} {lo hi : Nat}
    (h1 : Tiled lo l1 b.addr) (h2 : 0 < b.size) (h3 : Tiled (b.addr + b.size) l2 hi) :
    Tiled lo (l1 ++ b :: l2) hi :=
  tiled_append.2 ⟨b.addr, h1, rfl, h2, h3⟩

theorem tiled_mem {bs : List Blk} {lo hi : Nat} (h : Tiled lo bs hi) {b : Blk} (hb : b ∈ bs) :
    lo ≤ b.addr ∧ b.addr + b.size ≤ hi ∧ 0 < b.size := by
  obtain ⟨l1, l2, rfl⟩ := List.append_of_mem hb
  obtain ⟨h1, h2, h3⟩ := tiled_split h
  exact ⟨tiled_le h1, tiled_le h3, h2⟩

theorem tiled_length {bs : List Blk} {lo hi : Nat} (h : Tiled lo bs hi) :
    lo + bs.length ≤ hi := by
  induction bs generalizing lo with
  | nil => simpa using Nat.le_of_eq h
  | cons b l ih =>
    obtain ⟨_, h2, h3⟩ := h
    have := ih h3
    simp only [List.length_cons]
    omega

theorem tiled_sum {bs : List Blk} {lo hi : Nat} (h : Tiled lo bs hi) :
    lo + (bs.map (fun b => b.size)).sum = hi := by
  induction bs generalizing lo with
  | nil => simpa using h
  | cons b l ih =>
    obtain ⟨_, _, h3⟩ := h
    have := ih h3
    simp only [List.map_cons, List.sum_cons]
    omega

theorem tiled_pairwise {bs : List Blk} {lo hi : Nat} (h : Tiled lo bs hi) :
    bs.Pairwise (fun x y => x.addr + x.size ≤ y.addr) := by
  induction bs generalizing lo with
  | nil => exact List.Pairwise.nil
  | cons b l ih =>
    obtain ⟨h1, _, h3⟩ := h
    refine List.Pairwise.cons ?_ (ih h3)
    intro y hy
    have := (tiled_mem h3 hy).1
    omega

/-- Two regions of a tiling with the same address are the same region. -/
theorem tiled_addr_inj {bs : List Blk} {lo hi : Nat} (h : Tiled lo bs hi) {x y : Blk}
    (hx : x ∈ bs) (hy : y ∈ bs) (hxy : x.addr = y.addr) : x = y := by
  have hp := tiled_pairwise h
  by_contra hne
  have hsx := (tiled_mem h hx).2.2
  have hsy := (tiled_mem h hy).2.2
  rcases List.Pairwise.forall_of_forall_of_flip (R := fun x y => x ≠ y →
      (x.addr + x.size ≤ y.addr ∨ y.addr + y.size ≤ x.addr)) (l := bs)
      (fun a _ ha => absurd rfl ha)
      (hp.imp (fun hab _ => Or.inl hab))
      (hp.imp (fun hab _ => Or.inr hab)) hx hy hne with h1 | h1 <;> omega

/-- Two different regions of a tiling do not overlap. -/
theorem tiled_disjoint {bs : List Blk} {lo hi : Nat} (h : Tiled lo bs hi) {x y : Blk}
    (hx : x ∈ bs) (hy : y ∈ bs) (hne : x ≠ y) :
    x.addr + x.size ≤ y.addr ∨ y.addr + y.size ≤ x.addr := by
  have hp := tiled_pairwise h
  exact List.Pairwise.forall_of_forall_of_flip (R := fun x y => x ≠ y →
      (x.addr + x.size ≤ y.addr ∨ y.addr + y.size ≤ x.addr)) (l := bs)
      (fun a _ ha => absurd rfl ha)
      (hp.imp (fun hab _ => Or.inl hab))
      (hp.imp (fun hab _ => Or.inr hab)) hx hy hne

/-! ### Free and allocated regions of a tiling -/

@[simp] theorem freeAddrs_nil : freeAddrs [] = [] := rfl

@[simp] theorem freeAddrs_append (l1 l2 : List Blk) :
    freeAddrs (l1 ++ l2) = freeAddrs l1 ++ freeAddrs l2 := by
  simp [freeAddrs, freeBlocks]

theorem freeAddrs_cons_free {b : Blk} (h : b.free = true) (l : List Blk) :
    freeAddrs (b :: l) = b.addr :: freeAddrs l := by
  simp [freeAddrs, freeBlocks, h]

theorem freeAddrs_cons_used {b : Blk} (h : b.free = false) (l : List Blk) :
    freeAddrs (b :: l) = freeAddrs l := by
  simp [freeAddrs, freeBlocks, h]

@[simp] theorem freeSum_nil : freeSum [] = 0 := rfl

@[simp] theorem freeSum_append (l1 l2 : List Blk) :
    freeSum (l1 ++ l2) = freeSum l1 + freeSum l2 := by
  simp [freeSum, freeBlocks]

theorem freeSum_cons_free {b : Blk} (h : b.free = true) (l : List Blk) :
    freeSum (b :: l) = b.size + freeSum l := by
  simp [freeSum, freeBlocks, h]

theorem freeSum_cons_used {b : Blk} (h : b.free = false) (l : List Blk) :
    freeSum (b :: l) = freeSum l := by
  simp [freeSum, freeBlocks, h]

@[simp] theorem usedBlocks_nil : usedBlocks [] = [] := rfl

@[simp] theorem usedBlocks_append (l1 l2 : List Blk) :
    usedBlocks (l1 ++ l2) = usedBlocks l1 ++ usedBlocks l2 := by
  simp [usedBlocks]

theorem usedBlocks_cons_free {b : Blk} (h : b.free = true) (l : List Blk) :
    usedBlocks (b :: l) = usedBlocks l := by
  simp [usedBlocks, h]

theorem usedBlocks_cons_used {b : Blk} (h : b.free = false) (l : List Blk) :
    usedBlocks (b :: l) = b :: usedBlocks l := by
  simp [usedBlocks, h]

theorem mem_usedBlocks {b : Blk} {l : List Blk} :
    b ∈ usedBlocks l ↔ b ∈ l ∧ b.free = false := by
  simp [usedBlocks]

theorem mem_freeAddrs {a : Nat} {l : List Blk} :
    a ∈ freeAddrs l ↔ ∃ b ∈ l, b.free = true ∧ b.addr = a := by
  simp [freeAddrs, freeBlocks, and_assoc]

theorem freeSum_le_sum (l : List Blk) : freeSum l ≤ (l.map (fun b => b.size)).sum := by
  induction l with
  | nil => simp
  | cons b l ih =>
    cases hb : b.free
    · rw [freeSum_cons_used hb]; simp only [List.map_cons, List.sum_cons]; omega
    · rw [freeSum_cons_free hb]; simp only [List.map_cons, List.sum_cons]; omega

theorem size_le_freeSum {b : Blk} {l : List Blk} (hb : b ∈ l) (hf : b.free = true) :
    b.size ≤ freeSum l := by
  obtain ⟨l1, l2, rfl⟩ := List.append_of_mem hb
  rw [freeSum_append, freeSum_cons_free hf]
  omega

theorem freeAddrs_length_le (l : List Blk) : (freeAddrs l).length ≤ l.length := by
  simp only [freeAddrs, freeBlocks, List.length_map]
  exact List.length_filter_le _ _

/-- A free-list node of a tiling splits the tiling at its region. -/
theorem freeAddrs_split {bs : List Blk} {l1 l2 : List Nat} {a : Nat}
    (h : freeAddrs bs = l1 ++ a :: l2) :
    ∃ pre b post, bs = pre ++ b :: post ∧ b.free = true ∧ b.addr = a ∧
      freeAddrs pre = l1 ∧ freeAddrs post = l2 := by
  induction bs generalizing l1 with
  | nil => simp at h
  | cons x bs ih =>
    cases hx : x.free
    · rw [freeAddrs_cons_used hx] at h
      obtain ⟨pre, b, post, h1, h2, h3, h4, h5⟩ := ih h
      refine ⟨x :: pre, b, post, by simp [h1], h2, h3, ?_, h5⟩
      rw [freeAddrs_cons_used hx, h4]
    · rw [freeAddrs_cons_free hx] at h
      cases l1 with
      | nil =>
        simp only [List.nil_append, List.cons.injEq] at h
        exact ⟨[], x, bs, rfl, hx, h.1, rfl, h.2⟩
      | cons y l1 =>
        simp only [List.cons_append, List.cons.injEq] at h
        obtain ⟨pre, b, post, h1, h2, h3, h4, h5⟩ := ih h.2
        refine ⟨x :: pre, b, post, by simp [h1], h2, h3, ?_, h5⟩
        rw [freeAddrs_cons_free hx, h4, h.1]

/-- The free-list nodes of a tiling are in strictly ascending address order. -/
theorem freeAddrs_sorted {bs : List Blk} {lo hi : Nat} (h : Tiled lo bs hi) :
    (freeAddrs bs).Pairwise (fun x y => x < y) := by
  have hp := tiled_pairwise h
  have hp2 : bs.Pairwise (fun x y => x.addr < y.addr) := by
    refine List.Pairwise.imp_of_mem ?_ hp
    intro x y hx _ hxy
    have := (tiled_mem h hx).2.2
    omega
  unfold freeAddrs freeBlocks
  rw [List.pairwise_map]
  exact hp2.filter _

theorem freeAddrs_nodup {bs : List Blk} {lo hi : Nat} (h : Tiled lo bs hi) :
    (freeAddrs bs).Nodup :=
  (freeAddrs_sorted h).imp (fun hxy => Nat.ne_of_lt hxy)

/-! ### Field maps and chains -/

@[simp] theorem store_same (m : Nat → Nat) (a v : Nat) : store m a v a = v := by
  simp [store]

theorem store_ne (m : Nat → Nat) {a x : Nat} (v : Nat) (h : x ≠ a) : store m a v x = m x := by
  simp [store, h]

theorem chain_append {next : Nat → Nat} {l1 l2 : List Nat} {p a e : Nat} :
    Chain next p (l1 ++ a :: l2) e ↔ Chain next p l1 a ∧ Chain next a l2 e := by
  induction l1 generalizing p with
  | nil => exact Iff.rfl
  | cons b l ih =>
    show (next p = b ∧ Chain next b (l ++ a :: l2) e) ↔
      (next p = b ∧ Chain next b l a) ∧ Chain next a l2 e
    rw [ih, and_assoc]

theorem chain_frame {next : Nat → Nat} {l : List Nat} {p e x : Nat} (v : Nat)
    (hp : x ≠ p) (hl : x ∉ l) (h : Chain next p l e) : Chain (store next x v) p l e := by
  induction l generalizing p with
  | nil =>
    show store next x v p = e
    rw [store_ne _ _ (Ne.symm hp)]; exact h
  | cons b l ih =>
    obtain ⟨h1, h2⟩ := h
    refine ⟨?_, ih ?_ ?_ h2⟩
    · rw [store_ne _ _ (Ne.symm hp)]; exact h1
    · intro hxb; exact hl (hxb ▸ List.mem_cons_self _ _)
    · intro hxl; exact hl (List.mem_cons_of_mem _ hxl)

/-- Redirecting the link out of the last node of a chain. -/
theorem chain_relink {next : Nat → Nat} {l : List Nat} {p e : Nat} (q : Nat)
    (hnd : (p :: l).Nodup) (h : Chain next p l e) :
    Chain (store next (l.getLastD p) q) p l q := by
  induction l generalizing p with
  | nil => exact store_same _ _ _
  | cons b l ih =>
    obtain ⟨h1, h2⟩ := h
    rw [List.getLastD_cons]
    have hnd2 : (b :: l).Nodup := (List.nodup_cons.1 hnd).2
    have hp : p ∉ b :: l := (List.nodup_cons.1 hnd).1
    refine ⟨?_, ih hnd2 h2⟩
    rw [store_ne, h1]
    intro hpe
    exact hp (hpe ▸ List.getLastD_mem_cons l b)

theorem chain_next_last {next : Nat → Nat} {l : List Nat} {p e : Nat} (h : Chain next p l e) :
    next (l.getLastD p) = e := by
  induction l generalizing p with
  | nil => exact h
  | cons b l ih =>
    rw [List.getLastD_cons]
    exact ih h.2

/-- The link out of the last node of the first part of a chain leads to the second part. -/
theorem chain_next_mid {next : Nat → Nat} {l1 l2 : List Nat} {p e : Nat}
    (h : Chain next p (l1 ++ l2) e) : next (l1.getLastD p) = l2.headD e := by
  cases l2 with
  | nil =>
    rw [List.append_nil] at h
    exact chain_next_last h
  | cons a l2 => exact chain_next_last (chain_append.1 h).1

theorem chain_next_mem {next : Nat → Nat} {l : List Nat} {p e a : Nat}
    (h : Chain next p l e) (ha : a ∈ l) : next a ∈ l ∨ next a = e := by
  obtain ⟨l1, l2, rfl⟩ := List.append_of_mem ha
  have h2 := (chain_append.1 h).2
  cases l2 with
  | nil => exact Or.inr h2
  | cons b l2 =>
    left
    rw [h2.1]
    simp

theorem chain_tail {next : Nat → Nat} {l1 l2 : List Nat} {p a e : Nat}
    (h : Chain next p (l1 ++ a :: l2) e) : Chain next a l2 e :=
  (chain_append.1 h).2

theorem listFrom_chain {next : Nat → Nat} {l : List Nat} {p e fuel : Nat}
    (h : Chain next p l e) (he : e ∉ l) (hf : l.length < fuel) :
    listFrom next e fuel (next p) = l := by
  induction l generalizing p fuel with
  | nil =>
    obtain ⟨f, rfl⟩ : ∃ f, fuel = f + 1 := ⟨fuel - 1, by simp at hf; omega⟩
    have h' : next p = e := h
    simp [listFrom, h']
  | cons b l ih =>
    obtain ⟨f, rfl⟩ : ∃ f, fuel = f + 1 := ⟨fuel - 1, by simp at hf; omega⟩
    obtain ⟨h1, h2⟩ := h
    have hb : b ≠ e := fun hbe => he (hbe ▸ List.mem_cons_self _ _)
    have he2 : e ∉ l := fun hel => he (List.mem_cons_of_mem _ hel)
    have hf2 : l.length < f := by simp at hf; omega
    rw [h1]
    simp only [listFrom, hb, if_false]
    rw [ih h2 he2 hf2]

/-! ### The list walks -/

/-- The search loop of `pvPortMalloc` started at the head of a chain: it stops at the first
node whose size is not below the wanted size, or at the end marker. -/
theorem searchLoop_spec (next size : Nat → Nat) (w e : Nat) (he : next e = 0) :
    ∀ (l : List Nat) (p fuel : Nat), Chain next p l e → (∀ a ∈ l, next a ≠ 0) →
      l.length < fuel →
      searchLoop next size w fuel p (next p) =
        some ((l.takeWhile (fun a => decide (size a < w))).getLastD p,
          (l.dropWhile (fun a => decide (size a < w))).headD e) := by
  intro l
  induction l with
  | nil =>
    intro p fuel h _ hf
    obtain ⟨f, rfl⟩ : ∃ f, fuel = f + 1 := ⟨fuel - 1, by simp at hf; omega⟩
    have h' : next p = e := h
    simp [searchLoop, h', he]
  | cons b l ih =>
    intro p fuel h hnz hf
    obtain ⟨f, rfl⟩ : ∃ f, fuel = f + 1 := ⟨fuel - 1, by simp at hf; omega⟩
    obtain ⟨h1, h2⟩ := h
    have hf2 : l.length < f := by simp at hf; omega
    have hb : next b ≠ 0 := hnz b (List.mem_cons_self _ _)
    rw [h1]
    by_cases hlt : size b < w
    · have := ih b f h2 (fun a ha => hnz a (List.mem_cons_of_mem _ ha)) hf2
      have step : searchLoop next size w (f + 1) p b = searchLoop next size w f b (next b) := by
        simp [searchLoop, hlt, hb]
      rw [step, this, List.takeWhile_cons_of_pos (by simpa using hlt),
        List.dropWhile_cons_of_pos (by simpa using hlt), List.getLastD_cons]
    · have step : searchLoop next size w (f + 1) p b = some (p, b) := by
        simp [searchLoop, hlt]
      rw [step, List.takeWhile_cons_of_neg (by simpa using hlt),
        List.dropWhile_cons_of_neg (by simpa using hlt)]
      rfl

/-- The walk of `prvInsertBlockIntoFreeList` in `heap_4.c` over a chain: it stops at the
last node whose address is below the block. -/
theorem Heap4.insertLoop_spec (next : Nat → Nat) (x e : Nat) (he : ¬ e < x) :
    ∀ (l : List Nat) (p fuel : Nat), Chain next p l e → l.length < fuel →
      Heap4.insertLoop next x fuel p =
        some ((l.takeWhile (fun a => decide (a < x))).getLastD p) := by
  intro l
  induction l with
  | nil =>
    intro p fuel h hf
    obtain ⟨f, rfl⟩ : ∃ f, fuel = f + 1 := ⟨fuel - 1, by simp at hf; omega⟩
    have h' : next p = e := h
    simp [Heap4.insertLoop, h', he]
  | cons b l ih =>
    intro p fuel h hf
    obtain ⟨f, rfl⟩ : ∃ f, fuel = f + 1 := ⟨fuel - 1, by simp at hf; omega⟩
    obtain ⟨h1, h2⟩ := h
    have hf2 : l.length < f := by simp at hf; omega
    by_cases hlt : b < x
    · have := ih b f h2 hf2
      have step : Heap4.insertLoop next x (f + 1) p = Heap4.insertLoop next x f b := by
        simp [Heap4.insertLoop, h1, hlt]
      rw [step, this, List.takeWhile_cons_of_pos (by simpa using hlt), List.getLastD_cons]
    · have step : Heap4.insertLoop next x (f + 1) p = some p := by
        simp [Heap4.insertLoop, h1, hlt]
      rw [step, List.takeWhile_cons_of_neg (by simpa using hlt)]
      rfl

/-- The walk of `prvInsertBlockIntoFreeList` in `heap_2.c` over a chain: it stops at the
last node of the leading run of nodes whose size is below the size of the block. -/
theorem Heap2.insertLoop_spec2 (next size : Nat → Nat) (sz e : Nat) (he : ¬ size e < sz) :
    ∀ (l : List Nat) (p fuel : Nat), Chain next p l e → l.length < fuel →
      Heap2.insertLoop next size sz fuel p =
        some ((l.takeWhile (fun a => decide (size a < sz))).getLastD p) := by
  intro l
  induction l with
  | nil =>
    intro p fuel h hf
    obtain ⟨f, rfl⟩ : ∃ f, fuel = f + 1 := ⟨fuel - 1, by simp at hf; omega⟩
    have h' : next p = e := h
    simp [Heap2.insertLoop, h', he]
  | cons b l ih =>
    intro p fuel h hf
    obtain ⟨f, rfl⟩ : ∃ f, fuel = f + 1 := ⟨fuel - 1, by simp at hf; omega⟩
    obtain ⟨h1, h2⟩ := h
    have hf2 : l.length < f := by simp at hf; omega
    by_cases hlt : size b < sz
    · have := ih b f h2 hf2
      have step : Heap2.insertLoop next size sz (f + 1) p
          = Heap2.insertLoop next size sz f b := by
        simp [Heap2.insertLoop, h1, hlt]
      rw [step, this, List.takeWhile_cons_of_pos (by simpa using hlt), List.getLastD_cons]
    · have step : Heap2.insertLoop next size sz (f + 1) p = some p := by
        simp [Heap2.insertLoop, h1, hlt]
      rw [step, List.takeWhile_cons_of_neg (by simpa using hlt)]
      rfl

theorem chain_congr {next next' : Nat → Nat} {l : List Nat} {p e : Nat}
    (heq : ∀ a ∈ p :: l, next' a = next a) (h : Chain next p l e) : Chain next' p l e := by
  induction l generalizing p with
  | nil =>
    show next' p = e
    rw [heq p (List.mem_cons_self _ _)]; exact h
  | cons b l ih =>
    obtain ⟨h1, h2⟩ := h
    refine ⟨?_, ih (fun a ha => heq a (List.mem_cons_of_mem _ ha)) h2⟩
    rw [heq p (List.mem_cons_self _ _)]; exact h1

theorem chain_front {next : Nat → Nat} {l1 l2 : List Nat} {p e : Nat}
    (h : Chain next p (l1 ++ l2) e) : Chain next p l1 (l2.headD e) := by
  cases l2 with
  | nil => rw [List.append_nil] at h; exact h
  | cons a l2 => exact (chain_append.1 h).1

/-- Redirecting the link out of the last node of a chain, the new links being given
pointwise. -/
theorem chain_redirect {next next' : Nat → Nat} {l : List Nat} {p e q : Nat}
    (hnd : (p :: l).Nodup) (h : Chain next p l e)
    (h1 : next' (l.getLastD p) = q)
    (h2 : ∀ a ∈ p :: l, a ≠ l.getLastD p → next' a = next a) :
    Chain next' p l q := by
  have := chain_relink q hnd h
  refine chain_congr ?_ this
  intro a ha
  by_cases hal : a = l.getLastD p
  · rw [hal, h1, store_same]
  · rw [h2 a ha hal, store_ne _ _ hal]

/-- Replacing the middle part `mid` of a chain by the single node `y`. -/
theorem chain_rebuild {next next' : Nat → Nat} {la mid lb : List Nat} {p y e : Nat}
    (h : Chain next p (la ++ (mid ++ lb)) e) (hnd : (p :: (la ++ (mid ++ lb))).Nodup)
    (h1 : next' (la.getLastD p) = y) (h2 : next' y = lb.headD e)
    (h3 : ∀ a ∈ p :: (la ++ lb), a ≠ la.getLastD p → a ≠ y → next' a = next a)
    (hy : y ∉ p :: (la ++ lb)) :
    Chain next' p (la ++ y :: lb) e := by
  have hnd1 : (p :: la).Nodup := by
    have := hnd
    rw [← List.cons_append] at this
    exact (List.nodup_append.1 this).1
  have hdis : ∀ a ∈ lb, a ∉ p :: la := by
    intro a ha hpa
    have := hnd
    rw [← List.cons_append] at this
    exact (List.nodup_append.1 this).2.2 hpa (List.mem_append_right _ ha) 
  refine chain_append.2 ⟨?_, ?_⟩
  · refine chain_redirect hnd1 (chain_front h) h1 ?_
    intro a ha hne
    have ha' : a ∈ p :: (la ++ lb) := by
      rcases List.mem_cons.1 ha with rfl | ha
      · exact List.mem_cons_self _ _
      · exact List.mem_cons_of_mem _ (List.mem_append_left _ ha)
    have hay : a ≠ y := fun hh => hy (hh ▸ ha')
    exact h3 a ha' hne hay
  · have hlast : la.getLastD p ∈ p :: la := List.getLastD_mem_cons la p
    cases lb with
    | nil => exact h2
    | cons b lb =>
      have hsuf : Chain next b lb e := by
        have h' : Chain next p ((la ++ mid) ++ b :: lb) e := by
          rw [List.append_assoc]; exact h
        exact (chain_append.1 h').2
      have hnd2 : (b :: lb).Nodup := by
        have := hnd
        rw [← List.cons_append, ← List.append_assoc] at this
        exact (List.nodup_append.1 this).2.1
      refine ⟨h2, chain_congr ?_ hsuf⟩
      intro a ha
      have ha' : a ∈ p :: (la ++ b :: lb) :=
        List.mem_cons_of_mem _ (List.mem_append_right _ ha)
      refine h3 a ha' ?_ ?_
      · intro hh
        exact hdis a ha (hh ▸ hlast)
      · intro hh
        exact hy (hh ▸ ha')

/-- Removing the node `g` from a chain, the new links being given pointwise. -/
theorem chain_unlink {next next' : Nat → Nat} {la lb : List Nat} {p g e : Nat}
    (h : Chain next p (la ++ g :: lb) e) (hnd : (p :: (la ++ g :: lb)).Nodup)
    (h1 : next' (la.getLastD p) = next g)
    (h3 : ∀ a ∈ p :: (la ++ lb), a ≠ la.getLastD p → next' a = next a) :
    Chain next' p (la ++ lb) e := by
  have hg : next g = lb.headD e := by
    have := (chain_append.1 h).2
    cases lb with
    | nil => exact this
    | cons b lb => exact this.1
  have hnd1 : (p :: la).Nodup := by
    have := hnd
    rw [← List.cons_append] at this
    exact (List.nodup_append.1 this).1
  have hlast : la.getLastD p ∈ p :: la := List.getLastD_mem_cons la p
  cases lb with
  | nil =>
    rw [List.append_nil]
    refine chain_redirect hnd1 (chain_append.1 h).1 (h1.trans hg) ?_
    intro a ha hne
    exact h3 a (by simpa using ha) hne
  | cons b lb =>
    refine chain_append.2 ⟨?_, ?_⟩
    · refine chain_redirect hnd1 (chain_append.1 h).1 (h1.trans hg) ?_
      intro a ha hne
      refine h3 a ?_ hne
      rcases List.mem_cons.1 ha with rfl | ha
      · exact List.mem_cons_self _ _
      · exact List.mem_cons_of_mem _ (List.mem_append_left _ ha)
    · have hsuf : Chain next b lb e := ((chain_append.1 h).2).2
      refine chain_congr ?_ hsuf
      intro a ha
      refine h3 a (List.mem_cons_of_mem _ (List.mem_append_right _ ha)) ?_
      intro hh
      have := hnd
      rw [← List.cons_append] at this
      exact (List.nodup_append.1 this).2.2 (hh ▸ hlast) (List.mem_cons_of_mem _ ha)

/-! ### Constants of `heap_4.c` -/

namespace Heap4

variable {c : Config}

theorem hs_facts (h : c.WF) :
    xHeapStructSize c % c.portBYTE_ALIGNMENT = 0 ∧ c.sizeofBlockLink ≤ xHeapStructSize c ∧
      xHeapStructSize c < c.sizeofBlockLink + c.portBYTE_ALIGNMENT := by
  have hb := h.heap_big
  have hf := h.heap_fits
  have := h.roundUp_facts (x := c.sizeofBlockLink) (by omega)
  exact ⟨this.1, this.2.1, this.2.2.1⟩

theorem minBlock_eq (h : c.WF) : heapMINIMUM_BLOCK_SIZE c = 2 * xHeapStructSize c := by
  have hb := h.heap_big
  have hh := h.heap_half
  have hs := hs_facts h
  unfold heapMINIMUM_BLOCK_SIZE
  rw [Nat.shiftLeft_eq, Nat.pow_one, Nat.mod_eq_of_lt (by rw [h.wordMod_eq]; omega)]
  omega

theorem base_facts (h : c.WF) :
    (alignedHeap c).1 % c.portBYTE_ALIGNMENT = 0 ∧ c.ucHeap ≤ (alignedHeap c).1 ∧
      (alignedHeap c).1 < c.ucHeap + c.portBYTE_ALIGNMENT ∧
      (alignedHeap c).1 + (alignedHeap c).2 = c.ucHeap + c.configTOTAL_HEAP_SIZE := by
  have hb := h.heap_big
  have hf := h.heap_fits
  obtain ⟨hr1, hr2, hr3, hr4⟩ := h.roundUp_facts (x := c.ucHeap) (by omega)
  unfold alignedHeap
  simp only [h.and_mask]
  by_cases h0 : c.ucHeap % c.portBYTE_ALIGNMENT = 0
  · have hA := h.align_pos
    rw [if_neg (fun hh => hh h0)]
    exact ⟨h0, Nat.le_refl _, by omega, rfl⟩
  · rw [if_pos h0]
    refine ⟨hr1, hr2, hr3, ?_⟩
    have e1 : wsub c (wadd c c.ucHeap (c.portBYTE_ALIGNMENT - 1) &&&
        wnot c (portBYTE_ALIGNMENT_MASK c)) c.ucHeap
        = (wadd c c.ucHeap (c.portBYTE_ALIGNMENT - 1) &&&
        wnot c (portBYTE_ALIGNMENT_MASK c)) - c.ucHeap := wsub_eq c hr2 (by omega)
    rw [e1, wsub_eq c (by omega) (by omega)]
    omega

theorem end_facts (h : c.WF) :
    endAddress c % c.portBYTE_ALIGNMENT = 0 ∧ (alignedHeap c).1 < endAddress c ∧
      endAddress c + xHeapStructSize c ≤ c.ucHeap + c.configTOTAL_HEAP_SIZE := by
  have hb := h.heap_big
  have hf := h.heap_fits
  have hA := h.align_pos
  have hs := hs_facts h
  have hbase := base_facts h
  have he : endAddress c = (c.ucHeap + c.configTOTAL_HEAP_SIZE - xHeapStructSize c)
      - (c.ucHeap + c.configTOTAL_HEAP_SIZE - xHeapStructSize c) % c.portBYTE_ALIGNMENT := by
    unfold endAddress
    simp only
    rw [wadd_eq c (by omega), hbase.2.2.2, wsub_eq c (by omega) (by omega),
      h.and_wnot_mask (by omega)]
  have hlt := Nat.mod_lt (c.ucHeap + c.configTOTAL_HEAP_SIZE - xHeapStructSize c) hA
  rw [he]
  refine ⟨sub_mod_self_mod _ _, ?_, ?_⟩
  · omega
  · omega

/-- The heap lies in the lower half of the address space and `xStart` is outside it. -/
theorem geometry (h : c.WF) :
    0 < (alignedHeap c).1 ∧ endAddress c < c.wordMod ∧
      endAddress c - (alignedHeap c).1 < 2 ^ (c.bits - 1) ∧
      (c.xStart < (alignedHeap c).1 ∨ endAddress c < c.xStart) := by
  have hb := base_facts h
  have he := end_facts h
  have h1 := h.heap_pos
  have h2 := h.heap_fits
  have h3 := h.heap_half
  have h4 := h.xStart_out
  refine ⟨by omega, by omega, by omega, ?_⟩
  rcases h4 with h4 | h4
  · left; omega
  · right
    have := (hs_facts h).2.1
    have := h.link_pos
    omega

/-- Setting up the heap establishes the invariant, with one free region. -/
theorem prvHeapInit_inv (h : c.WF) (s : State) :
    Inv c (prvHeapInit c s)
      [⟨(alignedHeap c).1, endAddress c - (alignedHeap c).1, true⟩] := by
  have hb := base_facts h
  have he := end_facts h
  have hg := geometry h
  have hne1 : c.xStart ≠ (alignedHeap c).1 := by omega
  have hne2 : c.xStart ≠ endAddress c := by omega
  have hne3 : (alignedHeap c).1 ≠ endAddress c := by omega
  have hsub : wsub c (endAddress c) (alignedHeap c).1 = endAddress c - (alignedHeap c).1 :=
    wsub_eq c (by omega) (by omega)
  constructor
  · rfl
  · refine ⟨rfl, ?_, ?_⟩
    · show 0 < endAddress c - (alignedHeap c).1
      omega
    · show _ + (endAddress c - (alignedHeap c).1) = endAddress c
      omega
  · intro b hb'
    simp only [List.mem_singleton] at hb'
    subst hb'
    simp [prvHeapInit, State.setSize, State.setNext, hsub]
  · intro b hb' hf
    simp only [List.mem_singleton] at hb'
    subst hb'
    simp at hf
  · intro b hb'
    simp only [List.mem_singleton] at hb'
    subst hb'
    exact hb.1
  · show Chain _ _ (freeAddrs [_]) _
    rw [freeAddrs_cons_free rfl]
    simp [Chain, prvHeapInit, State.setSize, State.setNext, store, hne1, hne2]
  · simp [prvHeapInit, State.setSize, State.setNext, store, hne1, hne2]
  · simp [prvHeapInit, State.setSize, State.setNext, store, hne3.symm]
  · simp [prvHeapInit, State.setSize, State.setNext, store, hne3.symm]
  · simp [prvHeapInit, State.setSize, State.setNext, store, hsub, freeSum, freeBlocks]
  · simp [prvHeapInit, State.setSize, State.setNext, store, hsub, freeSum, freeBlocks]

end Heap4

/-! ### Coalescing, on the regions -/

/-- The front part of `coalesce`: the last region of `pre`, if free, absorbs the block. -/
theorem coalesce_front_nil (x sz : Nat) (post : List Blk) :
    coalesce [] x sz post =
      match post with
      | g :: post' =>
        if g.free then ⟨x, sz + g.size, true⟩ :: post' else ⟨x, sz, true⟩ :: post
      | [] => [⟨x, sz, true⟩] := by
  cases post with
  | nil => rfl
  | cons g post => by_cases hg : g.free <;> simp [coalesce, hg]

theorem coalesce_front_used (pre : List Blk) {f : Blk} (hf : f.free = false) (x sz : Nat)
    (post : List Blk) :
    coalesce (pre ++ [f]) x sz post = pre ++ f :: coalesce [] x sz post := by
  cases post with
  | nil => simp [coalesce, hf]
  | cons g post => by_cases hg : g.free <;> simp [coalesce, hf, hg]

theorem coalesce_front_free (pre : List Blk) {f : Blk} (hf : f.free = true) (x sz : Nat)
    (post : List Blk) :
    coalesce (pre ++ [f]) x sz post = pre ++ coalesce [] f.addr (f.size + sz) post := by
  cases post with
  | nil => simp [coalesce, hf]
  | cons g post => by_cases hg : g.free <;> simp [coalesce, hf, hg]

theorem coalesce_nil_tiled {post : List Blk} {x sz hi : Nat} (hsz : 0 < sz)
    (h : Tiled (x + sz) post hi) : Tiled x (coalesce [] x sz post) hi := by
  rw [coalesce_front_nil]
  cases post with
  | nil => exact ⟨rfl, hsz, h⟩
  | cons g post =>
    obtain ⟨h1, h2, h3⟩ := h
    cases hg : g.free
    · simp only [hg, Bool.false_eq_true, if_false]
      exact ⟨rfl, hsz, h1, h2, h3⟩
    · simp only [hg, if_true]
      refine ⟨rfl, by show 0 < sz + g.size; omega, ?_⟩
      show Tiled (x + (sz + g.size)) post hi
      rw [← Nat.add_assoc]; exact h3

theorem coalesce_tiled {pre post : List Blk} {lo x sz hi : Nat} (h1 : Tiled lo pre x)
    (hsz : 0 < sz) (h2 : Tiled (x + sz) post hi) : Tiled lo (coalesce pre x sz post) hi := by
  rcases List.eq_nil_or_concat pre with rfl | ⟨pre', f, rfl⟩
  · have : lo = x := h1
    subst this
    exact coalesce_nil_tiled hsz h2
  · rw [List.concat_eq_append] at h1 ⊢
    obtain ⟨ha, hb, hc⟩ := tiled_split h1
    have hc' : f.addr + f.size = x := hc
    cases hf : f.free
    · rw [coalesce_front_used pre' hf]
      refine tiled_join ha hb ?_
      rw [hc']
      exact coalesce_nil_tiled hsz h2
    · rw [coalesce_front_free pre' hf]
      refine tiled_append.2 ⟨f.addr, ha, ?_⟩
      refine coalesce_nil_tiled (by omega) ?_
      rw [← Nat.add_assoc, hc']; exact h2

theorem coalesce_nil_freeSum (x sz : Nat) (post : List Blk) :
    freeSum (coalesce [] x sz post) = sz + freeSum post := by
  rw [coalesce_front_nil]
  cases post with
  | nil => simp [freeSum, freeBlocks]
  | cons g post =>
    cases hg : g.free
    · simp only [hg, Bool.false_eq_true, if_false]
      rw [freeSum_cons_free (b := ⟨x, sz, true⟩) rfl]
    · simp only [hg, if_true]
      rw [freeSum_cons_free (b := ⟨x, sz + g.size, true⟩) rfl, freeSum_cons_free hg]
      show sz + g.size + _ = _
      omega

theorem coalesce_freeSum (pre post : List Blk) (x sz : Nat) :
    freeSum (coalesce pre x sz post) = freeSum pre + sz + freeSum post := by
  rcases List.eq_nil_or_concat pre with rfl | ⟨pre', f, rfl⟩
  · rw [coalesce_nil_freeSum]; simp
  · rw [List.concat_eq_append]
    cases hf : f.free
    · rw [coalesce_front_used pre' hf, freeSum_append, freeSum_cons_used hf,
        coalesce_nil_freeSum, freeSum_append, freeSum_cons_used hf]
      simp; omega
    · rw [coalesce_front_free pre' hf, freeSum_append, coalesce_nil_freeSum, freeSum_append,
        freeSum_cons_free hf]
      simp; omega

theorem coalesce_nil_used (x sz : Nat) (post : List Blk) :
    usedBlocks (coalesce [] x sz post) = usedBlocks post := by
  rw [coalesce_front_nil]
  cases post with
  | nil => rfl
  | cons g post =>
    cases hg : g.free
    · simp only [hg, Bool.false_eq_true, if_false]
      rw [usedBlocks_cons_free (b := ⟨x, sz, true⟩) rfl]
    · simp only [hg, if_true]
      rw [usedBlocks_cons_free (b := ⟨x, sz + g.size, true⟩) rfl, usedBlocks_cons_free hg]

theorem coalesce_used (pre post : List Blk) (x sz : Nat) :
    usedBlocks (coalesce pre x sz post) = usedBlocks pre ++ usedBlocks post := by
  rcases List.eq_nil_or_concat pre with rfl | ⟨pre', f, rfl⟩
  · rw [coalesce_nil_used]; simp
  · rw [List.concat_eq_append]
    cases hf : f.free
    · rw [coalesce_front_used pre' hf, usedBlocks_append, usedBlocks_cons_used hf,
        coalesce_nil_used, usedBlocks_append, usedBlocks_cons_used hf]
      simp
    · rw [coalesce_front_free pre' hf, usedBlocks_append, coalesce_nil_used, usedBlocks_append,
        usedBlocks_cons_free hf]
      simp

/-- Every region left by `coalesce` starts where the inserted block or an earlier region
starts. -/
theorem coalesce_addr {pre post : List Blk} {x sz : Nat} {b : Blk}
    (hb : b ∈ coalesce pre x sz post) : b.addr = x ∨ ∃ b' ∈ pre ++ post, b'.addr = b.addr := by
  have hnil : ∀ (y n : Nat), b ∈ coalesce [] y n post → b.addr = y ∨ ∃ b' ∈ post, b'.addr = b.addr := by
    intro y n hb
    rw [coalesce_front_nil] at hb
    cases post with
    | nil =>
      have hb' : b = ⟨y, n, true⟩ := List.mem_singleton.1 hb
      left; rw [hb']
    | cons g post =>
      cases hg : g.free
      · simp only [hg, Bool.false_eq_true, if_false, List.mem_cons] at hb
        rcases hb with hb | hb | hb
        · left; rw [hb]
        · right; exact ⟨g, List.mem_cons_self _ _, by rw [hb]⟩
        · right; exact ⟨b, List.mem_cons_of_mem _ hb, rfl⟩
      · simp only [hg, if_true, List.mem_cons] at hb
        rcases hb with hb | hb
        · left; rw [hb]
        · right; exact ⟨b, List.mem_cons_of_mem _ hb, rfl⟩
  rcases List.eq_nil_or_concat pre with rfl | ⟨pre', f, rfl⟩
  · rcases hnil x sz hb with h | ⟨b', h1, h2⟩
    · exact Or.inl h
    · exact Or.inr ⟨b', by simpa using h1, h2⟩
  · rw [List.concat_eq_append] at hb ⊢
    cases hf : f.free
    · rw [coalesce_front_used pre' hf] at hb
      rcases List.mem_append.1 hb with hb | hb
      · right; exact ⟨b, by simp [hb], rfl⟩
      · rcases List.mem_cons.1 hb with hb | hb
        · right; exact ⟨f, by simp, by rw [hb]⟩
        · rcases hnil x sz hb with h | ⟨b', h1, h2⟩
          · exact Or.inl h
          · exact Or.inr ⟨b', by simp [h1], h2⟩
    · rw [coalesce_front_free pre' hf] at hb
      rcases List.mem_append.1 hb with hb | hb
      · right; exact ⟨b, by simp [hb], rfl⟩
      · rcases hnil _ _ hb with h | ⟨b', h1, h2⟩
        · right; exact ⟨f, by simp, h.symm⟩
        · exact Or.inr ⟨b', by simp [h1], h2⟩

/-- The inserted block lies inside one free region left by `coalesce`. -/
theorem coalesce_cover {pre post : List Blk} {lo x sz : Nat} (h1 : Tiled lo pre x) :
    ∃ m ∈ coalesce pre x sz post, m.free = true ∧ m.addr ≤ x ∧ x + sz ≤ m.addr + m.size := by
  have hnil : ∀ (y n : Nat), ∃ m ∈ coalesce [] y n post, m.free = true ∧ m.addr = y ∧
      y + n ≤ m.addr + m.size := by
    intro y n
    rw [coalesce_front_nil]
    cases post with
    | nil => exact ⟨_, List.mem_singleton_self _, rfl, rfl, Nat.le_refl _⟩
    | cons g post =>
      cases hg : g.free
      · simp only [hg, Bool.false_eq_true, if_false]
        exact ⟨_, List.mem_cons_self _ _, rfl, rfl, Nat.le_refl _⟩
      · simp only [hg, if_true]
        exact ⟨_, List.mem_cons_self _ _, rfl, rfl, by show y + n ≤ y + (n + g.size); omega⟩
  rcases List.eq_nil_or_concat pre with rfl | ⟨pre', f, rfl⟩
  · obtain ⟨m, hm1, hm2, hm3, hm4⟩ := hnil x sz
    exact ⟨m, hm1, hm2, Nat.le_of_eq hm3, hm4⟩
  · rw [List.concat_eq_append] at h1 ⊢
    obtain ⟨_, hb, hc⟩ := tiled_split h1
    have hc' : f.addr + f.size = x := hc
    cases hf : f.free
    · rw [coalesce_front_used pre' hf]
      obtain ⟨m, hm1, hm2, hm3, hm4⟩ := hnil x sz
      exact ⟨m, by simp [hm1], hm2, Nat.le_of_eq hm3, hm4⟩
    · rw [coalesce_front_free pre' hf]
      obtain ⟨m, hm1, hm2, hm3, hm4⟩ := hnil f.addr (f.size + sz)
      exact ⟨m, by simp [hm1], hm2, by omega, by omega⟩

namespace Heap4

variable {c : Config}

/-! ### `prvInsertBlockIntoFreeList` of `heap_4.c` -/

theorem SameVars.refl (s : State) : SameVars s s := ⟨rfl, rfl, rfl, rfl, rfl⟩

theorem SameVars.trans {s1 s2 s3 : State} (h1 : SameVars s1 s2) (h2 : SameVars s2 s3) :
    SameVars s1 s3 := by
  obtain ⟨a1, a2, a3, a4, a5⟩ := h1
  obtain ⟨b1, b2, b3, b4, b5⟩ := h2
  exact ⟨b1.trans a1, b2.trans a2, b3.trans a3, b4.trans a4, b5.trans a5⟩

theorem sameVars_setSize (s : State) (p v : Nat) : SameVars s (s.setSize p v) :=
  ⟨rfl, rfl, rfl, rfl, rfl⟩

theorem sameVars_setNext (s : State) (p v : Nat) : SameVars s (s.setNext p v) :=
  ⟨rfl, rfl, rfl, rfl, rfl⟩

theorem insert_eval_apart {s : State} {x fuel it : Nat}
    (hloop : insertLoop s.pxNextFreeBlock x fuel c.xStart = some it)
    (hfront : wadd c it (s.xBlockSize it) ≠ x) (hne : it ≠ x) :
    prvInsertBlockIntoFreeList c fuel s x = some ((mergeBehind c s it x).setNext it x) := by
  unfold prvInsertBlockIntoFreeList
  rw [hloop]
  simp only [if_neg hfront, hne, ne_eq, not_false_eq_true, if_true]

theorem insert_eval_merge {s : State} {x fuel it : Nat}
    (hloop : insertLoop s.pxNextFreeBlock x fuel c.xStart = some it)
    (hfront : wadd c it (s.xBlockSize it) = x) :
    prvInsertBlockIntoFreeList c fuel s x =
      some (mergeBehind c (s.setSize it (wadd c (s.xBlockSize it) (s.xBlockSize x))) it it) := by
  unfold prvInsertBlockIntoFreeList
  rw [hloop]
  simp only [if_pos hfront, ne_eq, not_true_eq_false, if_false]

theorem mergeBehind_end {s : State} {it y : Nat}
    (h1 : wadd c y (s.xBlockSize y) = s.pxNextFreeBlock it)
    (h2 : s.pxNextFreeBlock it = s.pxEnd) :
    mergeBehind c s it y = s.setNext y s.pxEnd := by
  unfold mergeBehind
  rw [if_pos h1, if_neg (fun hh => hh h2)]

theorem mergeBehind_merge {s : State} {i y : Nat}
    (h1 : wadd c y (s.xBlockSize y) = s.pxNextFreeBlock i)
    (h2 : s.pxNextFreeBlock i ≠ s.pxEnd) :
    mergeBehind c s i y =
      (s.setSize y (wadd c (s.xBlockSize y) (s.xBlockSize (s.pxNextFreeBlock i)))).setNext y
        (s.pxNextFreeBlock (s.pxNextFreeBlock i)) := by
  unfold mergeBehind
  rw [if_pos h1, if_pos h2]
  rfl

theorem mergeBehind_apart {s : State} {it y : Nat}
    (h1 : wadd c y (s.xBlockSize y) ≠ s.pxNextFreeBlock it) :
    mergeBehind c s it y = s.setNext y (s.pxNextFreeBlock it) := by
  unfold mergeBehind
  rw [if_neg h1]

end Heap4

theorem takeWhile_eq_nil_of_forall_not {α : Type} {p : α → Bool} {l : List α}
    (h : ∀ a ∈ l, p a = false) : l.takeWhile p = [] := by
  cases l with
  | nil => rfl
  | cons a l =>
    exact List.takeWhile_cons_of_neg (by simp [h a (List.mem_cons_self _ _)])

theorem getLastD_mem_or {l : List Nat} {p : Nat} : l.getLastD p = p ∨ l.getLastD p ∈ l := by
  rcases List.mem_cons.1 (List.getLastD_mem_cons l p) with h | h
  · exact Or.inl h
  · exact Or.inr h

theorem headD_mem_or {l : List Nat} {e : Nat} : l.headD e = e ∨ l.headD e ∈ l := by
  cases l with
  | nil => exact Or.inl rfl
  | cons a l => exact Or.inr (List.mem_cons_self _ _)

namespace Heap4

variable {c : Config} {s : State} {pre post : List Blk} {x sz : Nat}

namespace InsertPre

theorem tiled_full (h : InsertPre c s pre post x sz) :
    Tiled (alignedHeap c).1 (pre ++ ⟨x, sz, false⟩ :: post) (endAddress c) :=
  tiled_join h.tiled_pre h.size_pos h.tiled_post

theorem bounds (h : InsertPre c s pre post x sz) :
    (alignedHeap c).1 ≤ x ∧ x + sz ≤ endAddress c :=
  ⟨tiled_le h.tiled_pre, tiled_le h.tiled_post⟩

theorem pre_lt (h : InsertPre c s pre post x sz) {a : Nat} (ha : a ∈ freeAddrs pre) :
    (alignedHeap c).1 ≤ a ∧ a < x := by
  obtain ⟨b, hb, _, rfl⟩ := mem_freeAddrs.1 ha
  have := tiled_mem h.tiled_pre hb
  omega

theorem post_ge (h : InsertPre c s pre post x sz) {a : Nat} (ha : a ∈ freeAddrs post) :
    x + sz ≤ a ∧ a < endAddress c := by
  obtain ⟨b, hb, _, rfl⟩ := mem_freeAddrs.1 ha
  have := tiled_mem h.tiled_post hb
  omega

theorem mem_bounds (h : InsertPre c s pre post x sz) {a : Nat}
    (ha : a ∈ freeAddrs (pre ++ post)) : (alignedHeap c).1 ≤ a ∧ a < endAddress c ∧ a ≠ x := by
  rw [freeAddrs_append] at ha
  have hb := h.bounds
  have hs := h.size_pos
  rcases List.mem_append.1 ha with ha | ha
  · have := h.pre_lt ha; omega
  · have := h.post_ge ha; omega

theorem x_not_mem (h : InsertPre c s pre post x sz) : x ∉ freeAddrs (pre ++ post) :=
  fun hx => (h.mem_bounds hx).2.2 rfl

theorem ins_end_not_mem (h : InsertPre c s pre post x sz) : endAddress c ∉ freeAddrs (pre ++ post) :=
  fun hx => Nat.lt_irrefl _ (h.mem_bounds hx).2.1

theorem ins_xStart_not_mem (h : InsertPre c s pre post x sz) (hw : c.WF) :
    c.xStart ∉ freeAddrs (pre ++ post) := by
  intro hx
  have := h.mem_bounds hx
  have := geometry hw
  omega

theorem xStart_ne (h : InsertPre c s pre post x sz) (hw : c.WF) : c.xStart ≠ x := by
  have := h.bounds
  have := h.size_pos
  have := geometry hw
  omega

theorem ins_nodup (h : InsertPre c s pre post x sz) (hw : c.WF) :
    (c.xStart :: freeAddrs (pre ++ post)).Nodup := by
  refine List.nodup_cons.2 ⟨h.ins_xStart_not_mem hw, ?_⟩
  have := freeAddrs_nodup h.tiled_full
  rwa [freeAddrs_append, freeAddrs_cons_used rfl, ← freeAddrs_append] at this

theorem ins_length_lt (h : InsertPre c s pre post x sz) (hw : c.WF) {fuel : Nat}
    (hfuel : c.configTOTAL_HEAP_SIZE < fuel) : (freeAddrs (pre ++ post)).length < fuel := by
  have h1 := freeAddrs_length_le (pre ++ post)
  have h2 := tiled_length h.tiled_full
  have hb := base_facts hw
  have he := end_facts hw
  simp only [List.length_append, List.length_cons] at h1 h2
  omega

theorem loop (h : InsertPre c s pre post x sz) (hw : c.WF) {fuel : Nat}
    (hfuel : c.configTOTAL_HEAP_SIZE < fuel) :
    insertLoop s.pxNextFreeBlock x fuel c.xStart = some ((freeAddrs pre).getLastD c.xStart) := by
  have hb := h.bounds
  have hs := h.size_pos
  rw [insertLoop_spec s.pxNextFreeBlock x (endAddress c) (by omega) _ _ _ h.chain
    (h.ins_length_lt hw hfuel), freeAddrs_append,
    List.takeWhile_append_of_pos (fun a ha => by simpa using (h.pre_lt ha).2),
    takeWhile_eq_nil_of_forall_not (fun a ha => by
      have := (h.post_ge ha).1
      simp only [decide_eq_false_iff_not]; omega),
    List.append_nil]

theorem next_it (h : InsertPre c s pre post x sz) :
    s.pxNextFreeBlock ((freeAddrs pre).getLastD c.xStart)
      = (freeAddrs post).headD (endAddress c) := by
  have := h.chain
  rw [freeAddrs_append] at this
  exact chain_next_mid this

/-- Whether the block in front of the inserted block is merged with it. -/
theorem front_cases (h : InsertPre c s pre post x sz) (hw : c.WF) :
    (wadd c ((freeAddrs pre).getLastD c.xStart)
        (s.xBlockSize ((freeAddrs pre).getLastD c.xStart)) ≠ x ∧
      (freeAddrs pre).getLastD c.xStart ≠ x ∧
      coalesce pre x sz post = pre ++ coalesce [] x sz post) ∨
    (∃ pre' f, pre = pre' ++ [f] ∧ f.free = true ∧
      (freeAddrs pre).getLastD c.xStart = f.addr ∧ s.xBlockSize f.addr = f.size ∧
      wadd c f.addr f.size = x ∧ f.addr + f.size = x ∧
      coalesce pre x sz post = pre' ++ coalesce [] f.addr (f.size + sz) post) := by
  have hg := geometry hw
  have hb := h.bounds
  have hs := h.size_pos
  have hx0 : wadd c c.xStart (s.xBlockSize c.xStart) ≠ x := by
    rw [h.start_size, wadd_eq c (by have := hw.xStart_lt; omega)]
    exact h.xStart_ne hw
  have hother : ∀ a ∈ freeAddrs pre, ∀ pre' f, pre = pre' ++ [f] → a ∈ freeAddrs pre' →
      wadd c a (s.xBlockSize a) ≠ x := by
    intro a _ pre' f hpre ha'
    obtain ⟨b, hb1, hb2, rfl⟩ := mem_freeAddrs.1 ha'
    have ht := h.tiled_pre
    rw [hpre] at ht
    obtain ⟨ht1, ht2, ht3⟩ := tiled_split ht
    have ht3' : f.addr + f.size = x := ht3
    have hbm := tiled_mem ht1 hb1
    rw [h.frees b (by simp [hpre, hb1]) hb2, wadd_eq c (by omega)]
    omega
  rcases List.eq_nil_or_concat pre with hpre | ⟨pre', f, hpre⟩
  · left
    subst hpre
    refine ⟨hx0, h.xStart_ne hw, rfl⟩
  · rw [List.concat_eq_append] at hpre
    cases hf : f.free
    · left
      have hfa : freeAddrs pre = freeAddrs pre' := by
        rw [hpre, freeAddrs_append, freeAddrs_cons_used hf]; simp
      refine ⟨?_, ?_, ?_⟩
      · rcases getLastD_mem_or (l := freeAddrs pre) (p := c.xStart) with h1 | h1
        · rw [h1]; exact hx0
        · exact hother _ h1 pre' f hpre (hfa ▸ h1)
      · rcases getLastD_mem_or (l := freeAddrs pre) (p := c.xStart) with h1 | h1
        · rw [h1]; exact h.xStart_ne hw
        · exact Nat.ne_of_lt (h.pre_lt h1).2
      · rw [hpre, coalesce_front_used pre' hf, List.append_assoc]; rfl
    · right
      have ht := h.tiled_pre
      rw [hpre] at ht
      obtain ⟨ht1, ht2, ht3⟩ := tiled_split ht
      have ht3' : f.addr + f.size = x := ht3
      refine ⟨pre', f, hpre, hf, ?_, ?_, ?_, ht3', ?_⟩
      · rw [hpre, freeAddrs_append, freeAddrs_cons_free hf]
        exact List.getLastD_concat _ _ _
      · exact h.frees f (by simp [hpre]) hf
      · rw [wadd_eq c (by omega)]; exact ht3'
      · rw [hpre, coalesce_front_free pre' hf]

/-- Whether the block behind the inserted block is merged with it. -/
theorem back_cases (h : InsertPre c s pre post x sz) :
    (post = [] ∧ x + sz = endAddress c) ∨
    (∃ g post', post = g :: post' ∧ g.free = true ∧ g.addr = x + sz ∧
      s.xBlockSize g.addr = g.size ∧ g.addr ≠ endAddress c ∧ 0 < g.size ∧
      s.pxNextFreeBlock g.addr = (freeAddrs post').headD (endAddress c)) ∨
    (∃ g post', post = g :: post' ∧ g.free = false ∧
      (freeAddrs post).headD (endAddress c) ≠ x + sz) := by
  cases hpost : post with
  | nil =>
    left
    have := h.tiled_post
    rw [hpost] at this
    exact ⟨rfl, this⟩
  | cons g post' =>
    right
    have ht := h.tiled_post
    rw [hpost] at ht
    obtain ⟨ht1, ht2, ht3⟩ := ht
    have hle := tiled_le ht3
    cases hgf : g.free
    · right
      refine ⟨g, post', rfl, hgf, ?_⟩
      rw [freeAddrs_cons_used hgf]
      rcases headD_mem_or (l := freeAddrs post') (e := endAddress c) with h1 | h1
      · rw [h1]; omega
      · obtain ⟨b, hb1, _, hb3⟩ := mem_freeAddrs.1 h1
        have := tiled_mem ht3 hb1
        omega
    · left
      refine ⟨g, post', rfl, hgf, ht1, ?_, by omega, ht2, ?_⟩
      · exact h.frees g (by simp [hpost]) hgf
      · have hc := h.chain
        rw [hpost, freeAddrs_append, freeAddrs_cons_free hgf] at hc
        have := (chain_append.1 hc).2
        cases hfa : freeAddrs post' with
        | nil => rw [hfa] at this; exact this
        | cons a l => rw [hfa] at this; exact this.1

end InsertPre

end Heap4

namespace Heap4

variable {c : Config} {s : State} {pre post : List Blk} {x sz : Nat}

/-- The second part of `prvInsertBlockIntoFreeList`, run on the block `[y, y + n)` that the
first part has made of the inserted block. -/
theorem InsertPre.back_stage (h : InsertPre c s pre post x sz) (hw : c.WF) (s1 : State)
    {y n : Nat} (hv : SameVars s s1) (hnext : s1.pxNextFreeBlock = s.pxNextFreeBlock)
    (hy : s1.xBlockSize y = n) (hsize : ∀ a, a ≠ y → s1.xBlockSize a = s.xBlockSize a)
    (hyn : y + n = x + sz) (hyx : y ≤ x) :
    ∃ m postK mid, coalesce [] y n post = m :: postK ∧ m.free = true ∧ m.addr = y ∧
      freeAddrs post = mid ++ freeAddrs postK ∧ (∀ b ∈ postK, b ∈ post) ∧
      SameVars s (mergeBehind c s1 ((freeAddrs pre).getLastD c.xStart) y) ∧
      (mergeBehind c s1 ((freeAddrs pre).getLastD c.xStart) y).xBlockSize y = m.size ∧
      (∀ a, a ≠ y →
        (mergeBehind c s1 ((freeAddrs pre).getLastD c.xStart) y).xBlockSize a
          = s.xBlockSize a) ∧
      (mergeBehind c s1 ((freeAddrs pre).getLastD c.xStart) y).pxNextFreeBlock y
        = (freeAddrs postK).headD (endAddress c) ∧
      (∀ a, a ≠ y →
        (mergeBehind c s1 ((freeAddrs pre).getLastD c.xStart) y).pxNextFreeBlock a
          = s.pxNextFreeBlock a) ∧
      y + m.size ≤ endAddress c := by
  have hg := geometry hw
  have hb := h.bounds
  have hs := h.size_pos
  have hnit : s1.pxNextFreeBlock ((freeAddrs pre).getLastD c.xStart)
      = (freeAddrs post).headD (endAddress c) := by rw [hnext]; exact h.next_it
  have hend1 : s1.pxEnd = endAddress c := hv.1.trans h.pxEnd_eq
  have hwy : wadd c y (s1.xBlockSize y) = x + sz := by
    rw [hy, wadd_eq c (by omega)]; exact hyn
  rcases h.back_cases with ⟨hpost, he⟩ | ⟨g, post', hpost, hgf, hga, hgs, hge, hgp, hgn⟩ |
      ⟨g, post', hpost, hgf, hne⟩
  · -- the block ends at `pxEnd`
    subst hpost
    have e1 : mergeBehind c s1 ((freeAddrs pre).getLastD c.xStart) y
        = s1.setNext y s1.pxEnd :=
      mergeBehind_end (by rw [hwy, hnit]; exact he) (by rw [hnit, hend1]; rfl)
    rw [e1]
    refine ⟨⟨y, n, true⟩, [], [], rfl, rfl, rfl, rfl, by simp, ?_, ?_, ?_, ?_, ?_, ?_⟩
    · exact hv.trans (sameVars_setNext _ _ _)
    · exact hy
    · intro a ha; exact hsize a ha
    · show store s1.pxNextFreeBlock y s1.pxEnd y = _
      rw [store_same, hend1]; rfl
    · intro a ha
      show store s1.pxNextFreeBlock y s1.pxEnd a = _
      rw [store_ne _ _ ha, hnext]
    · show y + n ≤ _
      omega
  · -- the block behind is free: the two are merged
    subst hpost
    have hnit' : s1.pxNextFreeBlock ((freeAddrs pre).getLastD c.xStart) = g.addr := by
      rw [hnit, freeAddrs_cons_free hgf]; rfl
    have hgy : g.addr ≠ y := by omega
    have hgle := tiled_le (h.tiled_post).2.2
    have e1 := mergeBehind_merge (c := c) (s := s1) (i := (freeAddrs pre).getLastD c.xStart)
      (y := y) (by rw [hwy, hnit', hga]) (by rw [hnit', hend1]; exact hge)
    rw [e1, hnit', hy, hsize _ hgy, hgs, wadd_eq c (by omega), hnext, hgn]
    refine ⟨⟨y, n + g.size, true⟩, post', [g.addr], ?_, rfl, rfl, ?_, ?_, ?_, ?_, ?_, ?_, ?_, ?_⟩
    · rw [coalesce_front_nil]; simp [hgf]
    · rw [freeAddrs_cons_free hgf]; rfl
    · intro b hb'; exact List.mem_cons_of_mem _ hb'
    · exact (hv.trans (sameVars_setSize _ _ _)).trans (sameVars_setNext _ _ _)
    · show store s1.xBlockSize y (n + g.size) y = _
      rw [store_same]
    · intro a ha
      show store s1.xBlockSize y (n + g.size) a = _
      rw [store_ne _ _ ha, hsize a ha]
    · show store s1.pxNextFreeBlock y _ y = _
      rw [store_same]
    · intro a ha
      show store s1.pxNextFreeBlock y _ a = _
      rw [store_ne _ _ ha, hnext]
    · show y + (n + g.size) ≤ _
      omega
  · -- the block behind is allocated
    subst hpost
    have e1 : mergeBehind c s1 ((freeAddrs pre).getLastD c.xStart) y
        = s1.setNext y (s1.pxNextFreeBlock ((freeAddrs pre).getLastD c.xStart)) :=
      mergeBehind_apart (by rw [hwy, hnit]; exact fun hh => hne hh.symm)
    rw [e1, hnit]
    refine ⟨⟨y, n, true⟩, g :: post', [], ?_, rfl, rfl, rfl, fun b hb' => hb', ?_, ?_, ?_, ?_,
      ?_, ?_⟩
    · rw [coalesce_front_nil]; simp [hgf]
    · exact hv.trans (sameVars_setNext _ _ _)
    · exact hy
    · intro a ha; exact hsize a ha
    · show store s1.pxNextFreeBlock y _ y = _
      rw [store_same]
    · intro a ha
      show store s1.pxNextFreeBlock y _ a = _
      rw [store_ne _ _ ha, hnext]
    · show y + n ≤ _
      omega

/-- From the changes `prvInsertBlockIntoFreeList` makes to the header memory to its effect
on the free list. -/
theorem InsertPre.finish (h : InsertPre c s pre post x sz) (hw : c.WF) (s' : State)
    (preK postK : List Blk) (mid : List Nat) (m : Blk)
    (hco : coalesce pre x sz post = preK ++ m :: postK)
    (hfa : freeAddrs (pre ++ post) = freeAddrs preK ++ (mid ++ freeAddrs postK))
    (hsub : ∀ b ∈ preK ++ postK, b ∈ pre ++ post)
    (hm : m.free = true) (hmx : m.addr = x ∨ m.addr ∈ mid)
    (d1 : s'.xBlockSize m.addr = m.size)
    (d2 : ∀ a, a ≠ m.addr → s'.xBlockSize a = s.xBlockSize a)
    (d3 : s'.pxNextFreeBlock m.addr = (freeAddrs postK).headD (endAddress c))
    (d4 : s'.pxNextFreeBlock ((freeAddrs preK).getLastD c.xStart) = m.addr)
    (d5 : ∀ a, a ≠ m.addr → a ≠ (freeAddrs preK).getLastD c.xStart →
      s'.pxNextFreeBlock a = s.pxNextFreeBlock a) :
    Chain s'.pxNextFreeBlock c.xStart (freeAddrs (coalesce pre x sz post)) (endAddress c) ∧
      (∀ b ∈ coalesce pre x sz post, b.free = true → s'.xBlockSize b.addr = b.size) ∧
      (∀ a, a ∉ freeAddrs (pre ++ post) → a ≠ x → s'.xBlockSize a = s.xBlockSize a) ∧
      (∀ a, a ∉ freeAddrs (pre ++ post) → a ≠ x → a ≠ c.xStart →
        s'.pxNextFreeBlock a = s.pxNextFreeBlock a) := by
  have hnd := h.ins_nodup hw
  have htK : Tiled (alignedHeap c).1 (preK ++ m :: postK) (endAddress c) := by
    rw [← hco]; exact coalesce_tiled h.tiled_pre h.size_pos h.tiled_post
  have hmem : m.addr = x ∨ m.addr ∈ freeAddrs (pre ++ post) := by
    rcases hmx with h1 | h1
    · exact Or.inl h1
    · right; rw [hfa]; simp [h1]
  have hy : m.addr ∉ c.xStart :: (freeAddrs preK ++ freeAddrs postK) := by
    intro hmem'
    rcases List.mem_cons.1 hmem' with h1 | h1
    · rcases hmem with h2 | h2
      · exact h.xStart_ne hw (h1.symm.trans h2)
      · exact h.ins_xStart_not_mem hw (h1 ▸ h2)
    · rcases hmx with h2 | h2
      · have : x ∈ freeAddrs (pre ++ post) := by
          rw [hfa, ← h2]
          rcases List.mem_append.1 h1 with h3 | h3
          · simp [h3]
          · simp [h3]
        exact h.x_not_mem this
      · have hnd2 : (freeAddrs preK ++ (mid ++ freeAddrs postK)).Nodup := by
          rw [← hfa]; exact (List.nodup_cons.1 hnd).2
        rcases List.mem_append.1 h1 with h3 | h3
        · exact (List.nodup_append.1 hnd2).2.2 h3 (List.mem_append_left _ h2)
        · exact (List.nodup_append.1 (List.nodup_append.1 hnd2).2.1).2.2 h2 h3
  have hitK : (freeAddrs preK).getLastD c.xStart = c.xStart ∨
      (freeAddrs preK).getLastD c.xStart ∈ freeAddrs (pre ++ post) := by
    rcases getLastD_mem_or (l := freeAddrs preK) (p := c.xStart) with h1 | h1
    · exact Or.inl h1
    · right; rw [hfa]; exact List.mem_append_left _ h1
  refine ⟨?_, ?_, ?_, ?_⟩
  · rw [hco, freeAddrs_append, freeAddrs_cons_free hm]
    have hc := h.chain
    rw [hfa] at hc hnd
    exact chain_rebuild hc hnd d4 d3 (fun a _ h1 h2 => d5 a h2 h1) hy
  · intro b hb hbf
    rw [hco] at hb
    by_cases hbm : b.addr = m.addr
    · have : b = m := tiled_addr_inj htK hb (by simp) hbm
      rw [this]; exact d1
    · rw [d2 _ hbm]
      refine h.frees b (hsub b ?_) hbf
      rcases List.mem_append.1 hb with h1 | h1
      · exact List.mem_append_left _ h1
      · rcases List.mem_cons.1 h1 with h2 | h2
        · exact absurd (h2 ▸ rfl) hbm
        · exact List.mem_append_right _ h2
  · intro a ha hax
    refine d2 a ?_
    rintro rfl
    rcases hmem with h1 | h1
    · exact hax h1
    · exact ha h1
  · intro a ha hax has
    refine d5 a ?_ ?_
    · rintro rfl
      rcases hmem with h1 | h1
      · exact hax h1
      · exact ha h1
    · rintro rfl
      rcases hitK with h1 | h1
      · exact has h1
      · exact ha h1

end Heap4

namespace Heap4

variable {c : Config} {s : State} {pre post : List Blk} {x sz : Nat}

/-- What `prvInsertBlockIntoFreeList` does in `heap_4.c`: with fuel above the heap size it
returns, the free list then holds the free regions of `coalesce pre x sz post`, each with its
size, and no header off the old free list is touched, that of the block apart. -/
theorem InsertPre.spec (h : InsertPre c s pre post x sz) (hw : c.WF) {fuel : Nat}
    (hfuel : c.configTOTAL_HEAP_SIZE < fuel) :
    ∃ s', prvInsertBlockIntoFreeList c fuel s x = some s' ∧ SameVars s s' ∧
      Chain s'.pxNextFreeBlock c.xStart (freeAddrs (coalesce pre x sz post)) (endAddress c) ∧
      (∀ b ∈ coalesce pre x sz post, b.free = true → s'.xBlockSize b.addr = b.size) ∧
      (∀ a, a ∉ freeAddrs (pre ++ post) → a ≠ x → s'.xBlockSize a = s.xBlockSize a) ∧
      (∀ a, a ∉ freeAddrs (pre ++ post) → a ≠ x → a ≠ c.xStart →
        s'.pxNextFreeBlock a = s.pxNextFreeBlock a) ∧
      x + s'.xBlockSize x ≤ endAddress c := by
  have hg := geometry hw
  have hb := h.bounds
  have hs := h.size_pos
  have hloop := h.loop hw hfuel
  rcases h.front_cases hw with ⟨hfront, hne, hco⟩ |
      ⟨pre', f, hpre, hff, hit, hfs, hfw, hfx, hco⟩
  · -- no merge with the block in front
    obtain ⟨m, postK, mid, hb1, hb2, hb3, hb4, hb5, hb6, hb7, hb8, hb9, hb10, hb11⟩ :=
      h.back_stage hw s (SameVars.refl s) rfl h.size_x (fun _ _ => rfl) rfl (Nat.le_refl x)
    refine ⟨_, insert_eval_apart hloop hfront hne, hb6.trans (sameVars_setNext _ _ _), ?_⟩
    have hfin := h.finish hw ((mergeBehind c s ((freeAddrs pre).getLastD c.xStart)
        x).setNext ((freeAddrs pre).getLastD c.xStart) x) pre postK
      mid m (by rw [hco, hb1]) (by rw [freeAddrs_append, hb4])
      (by
        intro b hb'
        rcases List.mem_append.1 hb' with h1 | h1
        · exact List.mem_append_left _ h1
        · exact List.mem_append_right _ (hb5 b h1))
      hb2 (Or.inl hb3) (by rw [hb3]; exact hb7) (by rw [hb3]; exact hb8)
      (by
        rw [hb3]
        show store _ _ _ x = _
        rw [store_ne _ _ hne.symm]; exact hb9)
      (by
        rw [hb3]
        show store _ _ _ _ = _
        rw [store_same])
      (by
        rw [hb3]
        intro a ha1 ha2
        show store _ _ _ a = _
        rw [store_ne _ _ ha2]; exact hb10 a ha1)
    refine ⟨hfin.1, hfin.2.1, hfin.2.2.1, hfin.2.2.2, ?_⟩
    show x + (mergeBehind c s ((freeAddrs pre).getLastD c.xStart) x).xBlockSize x ≤ _
    rw [hb7]; exact hb11
  · -- the block in front is free and absorbs the block
    have hfx' : f.addr ≠ x := by
      have := (tiled_split (hpre ▸ h.tiled_pre)).2.1
      omega
    have hsz1 : wadd c (s.xBlockSize f.addr) (s.xBlockSize x) = f.size + sz := by
      rw [hfs, h.size_x, wadd_eq c (by omega)]
    rw [hit] at hloop
    have hev := insert_eval_merge (c := c) hloop (by rw [hfs]; exact hfw)
    rw [hsz1] at hev
    have hbs := h.back_stage hw (s.setSize f.addr (f.size + sz))
        (y := f.addr) (n := f.size + sz)
        (sameVars_setSize _ _ _) rfl (store_same _ _ _)
        (fun a ha => store_ne _ _ ha) (by omega) (by omega)
    rw [hit] at hbs
    obtain ⟨m, postK, mid, hb1, hb2, hb3, hb4, hb5, hb6, hb7, hb8, hb9, hb10, hb11⟩ := hbs
    refine ⟨_, hev, hb6, ?_⟩
    have hfa : freeAddrs (pre ++ post)
        = freeAddrs pre' ++ ((f.addr :: mid) ++ freeAddrs postK) := by
      rw [freeAddrs_append, hpre, freeAddrs_append, freeAddrs_cons_free hff, hb4]
      simp
    have hnd := h.ins_nodup hw
    have hprev : (freeAddrs pre').getLastD c.xStart ≠ f.addr := by
      intro hh
      rw [hfa] at hnd
      rcases getLastD_mem_or (l := freeAddrs pre') (p := c.xStart) with h1 | h1
      · rw [h1] at hh
        exact (List.nodup_cons.1 hnd).1 (hh ▸ by simp)
      · exact (List.nodup_append.1 (List.nodup_cons.1 hnd).2).2.2 h1 (hh ▸ by simp)
    have hfin := h.finish hw (mergeBehind c (s.setSize f.addr (f.size + sz)) f.addr f.addr)
      pre' postK (f.addr :: mid) m
      (by rw [hco, hb1]) hfa
      (by
        intro b hb'
        rcases List.mem_append.1 hb' with h1 | h1
        · exact List.mem_append_left _ (by rw [hpre]; exact List.mem_append_left _ h1)
        · exact List.mem_append_right _ (hb5 b h1))
      hb2 (Or.inr (by rw [hb3]; simp)) (by rw [hb3]; exact hb7) (by rw [hb3]; exact hb8)
      (by rw [hb3]; exact hb9)
      (by
        rw [hb3, hb10 _ hprev]
        have hc := h.chain
        rw [hfa] at hc
        exact chain_next_mid hc)
      (by
        rw [hb3]
        intro a ha1 _
        exact hb10 a ha1)
    refine ⟨hfin.1, hfin.2.1, hfin.2.2.1, hfin.2.2.2, ?_⟩
    rw [hb8 x hfx'.symm, h.size_x]
    omega

end Heap4

theorem freeSum_add_used_le {b : Blk} {l : List Blk} (hb : b ∈ l) (hf : b.free = false) :
    freeSum l + b.size ≤ (l.map (fun b => b.size)).sum := by
  obtain ⟨l1, l2, rfl⟩ := List.append_of_mem hb
  have h1 := freeSum_le_sum l1
  have h2 := freeSum_le_sum l2
  rw [freeSum_append, freeSum_cons_used hf]
  simp only [List.map_append, List.map_cons, List.sum_append, List.sum_cons]
  omega

namespace Heap4

variable {c : Config}

/-! ### `pvPortMalloc` of `heap_4.c` -/

/-- The wanted size after the adjustment: `0` when the request is `0` or the sum overflows,
and otherwise the request plus the header plus the padding up to the next multiple of the
alignment above the request. -/
theorem adjust_facts (hw : c.WF) (n : Nat) :
    (adjustWantedSize c n = 0 ∧
      (n = 0 ∨ c.wordMod ≤ n + (xHeapStructSize c + c.portBYTE_ALIGNMENT
        - n % c.portBYTE_ALIGNMENT))) ∨
    (0 < n ∧ adjustWantedSize c n
        = n + (xHeapStructSize c + c.portBYTE_ALIGNMENT - n % c.portBYTE_ALIGNMENT) ∧
      n + (xHeapStructSize c + c.portBYTE_ALIGNMENT - n % c.portBYTE_ALIGNMENT) < c.wordMod) := by
  have hA := hw.align_pos
  have hs := hs_facts hw
  have hb := hw.heap_big
  have hf := hw.heap_fits
  have hM := hw.wordMod_pos
  have hmod := Nat.mod_lt n hA
  have hadd : wsub c (wadd c (xHeapStructSize c) c.portBYTE_ALIGNMENT)
      (n &&& portBYTE_ALIGNMENT_MASK c)
      = xHeapStructSize c + c.portBYTE_ALIGNMENT - n % c.portBYTE_ALIGNMENT := by
    rw [hw.and_mask, wadd_eq c (by omega), wsub_eq c (by omega) (by omega)]
  by_cases h0 : n > 0
  · have hval : adjustWantedSize c n =
        if heapADD_WILL_OVERFLOW c n
            (xHeapStructSize c + c.portBYTE_ALIGNMENT - n % c.portBYTE_ALIGNMENT) = false then
          wadd c n (xHeapStructSize c + c.portBYTE_ALIGNMENT - n % c.portBYTE_ALIGNMENT)
        else 0 := by
      unfold adjustWantedSize
      rw [if_pos h0]
      simp only [hadd]
    rw [hval]
    by_cases hov : heapADD_WILL_OVERFLOW c n
        (xHeapStructSize c + c.portBYTE_ALIGNMENT - n % c.portBYTE_ALIGNMENT) = false
    · right
      have : n + (xHeapStructSize c + c.portBYTE_ALIGNMENT - n % c.portBYTE_ALIGNMENT)
          < c.wordMod := by
        unfold heapADD_WILL_OVERFLOW heapSIZE_MAX at hov
        simp only [gt_iff_lt, decide_eq_false_iff_not, not_lt] at hov
        omega
      rw [if_pos hov, wadd_eq c this]
      exact ⟨h0, rfl, this⟩
    · left
      rw [if_neg hov]
      refine ⟨rfl, Or.inr ?_⟩
      unfold heapADD_WILL_OVERFLOW heapSIZE_MAX at hov
      simp only [gt_iff_lt, decide_eq_false_iff_not, not_lt, not_le] at hov
      omega
  · left
    unfold adjustWantedSize
    rw [if_neg h0]
    exact ⟨by omega, Or.inl (by omega)⟩

/-- A non-zero adjusted size is a multiple of the alignment and exceeds the request by at
least the header size. -/
theorem adjust_pos_facts (hw : c.WF) {n : Nat}
    (hpos : 0 < adjustWantedSize c n) :
    adjustWantedSize c n % c.portBYTE_ALIGNMENT = 0 ∧
      n + xHeapStructSize c < adjustWantedSize c n ∧ 0 < n ∧
      adjustWantedSize c n < c.wordMod ∧
      adjustWantedSize c n ≤ n + xHeapStructSize c + c.portBYTE_ALIGNMENT := by
  have hA := hw.align_pos
  have hs := hs_facts hw
  have hmod := Nat.mod_lt n hA
  have hle := Nat.mod_le n c.portBYTE_ALIGNMENT
  rcases adjust_facts hw n with ⟨h0, _⟩ | ⟨h1, h2, h3⟩
  · omega
  · rw [h2]
    refine ⟨?_, by omega, h1, h3, by omega⟩
    have e : n + (xHeapStructSize c + c.portBYTE_ALIGNMENT - n % c.portBYTE_ALIGNMENT)
        = (n - n % c.portBYTE_ALIGNMENT) + (xHeapStructSize c + c.portBYTE_ALIGNMENT) := by
      omega
    rw [e, Nat.add_mod, sub_mod_self_mod, Nat.add_mod (xHeapStructSize c), hs.1,
      Nat.mod_self]
    simp

theorem malloc_boot {s : State} (hw : c.WF) (h0 : s.pxEnd = 0) (fuel n : Nat) :
    pvPortMalloc c fuel s n = pvPortMalloc c fuel (prvHeapInit c s) n := by
  have hne : (prvHeapInit c s).pxEnd ≠ 0 := by
    have := geometry hw
    have := end_facts hw
    show endAddress c ≠ 0
    omega
  unfold pvPortMalloc
  simp only [h0, if_true, hne, if_false]

theorem Inv.end_ne (hw : c.WF) {s : State} {bs : List Blk} (h : Inv c s bs) : s.pxEnd ≠ 0 := by
  have := geometry hw
  have := end_facts hw
  rw [h.pxEnd_eq]
  omega

/-- The sizes in a tiling of the heap are below the allocation flag. -/
theorem size_lt_half (hw : c.WF) {bs : List Blk} (ht : Tiled (alignedHeap c).1 bs (endAddress c))
    {b : Blk} (hb : b ∈ bs) : b.size < 2 ^ (c.bits - 1) ∧ b.addr + b.size < c.wordMod ∧
      (alignedHeap c).1 ≤ b.addr ∧ b.addr + b.size ≤ endAddress c ∧ 0 < b.size := by
  have := geometry hw
  have := tiled_mem ht hb
  omega

/-- The last part of `pvPortMalloc`: marking the region taken as allocated restores the
invariant. -/
theorem Taken.mark (hw : c.WF) {s : State} {bs : List Blk} {a sz : Nat}
    (h : Taken c s bs a sz) :
    Inv c (Heap4.takeBlock c s a) bs ∧
      (Heap4.takeBlock c s a).xFreeBytesRemaining = s.xFreeBytesRemaining - sz ∧
      (Heap4.takeBlock c s a).xMinimumEverFreeBytesRemaining
        = min s.xMinimumEverFreeBytesRemaining (s.xFreeBytesRemaining - sz) ∧
      (Heap4.takeBlock c s a).xNumberOfSuccessfulAllocations
        = wadd c s.xNumberOfSuccessfulAllocations 1 ∧
      (Heap4.takeBlock c s a).xNumberOfSuccessfulFrees = s.xNumberOfSuccessfulFrees ∧
      (Heap4.takeBlock c s a).xBlockSize a = sz + heapBLOCK_ALLOCATED_BITMASK c := by
  have hg := geometry hw
  have ht : Tiled (alignedHeap c).1 bs (endAddress c) := h.pxEnd_eq ▸ h.tiled
  have hm := size_lt_half hw ht h.mem
  have hm1 : sz < 2 ^ (c.bits - 1) := hm.1
  have hm2 : (alignedHeap c).1 ≤ a := hm.2.2.1
  have hm3 : a + sz ≤ endAddress c := hm.2.2.2.1
  have hm4 : 0 < sz := hm.2.2.2.2
  have hsub : wsub c s.xFreeBytesRemaining (s.xBlockSize a) = s.xFreeBytesRemaining - sz := by
    rw [h.size_a, wsub_eq c (by rw [h.free_eq]; omega)]
    have h1 := freeSum_add_used_le h.mem rfl
    have h1' : freeSum bs + sz ≤ (bs.map (fun b => b.size)).sum := h1
    have h2 := tiled_sum ht
    rw [h.free_eq]
    have h4 := hw.heap_fits
    have h5 := base_facts hw
    have h6 := end_facts hw
    omega
  have hna : a ∉ freeAddrs bs := by
    intro ha
    obtain ⟨b, hb1, hb2, hb3⟩ := mem_freeAddrs.1 ha
    have := tiled_addr_inj ht hb1 h.mem hb3
    rw [this] at hb2
    exact absurd hb2 (by simp)
  have hxa : c.xStart ≠ a := by omega
  have hea : s.pxEnd ≠ a := by rw [h.pxEnd_eq]; omega
  have hsize : (Heap4.takeBlock c s a).xBlockSize
      = store s.xBlockSize a (sz + heapBLOCK_ALLOCATED_BITMASK c) := by
    unfold Heap4.takeBlock
    simp only [State.setSize, State.setNext]
    split <;> simp only [h.size_a, hw.allocate_eq hm1]
  have hnext : (Heap4.takeBlock c s a).pxNextFreeBlock = store s.pxNextFreeBlock a 0 := by
    unfold Heap4.takeBlock
    simp only [State.setSize, State.setNext]
    split <;> rfl
  have hend : (Heap4.takeBlock c s a).pxEnd = s.pxEnd := by
    unfold Heap4.takeBlock
    simp only [State.setSize, State.setNext]
    split <;> rfl
  have hfree : (Heap4.takeBlock c s a).xFreeBytesRemaining = s.xFreeBytesRemaining - sz := by
    unfold Heap4.takeBlock
    simp only [State.setSize, State.setNext, hsub]
    split <;> rfl
  have hmin : (Heap4.takeBlock c s a).xMinimumEverFreeBytesRemaining
      = min s.xMinimumEverFreeBytesRemaining (s.xFreeBytesRemaining - sz) := by
    unfold Heap4.takeBlock
    simp only [State.setSize, State.setNext, hsub]
    split
    · rename_i hlt
      simp only
      omega
    · rename_i hlt
      simp only
      omega
  refine ⟨?_, hfree, hmin, ?_, ?_, ?_⟩
  · constructor
    · rw [hend]; exact h.pxEnd_eq
    · rw [hend]; exact h.tiled
    · intro b hb
      rw [hsize]
      by_cases hba : b.addr = a
      · have : b = ⟨a, sz, false⟩ := tiled_addr_inj ht hb h.mem hba
        rw [this]; simp
      · rw [store_ne _ _ hba]; exact h.sizes b hb hba
    · intro b hb hbf
      rw [hnext]
      by_cases hba : b.addr = a
      · rw [hba, store_same]
      · rw [store_ne _ _ hba]; exact h.nexts b hb hba hbf
    · exact h.aligned
    · rw [hnext, hend]
      exact chain_frame 0 (Ne.symm hxa) hna h.chain
    · rw [hsize, store_ne _ _ hxa]; exact h.start_size
    · rw [hsize, hend, store_ne _ _ hea]; exact h.end_size
    · rw [hnext, hend, store_ne _ _ hea]; exact h.end_next
    · rw [hfree, h.free_eq]; omega
    · rw [hmin, hfree]; omega
  · unfold Heap4.takeBlock
    simp only [State.setSize, State.setNext]
    split <;> rfl
  · unfold Heap4.takeBlock
    simp only [State.setSize, State.setNext]
    split <;> rfl
  · rw [hsize, store_same]

end Heap4

theorem addr_not_free_of_used {bs : List Blk} {lo hi : Nat} (ht : Tiled lo bs hi) {b : Blk}
    (hb : b ∈ bs) (hf : b.free = false) : b.addr ∉ freeAddrs bs := by
  intro ha
  obtain ⟨b', hb1, hb2, hb3⟩ := mem_freeAddrs.1 ha
  have := tiled_addr_inj ht hb1 hb hb3
  rw [this, hf] at hb2
  exact absurd hb2 (by simp)

namespace Heap4

variable {c : Config} {s : State} {bs : List Blk}

theorem Inv.tiled' (h : Inv c s bs) : Tiled (alignedHeap c).1 bs (endAddress c) :=
  h.pxEnd_eq ▸ h.tiled

theorem Inv.mem_free (h : Inv c s bs) {a : Nat} (ha : a ∈ freeAddrs bs) :
    (alignedHeap c).1 ≤ a ∧ a < endAddress c := by
  obtain ⟨b, hb, _, rfl⟩ := mem_freeAddrs.1 ha
  have := tiled_mem h.tiled' hb
  omega

theorem Inv.xStart_not_mem (hw : c.WF) (h : Inv c s bs) : c.xStart ∉ freeAddrs bs := by
  intro hx
  have := h.mem_free hx
  have := geometry hw
  omega

theorem Inv.end_not_mem (h : Inv c s bs) : endAddress c ∉ freeAddrs bs :=
  fun hx => Nat.lt_irrefl _ (h.mem_free hx).2

theorem Inv.nodup (hw : c.WF) (h : Inv c s bs) : (c.xStart :: freeAddrs bs).Nodup :=
  List.nodup_cons.2 ⟨h.xStart_not_mem hw, freeAddrs_nodup h.tiled'⟩

theorem Inv.length_lt (hw : c.WF) (h : Inv c s bs) {fuel : Nat}
    (hfuel : c.configTOTAL_HEAP_SIZE < fuel) : (freeAddrs bs).length < fuel := by
  have h1 := freeAddrs_length_le bs
  have h2 := tiled_length h.tiled'
  have hb := base_facts hw
  have he := end_facts hw
  omega

/-- The search of `pvPortMalloc` on a state satisfying the invariant: it ends on `pxEnd` when
no free region is large enough, and otherwise on the first free region, in address order,
that is large enough. -/
theorem Inv.search (hw : c.WF) (h : Inv c s bs) (w : Nat) {fuel : Nat}
    (hfuel : c.configTOTAL_HEAP_SIZE < fuel) :
    (searchLoop s.pxNextFreeBlock s.xBlockSize w fuel c.xStart (s.pxNextFreeBlock c.xStart)
        = some ((freeAddrs bs).getLastD c.xStart, s.pxEnd) ∧
      ∀ b ∈ bs, b.free = true → b.size < w) ∨
    (∃ pre b post, bs = pre ++ b :: post ∧ b.free = true ∧ w ≤ b.size ∧
      (∀ x ∈ pre, x.free = true → x.size < w) ∧
      searchLoop s.pxNextFreeBlock s.xBlockSize w fuel c.xStart (s.pxNextFreeBlock c.xStart)
        = some ((freeAddrs pre).getLastD c.xStart, b.addr)) := by
  have hg := geometry hw
  have hnz : ∀ a ∈ freeAddrs bs, s.pxNextFreeBlock a ≠ 0 := by
    intro a ha
    rcases chain_next_mem h.chain ha with h1 | h1
    · have := h.mem_free h1; omega
    · rw [h1]; exact h.end_ne hw
  have hspec := searchLoop_spec s.pxNextFreeBlock s.xBlockSize w s.pxEnd h.end_next
    (freeAddrs bs) c.xStart fuel h.chain hnz (h.length_lt hw hfuel)
  have hsz : ∀ b ∈ bs, b.free = true → s.xBlockSize b.addr = b.size := by
    intro b hb hf
    rw [h.sizes b hb, if_pos hf]
  have htd := List.takeWhile_append_dropWhile (fun a => decide (s.xBlockSize a < w))
    (freeAddrs bs)
  cases hd : (freeAddrs bs).dropWhile (fun a => decide (s.xBlockSize a < w)) with
  | nil =>
    left
    rw [hd, List.append_nil] at htd
    rw [hd, htd] at hspec
    refine ⟨hspec, ?_⟩
    intro b hb hf
    have := List.dropWhile_eq_nil_iff.1 hd b.addr (mem_freeAddrs.2 ⟨b, hb, hf, rfl⟩)
    rw [hsz b hb hf] at this
    simpa using this
  | cons a l2 =>
    right
    rw [hd] at htd
    obtain ⟨pre, b, post, h1, h2, h3, h4, h5⟩ := freeAddrs_split htd.symm
    have hbm : b ∈ bs := by rw [h1]; simp
    have hna : ¬ s.xBlockSize a < w := by
      have := List.head_dropWhile_not (fun a => decide (s.xBlockSize a < w)) (freeAddrs bs)
        (by rw [hd]; simp)
      simp only [hd, List.head_cons] at this
      simpa using this
    refine ⟨pre, b, post, h1, h2, ?_, ?_, ?_⟩
    · rw [← h3, hsz b hbm h2] at hna
      omega
    · intro x hx hxf
      have hxm : x ∈ bs := by rw [h1]; simp [hx]
      have : x.addr ∈ (freeAddrs bs).takeWhile (fun a => decide (s.xBlockSize a < w)) := by
        rw [← h4]; exact mem_freeAddrs.2 ⟨x, hx, hxf, rfl⟩
      have := List.mem_takeWhile_imp this
      rw [hsz x hxm hxf] at this
      simpa using this
    · rw [hspec, hd, h4, h3]
      rfl

/-- Taking the region found off the free list. -/
theorem Inv.unlink (hw : c.WF) (h : Inv c s bs) {pre post : List Blk} {b : Blk}
    (hbs : bs = pre ++ b :: post) (hf : b.free = true) :
    s.pxNextFreeBlock ((freeAddrs pre).getLastD c.xStart) = b.addr ∧
      Chain (s.setNext ((freeAddrs pre).getLastD c.xStart)
        (s.pxNextFreeBlock b.addr)).pxNextFreeBlock c.xStart (freeAddrs (pre ++ post))
        (endAddress c) := by
  have hc := h.chain
  have hnd := h.nodup hw
  rw [hbs, freeAddrs_append, freeAddrs_cons_free hf, h.pxEnd_eq] at hc
  rw [hbs, freeAddrs_append, freeAddrs_cons_free hf] at hnd
  refine ⟨chain_next_mid hc, ?_⟩
  rw [freeAddrs_append]
  refine chain_unlink hc hnd (store_same _ _ _) ?_
  intro a _ hne
  exact store_ne _ _ hne

end Heap4

namespace Heap4

variable {c : Config} {s : State} {bs : List Blk}

/-- The facts about a free region of the heap that the proofs use. -/
theorem Inv.free_block (hw : c.WF) (h : Inv c s bs) {pre post : List Blk} {b : Blk}
    (hbs : bs = pre ++ b :: post) (hf : b.free = true) :
    s.xBlockSize b.addr = b.size ∧ Tiled (alignedHeap c).1 pre b.addr ∧
      Tiled (b.addr + b.size) post (endAddress c) ∧ 0 < b.size ∧
      b.addr + b.size ≤ endAddress c ∧ (alignedHeap c).1 ≤ b.addr ∧
      b.addr % c.portBYTE_ALIGNMENT = 0 ∧ c.xStart ≠ b.addr ∧
      (∀ x ∈ pre ++ post, x ∈ bs ∧ x.addr ≠ b.addr ∧
        (x.addr + x.size ≤ b.addr ∨ b.addr + b.size ≤ x.addr)) := by
  have hbm : b ∈ bs := by rw [hbs]; simp
  have ht := h.tiled'
  rw [hbs] at ht
  obtain ⟨ht1, ht2, ht3⟩ := tiled_split ht
  have hg := geometry hw
  have hb1 := tiled_le ht1
  have hb2 := tiled_le ht3
  refine ⟨by rw [h.sizes b hbm, if_pos hf], ht1, ht3, ht2, hb2, hb1, h.aligned b hbm, by omega, ?_⟩
  intro x hx
  rcases List.mem_append.1 hx with hx | hx
  · have := tiled_mem ht1 hx
    exact ⟨by rw [hbs]; simp [hx], by omega, by omega⟩
  · have := tiled_mem ht3 hx
    exact ⟨by rw [hbs]; simp [hx], by omega, by omega⟩

/-- Splitting the region found: the state in which the rest is inserted into the free list. -/
theorem Inv.split_pre (hw : c.WF) (h : Inv c s bs) {pre post : List Blk} {b : Blk}
    (hbs : bs = pre ++ b :: post) (hf : b.free = true) {w : Nat} (hw0 : 0 < w)
    (hwb : w < b.size) :
    InsertPre c
      (((s.setNext ((freeAddrs pre).getLastD c.xStart) (s.pxNextFreeBlock b.addr)).setSize
        (b.addr + w) (b.size - w)).setSize b.addr w)
      (pre ++ [⟨b.addr, w, false⟩]) post (b.addr + w) (b.size - w) := by
  obtain ⟨hb1, hb2, hb3, hb4, hb5, hb6, hb7, hb8, hb9⟩ := h.free_block hw hbs hf
  have hg := geometry hw
  have hne : b.addr + w ≠ b.addr := by omega
  constructor
  · exact h.pxEnd_eq
  · exact tiled_append.2 ⟨b.addr, hb2, rfl, hw0, rfl⟩
  · omega
  · have : b.addr + w + (b.size - w) = b.addr + b.size := by omega
    rw [this]; exact hb3
  · show store (store s.xBlockSize (b.addr + w) (b.size - w)) b.addr w (b.addr + w) = _
    rw [store_ne _ _ hne, store_same]
  · intro x hx hxf
    have hx' : x ∈ pre ++ post := by
      simp only [List.append_assoc, List.mem_append, List.mem_cons, List.mem_singleton,
        List.not_mem_nil, or_false] at hx ⊢
      rcases hx with hx | hx | hx
      · exact Or.inl hx
      · rw [hx] at hxf; exact absurd hxf (by simp)
      · exact Or.inr hx
    obtain ⟨hx1, hx2, hx3⟩ := hb9 x hx'
    have hxs := (tiled_mem h.tiled' hx1).2.2
    show store (store s.xBlockSize (b.addr + w) (b.size - w)) b.addr w x.addr = _
    rw [store_ne _ _ hx2, store_ne _ _ (by omega), h.sizes x hx1, if_pos hxf]
  · have := (h.unlink hw hbs hf).2
    have e : freeAddrs ((pre ++ [⟨b.addr, w, false⟩]) ++ post) = freeAddrs (pre ++ post) := by
      rw [List.append_assoc, freeAddrs_append, List.singleton_append,
        freeAddrs_cons_used rfl, ← freeAddrs_append]
    rw [e]; exact this
  · show store (store s.xBlockSize (b.addr + w) (b.size - w)) b.addr w c.xStart = _
    rw [store_ne _ _ hb8, store_ne _ _ (by omega)]
    exact h.start_size

end Heap4

namespace Heap4

variable {c : Config} {s : State} {bs : List Blk}

theorem allocSize_split {w : Nat} {b : Blk} (h : b.size - w > heapMINIMUM_BLOCK_SIZE c) :
    allocSize c w b = w := by
  unfold allocSize
  rw [if_pos h]

theorem allocSize_whole {w : Nat} {b : Blk} (h : ¬ b.size - w > heapMINIMUM_BLOCK_SIZE c) :
    allocSize c w b = b.size := by
  unfold allocSize
  rw [if_neg h]

/-- The split step of `pvPortMalloc` on the region found: it returns, and leaves the heap as
`allocAt` describes, the region taken having the size `allocSize`. -/
theorem Inv.split (hw : c.WF) (h : Inv c s bs) {pre post : List Blk} {b : Blk}
    (hbs : bs = pre ++ b :: post) (hf : b.free = true) {w : Nat} (hw0 : 0 < w)
    (hwb : w ≤ b.size) (hwA : w % c.portBYTE_ALIGNMENT = 0) {fuel : Nat}
    (hfuel : c.configTOTAL_HEAP_SIZE < fuel) :
    ∃ s3, splitBlock c fuel
        (s.setNext ((freeAddrs pre).getLastD c.xStart) (s.pxNextFreeBlock b.addr)) b.addr w
        = Outcome.ok s3 () ∧
      Taken c s3 (allocAt c w pre b post) b.addr (allocSize c w b) ∧ SameVars s s3 ∧
      w ≤ allocSize c w b ∧ allocSize c w b ≤ b.size := by
  obtain ⟨hb1, hb2, hb3, hb4, hb5, hb6, hb7, hb8, hb9⟩ := h.free_block hw hbs hf
  have hg := geometry hw
  have hmin := minBlock_eq hw
  have hprev := getLastD_mem_or (l := freeAddrs pre) (p := c.xStart)
  have hfa : freeAddrs bs = freeAddrs pre ++ b.addr :: freeAddrs post := by
    rw [hbs, freeAddrs_append, freeAddrs_cons_free hf]
  -- the predecessor is `xStart` or a free region: it is no allocated region and not `pxEnd`
  have hprev_used : ∀ x ∈ bs, x.free = false → x.addr ≠ (freeAddrs pre).getLastD c.xStart := by
    intro x hx hxf hh
    rcases hprev with h1 | h1
    · have := tiled_mem h.tiled' hx
      omega
    · exact addr_not_free_of_used h.tiled' hx hxf
        (by rw [hfa, hh]; exact List.mem_append_left _ h1)
  have hprev_end : endAddress c ≠ (freeAddrs pre).getLastD c.xStart := by
    intro hh
    rcases hprev with h1 | h1
    · omega
    · exact h.end_not_mem (by rw [hfa, hh]; exact List.mem_append_left _ h1)
  have hsub : wsub c ((s.setNext ((freeAddrs pre).getLastD c.xStart)
      (s.pxNextFreeBlock b.addr)).xBlockSize b.addr) w = b.size - w := by
    show wsub c (s.xBlockSize b.addr) w = _
    rw [hb1, wsub_eq c hwb (by omega)]
  unfold splitBlock
  by_cases hsp : b.size - w > heapMINIMUM_BLOCK_SIZE c
  · -- the region is split
    have hwlt : w < b.size := by omega
    have hnew : wadd c b.addr w = b.addr + w := wadd_eq c (by omega)
    have hal : ¬ (b.addr + w) &&& portBYTE_ALIGNMENT_MASK c ≠ 0 := by
      rw [hw.and_mask, Nat.add_mod, hb7, hwA]
      simp
    have hpre := h.split_pre hw hbs hf hw0 hwlt
    obtain ⟨s3, hs3, hv0, hchain, hfree, hfs, hfn, _⟩ := hpre.spec hw hfuel
    have hv : SameVars s s3 := hv0
    have hend3 : s3.pxEnd = endAddress c := hv.1.trans h.pxEnd_eq
    have e : freeAddrs ((pre ++ [⟨b.addr, w, false⟩]) ++ post) = freeAddrs (pre ++ post) := by
      rw [List.append_assoc, freeAddrs_append, List.singleton_append,
        freeAddrs_cons_used rfl, ← freeAddrs_append]
    rw [e] at hfs hfn
    have hco : coalesce (pre ++ [⟨b.addr, w, false⟩]) (b.addr + w) (b.size - w) post
        = allocAt c w pre b post := by
      unfold allocAt
      rw [if_pos hsp, coalesce_front_used pre rfl]
    rw [hco] at hchain hfree
    have htl : Tiled (alignedHeap c).1 (allocAt c w pre b post) (endAddress c) := by
      rw [← hco]
      exact coalesce_tiled hpre.tiled_pre hpre.size_pos hpre.tiled_post
    have hmem : (⟨b.addr, w, false⟩ : Blk) ∈ allocAt c w pre b post := by
      unfold allocAt
      rw [if_pos hsp]; simp
    -- the allocated regions other than the one taken are those of `pre` and `post`
    have hused : ∀ x ∈ allocAt c w pre b post, x.addr ≠ b.addr → x.free = false →
        x ∈ pre ++ post := by
      intro x hx hxa hxf
      have : x ∈ usedBlocks (allocAt c w pre b post) := mem_usedBlocks.2 ⟨hx, hxf⟩
      rw [← hco, coalesce_used, usedBlocks_append, List.append_assoc] at this
      simp only [List.mem_append, mem_usedBlocks, List.mem_singleton] at this
      rcases this with h1 | h1 | h1
      · exact List.mem_append_left _ h1.1
      · rw [h1.1] at hxa; exact absurd rfl hxa
      · exact List.mem_append_right _ h1.1
    have hframe : ∀ x ∈ pre ++ post, x.free = false →
        s3.xBlockSize x.addr = s.xBlockSize x.addr ∧
        s3.pxNextFreeBlock x.addr = s.pxNextFreeBlock x.addr := by
      intro x hx hxf
      obtain ⟨hx1, hx2, hx3⟩ := hb9 x hx
      have hxs := tiled_mem h.tiled' hx1
      have hnf : x.addr ∉ freeAddrs (pre ++ post) := by
        intro hh
        have := addr_not_free_of_used h.tiled' hx1 hxf
        rw [hfa] at this
        rw [freeAddrs_append] at hh
        rcases List.mem_append.1 hh with h1 | h1
        · exact this (by simp [h1])
        · exact this (by simp [h1])
      constructor
      · rw [hfs _ hnf (by omega)]
        show store (store s.xBlockSize (b.addr + w) (b.size - w)) b.addr w x.addr = _
        rw [store_ne _ _ hx2, store_ne _ _ (by omega)]
      · rw [hfn _ hnf (by omega) (by omega)]
        show store s.pxNextFreeBlock _ _ x.addr = _
        rw [store_ne _ _ (hprev_used x hx1 hxf)]
    have hbnf : b.addr ∉ freeAddrs (pre ++ post) := by
      have := h.nodup hw
      rw [hfa] at this
      have h2 := (List.nodup_cons.1 this).2
      rw [freeAddrs_append]
      intro hh
      have h3 := List.nodup_append.1 h2
      rcases List.mem_append.1 hh with h1 | h1
      · exact h3.2.2 h1 (List.mem_cons_self _ _)
      · exact (List.nodup_cons.1 h3.2.1).1 h1
    have henf : endAddress c ∉ freeAddrs (pre ++ post) := by
      intro hh
      have := hpre.mem_bounds (by rw [e]; exact hh)
      omega
    have hxnf : c.xStart ∉ freeAddrs (pre ++ post) := by
      intro hh
      have := hpre.mem_bounds (by rw [e]; exact hh)
      omega
    rw [allocSize_split hsp]
    refine ⟨s3, ?_, ?_, hv, Nat.le_refl _, hwb⟩
    · rw [if_pos (by rw [hsub]; exact hsp)]
      simp only [hnew, hsub]
      rw [if_neg hal, hs3]
    · constructor
      · exact hend3
      · rw [hend3]; exact htl
      · exact hmem
      · rw [hfs _ hbnf (by omega)]
        show store _ b.addr w b.addr = w
        rw [store_same]
      · intro x hx hxa
        cases hxf : x.free
        · rw [(hframe x (hused x hx hxa hxf) hxf).1]
          have := h.sizes x (hb9 x (hused x hx hxa hxf)).1
          rw [hxf] at this
          simpa using this
        · simp only [if_true]
          exact hfree x hx hxf
      · intro x hx hxa hxf
        rw [(hframe x (hused x hx hxa hxf) hxf).2]
        exact h.nexts x (hb9 x (hused x hx hxa hxf)).1 hxf
      · intro x hx
        rw [← hco] at hx
        rcases coalesce_addr hx with h1 | ⟨x', h1, h2⟩
        · rw [h1, Nat.add_mod, hb7, hwA]; simp
        · rw [← h2]
          simp only [List.append_assoc, List.mem_append, List.mem_cons, List.mem_singleton,
            List.not_mem_nil, or_false] at h1
          rcases h1 with h1 | h1 | h1
          · exact h.aligned x' (by rw [hbs]; simp [h1])
          · rw [h1]; exact hb7
          · exact h.aligned x' (by rw [hbs]; simp [h1])
      · rw [hend3]; exact hchain
      · rw [hfs _ hxnf (by omega)]
        show store (store s.xBlockSize (b.addr + w) (b.size - w)) b.addr w c.xStart = _
        rw [store_ne _ _ hb8, store_ne _ _ (by omega)]
        exact h.start_size
      · rw [hend3, hfs _ henf (by omega)]
        show store (store s.xBlockSize (b.addr + w) (b.size - w)) b.addr w (endAddress c) = _
        rw [store_ne _ _ (by omega), store_ne _ _ (by omega), ← h.pxEnd_eq]
        exact h.end_size
      · rw [hend3, hfn _ henf (by omega) (by omega)]
        show store s.pxNextFreeBlock _ _ (endAddress c) = _
        rw [store_ne _ _ hprev_end, ← h.pxEnd_eq]
        exact h.end_next
      · rw [hv.2.1, h.free_eq, ← hco, coalesce_freeSum, hbs, freeSum_append, freeSum_append,
          freeSum_cons_free hf]
        simp only [freeSum_cons_used, freeSum_nil]
        omega
      · rw [hv.2.1, hv.2.2.1]; exact h.min_le
  · -- the region is taken whole
    have hal : allocAt c w pre b post = pre ++ ⟨b.addr, b.size, false⟩ :: post := by
      unfold allocAt
      rw [if_neg hsp]
    have hfa' : freeAddrs (pre ++ ⟨b.addr, b.size, false⟩ :: post) = freeAddrs (pre ++ post) := by
      rw [freeAddrs_append, freeAddrs_cons_used rfl, ← freeAddrs_append]
    have hmemx : ∀ x ∈ pre ++ ⟨b.addr, b.size, false⟩ :: post, x.addr ≠ b.addr →
        x ∈ pre ++ post := by
      intro x hx hxa
      simp only [List.mem_append, List.mem_cons] at hx ⊢
      rcases hx with h1 | h1 | h1
      · exact Or.inl h1
      · rw [h1] at hxa; exact absurd rfl hxa
      · exact Or.inr h1
    rw [allocSize_whole hsp]
    refine ⟨s.setNext ((freeAddrs pre).getLastD c.xStart) (s.pxNextFreeBlock b.addr),
      ?_, ?_, sameVars_setNext _ _ _, hwb, Nat.le_refl _⟩
    · rw [if_neg (by rw [hsub]; exact hsp)]
    · rw [hal]
      constructor
      · exact h.pxEnd_eq
      · show Tiled _ _ s.pxEnd
        rw [h.pxEnd_eq]
        exact tiled_join hb2 hb4 hb3
      · simp
      · exact hb1
      · intro x hx hxa
        exact h.sizes x (hb9 x (hmemx x hx hxa)).1
      · intro x hx hxa hxf
        show store s.pxNextFreeBlock _ _ x.addr = 0
        rw [store_ne _ _ (hprev_used x (hb9 x (hmemx x hx hxa)).1 hxf)]
        exact h.nexts x (hb9 x (hmemx x hx hxa)).1 hxf
      · intro x hx
        by_cases hxa : x.addr = b.addr
        · rw [hxa]; exact hb7
        · exact h.aligned x (hb9 x (hmemx x hx hxa)).1
      · rw [hfa']
        show Chain _ _ _ s.pxEnd
        rw [h.pxEnd_eq]
        exact (h.unlink hw hbs hf).2
      · exact h.start_size
      · exact h.end_size
      · show store s.pxNextFreeBlock _ _ s.pxEnd = 0
        rw [h.pxEnd_eq, store_ne _ _ hprev_end, ← h.pxEnd_eq]
        exact h.end_next
      · show s.xFreeBytesRemaining = _
        rw [h.free_eq, hbs, freeSum_append, freeSum_append, freeSum_cons_free hf,
          freeSum_cons_used rfl]
        omega
      · exact h.min_le

end Heap4

namespace Heap4

variable {c : Config} {s : State} {bs : List Blk}

theorem usedBlocks_allocAt (w : Nat) (pre post : List Blk) {b : Blk} (hf : b.free = true) :
    usedBlocks (allocAt c w pre b post)
      = usedBlocks pre ++ ⟨b.addr, allocSize c w b, false⟩ :: usedBlocks post ∧
    usedBlocks (pre ++ b :: post) = usedBlocks pre ++ usedBlocks post := by
  constructor
  · unfold allocAt
    by_cases hsp : b.size - w > heapMINIMUM_BLOCK_SIZE c
    · rw [if_pos hsp, allocSize_split hsp, usedBlocks_append, usedBlocks_cons_used rfl,
        coalesce_nil_used]
    · rw [if_neg hsp, allocSize_whole hsp, usedBlocks_append, usedBlocks_cons_used rfl]
  · rw [usedBlocks_append, usedBlocks_cons_free hf]

/-- What `pvPortMalloc` of `heap_4.c` does on a state satisfying the invariant, with fuel
above the heap size.  Either it returns `NULL` and leaves the state as it is: the adjusted
size is invalid or no free region is large enough.  Or it returns the payload of the first
free region, in address order, that is large enough, and the invariant holds again, for the
regions `allocAt`. -/
theorem Inv.malloc (hw : c.WF) (h : Inv c s bs) (n : Nat) {fuel : Nat}
    (hfuel : c.configTOTAL_HEAP_SIZE < fuel) :
    (pvPortMalloc c fuel s n = Outcome.ok s 0 ∧
      (¬ (heapBLOCK_SIZE_IS_VALID c (adjustWantedSize c n) = true ∧
          (adjustWantedSize c n > 0 ∧ adjustWantedSize c n ≤ s.xFreeBytesRemaining)) ∨
        ∀ b ∈ bs, b.free = true → b.size < adjustWantedSize c n)) ∨
    (∃ pre b post s', bs = pre ++ b :: post ∧ b.free = true ∧
      adjustWantedSize c n ≤ b.size ∧ 0 < adjustWantedSize c n ∧
      (∀ x ∈ pre, x.free = true → x.size < adjustWantedSize c n) ∧
      pvPortMalloc c fuel s n = Outcome.ok s' (b.addr + xHeapStructSize c) ∧
      Inv c s' (allocAt c (adjustWantedSize c n) pre b post) ∧
      s'.xFreeBytesRemaining
        = s.xFreeBytesRemaining - allocSize c (adjustWantedSize c n) b ∧
      s'.xBlockSize b.addr
        = allocSize c (adjustWantedSize c n) b + heapBLOCK_ALLOCATED_BITMASK c ∧
      s'.xMinimumEverFreeBytesRemaining
        = min s.xMinimumEverFreeBytesRemaining s'.xFreeBytesRemaining ∧
      s'.xNumberOfSuccessfulAllocations = wadd c s.xNumberOfSuccessfulAllocations 1 ∧
      s'.xNumberOfSuccessfulFrees = s.xNumberOfSuccessfulFrees) := by
  obtain ⟨w, hwdef⟩ : ∃ w, w = adjustWantedSize c n := ⟨_, rfl⟩
  rw [← hwdef]
  have hcode : pvPortMalloc c fuel s n =
      if heapBLOCK_SIZE_IS_VALID c w = true ∧ (w > 0 ∧ w ≤ s.xFreeBytesRemaining) then
        match searchLoop s.pxNextFreeBlock s.xBlockSize w fuel c.xStart
            (s.pxNextFreeBlock c.xStart) with
        | none => Outcome.outOfFuel
        | some (pxPreviousBlock, pxBlock) =>
          if pxBlock ≠ s.pxEnd then
            match splitBlock c fuel
                (s.setNext pxPreviousBlock (s.pxNextFreeBlock pxBlock)) pxBlock w with
            | Outcome.outOfFuel => Outcome.outOfFuel
            | Outcome.assertFailed s => Outcome.assertFailed s
            | Outcome.ok s3 _ =>
              if wadd c (s.pxNextFreeBlock pxPreviousBlock) (xHeapStructSize c)
                  &&& portBYTE_ALIGNMENT_MASK c ≠ 0 then
                Outcome.assertFailed (takeBlock c s3 pxBlock)
              else
                Outcome.ok (takeBlock c s3 pxBlock)
                  (wadd c (s.pxNextFreeBlock pxPreviousBlock) (xHeapStructSize c))
          else
            Outcome.ok s 0
      else
        Outcome.ok s 0 := by
    unfold pvPortMalloc allocateBlock
    simp only [if_neg (h.end_ne hw), ← hwdef]
  rw [hcode]
  by_cases hcond : heapBLOCK_SIZE_IS_VALID c w = true ∧ (w > 0 ∧ w ≤ s.xFreeBytesRemaining)
  · rw [if_pos hcond]
    rcases h.search hw w hfuel with ⟨hsr, hall⟩ | ⟨pre, b, post, hbs, hf, hwb, hpre, hsr⟩
    · left
      rw [hsr]
      simp only [ne_eq, not_true_eq_false, if_false]
      exact ⟨trivial, Or.inr hall⟩
    · right
      obtain ⟨hb1, hb2, hb3, hb4, hb5, hb6, hb7, hb8, hb9⟩ := h.free_block hw hbs hf
      have hg := geometry hw
      have hpos : 0 < adjustWantedSize c n := by rw [← hwdef]; exact hcond.2.1
      have hadj := adjust_pos_facts hw hpos
      rw [← hwdef] at hadj
      obtain ⟨s3, hs3, htk, hv, hsz1, hsz2⟩ := h.split hw hbs hf hcond.2.1 hwb hadj.1 hfuel
      obtain ⟨hi, hfr, hmn, hna, hnf, hsz⟩ := htk.mark hw
      have hne : b.addr ≠ s.pxEnd := by rw [h.pxEnd_eq]; omega
      have hprev := (h.unlink hw hbs hf).1
      have hs := hs_facts hw
      have hret : wadd c b.addr (xHeapStructSize c) = b.addr + xHeapStructSize c :=
        wadd_eq c (by omega)
      have hal : ¬ (b.addr + xHeapStructSize c) &&& portBYTE_ALIGNMENT_MASK c ≠ 0 := by
        rw [hw.and_mask, Nat.add_mod, hb7, hs.1]
        simp
      refine ⟨pre, b, post, Heap4.takeBlock c s3 b.addr, hbs, hf, hwb, hcond.2.1, hpre, ?_, hi,
        ?_, hsz, ?_, ?_, ?_⟩
      · rw [hsr]
        simp only [ne_eq, hne, not_false_eq_true, if_true, hs3, hprev, hret]
        rw [if_neg hal]
      · rw [hfr, hv.2.1]
      · rw [hmn, hfr]
        have : s3.xMinimumEverFreeBytesRemaining = s.xMinimumEverFreeBytesRemaining := hv.2.2.1
        rw [this]
      · rw [hna, hv.2.2.2.1]
      · rw [hnf, hv.2.2.2.2]
  · left
    rw [if_neg hcond]
    exact ⟨rfl, Or.inl hcond⟩

end Heap4

namespace Heap4

variable {c : Config} {s : State} {bs : List Blk}

/-! ### `vPortFree` of `heap_4.c` -/

/-- What `vPortFree` of `heap_4.c` does on the payload pointer of an allocated region, in a
state satisfying the invariant and with fuel above the heap size: it returns, the region is
free again and merged with its free neighbours, and the invariant holds again. -/
theorem Inv.free (hw : c.WF) (h : Inv c s bs) {pre post : List Blk} {a sz : Nat}
    (hbs : bs = pre ++ ⟨a, sz, false⟩ :: post) {fuel : Nat}
    (hfuel : c.configTOTAL_HEAP_SIZE < fuel) :
    ∃ s', vPortFree c fuel s (a + xHeapStructSize c) = Outcome.ok s' () ∧
      Inv c s' (coalesce pre a sz post) ∧
      regionSize c s (a + xHeapStructSize c) = sz ∧
      s'.xFreeBytesRemaining = s.xFreeBytesRemaining + sz ∧
      s'.xMinimumEverFreeBytesRemaining = s.xMinimumEverFreeBytesRemaining ∧
      s'.xNumberOfSuccessfulAllocations = s.xNumberOfSuccessfulAllocations ∧
      s'.xNumberOfSuccessfulFrees = wadd c s.xNumberOfSuccessfulFrees 1 ∧
      heapBLOCK_IS_ALLOCATED c (s'.xBlockSize a) = false := by
  have hg := geometry hw
  have hs := hs_facts hw
  have hlp := hw.link_pos
  have hbm : (⟨a, sz, false⟩ : Blk) ∈ bs := by rw [hbs]; simp
  obtain ⟨hm1, hm2, hm3, hm4, hm5⟩ := size_lt_half hw h.tiled' hbm
  have hm1' : sz < 2 ^ (c.bits - 1) := hm1
  have hm3' : (alignedHeap c).1 ≤ a := hm3
  have hm4' : a + sz ≤ endAddress c := hm4
  have hm5' : 0 < sz := hm5
  have ht := h.tiled'
  rw [hbs] at ht
  obtain ⟨ht1, _, ht3⟩ := tiled_split ht
  have ht1' : Tiled (alignedHeap c).1 pre a := ht1
  have ht3' : Tiled (a + sz) post (endAddress c) := ht3
  have hsa : s.xBlockSize a = sz + heapBLOCK_ALLOCATED_BITMASK c := by
    have := h.sizes _ hbm
    simpa using this
  have hna : s.pxNextFreeBlock a = 0 := h.nexts _ hbm rfl
  have hfa : freeAddrs bs = freeAddrs (pre ++ post) := by
    rw [hbs, freeAddrs_append, freeAddrs_cons_used rfl, ← freeAddrs_append]
  have hsub : ∀ x ∈ pre ++ post, x ∈ bs ∧ x.addr ≠ a := by
    intro x hx
    rcases List.mem_append.1 hx with hx | hx
    · have := tiled_mem ht1' hx
      exact ⟨by rw [hbs]; simp [hx], by omega⟩
    · have := tiled_mem ht3' hx
      exact ⟨by rw [hbs]; simp [hx], by omega⟩
  have hpuc : wsub c (a + xHeapStructSize c) (xHeapStructSize c) = a := by
    have h1 := hw.heap_fits
    have h2 := end_facts hw
    rw [wsub_eq c (by omega) (by omega)]
    omega
  have hfb : heapFREE_BLOCK c (s.xBlockSize a) = sz := by rw [hsa, hw.free_flag hm1']
  have hxa : c.xStart ≠ a := by omega
  have hfree_sum : s.xFreeBytesRemaining + sz < c.wordMod := by
    have h1 := freeSum_add_used_le hbm rfl
    have h1' : freeSum bs + sz ≤ (bs.map (fun b => b.size)).sum := h1
    have h2 := tiled_sum h.tiled'
    rw [h.free_eq]
    omega
  -- the state in which the block is inserted
  have hpre : InsertPre c
      { s.setSize a sz with xFreeBytesRemaining := s.xFreeBytesRemaining + sz } pre post a sz := by
    constructor
    · exact h.pxEnd_eq
    · exact ht1'
    · exact hm5'
    · exact ht3'
    · show store s.xBlockSize a sz a = sz
      rw [store_same]
    · intro x hx hxf
      obtain ⟨hx1, hx2⟩ := hsub x hx
      show store s.xBlockSize a sz x.addr = _
      rw [store_ne _ _ hx2, h.sizes x hx1, if_pos hxf]
    · show Chain s.pxNextFreeBlock _ _ _
      rw [← hfa, ← h.pxEnd_eq]; exact h.chain
    · show store s.xBlockSize a sz c.xStart = 0
      rw [store_ne _ _ hxa]; exact h.start_size
  obtain ⟨s2, hs2, hv0, hchain, hfree, hfs, hfn, hbound⟩ := hpre.spec hw hfuel
  have hv1 : s2.pxEnd = s.pxEnd := hv0.1
  have hv2 : s2.xFreeBytesRemaining = s.xFreeBytesRemaining + sz := hv0.2.1
  have hv3 : s2.xMinimumEverFreeBytesRemaining = s.xMinimumEverFreeBytesRemaining := hv0.2.2.1
  have hv4 : s2.xNumberOfSuccessfulAllocations = s.xNumberOfSuccessfulAllocations :=
    hv0.2.2.2.1
  have hv5 : s2.xNumberOfSuccessfulFrees = s.xNumberOfSuccessfulFrees := hv0.2.2.2.2
  have hend2 : s2.pxEnd = endAddress c := hv1.trans h.pxEnd_eq
  have hcode : vPortFree c fuel s (a + xHeapStructSize c)
      = Outcome.ok { s2 with xNumberOfSuccessfulFrees := wadd c s2.xNumberOfSuccessfulFrees 1 }
          () := by
    have hpv : a + xHeapStructSize c ≠ 0 := by omega
    have hia : heapBLOCK_IS_ALLOCATED c (s.xBlockSize a) = true := by
      rw [hsa]; exact hw.isAllocated_flag hm1'
    have hadd : wadd c s.xFreeBytesRemaining sz = s.xFreeBytesRemaining + sz :=
      wadd_eq c hfree_sum
    unfold vPortFree
    simp only [hpv, ne_eq, not_false_eq_true, if_true, hpuc, hia, Bool.true_eq_false, if_false,
      hna, not_true_eq_false, hfb, State.setSize, store_same, hadd]
    have hs2' := hs2
    simp only [State.setSize] at hs2'
    rw [hs2']
  have hused : ∀ x ∈ coalesce pre a sz post, x.free = false → x ∈ pre ++ post := by
    intro x hx hxf
    have : x ∈ usedBlocks (coalesce pre a sz post) := mem_usedBlocks.2 ⟨hx, hxf⟩
    rw [coalesce_used] at this
    rcases List.mem_append.1 this with h1 | h1
    · exact List.mem_append_left _ (mem_usedBlocks.1 h1).1
    · exact List.mem_append_right _ (mem_usedBlocks.1 h1).1
  have hframe : ∀ x ∈ pre ++ post, x.free = false →
      s2.xBlockSize x.addr = s.xBlockSize x.addr ∧
      s2.pxNextFreeBlock x.addr = s.pxNextFreeBlock x.addr := by
    intro x hx hxf
    obtain ⟨hx1, hx2⟩ := hsub x hx
    have hxs := tiled_mem h.tiled' hx1
    have hnf : x.addr ∉ freeAddrs (pre ++ post) := by
      rw [← hfa]; exact addr_not_free_of_used h.tiled' hx1 hxf
    constructor
    · rw [hfs _ hnf hx2]
      show store s.xBlockSize a sz x.addr = _
      rw [store_ne _ _ hx2]
    · rw [hfn _ hnf hx2 (by omega)]
      rfl
  refine ⟨_, hcode, ?_, ?_, hv2, hv3, hv4, ?_, ?_⟩
  · constructor
    · exact hend2
    · show Tiled _ _ s2.pxEnd
      rw [hend2]; exact coalesce_tiled ht1' hm5' ht3'
    · intro x hx
      show s2.xBlockSize x.addr = _
      cases hxf : x.free
      · rw [(hframe x (hused x hx hxf) hxf).1]
        have := h.sizes x (hsub x (hused x hx hxf)).1
        rw [hxf] at this
        simpa using this
      · simp only [if_true]
        exact hfree x hx hxf
    · intro x hx hxf
      show s2.pxNextFreeBlock x.addr = 0
      rw [(hframe x (hused x hx hxf) hxf).2]
      exact h.nexts x (hsub x (hused x hx hxf)).1 hxf
    · intro x hx
      rcases coalesce_addr hx with h1 | ⟨x', h1, h2⟩
      · rw [h1]; exact h.aligned _ hbm
      · rw [← h2]; exact h.aligned x' (hsub x' h1).1
    · show Chain s2.pxNextFreeBlock _ _ s2.pxEnd
      rw [hend2]; exact hchain
    · show s2.xBlockSize c.xStart = 0
      rw [hfs _ (hpre.ins_xStart_not_mem hw) hxa]
      show store s.xBlockSize a sz c.xStart = 0
      rw [store_ne _ _ hxa]; exact h.start_size
    · show s2.xBlockSize s2.pxEnd = 0
      rw [hend2, hfs _ hpre.ins_end_not_mem (by omega)]
      show store s.xBlockSize a sz (endAddress c) = 0
      rw [store_ne _ _ (by omega), ← h.pxEnd_eq]; exact h.end_size
    · show s2.pxNextFreeBlock s2.pxEnd = 0
      rw [hend2, hfn _ hpre.ins_end_not_mem (by omega) (by omega)]
      show s.pxNextFreeBlock (endAddress c) = 0
      rw [← h.pxEnd_eq]; exact h.end_next
    · show s2.xFreeBytesRemaining = _
      rw [hv2, h.free_eq, coalesce_freeSum, hbs, freeSum_append, freeSum_cons_used rfl]
      omega
    · show s2.xMinimumEverFreeBytesRemaining ≤ s2.xFreeBytesRemaining
      rw [hv2, hv3]
      have := h.min_le
      omega
  · unfold regionSize
    rw [hpuc, hfb]
  · show wadd c s2.xNumberOfSuccessfulFrees 1 = _
    rw [hv5]
  · show heapBLOCK_IS_ALLOCATED c (s2.xBlockSize a) = false
    exact hw.isAllocated_of_lt (by omega)

end Heap4

/-! ### More fuel does not change a result -/

theorem searchLoop_mono {next size : Nat → Nat} {w : Nat} :
    ∀ {fuel fuel' p b : Nat} {r : Nat × Nat}, searchLoop next size w fuel p b = some r →
      fuel ≤ fuel' → searchLoop next size w fuel' p b = some r := by
  intro fuel
  induction fuel with
  | zero => intro fuel' p b r h; simp [searchLoop] at h
  | succ f ih =>
    intro fuel' p b r h hle
    obtain ⟨f', rfl⟩ : ∃ f', fuel' = f' + 1 := ⟨fuel' - 1, by omega⟩
    simp only [searchLoop] at h ⊢
    split
    · rename_i hc
      rw [if_pos hc] at h
      exact ih h (by omega)
    · rename_i hc
      rw [if_neg hc] at h
      exact h

namespace Heap4

variable {c : Config}

theorem insertLoop_mono {next : Nat → Nat} {x : Nat} :
    ∀ {fuel fuel' p r : Nat}, insertLoop next x fuel p = some r →
      fuel ≤ fuel' → insertLoop next x fuel' p = some r := by
  intro fuel
  induction fuel with
  | zero => intro fuel' p r h; simp [insertLoop] at h
  | succ f ih =>
    intro fuel' p r h hle
    obtain ⟨f', rfl⟩ : ∃ f', fuel' = f' + 1 := ⟨fuel' - 1, by omega⟩
    simp only [insertLoop] at h ⊢
    split
    · rename_i hc
      rw [if_pos hc] at h
      exact ih h (by omega)
    · rename_i hc
      rw [if_neg hc] at h
      exact h

theorem insert_mono {s s' : State} {x fuel fuel' : Nat}
    (h : prvInsertBlockIntoFreeList c fuel s x = some s') (hle : fuel ≤ fuel') :
    prvInsertBlockIntoFreeList c fuel' s x = some s' := by
  unfold prvInsertBlockIntoFreeList at h ⊢
  cases hl : insertLoop s.pxNextFreeBlock x fuel c.xStart with
  | none => rw [hl] at h; simp at h
  | some it =>
    rw [hl] at h
    rw [insertLoop_mono hl hle]
    exact h

theorem splitBlock_mono {s : State} {b w fuel fuel' : Nat}
    (h : splitBlock c fuel s b w ≠ Outcome.outOfFuel) (hle : fuel ≤ fuel') :
    splitBlock c fuel' s b w = splitBlock c fuel s b w := by
  unfold splitBlock at h ⊢
  split
  · rename_i hc
    rw [if_pos hc] at h
    simp only at h ⊢
    split
    · rfl
    · rename_i hal
      rw [if_neg hal] at h
      cases hi : prvInsertBlockIntoFreeList c fuel
          ((s.setSize (wadd c b w) (wsub c (s.xBlockSize b) w)).setSize b w) (wadd c b w) with
      | none => rw [hi] at h; exact absurd rfl h
      | some s' => rw [insert_mono hi hle]
  · rfl

theorem allocateBlock_mono {s : State} {w fuel fuel' : Nat}
    (h : allocateBlock c fuel s w ≠ Outcome.outOfFuel) (hle : fuel ≤ fuel') :
    allocateBlock c fuel' s w = allocateBlock c fuel s w := by
  unfold allocateBlock at h ⊢
  split
  · rename_i hc
    rw [if_pos hc] at h
    cases hs : searchLoop s.pxNextFreeBlock s.xBlockSize w fuel c.xStart
        (s.pxNextFreeBlock c.xStart) with
    | none => rw [hs] at h; exact absurd rfl h
    | some r =>
      obtain ⟨prev, blk⟩ := r
      rw [hs] at h
      rw [searchLoop_mono hs hle]
      simp only at h ⊢
      split
      · rename_i hb
        rw [if_pos hb] at h
        have hsp : splitBlock c fuel (s.setNext prev (s.pxNextFreeBlock blk)) blk w
            ≠ Outcome.outOfFuel := by
          intro hh
          rw [hh] at h
          exact h rfl
        rw [splitBlock_mono hsp hle]
      · rfl
  · rfl

theorem malloc_mono {s : State} {n fuel fuel' : Nat}
    (h : pvPortMalloc c fuel s n ≠ Outcome.outOfFuel) (hle : fuel ≤ fuel') :
    pvPortMalloc c fuel' s n = pvPortMalloc c fuel s n := by
  unfold pvPortMalloc at h ⊢
  exact allocateBlock_mono h hle

theorem free_mono {s : State} {pv fuel fuel' : Nat}
    (h : vPortFree c fuel s pv ≠ Outcome.outOfFuel) (hle : fuel ≤ fuel') :
    vPortFree c fuel' s pv = vPortFree c fuel s pv := by
  unfold vPortFree at h ⊢
  simp only at h ⊢
  split
  · rename_i h1
    rw [if_pos h1] at h
    split
    · rfl
    · rename_i h2
      rw [if_neg h2] at h
      split
      · rfl
      · rename_i h3
        rw [if_neg h3] at h
        split
        · rename_i h4
          rw [if_pos h4] at h
          split
          · rename_i h5
            rw [if_pos h5] at h
            cases hi : prvInsertBlockIntoFreeList c fuel
                { s.setSize (wsub c pv (xHeapStructSize c))
                    (heapFREE_BLOCK c (s.xBlockSize (wsub c pv (xHeapStructSize c)))) with
                  xFreeBytesRemaining := wadd c
                    (s.setSize (wsub c pv (xHeapStructSize c))
                      (heapFREE_BLOCK c (s.xBlockSize
                        (wsub c pv (xHeapStructSize c))))).xFreeBytesRemaining
                    ((s.setSize (wsub c pv (xHeapStructSize c))
                      (heapFREE_BLOCK c (s.xBlockSize
                        (wsub c pv (xHeapStructSize c))))).xBlockSize
                      (wsub c pv (xHeapStructSize c))) }
                (wsub c pv (xHeapStructSize c)) with
            | none => rw [hi] at h; exact absurd rfl h
            | some s' => rw [insert_mono hi hle]
          · rfl
        · rfl
  · rfl

end Heap4

theorem liveOK_iff {hs : Nat} {bs : List Blk} {live : List (Nat × Nat)} :
    LiveOK hs bs live ↔
      ∀ p d, (p, d) ∈ live ↔ ∃ b ∈ usedBlocks bs, p = b.addr + hs ∧ d = b.size := by
  unfold LiveOK
  constructor
  · intro h p d
    rw [h p d]
    constructor
    · rintro ⟨b, hb, hf, h1, h2⟩
      exact ⟨b, mem_usedBlocks.2 ⟨hb, hf⟩, h1, h2⟩
    · rintro ⟨b, hb, h1, h2⟩
      exact ⟨b, (mem_usedBlocks.1 hb).1, (mem_usedBlocks.1 hb).2, h1, h2⟩
  · intro h p d
    rw [h p d]
    constructor
    · rintro ⟨b, hb, h1, h2⟩
      exact ⟨b, (mem_usedBlocks.1 hb).1, (mem_usedBlocks.1 hb).2, h1, h2⟩
    · rintro ⟨b, hb, hf, h1, h2⟩
      exact ⟨b, mem_usedBlocks.2 ⟨hb, hf⟩, h1, h2⟩

namespace Heap4

variable {c : Config} {s s' : State} {bs : List Blk} {live : List (Nat × Nat)}

/-! ### The invariant holds in every reachable state of `heap_4.c` -/

theorem Inv.malloc_live (hw : c.WF) (h : Inv c s bs) (hl : LiveOK (xHeapStructSize c) bs live)
    {n fuel p : Nat} (hres : pvPortMalloc c fuel s n = Outcome.ok s' p) :
    ∃ bs', Inv c s' bs' ∧
      LiveOK (xHeapStructSize c) bs' (if p = 0 then live else (p, regionSize c s' p) :: live) := by
  have hres' : pvPortMalloc c (max fuel (c.configTOTAL_HEAP_SIZE + 1)) s n = Outcome.ok s' p := by
    rw [malloc_mono (by rw [hres]; simp) (Nat.le_max_left _ _), hres]
  rcases h.malloc hw n (fuel_max c fuel) with
    ⟨h1, _⟩ | ⟨pre, b, post, s'', hbs, hf, hwb, hpos, _, h1, hinv, hfr, hsz, _⟩
  · rw [h1] at hres'
    injection hres' with e1 e2
    subst e1; subst e2
    exact ⟨bs, h, by simpa using hl⟩
  · rw [h1] at hres'
    injection hres' with e1 e2
    subst e1; subst e2
    obtain ⟨hb1, hb2, hb3, hb4, hb5, hb6, hb7, hb8, hb9⟩ := h.free_block hw hbs hf
    have hg := geometry hw
    have hs := hs_facts hw
    have hlp := hw.link_pos
    have hp0 : b.addr + xHeapStructSize c ≠ 0 := by omega
    have hsize : allocSize c (adjustWantedSize c n) b ≤ b.size := by
      unfold allocSize; split <;> omega
    have hreg : regionSize c s'' (b.addr + xHeapStructSize c)
        = allocSize c (adjustWantedSize c n) b := by
      unfold regionSize
      have h1 := hw.heap_fits
      have h2 := end_facts hw
      rw [wsub_eq c (by omega) (by omega), Nat.add_sub_cancel, hsz, hw.free_flag (by omega)]
    refine ⟨_, hinv, ?_⟩
    rw [if_neg hp0, hreg]
    rw [liveOK_iff] at hl ⊢
    intro q e
    rw [(usedBlocks_allocAt (c := c) (adjustWantedSize c n) pre post hf).1]
    rw [hbs, (usedBlocks_allocAt (c := c) (adjustWantedSize c n) pre post hf).2] at hl
    simp only [List.mem_cons, Prod.mk.injEq, hl q e, List.mem_append]
    constructor
    · rintro (⟨h1, h2⟩ | ⟨x, hx | hx, h1, h2⟩)
      · exact ⟨⟨b.addr, allocSize c (adjustWantedSize c n) b, false⟩, Or.inr (Or.inl rfl), h1, h2⟩
      · exact ⟨x, Or.inl hx, h1, h2⟩
      · exact ⟨x, Or.inr (Or.inr hx), h1, h2⟩
    · rintro ⟨x, hx | hx | hx, h1, h2⟩
      · exact Or.inr ⟨x, Or.inl hx, h1, h2⟩
      · left; rw [hx] at h1 h2; exact ⟨h1, h2⟩
      · exact Or.inr ⟨x, Or.inr hx, h1, h2⟩

theorem Inv.free_live (hw : c.WF) (h : Inv c s bs) (hl : LiveOK (xHeapStructSize c) bs live)
    {fuel p d : Nat} (hp : (p, d) ∈ live) (hres : vPortFree c fuel s p = Outcome.ok s' ()) :
    ∃ bs', Inv c s' bs' ∧
      LiveOK (xHeapStructSize c) bs' (live.filter (fun x => x.1 ≠ p)) := by
  have hres' : vPortFree c (max fuel (c.configTOTAL_HEAP_SIZE + 1)) s p = Outcome.ok s' () := by
    rw [free_mono (by rw [hres]; simp) (Nat.le_max_left _ _), hres]
  obtain ⟨b, hb, hbf, hp1, hp2⟩ := (hl p d).1 hp
  obtain ⟨pre, post, hbs⟩ := List.append_of_mem hb
  have hbe : b = ⟨b.addr, b.size, false⟩ := by
    cases b; simp_all
  rw [hbe] at hbs
  obtain ⟨s'', h1, hinv, _⟩ := h.free hw hbs (fuel_max c fuel)
  rw [← hp1, hres'] at h1
  injection h1 with e1
  subst e1
  refine ⟨_, hinv, ?_⟩
  have ht := h.tiled'
  rw [hbs] at ht
  obtain ⟨ht1, ht2, ht3⟩ := tiled_split ht
  rw [liveOK_iff] at hl ⊢
  intro q e
  rw [coalesce_used]
  rw [hbs, usedBlocks_append, usedBlocks_cons_used rfl] at hl
  simp only [List.mem_filter, hl q e, List.mem_append, List.mem_cons, ne_eq,
    decide_eq_true_eq, decide_not, Bool.not_eq_true', decide_eq_false_iff_not]
  constructor
  · rintro ⟨⟨x, hx | hx | hx, h1, h2⟩, hne⟩
    · exact ⟨x, Or.inl hx, h1, h2⟩
    · exfalso; apply hne; rw [h1, hx, hp1]
    · exact ⟨x, Or.inr hx, h1, h2⟩
  · rintro ⟨x, hx | hx, h1, h2⟩
    · refine ⟨⟨x, Or.inl hx, h1, h2⟩, ?_⟩
      have := tiled_mem ht1 (mem_usedBlocks.1 hx).1
      have ha : (⟨b.addr, b.size, false⟩ : Blk).addr = b.addr := rfl
      omega
    · refine ⟨⟨x, Or.inr (Or.inr hx), h1, h2⟩, ?_⟩
      have := tiled_mem ht3 (mem_usedBlocks.1 hx).1
      have ha : (⟨b.addr, b.size, false⟩ : Blk).addr = b.addr := rfl
      have hb' : (⟨b.addr, b.size, false⟩ : Blk).size = b.size := rfl
      omega

/-- Every reachable state of `heap_4.c` is the state at program start, with no allocation
live, or satisfies the invariant, the live allocations being the allocated regions. -/
theorem Reach.inv (hw : c.WF) (hr : Reach c s live) :
    ((∃ next0 size0, s = Heap4.boot next0 size0) ∧ live = []) ∨
      ∃ bs, Inv c s bs ∧ LiveOK (xHeapStructSize c) bs live := by
  induction hr with
  | boot next0 size0 => exact Or.inl ⟨⟨next0, size0, rfl⟩, rfl⟩
  | malloc fuel n _ hn hres ih =>
    right
    rcases ih with ⟨⟨next0, size0, rfl⟩, rfl⟩ | ⟨bs, hinv, hl⟩
    · rw [malloc_boot hw rfl] at hres
      refine (prvHeapInit_inv hw _).malloc_live hw ?_ hres
      intro p d
      simp
    · exact hinv.malloc_live hw hl hres
  | free fuel p d _ hp hres ih =>
    right
    rcases ih with ⟨_, rfl⟩ | ⟨bs, hinv, hl⟩
    · simp at hp
    · exact hinv.free_live hw hl hp hres

end Heap4

/-! ### Constants of `heap_2.c` -/

namespace Heap2

variable {c : Config}

theorem hs_facts2 (h : c.WF) :
    heapSTRUCT_SIZE c % c.portBYTE_ALIGNMENT = 0 ∧ c.sizeofBlockLink ≤ heapSTRUCT_SIZE c ∧
      heapSTRUCT_SIZE c < c.sizeofBlockLink + c.portBYTE_ALIGNMENT := by
  have hb := h.heap_big
  have hf := h.heap_fits
  have hl := h.link_small
  have := h.roundUp_facts (x := c.sizeofBlockLink) (by omega)
  have h16 : wadd c c.sizeofBlockLink (c.portBYTE_ALIGNMENT - 1) &&&
      wnot c (portBYTE_ALIGNMENT_MASK c) < 2 ^ 16 := by omega
  unfold heapSTRUCT_SIZE
  rw [Nat.mod_eq_of_lt h16]
  exact ⟨this.1, this.2.1, this.2.2.1⟩

theorem minBlock_eq2 (h : c.WF) : heapMINIMUM_BLOCK_SIZE c = 2 * heapSTRUCT_SIZE c := by
  have hb := h.heap_big
  have hh := h.heap_half
  have hs := hs_facts2 h
  unfold heapMINIMUM_BLOCK_SIZE
  rw [Nat.mod_eq_of_lt (by rw [h.wordMod_eq]; omega)]
  omega

theorem adjusted_eq2 (h : c.WF) :
    configADJUSTED_HEAP_SIZE c = c.configTOTAL_HEAP_SIZE - c.portBYTE_ALIGNMENT := by
  have hb := h.heap_big
  have hf := h.heap_fits
  unfold configADJUSTED_HEAP_SIZE
  rw [wsub_eq c (by omega) (by omega)]

/-- The heap of `heap_2.c` lies inside `ucHeap`, in the lower half of the address space, and
`xStart` and `xEnd` are outside it. -/
theorem geometry2 (h : c.WF) :
    alignedHeap c % c.portBYTE_ALIGNMENT = 0 ∧ c.ucHeap ≤ alignedHeap c ∧
      alignedHeap c + configADJUSTED_HEAP_SIZE c < c.ucHeap + c.configTOTAL_HEAP_SIZE ∧
      0 < configADJUSTED_HEAP_SIZE c ∧ configADJUSTED_HEAP_SIZE c < 2 ^ (c.bits - 1) ∧
      (c.xStart < alignedHeap c ∨ alignedHeap c + configADJUSTED_HEAP_SIZE c ≤ c.xStart) ∧
      (c.xEnd < alignedHeap c ∨ alignedHeap c + configADJUSTED_HEAP_SIZE c ≤ c.xEnd) := by
  have hb := h.heap_big
  have hf := h.heap_fits
  have hA := h.align_pos
  have hh := h.heap_half
  have h1 := h.xStart_out
  have h2 := h.xEnd_out
  obtain ⟨hr1, hr2, hr3, _⟩ := h.roundUp_facts (x := c.ucHeap) (by omega)
  rw [adjusted_eq2 h]
  unfold alignedHeap
  refine ⟨hr1, hr2, by omega, by omega, by omega, ?_, ?_⟩
  · rcases h1 with h1 | h1
    · left; omega
    · right; omega
  · rcases h2 with h2 | h2
    · left; omega
    · right; omega

/-- Setting up the heap establishes the invariant, with one free region. -/
theorem prvHeapInit_inv2 (h : c.WF) (s : State)
    (hfree : s.xFreeBytesRemaining = configADJUSTED_HEAP_SIZE c) :
    Inv c { prvHeapInit c s with xHeapHasBeenInitialised := true }
      [⟨alignedHeap c, configADJUSTED_HEAP_SIZE c, true⟩] [alignedHeap c] := by
  obtain ⟨hg1, hg2, hg3, hg4, hg5, hg6, hg7⟩ := geometry2 h
  have hne1 : c.xStart ≠ alignedHeap c := by omega
  have hne2 : c.xEnd ≠ alignedHeap c := by omega
  have hne3 := h.xStart_ne_xEnd
  constructor
  · rfl
  · exact ⟨rfl, hg4, rfl⟩
  · intro b hb'
    simp only [List.mem_singleton] at hb'
    subst hb'
    simp [prvHeapInit, State.setSize, State.setNext, alignedHeap]
  · intro b hb' hf
    simp only [List.mem_singleton] at hb'
    subst hb'
    simp at hf
  · intro b hb'
    simp only [List.mem_singleton] at hb'
    subst hb'
    exact hg1
  · rw [freeAddrs_cons_free rfl]; exact List.Perm.refl _
  · have e : alignedHeap c = wadd c c.ucHeap (c.portBYTE_ALIGNMENT - 1) &&&
        wnot c (portBYTE_ALIGNMENT_MASK c) := rfl
    simp only [Chain, prvHeapInit, State.setSize, State.setNext, ← e]
    simp [store, hne1, hne2, hne3]
  · have e : alignedHeap c = wadd c c.ucHeap (c.portBYTE_ALIGNMENT - 1) &&&
        wnot c (portBYTE_ALIGNMENT_MASK c) := rfl
    simp only [prvHeapInit, State.setSize, State.setNext, ← e]
    simp [store, hne1, hne3]
  · have e : alignedHeap c = wadd c c.ucHeap (c.portBYTE_ALIGNMENT - 1) &&&
        wnot c (portBYTE_ALIGNMENT_MASK c) := rfl
    simp only [prvHeapInit, State.setSize, State.setNext, ← e]
    simp [store, hne2]
  · have e : alignedHeap c = wadd c c.ucHeap (c.portBYTE_ALIGNMENT - 1) &&&
        wnot c (portBYTE_ALIGNMENT_MASK c) := rfl
    simp only [prvHeapInit, State.setSize, State.setNext, ← e]
    simp [store, hne2]
  · show s.xFreeBytesRemaining = _
    rw [hfree]
    simp [freeSum, freeBlocks]
  · intro b hb'
    simp only [List.mem_singleton] at hb'
    subst hb'
    have := hs_facts2 h
    have := adjusted_eq2 h
    have := h.heap_big
    show heapSTRUCT_SIZE c ≤ configADJUSTED_HEAP_SIZE c
    omega
  · exact List.pairwise_singleton _ _

end Heap2

namespace Heap2

variable {c : Config}

/-! ### `prvInsertBlockIntoFreeList` of `heap_2.c` -/

/-- What the macro `prvInsertBlockIntoFreeList` of `heap_2.c` does on a block that is on no
list and not larger than the size recorded in `xEnd`: with fuel above the length of the free
list it finishes, the block is linked in behind the leading run of smaller blocks, and only
two links change. -/
theorem insert_spec {s : State} {fl : List Nat} {x fuel : Nat}
    (hchain : Chain s.pxNextFreeBlock c.xStart fl c.xEnd) (hnd : (c.xStart :: fl).Nodup)
    (hx : x ∉ c.xStart :: fl) (hsz : s.xBlockSize x ≤ s.xBlockSize c.xEnd)
    (hfuel : fl.length < fuel) :
    ∃ s', prvInsertBlockIntoFreeList c fuel s x = some s' ∧
      Chain s'.pxNextFreeBlock c.xStart (insertBySize s.xBlockSize x fl) c.xEnd ∧
      s'.xBlockSize = s.xBlockSize ∧ s'.xFreeBytesRemaining = s.xFreeBytesRemaining ∧
      s'.xHeapHasBeenInitialised = s.xHeapHasBeenInitialised ∧
      (∀ a, a ≠ x → a ∉ c.xStart :: fl → s'.pxNextFreeBlock a = s.pxNextFreeBlock a) := by
  have hloop := insertLoop_spec2 s.pxNextFreeBlock s.xBlockSize (s.xBlockSize x) c.xEnd
    (by omega) fl c.xStart fuel hchain hfuel
  have htd := List.takeWhile_append_dropWhile
    (fun a => decide (s.xBlockSize a < s.xBlockSize x)) fl
  have hit : (fl.takeWhile (fun a => decide (s.xBlockSize a < s.xBlockSize x))).getLastD c.xStart
      ∈ c.xStart :: fl := by
    rcases List.mem_cons.1 (List.getLastD_mem_cons
      (fl.takeWhile (fun a => decide (s.xBlockSize a < s.xBlockSize x))) c.xStart) with h1 | h1
    · rw [h1]; exact List.mem_cons_self _ _
    · exact List.mem_cons_of_mem _ (List.takeWhile_subset _ h1)
  have hxit : x ≠ (fl.takeWhile
      (fun a => decide (s.xBlockSize a < s.xBlockSize x))).getLastD c.xStart :=
    fun hh => hx (hh ▸ hit)
  refine ⟨(s.setNext x (s.pxNextFreeBlock ((fl.takeWhile
      (fun a => decide (s.xBlockSize a < s.xBlockSize x))).getLastD c.xStart))).setNext
      ((fl.takeWhile (fun a => decide (s.xBlockSize a < s.xBlockSize x))).getLastD c.xStart) x,
    ?_, ?_, rfl, rfl, rfl, ?_⟩
  · unfold prvInsertBlockIntoFreeList
    simp only [hloop]
  · unfold insertBySize
    have hc : Chain s.pxNextFreeBlock c.xStart
        (fl.takeWhile (fun a => decide (s.xBlockSize a < s.xBlockSize x)) ++
          ([] ++ fl.dropWhile (fun a => decide (s.xBlockSize a < s.xBlockSize x)))) c.xEnd := by
      rw [List.nil_append, htd]; exact hchain
    have hnd' : (c.xStart :: (fl.takeWhile (fun a => decide (s.xBlockSize a < s.xBlockSize x)) ++
          ([] ++ fl.dropWhile (fun a => decide (s.xBlockSize a < s.xBlockSize x))))).Nodup := by
      rw [List.nil_append, htd]; exact hnd
    refine chain_rebuild hc hnd' ?_ ?_ ?_ ?_
    · show store _ _ _ _ = x
      rw [store_same]
    · show store (store s.pxNextFreeBlock x _) _ x x = _
      rw [store_ne _ _ hxit, store_same]
      have hc2 : Chain s.pxNextFreeBlock c.xStart
          (fl.takeWhile (fun a => decide (s.xBlockSize a < s.xBlockSize x)) ++
            fl.dropWhile (fun a => decide (s.xBlockSize a < s.xBlockSize x))) c.xEnd := by
        rw [htd]; exact hchain
      exact chain_next_mid hc2
    · intro a _ h1 h2
      show store (store s.pxNextFreeBlock x _) _ x a = _
      rw [store_ne _ _ h1, store_ne _ _ h2]
    · rw [htd]; exact hx
  · intro a h1 h2
    show store (store s.pxNextFreeBlock x _) _ x a = _
    have h3 : a ≠ (fl.takeWhile
        (fun a => decide (s.xBlockSize a < s.xBlockSize x))).getLastD c.xStart := by
      intro hh
      rw [hh] at h2
      exact h2 hit
    rw [store_ne _ _ h3, store_ne _ _ h1]

theorem insertBySize_perm (size : Nat → Nat) (x : Nat) (fl : List Nat) :
    (insertBySize size x fl).Perm (x :: fl) := by
  unfold insertBySize
  have htd := List.takeWhile_append_dropWhile (fun a => decide (size a < size x)) fl
  calc (fl.takeWhile (fun a => decide (size a < size x)) ++
        x :: fl.dropWhile (fun a => decide (size a < size x))).Perm
        (x :: (fl.takeWhile (fun a => decide (size a < size x)) ++
          fl.dropWhile (fun a => decide (size a < size x)))) := List.perm_middle
    _ = x :: fl := by rw [htd]

/-- Inserting a node by size into a list ordered by size leaves it ordered by size. -/
theorem insertBySize_sorted (size : Nat → Nat) (x : Nat) {fl : List Nat}
    (h : fl.Pairwise (fun a b => size a ≤ size b)) :
    (insertBySize size x fl).Pairwise (fun a b => size a ≤ size b) := by
  unfold insertBySize
  have htd := List.takeWhile_append_dropWhile (fun a => decide (size a < size x)) fl
  have h' := h
  rw [← htd] at h'
  obtain ⟨p1, p2, p3⟩ := List.pairwise_append.1 h'
  have hlt : ∀ a ∈ fl.takeWhile (fun a => decide (size a < size x)), size a < size x := by
    intro a ha
    simpa using List.mem_takeWhile_imp ha
  have hge : ∀ b ∈ fl.dropWhile (fun a => decide (size a < size x)), size x ≤ size b := by
    intro b hb
    cases hd : fl.dropWhile (fun a => decide (size a < size x)) with
    | nil => rw [hd] at hb; exact absurd hb (List.not_mem_nil b)
    | cons d ds =>
      have hnot : ¬ size d < size x := by
        have := List.head_dropWhile_not (fun a => decide (size a < size x)) fl
          (by rw [hd]; exact List.cons_ne_nil _ _)
        simpa [hd] using this
      rw [hd] at hb p2
      rcases List.mem_cons.1 hb with rfl | hb
      · omega
      · have := (List.pairwise_cons.1 p2).1 b hb
        omega
  refine List.pairwise_append.2 ⟨p1, List.pairwise_cons.2 ⟨hge, p2⟩, ?_⟩
  intro a ha b hb
  rcases List.mem_cons.1 hb with rfl | hb
  · exact Nat.le_of_lt (hlt a ha)
  · exact p3 a ha b hb

/-- The sizes in a tiling of the heap are below the allocation flag. -/
theorem size_lt_half2 (hw : c.WF) {bs : List Blk}
    (ht : Tiled (alignedHeap c) bs (alignedHeap c + configADJUSTED_HEAP_SIZE c))
    {b : Blk} (hb : b ∈ bs) : b.size < 2 ^ (c.bits - 1) ∧ b.addr + b.size < c.wordMod ∧
      alignedHeap c ≤ b.addr ∧ b.addr + b.size ≤ alignedHeap c + configADJUSTED_HEAP_SIZE c ∧
      0 < b.size ∧ b.size ≤ configADJUSTED_HEAP_SIZE c ∧ c.xStart ≠ b.addr ∧ c.xEnd ≠ b.addr ∧
      0 < b.addr := by
  have := geometry2 hw
  have := tiled_mem ht hb
  have := hw.heap_fits
  have := hw.heap_pos
  omega

end Heap2

namespace Heap2

variable {c : Config}

/-! ### `pvPortMalloc` of `heap_2.c` -/

/-- The wanted size after the adjustment: `0` when the request is `0` or the sum overflows,
and otherwise the request plus the header plus the padding up to the next multiple of the
alignment above the request. -/
theorem adjust_facts2 (hw : c.WF) (n : Nat) :
    (adjustWantedSize c n = 0 ∧
      (n = 0 ∨ c.wordMod ≤ n + (heapSTRUCT_SIZE c + c.portBYTE_ALIGNMENT
        - n % c.portBYTE_ALIGNMENT))) ∨
    (0 < n ∧ adjustWantedSize c n
        = n + (heapSTRUCT_SIZE c + c.portBYTE_ALIGNMENT - n % c.portBYTE_ALIGNMENT) ∧
      n + (heapSTRUCT_SIZE c + c.portBYTE_ALIGNMENT - n % c.portBYTE_ALIGNMENT) < c.wordMod) := by
  have hA := hw.align_pos
  have hs := hs_facts2 hw
  have hb := hw.heap_big
  have hf := hw.heap_fits
  have hM := hw.wordMod_pos
  have hmod := Nat.mod_lt n hA
  have hadd : wsub c (wadd c (heapSTRUCT_SIZE c) c.portBYTE_ALIGNMENT)
      (n &&& portBYTE_ALIGNMENT_MASK c)
      = heapSTRUCT_SIZE c + c.portBYTE_ALIGNMENT - n % c.portBYTE_ALIGNMENT := by
    rw [hw.and_mask, wadd_eq c (by omega), wsub_eq c (by omega) (by omega)]
  by_cases h0 : n > 0
  · have hval : adjustWantedSize c n =
        if heapADD_WILL_OVERFLOW c n
            (heapSTRUCT_SIZE c + c.portBYTE_ALIGNMENT - n % c.portBYTE_ALIGNMENT) = false then
          wadd c n (heapSTRUCT_SIZE c + c.portBYTE_ALIGNMENT - n % c.portBYTE_ALIGNMENT)
        else 0 := by
      unfold adjustWantedSize
      rw [if_pos h0]
      simp only [hadd]
    rw [hval]
    by_cases hov : heapADD_WILL_OVERFLOW c n
        (heapSTRUCT_SIZE c + c.portBYTE_ALIGNMENT - n % c.portBYTE_ALIGNMENT) = false
    · right
      have : n + (heapSTRUCT_SIZE c + c.portBYTE_ALIGNMENT - n % c.portBYTE_ALIGNMENT)
          < c.wordMod := by
        unfold heapADD_WILL_OVERFLOW heapSIZE_MAX at hov
        simp only [gt_iff_lt, decide_eq_false_iff_not, not_lt] at hov
        omega
      rw [if_pos hov, wadd_eq c this]
      exact ⟨h0, rfl, this⟩
    · left
      rw [if_neg hov]
      refine ⟨rfl, Or.inr ?_⟩
      unfold heapADD_WILL_OVERFLOW heapSIZE_MAX at hov
      simp only [gt_iff_lt, decide_eq_false_iff_not, not_lt, not_le] at hov
      omega
  · left
    unfold adjustWantedSize
    rw [if_neg h0]
    exact ⟨by omega, Or.inl (by omega)⟩

/-- A non-zero adjusted size is a multiple of the alignment and exceeds the request by at
least the header size. -/
theorem adjust_pos_facts2 (hw : c.WF) {n : Nat} (hpos : 0 < adjustWantedSize c n) :
    adjustWantedSize c n % c.portBYTE_ALIGNMENT = 0 ∧
      n + heapSTRUCT_SIZE c < adjustWantedSize c n ∧ 0 < n ∧
      adjustWantedSize c n < c.wordMod ∧
      adjustWantedSize c n ≤ n + heapSTRUCT_SIZE c + c.portBYTE_ALIGNMENT := by
  have hA := hw.align_pos
  have hs := hs_facts2 hw
  have hmod := Nat.mod_lt n hA
  have hle := Nat.mod_le n c.portBYTE_ALIGNMENT
  rcases adjust_facts2 hw n with ⟨h0, _⟩ | ⟨h1, h2, h3⟩
  · omega
  · rw [h2]
    refine ⟨?_, by omega, h1, h3, by omega⟩
    have e : n + (heapSTRUCT_SIZE c + c.portBYTE_ALIGNMENT - n % c.portBYTE_ALIGNMENT)
        = (n - n % c.portBYTE_ALIGNMENT) + (heapSTRUCT_SIZE c + c.portBYTE_ALIGNMENT) := by
      omega
    rw [e, Nat.add_mod, sub_mod_self_mod, Nat.add_mod (heapSTRUCT_SIZE c), hs.1,
      Nat.mod_self]
    simp

theorem allocSize_split2 {w : Nat} {b : Blk} (h : b.size - w > heapMINIMUM_BLOCK_SIZE c) :
    allocSize c w b = w := by
  unfold allocSize
  rw [if_pos h]

theorem allocSize_whole2 {w : Nat} {b : Blk} (h : ¬ b.size - w > heapMINIMUM_BLOCK_SIZE c) :
    allocSize c w b = b.size := by
  unfold allocSize
  rw [if_neg h]

variable {s : State} {bs : List Blk} {fl : List Nat}

theorem Inv.mem_fl (h : Inv c s bs fl) {a : Nat} :
    a ∈ fl ↔ ∃ b ∈ bs, b.free = true ∧ b.addr = a := by
  rw [h.perm.mem_iff, mem_freeAddrs]

theorem Inv.xStart_not_mem2 (hw : c.WF) (h : Inv c s bs fl) : c.xStart ∉ fl := by
  intro hx
  obtain ⟨b, hb, _, hba⟩ := h.mem_fl.1 hx
  exact (size_lt_half2 hw h.tiled hb).2.2.2.2.2.2.1 hba.symm

theorem Inv.xEnd_not_mem (hw : c.WF) (h : Inv c s bs fl) : c.xEnd ∉ fl := by
  intro hx
  obtain ⟨b, hb, _, hba⟩ := h.mem_fl.1 hx
  exact (size_lt_half2 hw h.tiled hb).2.2.2.2.2.2.2.1 hba.symm

theorem Inv.nodup2 (hw : c.WF) (h : Inv c s bs fl) : (c.xStart :: fl).Nodup :=
  List.nodup_cons.2 ⟨h.xStart_not_mem2 hw, h.perm.nodup_iff.2 (freeAddrs_nodup h.tiled)⟩

theorem Inv.length_lt2 (hw : c.WF) (h : Inv c s bs fl) {fuel : Nat}
    (hfuel : c.configTOTAL_HEAP_SIZE < fuel) : fl.length < fuel := by
  have h1 := freeAddrs_length_le bs
  have h2 := tiled_length h.tiled
  have h3 := h.perm.length_eq
  have hg := geometry2 hw
  have ha := adjusted_eq2 hw
  omega

/-- The search of `pvPortMalloc` on a state satisfying the invariant: it ends on `xEnd` when
no free region is large enough, and otherwise on the first node of the free list that is
large enough. -/
theorem Inv.search2 (hw : c.WF) (h : Inv c s bs fl) (w : Nat) {fuel : Nat}
    (hfuel : c.configTOTAL_HEAP_SIZE < fuel) :
    (searchLoop s.pxNextFreeBlock s.xBlockSize w fuel c.xStart (s.pxNextFreeBlock c.xStart)
        = some (fl.getLastD c.xStart, c.xEnd) ∧
      ∀ b ∈ bs, b.free = true → b.size < w) ∨
    (∃ l1 l2 pre b post, fl = l1 ++ b.addr :: l2 ∧ bs = pre ++ b :: post ∧ b.free = true ∧
      w ≤ b.size ∧ (∀ a ∈ l1, s.xBlockSize a < w) ∧
      searchLoop s.pxNextFreeBlock s.xBlockSize w fuel c.xStart (s.pxNextFreeBlock c.xStart)
        = some (l1.getLastD c.xStart, b.addr)) := by
  have hnz : ∀ a ∈ fl, s.pxNextFreeBlock a ≠ 0 := by
    intro a ha
    rcases chain_next_mem h.chain ha with h1 | h1
    · obtain ⟨b, hb, _, hba⟩ := h.mem_fl.1 h1
      have := (size_lt_half2 hw h.tiled hb).2.2.2.2.2.2.2.2
      omega
    · rw [h1]; have := hw.xEnd_pos; omega
  have hspec := searchLoop_spec s.pxNextFreeBlock s.xBlockSize w c.xEnd h.end_next
    fl c.xStart fuel h.chain hnz (h.length_lt2 hw hfuel)
  have hsz : ∀ b ∈ bs, b.free = true → s.xBlockSize b.addr = b.size := by
    intro b hb hf
    rw [h.sizes b hb, if_pos hf]
  have htd := List.takeWhile_append_dropWhile (fun a => decide (s.xBlockSize a < w)) fl
  cases hd : fl.dropWhile (fun a => decide (s.xBlockSize a < w)) with
  | nil =>
    left
    rw [hd, List.append_nil] at htd
    rw [hd, htd] at hspec
    refine ⟨hspec, ?_⟩
    intro b hb hf
    have := List.dropWhile_eq_nil_iff.1 hd b.addr (h.mem_fl.2 ⟨b, hb, hf, rfl⟩)
    rw [hsz b hb hf] at this
    simpa using this
  | cons a l2 =>
    right
    rw [hd] at htd
    have ha : a ∈ fl := by rw [← htd]; simp
    obtain ⟨b, hb, hbf, rfl⟩ := h.mem_fl.1 ha
    obtain ⟨pre, post, hbs⟩ := List.append_of_mem hb
    have hna : ¬ s.xBlockSize b.addr < w := by
      have := List.head_dropWhile_not (fun a => decide (s.xBlockSize a < w)) fl
        (by rw [hd]; simp)
      simp only [hd, List.head_cons] at this
      simpa using this
    refine ⟨_, l2, pre, b, post, htd.symm, hbs, hbf, ?_, ?_, ?_⟩
    · rw [hsz b hb hbf] at hna
      omega
    · intro x hx
      have := List.mem_takeWhile_imp hx
      simpa using this
    · rw [hspec, hd]
      rfl

end Heap2

namespace Heap2

variable {c : Config} {s : State} {bs : List Blk} {fl : List Nat}

/-- The last part of `pvPortMalloc`: marking the region taken as allocated restores the
invariant. -/
theorem Taken.mark2 (hw : c.WF) {a sz : Nat} (h : Taken c s bs fl a sz) :
    Inv c (Heap2.takeBlock c s a) bs fl ∧
      (Heap2.takeBlock c s a).xFreeBytesRemaining = s.xFreeBytesRemaining - sz ∧
      (Heap2.takeBlock c s a).xBlockSize a = sz + heapBLOCK_ALLOCATED_BITMASK c := by
  obtain ⟨hm1, hm2, hm3, hm4, hm5, hm6, hm7, hm8, hm9⟩ := size_lt_half2 hw h.tiled h.mem
  have hm1' : sz < 2 ^ (c.bits - 1) := hm1
  have hm7' : c.xStart ≠ a := hm7
  have hm8' : c.xEnd ≠ a := hm8
  have hg := geometry2 hw
  have hsub : wsub c s.xFreeBytesRemaining (s.xBlockSize a) = s.xFreeBytesRemaining - sz := by
    rw [h.size_a, wsub_eq c (by rw [h.free_eq]; omega)]
    have h1 := freeSum_add_used_le h.mem rfl
    have h1' : freeSum bs + sz ≤ (bs.map (fun b => b.size)).sum := h1
    have h2 := tiled_sum h.tiled
    have h3 := hw.heap_fits
    rw [h.free_eq]
    omega
  have hna : a ∉ fl := by
    intro ha
    exact addr_not_free_of_used h.tiled h.mem rfl (h.perm.mem_iff.1 ha)
  have hsize : (Heap2.takeBlock c s a).xBlockSize
      = store s.xBlockSize a (sz + heapBLOCK_ALLOCATED_BITMASK c) := by
    unfold Heap2.takeBlock
    simp only [State.setSize, State.setNext, h.size_a, hw.allocate_eq hm1']
  have hnext : (Heap2.takeBlock c s a).pxNextFreeBlock = store s.pxNextFreeBlock a 0 := rfl
  have hfree : (Heap2.takeBlock c s a).xFreeBytesRemaining = s.xFreeBytesRemaining - sz := by
    unfold Heap2.takeBlock
    simp only [State.setSize, State.setNext, hsub]
  refine ⟨?_, hfree, by rw [hsize, store_same]⟩
  constructor
  · exact h.init
  · exact h.tiled
  · intro b hb
    rw [hsize]
    by_cases hba : b.addr = a
    · have : b = ⟨a, sz, false⟩ := tiled_addr_inj h.tiled hb h.mem hba
      rw [this]; simp
    · rw [store_ne _ _ hba]; exact h.sizes b hb hba
  · intro b hb hbf
    rw [hnext]
    by_cases hba : b.addr = a
    · rw [hba, store_same]
    · rw [store_ne _ _ hba]; exact h.nexts b hb hba hbf
  · exact h.aligned
  · exact h.perm
  · rw [hnext]
    exact chain_frame 0 (Ne.symm hm7') hna h.chain
  · rw [hsize, store_ne _ _ hm7']; exact h.start_size
  · rw [hsize, store_ne _ _ hm8']; exact h.end_size
  · rw [hnext, store_ne _ _ hm8']; exact h.end_next
  · rw [hfree, h.free_eq]; omega
  · exact h.big
  · rw [hsize]
    refine h.sorted.imp_of_mem ?_
    intro x y hx hy hxy
    have hxa : ∀ z ∈ fl, z ≠ a := fun z hz hh => hna (hh ▸ hz)
    rw [store_ne _ _ (hxa x hx), store_ne _ _ (hxa y hy)]
    exact hxy

/-- The facts about a free region of the heap that the proofs use. -/
theorem Inv.free_block2 (hw : c.WF) (h : Inv c s bs fl) {pre post : List Blk} {b : Blk}
    (hbs : bs = pre ++ b :: post) (hf : b.free = true) :
    s.xBlockSize b.addr = b.size ∧ Tiled (alignedHeap c) pre b.addr ∧
      Tiled (b.addr + b.size) post (alignedHeap c + configADJUSTED_HEAP_SIZE c) ∧ 0 < b.size ∧
      b.addr + b.size ≤ alignedHeap c + configADJUSTED_HEAP_SIZE c ∧ alignedHeap c ≤ b.addr ∧
      b.addr % c.portBYTE_ALIGNMENT = 0 ∧ c.xStart ≠ b.addr ∧ c.xEnd ≠ b.addr ∧
      (∀ x ∈ pre ++ post, x ∈ bs ∧ x.addr ≠ b.addr ∧
        (x.addr + x.size ≤ b.addr ∨ b.addr + b.size ≤ x.addr)) := by
  have hbm : b ∈ bs := by rw [hbs]; simp
  have ht := h.tiled
  rw [hbs] at ht
  obtain ⟨ht1, ht2, ht3⟩ := tiled_split ht
  have hg := geometry2 hw
  have hb1 := tiled_le ht1
  have hb2 := tiled_le ht3
  refine ⟨by rw [h.sizes b hbm, if_pos hf], ht1, ht3, ht2, hb2, hb1, h.aligned b hbm,
    by omega, by omega, ?_⟩
  intro x hx
  rcases List.mem_append.1 hx with hx | hx
  · have := tiled_mem ht1 hx
    exact ⟨by rw [hbs]; simp [hx], by omega, by omega⟩
  · have := tiled_mem ht3 hx
    exact ⟨by rw [hbs]; simp [hx], by omega, by omega⟩

/-- Taking the node found off the free list. -/
theorem Inv.unlink2 (hw : c.WF) (h : Inv c s bs fl) {l1 l2 : List Nat} {pre post : List Blk}
    {b : Blk} (hfl : fl = l1 ++ b.addr :: l2) (hbs : bs = pre ++ b :: post)
    (hf : b.free = true) :
    s.pxNextFreeBlock (l1.getLastD c.xStart) = b.addr ∧
      Chain (s.setNext (l1.getLastD c.xStart) (s.pxNextFreeBlock b.addr)).pxNextFreeBlock
        c.xStart (l1 ++ l2) c.xEnd ∧
      (l1 ++ l2).Perm (freeAddrs (pre ++ post)) ∧ (c.xStart :: (l1 ++ l2)).Nodup ∧
      (∀ a, a ∈ l1 ++ l2 → a ∈ fl) ∧ l1.getLastD c.xStart ∈ c.xStart :: fl := by
  have hc := h.chain
  have hnd := h.nodup2 hw
  rw [hfl] at hc hnd
  have hp := h.perm
  rw [hfl, hbs, freeAddrs_append, freeAddrs_cons_free hf] at hp
  refine ⟨chain_next_mid hc, ?_, ?_, ?_, ?_, ?_⟩
  · refine chain_unlink hc hnd (store_same _ _ _) ?_
    intro a _ hne
    exact store_ne _ _ hne
  · rw [freeAddrs_append]
    have h1 : (b.addr :: (l1 ++ l2)).Perm (b.addr :: (freeAddrs pre ++ freeAddrs post)) :=
      (List.perm_middle.symm.trans hp).trans List.perm_middle
    exact h1.cons_inv
  · have : (c.xStart :: (l1 ++ l2)).Sublist (c.xStart :: (l1 ++ b.addr :: l2)) :=
      List.Sublist.cons₂ _ (List.Sublist.append (List.Sublist.refl _)
        (List.sublist_cons_self _ _))
    exact hnd.sublist this
  · intro a ha
    rw [hfl]
    rcases List.mem_append.1 ha with h1 | h1
    · exact List.mem_append_left _ h1
    · exact List.mem_append_right _ (List.mem_cons_of_mem _ h1)
  · rcases List.mem_cons.1 (List.getLastD_mem_cons l1 c.xStart) with h1 | h1
    · rw [h1]; exact List.mem_cons_self _ _
    · rw [hfl]; exact List.mem_cons_of_mem _ (List.mem_append_left _ h1)

end Heap2

namespace Heap2

variable {c : Config} {s : State} {bs : List Blk} {fl : List Nat}

/-- The split step of `pvPortMalloc` of `heap_2.c` on the region found: it returns, and
leaves the heap as `allocAt` describes, the region taken having the size `allocSize`. -/
theorem Inv.split2 (hw : c.WF) (h : Inv c s bs fl) {l1 l2 : List Nat} {pre post : List Blk}
    {b : Blk} (hfl : fl = l1 ++ b.addr :: l2) (hbs : bs = pre ++ b :: post)
    (hf : b.free = true) {w : Nat} (hw0 : 0 < w)
    (hwb : w ≤ b.size) (hwA : w % c.portBYTE_ALIGNMENT = 0) (hwh : heapSTRUCT_SIZE c ≤ w)
    {fuel : Nat} (hfuel : c.configTOTAL_HEAP_SIZE < fuel) :
    ∃ s3 fl', splitBlock c fuel
        (s.setNext (l1.getLastD c.xStart) (s.pxNextFreeBlock b.addr)) b.addr w = some s3 ∧
      Taken c s3 (allocAt c w pre b post) fl' b.addr (allocSize c w b) ∧
      s3.xFreeBytesRemaining = s.xFreeBytesRemaining ∧
      w ≤ allocSize c w b ∧ allocSize c w b ≤ b.size := by
  obtain ⟨hb1, hb2, hb3, hb4, hb5, hb6, hb7, hb8, hb8', hb9⟩ := h.free_block2 hw hbs hf
  obtain ⟨hu1, hu2, hu3, hu4, hu5, hu6⟩ := h.unlink2 hw hfl hbs hf
  have hg := geometry2 hw
  have hmin := minBlock_eq2 hw
  have hfits := hw.heap_fits
  -- the predecessor is `xStart` or a free region: it is no allocated region and not `xEnd`
  have hprev_used : ∀ x ∈ bs, x.free = false → x.addr ≠ l1.getLastD c.xStart := by
    intro x hx hxf hh
    rcases List.mem_cons.1 hu6 with h1 | h1
    · have := (size_lt_half2 hw h.tiled hx).2.2.2.2.2.2.1
      exact this (by rw [hh, h1])
    · exact addr_not_free_of_used h.tiled hx hxf (h.perm.mem_iff.1 (hh ▸ h1))
  have hprev_end : c.xEnd ≠ l1.getLastD c.xStart := by
    intro hh
    rcases List.mem_cons.1 hu6 with h1 | h1
    · exact hw.xStart_ne_xEnd (by rw [hh, h1])
    · exact h.xEnd_not_mem hw (hh ▸ h1)
  have hused_nf : ∀ x ∈ pre ++ post, x.free = false → x.addr ∉ c.xStart :: (l1 ++ l2) := by
    intro x hx hxf hh
    obtain ⟨hx1, _, _⟩ := hb9 x hx
    rcases List.mem_cons.1 hh with h1 | h1
    · exact (size_lt_half2 hw h.tiled hx1).2.2.2.2.2.2.1 h1.symm
    · exact addr_not_free_of_used h.tiled hx1 hxf (h.perm.mem_iff.1 (hu5 _ h1))
  have hend_nf : c.xEnd ∉ c.xStart :: (l1 ++ l2) := by
    intro hh
    rcases List.mem_cons.1 hh with h1 | h1
    · exact hw.xStart_ne_xEnd h1.symm
    · exact h.xEnd_not_mem hw (hu5 _ h1)
  have hsub : wsub c ((s.setNext (l1.getLastD c.xStart)
      (s.pxNextFreeBlock b.addr)).xBlockSize b.addr) w = b.size - w := by
    show wsub c (s.xBlockSize b.addr) w = _
    rw [hb1, wsub_eq c hwb (by omega)]
  unfold splitBlock
  by_cases hsp : b.size - w > heapMINIMUM_BLOCK_SIZE c
  · -- the region is split
    have hwlt : w < b.size := by omega
    have hnew : wadd c b.addr w = b.addr + w := wadd_eq c (by omega)
    have hne : b.addr + w ≠ b.addr := by omega
    have hnew_nf : b.addr + w ∉ c.xStart :: (l1 ++ l2) := by
      intro hh
      rcases List.mem_cons.1 hh with h1 | h1
      · omega
      · obtain ⟨x, hx, hxf, hxa⟩ := h.mem_fl.1 (hu5 _ h1)
        rw [hbs] at hx
        rcases List.mem_append.1 hx with h2 | h2
        · have := (hb9 x (List.mem_append_left _ h2)).2.2
          have := (size_lt_half2 hw h.tiled (hb9 x (List.mem_append_left _ h2)).1).2.2.2.2.1
          omega
        · rcases List.mem_cons.1 h2 with h3 | h3
          · rw [h3] at hxa; omega
          · have := (hb9 x (List.mem_append_right _ h3)).2.2
            have := (size_lt_half2 hw h.tiled (hb9 x (List.mem_append_right _ h3)).1).2.2.2.2.1
            omega
    obtain ⟨s3, hs3, hchain, hsz3, hfree3, hinit3, hfn⟩ := insert_spec
      (s := ((s.setNext (l1.getLastD c.xStart) (s.pxNextFreeBlock b.addr)).setSize
        (b.addr + w) (b.size - w)).setSize b.addr w) (c := c)
      (x := b.addr + w) hu2 hu4 hnew_nf
      (by
        show store (store s.xBlockSize (b.addr + w) (b.size - w)) b.addr w (b.addr + w)
          ≤ store (store s.xBlockSize (b.addr + w) (b.size - w)) b.addr w c.xEnd
        rw [store_ne _ _ hne, store_same, store_ne _ _ hb8', store_ne _ _ (by omega),
          h.end_size]
        omega)
      (show (l1 ++ l2).length < fuel from by
        have := h.length_lt2 hw hfuel
        rw [hfl] at this
        simp only [List.length_append, List.length_cons] at this ⊢
        omega)
    have hsz3' : s3.xBlockSize = store (store s.xBlockSize (b.addr + w) (b.size - w)) b.addr w :=
      hsz3
    have hfn' : ∀ a, a ≠ b.addr + w → a ∉ c.xStart :: (l1 ++ l2) →
        s3.pxNextFreeBlock a = store s.pxNextFreeBlock (l1.getLastD c.xStart)
          (s.pxNextFreeBlock b.addr) a := hfn
    refine ⟨s3, insertBySize (store (store s.xBlockSize (b.addr + w) (b.size - w)) b.addr w)
      (b.addr + w) (l1 ++ l2), ?_, ?_, hfree3, ?_, ?_⟩
    · rw [if_pos (by rw [hsub]; exact hsp), hsub, hnew]
      exact hs3
    · have hall : allocAt c w pre b post
          = pre ++ ⟨b.addr, w, false⟩ :: ⟨b.addr + w, b.size - w, true⟩ :: post := by
        unfold allocAt
        rw [if_pos hsp]
      rw [hall, allocSize_split2 hsp]
      have hmem' : ∀ x ∈ pre ++ ⟨b.addr, w, false⟩ :: ⟨b.addr + w, b.size - w, true⟩ :: post,
          x.addr ≠ b.addr → x = ⟨b.addr + w, b.size - w, true⟩ ∨ x ∈ pre ++ post := by
        intro x hx hxa
        simp only [List.mem_append, List.mem_cons] at hx ⊢
        rcases hx with hx | hx | hx | hx
        · exact Or.inr (Or.inl hx)
        · rw [hx] at hxa; exact absurd rfl hxa
        · exact Or.inl hx
        · exact Or.inr (Or.inr hx)
      constructor
      · exact hinit3.trans h.init
      · refine tiled_append.2 ⟨b.addr, hb2, ?_⟩
        refine ⟨rfl, hw0, rfl, by show 0 < b.size - w; omega, ?_⟩
        have : b.addr + w + (b.size - w) = b.addr + b.size := by omega
        show Tiled (b.addr + w + (b.size - w)) post _
        rw [this]; exact hb3
      · simp
      · rw [hsz3', store_same]
      · intro x hx hxa
        rcases hmem' x hx hxa with h1 | h1
        · rw [h1, hsz3']
          show store (store s.xBlockSize (b.addr + w) (b.size - w)) b.addr w (b.addr + w) = _
          rw [store_ne _ _ hne, store_same]; rfl
        · obtain ⟨hx1, hx2, hx3⟩ := hb9 x h1
          have hxs := (size_lt_half2 hw h.tiled hx1).2.2.2.2.1
          rw [hsz3', store_ne _ _ hx2, store_ne _ _ (by omega)]
          exact h.sizes x hx1
      · intro x hx hxa hxf
        rcases hmem' x hx hxa with h1 | h1
        · rw [h1] at hxf; exact absurd hxf (by simp)
        · obtain ⟨hx1, hx2, hx3⟩ := hb9 x h1
          have hxs := (size_lt_half2 hw h.tiled hx1).2.2.2.2.1
          rw [hfn' _ (by omega) (hused_nf x h1 hxf), store_ne _ _ (hprev_used x hx1 hxf)]
          exact h.nexts x hx1 hxf
      · intro x hx
        by_cases hxa : x.addr = b.addr
        · rw [hxa]; exact hb7
        · rcases hmem' x hx hxa with h1 | h1
          · rw [h1]
            show (b.addr + w) % c.portBYTE_ALIGNMENT = 0
            rw [Nat.add_mod, hb7, hwA]; simp
          · exact h.aligned x (hb9 x h1).1
      · refine (insertBySize_perm _ _ _).trans ?_
        rw [freeAddrs_append, freeAddrs_cons_used rfl, freeAddrs_cons_free rfl]
        have h1 : ((b.addr + w) :: (l1 ++ l2)).Perm
            ((b.addr + w) :: (freeAddrs pre ++ freeAddrs post)) := by
          rw [← freeAddrs_append]; exact hu3.cons _
        exact h1.trans List.perm_middle.symm
      · exact hchain
      · rw [hsz3', store_ne _ _ hb8, store_ne _ _ (by omega)]; exact h.start_size
      · rw [hsz3', store_ne _ _ hb8', store_ne _ _ (by omega)]; exact h.end_size
      · rw [hfn' _ (by omega) hend_nf, store_ne _ _ hprev_end]; exact h.end_next
      · rw [hfree3]
        show s.xFreeBytesRemaining = _
        rw [h.free_eq, hbs, freeSum_append, freeSum_cons_free hf, freeSum_append,
          freeSum_cons_used rfl, freeSum_cons_free rfl]
        show _ = freeSum pre + (b.size - w + freeSum post) + w
        omega
      · intro x hx
        by_cases hxa : x.addr = b.addr
        · have hx2 : x = ⟨b.addr, w, false⟩ := by
            simp only [List.mem_append, List.mem_cons] at hx
            rcases hx with hx | hx | hx | hx
            · have := (hb9 x (List.mem_append_left _ hx)).2.1
              exact absurd hxa this
            · exact hx
            · rw [hx] at hxa; exact absurd hxa hne
            · have := (hb9 x (List.mem_append_right _ hx)).2.1
              exact absurd hxa this
          rw [hx2]; exact hwh
        · rcases hmem' x hx hxa with h1 | h1
          · rw [h1]
            show heapSTRUCT_SIZE c ≤ b.size - w
            omega
          · exact h.big x (hb9 x h1).1
      · rw [hsz3']
        refine insertBySize_sorted _ _ ?_
        have hsub : (l1 ++ l2).Sublist fl := by
          rw [hfl]
          exact List.Sublist.append (List.Sublist.refl _) (List.sublist_cons_self _ _)
        refine (h.sorted.sublist hsub).imp_of_mem ?_
        intro x y hx hy hxy
        have hxn : ∀ z ∈ l1 ++ l2, z ≠ b.addr ∧ z ≠ b.addr + w := by
          intro z hz
          constructor
          · intro hh
            have hnd := h.nodup2 hw
            rw [hfl] at hnd
            have hnd' := (List.nodup_cons.1 hnd).2
            have := List.nodup_middle.1 hnd'
            exact (List.nodup_cons.1 this).1 (hh ▸ hz)
          · intro hh
            exact hnew_nf (List.mem_cons_of_mem _ (hh ▸ hz))
        rw [store_ne _ _ (hxn x hx).1, store_ne _ _ (hxn x hx).2,
          store_ne _ _ (hxn y hy).1, store_ne _ _ (hxn y hy).2]
        exact hxy
    · rw [allocSize_split2 hsp]
    · rw [allocSize_split2 hsp]; exact hwb
  · -- the region is taken whole
    refine ⟨s.setNext (l1.getLastD c.xStart) (s.pxNextFreeBlock b.addr), l1 ++ l2,
      ?_, ?_, rfl, ?_, ?_⟩
    · rw [if_neg (by rw [hsub]; exact hsp)]
    · have hall : allocAt c w pre b post = pre ++ ⟨b.addr, b.size, false⟩ :: post := by
        unfold allocAt
        rw [if_neg hsp]
      rw [hall, allocSize_whole2 hsp]
      have hmem' : ∀ x ∈ pre ++ ⟨b.addr, b.size, false⟩ :: post,
          x.addr ≠ b.addr → x ∈ pre ++ post := by
        intro x hx hxa
        simp only [List.mem_append, List.mem_cons] at hx ⊢
        rcases hx with hx | hx | hx
        · exact Or.inl hx
        · rw [hx] at hxa; exact absurd rfl hxa
        · exact Or.inr hx
      constructor
      · exact h.init
      · exact tiled_append.2 ⟨b.addr, hb2, rfl, hb4, hb3⟩
      · simp
      · exact hb1
      · intro x hx hxa
        exact h.sizes x (hb9 x (hmem' x hx hxa)).1
      · intro x hx hxa hxf
        have hx1 := (hb9 x (hmem' x hx hxa)).1
        show store s.pxNextFreeBlock _ _ x.addr = 0
        rw [store_ne _ _ (hprev_used x hx1 hxf)]
        exact h.nexts x hx1 hxf
      · intro x hx
        by_cases hxa : x.addr = b.addr
        · rw [hxa]; exact hb7
        · exact h.aligned x (hb9 x (hmem' x hx hxa)).1
      · rw [freeAddrs_append, freeAddrs_cons_used rfl, ← freeAddrs_append]
        exact hu3
      · exact hu2
      · exact h.start_size
      · exact h.end_size
      · show store s.pxNextFreeBlock _ _ c.xEnd = 0
        rw [store_ne _ _ hprev_end]; exact h.end_next
      · show s.xFreeBytesRemaining = _
        rw [h.free_eq, hbs, freeSum_append, freeSum_cons_free hf, freeSum_append,
          freeSum_cons_used rfl]
        omega
      · intro x hx
        simp only [List.mem_append, List.mem_cons] at hx
        rcases hx with hx | hx | hx
        · exact h.big x (hb9 x (List.mem_append_left _ hx)).1
        · rw [hx]; exact h.big b (by rw [hbs]; simp)
        · exact h.big x (hb9 x (List.mem_append_right _ hx)).1
      · have hsub : (l1 ++ l2).Sublist fl := by
          rw [hfl]
          exact List.Sublist.append (List.Sublist.refl _) (List.sublist_cons_self _ _)
        exact h.sorted.sublist hsub
    · rw [allocSize_whole2 hsp]; exact hwb
    · rw [allocSize_whole2 hsp]

end Heap2

namespace Heap2

variable {c : Config} {s : State} {bs : List Blk} {fl : List Nat}

theorem usedBlocks_allocAt2 (w : Nat) (pre post : List Blk) {b : Blk} (hf : b.free = true) :
    usedBlocks (allocAt c w pre b post)
      = usedBlocks pre ++ ⟨b.addr, allocSize c w b, false⟩ :: usedBlocks post ∧
    usedBlocks (pre ++ b :: post) = usedBlocks pre ++ usedBlocks post := by
  constructor
  · unfold allocAt
    by_cases hsp : b.size - w > heapMINIMUM_BLOCK_SIZE c
    · rw [if_pos hsp, allocSize_split2 hsp, usedBlocks_append, usedBlocks_cons_used rfl,
        usedBlocks_cons_free rfl]
    · rw [if_neg hsp, allocSize_whole2 hsp, usedBlocks_append, usedBlocks_cons_used rfl]
  · rw [usedBlocks_append, usedBlocks_cons_free hf]

/-- What `pvPortMalloc` of `heap_2.c` does on a state satisfying the invariant, with fuel
above the heap size, with the place of the region taken on the free list: every node in
front of it is smaller than the adjusted size. -/
theorem Inv.malloc_pos2 (hw : c.WF) (h : Inv c s bs fl) (n : Nat) {fuel : Nat}
    (hfuel : c.configTOTAL_HEAP_SIZE < fuel) :
    (pvPortMalloc c fuel s n = Outcome.ok s 0 ∧
      (¬ (heapBLOCK_SIZE_IS_VALID c (adjustWantedSize c n) = true ∧
          (adjustWantedSize c n > 0 ∧ adjustWantedSize c n ≤ s.xFreeBytesRemaining)) ∨
        ∀ b ∈ bs, b.free = true → b.size < adjustWantedSize c n)) ∨
    (∃ pre b post s' fl', bs = pre ++ b :: post ∧ b.free = true ∧
      adjustWantedSize c n ≤ b.size ∧ 0 < adjustWantedSize c n ∧
      pvPortMalloc c fuel s n = Outcome.ok s' (b.addr + heapSTRUCT_SIZE c) ∧
      Inv c s' (allocAt c (adjustWantedSize c n) pre b post) fl' ∧
      s'.xFreeBytesRemaining
        = s.xFreeBytesRemaining - allocSize c (adjustWantedSize c n) b ∧
      s'.xBlockSize b.addr
        = allocSize c (adjustWantedSize c n) b + heapBLOCK_ALLOCATED_BITMASK c ∧
      ∃ l1 l2, fl = l1 ++ b.addr :: l2 ∧
        (∀ a ∈ l1, s.xBlockSize a < adjustWantedSize c n) ∧
        (heapBLOCK_SIZE_IS_VALID c (adjustWantedSize c n) = true ∧
          adjustWantedSize c n ≤ s.xFreeBytesRemaining)) := by
  obtain ⟨w, hwdef⟩ : ∃ w, w = adjustWantedSize c n := ⟨_, rfl⟩
  rw [← hwdef]
  have hcode : pvPortMalloc c fuel s n = allocateBlock c fuel s w := by
    unfold pvPortMalloc
    simp only [h.init, Bool.true_eq_false, if_false, ← hwdef]
  rw [hcode]
  unfold allocateBlock
  by_cases hcond : heapBLOCK_SIZE_IS_VALID c w = true ∧ (w > 0 ∧ w ≤ s.xFreeBytesRemaining)
  · rw [if_pos hcond]
    rcases h.search2 hw w hfuel with ⟨hsr, hall⟩ |
      ⟨l1, l2, pre, b, post, hfl, hbs, hf, hwb, hpre, hsr⟩
    · left
      rw [hsr]
      simp only [ne_eq, not_true_eq_false, if_false]
      exact ⟨trivial, Or.inr hall⟩
    · right
      obtain ⟨hb1, hb2, hb3, hb4, hb5, hb6, hb7, hb8, hb8', hb9⟩ := h.free_block2 hw hbs hf
      have hg := geometry2 hw
      have hfits := hw.heap_fits
      have hpos : 0 < adjustWantedSize c n := by rw [← hwdef]; exact hcond.2.1
      have hadj := adjust_pos_facts2 hw hpos
      rw [← hwdef] at hadj
      obtain ⟨s3, fl', hs3, htk, hv, hsz1, hsz2⟩ :=
        h.split2 hw hfl hbs hf hcond.2.1 hwb hadj.1 (by omega) hfuel
      obtain ⟨hi, hfr, hsz⟩ := htk.mark2 hw
      have hne : b.addr ≠ c.xEnd := fun hh => hb8' hh.symm
      have hprev := (h.unlink2 hw hfl hbs hf).1
      have hs := hs_facts2 hw
      have hlk := hw.link_small
      have hbig := hw.heap_big
      have hret : wadd c b.addr (heapSTRUCT_SIZE c) = b.addr + heapSTRUCT_SIZE c :=
        wadd_eq c (by omega)
      refine ⟨pre, b, post, Heap2.takeBlock c s3 b.addr, fl', hbs, hf, hwb, hcond.2.1, ?_, hi,
        ?_, hsz, l1, l2, hfl, hpre, hcond.1, hcond.2.2⟩
      · rw [hsr]
        simp only [ne_eq, hne, not_false_eq_true, if_true, hs3, hprev, hret]
      · rw [hfr, hv]
  · left
    rw [if_neg hcond]
    exact ⟨rfl, Or.inl hcond⟩

/-- What `pvPortMalloc` of `heap_2.c` does on a state satisfying the invariant, with fuel
above the heap size.  Either it returns `NULL` and leaves the state as it is: the adjusted
size is invalid or no free region is large enough.  Or it returns the payload of the first
node of the free list that is large enough, and the invariant holds again, for the regions
`allocAt`. -/
theorem Inv.malloc2 (hw : c.WF) (h : Inv c s bs fl) (n : Nat) {fuel : Nat}
    (hfuel : c.configTOTAL_HEAP_SIZE < fuel) :
    (pvPortMalloc c fuel s n = Outcome.ok s 0 ∧
      (¬ (heapBLOCK_SIZE_IS_VALID c (adjustWantedSize c n) = true ∧
          (adjustWantedSize c n > 0 ∧ adjustWantedSize c n ≤ s.xFreeBytesRemaining)) ∨
        ∀ b ∈ bs, b.free = true → b.size < adjustWantedSize c n)) ∨
    (∃ pre b post s' fl', bs = pre ++ b :: post ∧ b.free = true ∧
      adjustWantedSize c n ≤ b.size ∧ 0 < adjustWantedSize c n ∧
      pvPortMalloc c fuel s n = Outcome.ok s' (b.addr + heapSTRUCT_SIZE c) ∧
      Inv c s' (allocAt c (adjustWantedSize c n) pre b post) fl' ∧
      s'.xFreeBytesRemaining
        = s.xFreeBytesRemaining - allocSize c (adjustWantedSize c n) b ∧
      s'.xBlockSize b.addr
        = allocSize c (adjustWantedSize c n) b + heapBLOCK_ALLOCATED_BITMASK c) := by
  rcases h.malloc_pos2 hw n hfuel with h1 |
    ⟨pre, b, post, s', fl', k1, k2, k3, k4, k5, k6, k7, k8, _⟩
  · exact Or.inl h1
  · exact Or.inr ⟨pre, b, post, s', fl', k1, k2, k3, k4, k5, k6, k7, k8⟩

/-- What `vPortFree` of `heap_2.c` does on the payload pointer of an allocated region, in a
state satisfying the invariant and with fuel above the heap size: it returns, the region is
free again and on the free list, behind nodes that are all smaller than it, and the
invariant holds again. -/
theorem Inv.free_pos2 (hw : c.WF) (h : Inv c s bs fl) {pre post : List Blk} {a sz : Nat}
    (hbs : bs = pre ++ ⟨a, sz, false⟩ :: post) {fuel : Nat}
    (hfuel : c.configTOTAL_HEAP_SIZE < fuel) :
    ∃ s' fl', vPortFree c fuel s (a + heapSTRUCT_SIZE c) = Outcome.ok s' () ∧
      Inv c s' (pre ++ ⟨a, sz, true⟩ :: post) fl' ∧
      regionSize c s (a + heapSTRUCT_SIZE c) = sz ∧
      s'.xFreeBytesRemaining = s.xFreeBytesRemaining + sz ∧
      heapBLOCK_IS_ALLOCATED c (s'.xBlockSize a) = false ∧
      ∃ f1 f2, fl' = f1 ++ a :: f2 ∧ ∀ x ∈ f1, s'.xBlockSize x < sz := by
  have hg := geometry2 hw
  have hs := hs_facts2 hw
  have hlp := hw.link_pos
  have hlk := hw.link_small
  have hbig := hw.heap_big
  have hfits := hw.heap_fits
  have hbm : (⟨a, sz, false⟩ : Blk) ∈ bs := by rw [hbs]; simp
  obtain ⟨hm1, hm2, hm3, hm4, hm5, hm6, hm7, hm8, hm9⟩ := size_lt_half2 hw h.tiled hbm
  have hm1' : sz < 2 ^ (c.bits - 1) := hm1
  have hm3' : alignedHeap c ≤ a := hm3
  have hm4' : a + sz ≤ alignedHeap c + configADJUSTED_HEAP_SIZE c := hm4
  have hm5' : 0 < sz := hm5
  have hm6' : sz ≤ configADJUSTED_HEAP_SIZE c := hm6
  have hm7' : c.xStart ≠ a := hm7
  have hm8' : c.xEnd ≠ a := hm8
  have ht := h.tiled
  rw [hbs] at ht
  obtain ⟨ht1, _, ht3⟩ := tiled_split ht
  have ht1' : Tiled (alignedHeap c) pre a := ht1
  have ht3' : Tiled (a + sz) post (alignedHeap c + configADJUSTED_HEAP_SIZE c) := ht3
  have hsa : s.xBlockSize a = sz + heapBLOCK_ALLOCATED_BITMASK c := by
    have := h.sizes _ hbm
    simpa using this
  have hna : s.pxNextFreeBlock a = 0 := h.nexts _ hbm rfl
  have hfa : freeAddrs bs = freeAddrs pre ++ freeAddrs post := by
    rw [hbs, freeAddrs_append, freeAddrs_cons_used rfl]
  have hsub : ∀ x ∈ pre ++ post, x ∈ bs ∧ x.addr ≠ a := by
    intro x hx
    rcases List.mem_append.1 hx with hx | hx
    · have := tiled_mem ht1' hx
      exact ⟨by rw [hbs]; simp [hx], by omega⟩
    · have := tiled_mem ht3' hx
      exact ⟨by rw [hbs]; simp [hx], by omega⟩
  have hbig : heapSTRUCT_SIZE c ≤ sz := h.big _ hbm
  have hpuc : wsub c (a + heapSTRUCT_SIZE c) (heapSTRUCT_SIZE c) = a := by
    rw [wsub_eq c (by omega) (by omega)]
    omega
  have hfb : heapFREE_BLOCK c (s.xBlockSize a) = sz := by rw [hsa, hw.free_flag hm1']
  have hfree_sum : s.xFreeBytesRemaining + sz < c.wordMod := by
    have h1 := freeSum_add_used_le hbm rfl
    have h1' : freeSum bs + sz ≤ (bs.map (fun b => b.size)).sum := h1
    have h2 := tiled_sum h.tiled
    rw [h.free_eq]
    omega
  have hanf : a ∉ c.xStart :: fl := by
    intro hh
    rcases List.mem_cons.1 hh with h1 | h1
    · exact hm7' h1.symm
    · exact addr_not_free_of_used h.tiled hbm rfl (h.perm.mem_iff.1 h1)
  obtain ⟨s2, hs2, hchain, hsz2, hfree2, hinit2, hfn⟩ := insert_spec
    (s := s.setSize a sz) (c := c) (x := a) h.chain (h.nodup2 hw) hanf
    (by
      show store s.xBlockSize a sz a ≤ store s.xBlockSize a sz c.xEnd
      rw [store_same, store_ne _ _ hm8', h.end_size]
      exact hm6')
    (h.length_lt2 hw hfuel)
  have hsz2' : s2.xBlockSize = store s.xBlockSize a sz := hsz2
  have hfn' : ∀ x, x ≠ a → x ∉ c.xStart :: fl → s2.pxNextFreeBlock x = s.pxNextFreeBlock x := hfn
  have hfree2' : s2.xFreeBytesRemaining = s.xFreeBytesRemaining := hfree2
  have hcode : vPortFree c fuel s (a + heapSTRUCT_SIZE c)
      = Outcome.ok { s2 with xFreeBytesRemaining := s.xFreeBytesRemaining + sz } () := by
    have hpv : a + heapSTRUCT_SIZE c ≠ 0 := by omega
    have hia : heapBLOCK_IS_ALLOCATED c (s.xBlockSize a) = true := by
      rw [hsa]; exact hw.isAllocated_flag hm1'
    have hadd : wadd c s.xFreeBytesRemaining sz = s.xFreeBytesRemaining + sz :=
      wadd_eq c hfree_sum
    unfold vPortFree
    simp only [hpv, ne_eq, not_false_eq_true, if_true, hpuc, hia, Bool.true_eq_false, if_false,
      hna, not_true_eq_false, hfb, hs2, hsz2', store_same, hfree2', hadd]
  refine ⟨{ s2 with xFreeBytesRemaining := s.xFreeBytesRemaining + sz },
    insertBySize (store s.xBlockSize a sz) a fl, hcode, ?_, ?_, rfl, ?_, ?_⟩
  · have hmem' : ∀ x ∈ pre ++ ⟨a, sz, true⟩ :: post, x = ⟨a, sz, true⟩ ∨ x ∈ pre ++ post := by
      intro x hx
      simp only [List.mem_append, List.mem_cons] at hx ⊢
      rcases hx with hx | hx | hx
      · exact Or.inr (Or.inl hx)
      · exact Or.inl hx
      · exact Or.inr (Or.inr hx)
    constructor
    · exact hinit2.trans h.init
    · exact tiled_append.2 ⟨a, ht1', rfl, hm5', ht3'⟩
    · intro x hx
      show s2.xBlockSize x.addr = _
      rw [hsz2']
      rcases hmem' x hx with h1 | h1
      · rw [h1]
        show store s.xBlockSize a sz a = _
        rw [store_same]; rfl
      · obtain ⟨hx1, hx2⟩ := hsub x h1
        rw [store_ne _ _ hx2]
        exact h.sizes x hx1
    · intro x hx hxf
      show s2.pxNextFreeBlock x.addr = 0
      rcases hmem' x hx with h1 | h1
      · rw [h1] at hxf; exact absurd hxf (by simp)
      · obtain ⟨hx1, hx2⟩ := hsub x h1
        rw [hfn' _ hx2 ?_]
        · exact h.nexts x hx1 hxf
        · intro hh
          rcases List.mem_cons.1 hh with h2 | h2
          · exact (size_lt_half2 hw h.tiled hx1).2.2.2.2.2.2.1 h2.symm
          · exact addr_not_free_of_used h.tiled hx1 hxf (h.perm.mem_iff.1 h2)
    · intro x hx
      rcases hmem' x hx with h1 | h1
      · rw [h1]; exact h.aligned ⟨a, sz, false⟩ hbm
      · exact h.aligned x (hsub x h1).1
    · refine (insertBySize_perm _ _ _).trans ?_
      rw [freeAddrs_append, freeAddrs_cons_free rfl]
      have h1 : (a :: fl).Perm (a :: (freeAddrs pre ++ freeAddrs post)) := by
        rw [← hfa]; exact h.perm.cons _
      exact h1.trans List.perm_middle.symm
    · exact hchain
    · show s2.xBlockSize c.xStart = 0
      rw [hsz2', store_ne _ _ hm7']; exact h.start_size
    · show s2.xBlockSize c.xEnd = _
      rw [hsz2', store_ne _ _ hm8']; exact h.end_size
    · show s2.pxNextFreeBlock c.xEnd = 0
      rw [hfn' _ hm8' ?_]
      · exact h.end_next
      · intro hh
        rcases List.mem_cons.1 hh with h2 | h2
        · exact hw.xStart_ne_xEnd h2.symm
        · exact h.xEnd_not_mem hw h2
    · show s.xFreeBytesRemaining + sz = _
      rw [h.free_eq, hbs, freeSum_append, freeSum_cons_used rfl, freeSum_append,
        freeSum_cons_free rfl]
      show _ = freeSum pre + (sz + freeSum post)
      omega
    · intro x hx
      rcases hmem' x hx with h1 | h1
      · rw [h1]; exact hbig
      · exact h.big x (hsub x h1).1
    · show (insertBySize (store s.xBlockSize a sz) a fl).Pairwise
        (fun x y => s2.xBlockSize x ≤ s2.xBlockSize y)
      rw [hsz2']
      refine insertBySize_sorted _ _ ?_
      refine h.sorted.imp_of_mem ?_
      intro x y hx hy hxy
      have hxa : ∀ z ∈ fl, z ≠ a := fun z hz hh => hanf (List.mem_cons_of_mem _ (hh ▸ hz))
      rw [store_ne _ _ (hxa x hx), store_ne _ _ (hxa y hy)]
      exact hxy
  · unfold regionSize
    rw [hpuc, hfb]
  · show heapBLOCK_IS_ALLOCATED c (s2.xBlockSize a) = false
    rw [hsz2', store_same]
    exact hw.isAllocated_of_lt hm1'
  · refine ⟨_, _, rfl, ?_⟩
    intro x hx
    show s2.xBlockSize x < sz
    rw [hsz2']
    have := List.mem_takeWhile_imp hx
    simpa [store_same] using this

/-- What `vPortFree` of `heap_2.c` does on the payload pointer of an allocated region, in a
state satisfying the invariant and with fuel above the heap size: it returns, the region is
free again and on the free list, and the invariant holds again. -/
theorem Inv.free2 (hw : c.WF) (h : Inv c s bs fl) {pre post : List Blk} {a sz : Nat}
    (hbs : bs = pre ++ ⟨a, sz, false⟩ :: post) {fuel : Nat}
    (hfuel : c.configTOTAL_HEAP_SIZE < fuel) :
    ∃ s' fl', vPortFree c fuel s (a + heapSTRUCT_SIZE c) = Outcome.ok s' () ∧
      Inv c s' (pre ++ ⟨a, sz, true⟩ :: post) fl' ∧
      regionSize c s (a + heapSTRUCT_SIZE c) = sz ∧
      s'.xFreeBytesRemaining = s.xFreeBytesRemaining + sz ∧
      heapBLOCK_IS_ALLOCATED c (s'.xBlockSize a) = false := by
  obtain ⟨s', fl', k1, k2, k3, k4, k5, _⟩ := h.free_pos2 hw hbs hfuel
  exact ⟨s', fl', k1, k2, k3, k4, k5⟩

end Heap2

namespace Heap2

variable {c : Config} {s s' : State} {bs : List Blk} {fl : List Nat}
  {live : List (Nat × Nat)}

/-! ### More fuel does not change a result of `heap_2.c` -/

theorem insertLoop_mono2 {next size : Nat → Nat} {x : Nat} :
    ∀ {fuel fuel' p r : Nat}, insertLoop next size x fuel p = some r → fuel ≤ fuel' →
      insertLoop next size x fuel' p = some r := by
  intro fuel
  induction fuel with
  | zero => intro fuel' p r h; simp [insertLoop] at h
  | succ k ih =>
    intro fuel' p r h hle
    obtain ⟨f', rfl⟩ : ∃ f', fuel' = f' + 1 := ⟨fuel' - 1, by omega⟩
    simp only [insertLoop] at h ⊢
    split
    · rename_i hc
      rw [if_pos hc] at h
      exact ih h (by omega)
    · rename_i hc
      rw [if_neg hc] at h
      exact h

theorem insert_mono2 {x fuel fuel' : Nat}
    (h : prvInsertBlockIntoFreeList c fuel s x = some s') (hle : fuel ≤ fuel') :
    prvInsertBlockIntoFreeList c fuel' s x = some s' := by
  unfold prvInsertBlockIntoFreeList at h ⊢
  simp only at h ⊢
  cases hl : insertLoop s.pxNextFreeBlock s.xBlockSize (s.xBlockSize x) fuel c.xStart with
  | none => rw [hl] at h; simp at h
  | some it =>
    rw [hl] at h
    rw [insertLoop_mono2 hl hle]
    exact h

theorem splitBlock_mono2 {b w fuel fuel' : Nat}
    (h : splitBlock c fuel s b w = some s') (hle : fuel ≤ fuel') :
    splitBlock c fuel' s b w = some s' := by
  unfold splitBlock at h ⊢
  split
  · rename_i hc
    rw [if_pos hc] at h
    exact insert_mono2 h hle
  · rename_i hc
    rw [if_neg hc] at h
    exact h

theorem allocateBlock_mono2 {w fuel fuel' : Nat}
    (h : allocateBlock c fuel s w ≠ Outcome.outOfFuel) (hle : fuel ≤ fuel') :
    allocateBlock c fuel' s w = allocateBlock c fuel s w := by
  unfold allocateBlock at h ⊢
  split
  · rename_i hc
    rw [if_pos hc] at h
    cases hs : searchLoop s.pxNextFreeBlock s.xBlockSize w fuel c.xStart
        (s.pxNextFreeBlock c.xStart) with
    | none => rw [hs] at h; exact absurd rfl h
    | some r =>
      obtain ⟨prev, blk⟩ := r
      rw [hs] at h
      rw [searchLoop_mono hs hle]
      simp only at h ⊢
      split
      · rename_i hb
        rw [if_pos hb] at h
        cases hsp : splitBlock c fuel (s.setNext prev (s.pxNextFreeBlock blk)) blk w with
        | none => rw [hsp] at h; exact absurd rfl h
        | some s3 => rw [splitBlock_mono2 hsp hle]
      · rfl
  · rfl

theorem malloc_mono2 {n fuel fuel' : Nat}
    (h : pvPortMalloc c fuel s n ≠ Outcome.outOfFuel) (hle : fuel ≤ fuel') :
    pvPortMalloc c fuel' s n = pvPortMalloc c fuel s n := by
  unfold pvPortMalloc at h ⊢
  exact allocateBlock_mono2 h hle

theorem free_mono2 {pv fuel fuel' : Nat}
    (h : vPortFree c fuel s pv ≠ Outcome.outOfFuel) (hle : fuel ≤ fuel') :
    vPortFree c fuel' s pv = vPortFree c fuel s pv := by
  unfold vPortFree at h ⊢
  simp only at h ⊢
  split
  · rename_i h1
    rw [if_pos h1] at h
    split
    · rfl
    · rename_i h2
      rw [if_neg h2] at h
      split
      · rfl
      · rename_i h3
        rw [if_neg h3] at h
        split
        · rename_i h4
          rw [if_pos h4] at h
          split
          · rename_i h5
            rw [if_pos h5] at h
            cases hi : prvInsertBlockIntoFreeList c fuel
                (s.setSize (wsub c pv (heapSTRUCT_SIZE c))
                    (heapFREE_BLOCK c (s.xBlockSize (wsub c pv (heapSTRUCT_SIZE c)))))
                (wsub c pv (heapSTRUCT_SIZE c)) with
            | none => rw [hi] at h; exact absurd rfl h
            | some s' => rw [insert_mono2 hi hle]
          · rfl
        · rfl
  · rfl

/-! ### The invariant holds in every reachable state of `heap_2.c` -/

/-- The first call of `pvPortMalloc` of `heap_2.c` sets up the heap. -/
theorem malloc_boot2 (next0 size0 : Nat → Nat) (fuel n : Nat) :
    pvPortMalloc c fuel (Heap2.boot c next0 size0) n
      = pvPortMalloc c fuel
          { prvHeapInit c (Heap2.boot c next0 size0) with xHeapHasBeenInitialised := true } n := by
  unfold pvPortMalloc
  simp [Heap2.boot]

theorem Inv.malloc_live2 (hw : c.WF) (h : Inv c s bs fl)
    (hl : LiveOK (heapSTRUCT_SIZE c) bs live)
    {n fuel p : Nat} (hres : pvPortMalloc c fuel s n = Outcome.ok s' p) :
    ∃ bs' fl', Inv c s' bs' fl' ∧
      LiveOK (heapSTRUCT_SIZE c) bs'
        (if p = 0 then live else (p, regionSize c s' p) :: live) := by
  have hres' : pvPortMalloc c (max fuel (c.configTOTAL_HEAP_SIZE + 1)) s n = Outcome.ok s' p := by
    rw [malloc_mono2 (by rw [hres]; simp) (Nat.le_max_left _ _), hres]
  rcases h.malloc2 hw n (fuel_max c fuel) with
    ⟨h1, _⟩ | ⟨pre, b, post, s'', fl', hbs, hf, hwb, hpos, h1, hinv, hfr, hsz⟩
  · rw [h1] at hres'
    injection hres' with e1 e2
    subst e1; subst e2
    exact ⟨bs, fl, h, by simpa using hl⟩
  · rw [h1] at hres'
    injection hres' with e1 e2
    subst e1; subst e2
    obtain ⟨hb1, hb2, hb3, hb4, hb5, hb6, hb7, hb8, hb8', hb9⟩ := h.free_block2 hw hbs hf
    have hg := geometry2 hw
    have hs := hs_facts2 hw
    have hlp := hw.link_pos
    have hfits := hw.heap_fits
    have hbig := h.big b (by rw [hbs]; simp)
    have hp0 : b.addr + heapSTRUCT_SIZE c ≠ 0 := by omega
    have hsize : allocSize c (adjustWantedSize c n) b ≤ b.size := by
      unfold allocSize; split <;> omega
    have hreg : regionSize c s'' (b.addr + heapSTRUCT_SIZE c)
        = allocSize c (adjustWantedSize c n) b := by
      unfold regionSize
      rw [wsub_eq c (by omega) (by omega), Nat.add_sub_cancel, hsz, hw.free_flag (by omega)]
    refine ⟨_, fl', hinv, ?_⟩
    rw [if_neg hp0, hreg]
    rw [liveOK_iff] at hl ⊢
    intro q e
    rw [(usedBlocks_allocAt2 (c := c) (adjustWantedSize c n) pre post hf).1]
    rw [hbs, (usedBlocks_allocAt2 (c := c) (adjustWantedSize c n) pre post hf).2] at hl
    simp only [List.mem_cons, Prod.mk.injEq, hl q e, List.mem_append]
    constructor
    · rintro (⟨h1, h2⟩ | ⟨x, hx | hx, h1, h2⟩)
      · exact ⟨⟨b.addr, allocSize c (adjustWantedSize c n) b, false⟩, Or.inr (Or.inl rfl), h1, h2⟩
      · exact ⟨x, Or.inl hx, h1, h2⟩
      · exact ⟨x, Or.inr (Or.inr hx), h1, h2⟩
    · rintro ⟨x, hx | hx | hx, h1, h2⟩
      · exact Or.inr ⟨x, Or.inl hx, h1, h2⟩
      · left; rw [hx] at h1 h2; exact ⟨h1, h2⟩
      · exact Or.inr ⟨x, Or.inr hx, h1, h2⟩

theorem Inv.free_live2 (hw : c.WF) (h : Inv c s bs fl)
    (hl : LiveOK (heapSTRUCT_SIZE c) bs live)
    {fuel p d : Nat} (hp : (p, d) ∈ live) (hres : vPortFree c fuel s p = Outcome.ok s' ()) :
    ∃ bs' fl', Inv c s' bs' fl' ∧
      LiveOK (heapSTRUCT_SIZE c) bs' (live.filter (fun x => x.1 ≠ p)) := by
  have hres' : vPortFree c (max fuel (c.configTOTAL_HEAP_SIZE + 1)) s p = Outcome.ok s' () := by
    rw [free_mono2 (by rw [hres]; simp) (Nat.le_max_left _ _), hres]
  obtain ⟨b, hb, hbf, hp1, hp2⟩ := (hl p d).1 hp
  obtain ⟨pre, post, hbs⟩ := List.append_of_mem hb
  have hbe : b = ⟨b.addr, b.size, false⟩ := by
    cases b; simp_all
  rw [hbe] at hbs
  obtain ⟨s'', fl', h1, hinv, _⟩ := h.free2 hw hbs
    (fuel_max c fuel)
  rw [← hp1, hres'] at h1
  injection h1 with e1
  subst e1
  refine ⟨_, fl', hinv, ?_⟩
  have ht := h.tiled
  rw [hbs] at ht
  obtain ⟨ht1, ht2, ht3⟩ := tiled_split ht
  rw [liveOK_iff] at hl ⊢
  intro q e
  rw [usedBlocks_append, usedBlocks_cons_free rfl]
  rw [hbs, usedBlocks_append, usedBlocks_cons_used rfl] at hl
  simp only [List.mem_filter, hl q e, List.mem_append, List.mem_cons, ne_eq,
    decide_eq_true_eq, decide_not, Bool.not_eq_true', decide_eq_false_iff_not]
  constructor
  · rintro ⟨⟨x, hx | hx | hx, h1, h2⟩, hne⟩
    · exact ⟨x, Or.inl hx, h1, h2⟩
    · exfalso; apply hne; rw [h1, hx, hp1]
    · exact ⟨x, Or.inr hx, h1, h2⟩
  · rintro ⟨x, hx | hx, h1, h2⟩
    · refine ⟨⟨x, Or.inl hx, h1, h2⟩, ?_⟩
      have := tiled_mem ht1 (mem_usedBlocks.1 hx).1
      have ha : (⟨b.addr, b.size, false⟩ : Blk).addr = b.addr := rfl
      omega
    · refine ⟨⟨x, Or.inr (Or.inr hx), h1, h2⟩, ?_⟩
      have := tiled_mem ht3 (mem_usedBlocks.1 hx).1
      have ha : (⟨b.addr, b.size, false⟩ : Blk).addr = b.addr := rfl
      have hb' : (⟨b.addr, b.size, false⟩ : Blk).size = b.size := rfl
      omega

/-- Every reachable state of `heap_2.c` is the state at program start, with no allocation
live, or satisfies the invariant, the live allocations being the allocated regions. -/
theorem Reach.inv2 (hw : c.WF) (hr : Reach c s live) :
    ((∃ next0 size0, s = Heap2.boot c next0 size0) ∧ live = []) ∨
      ∃ bs fl, Inv c s bs fl ∧ LiveOK (heapSTRUCT_SIZE c) bs live := by
  induction hr with
  | boot next0 size0 => exact Or.inl ⟨⟨next0, size0, rfl⟩, rfl⟩
  | malloc fuel n _ hn hres ih =>
    right
    rcases ih with ⟨⟨next0, size0, rfl⟩, rfl⟩ | ⟨bs, fl, hinv, hl⟩
    · rw [malloc_boot2] at hres
      refine (prvHeapInit_inv2 hw _ rfl).malloc_live2 hw ?_ hres
      intro p d
      simp
    · exact hinv.malloc_live2 hw hl hres
  | free fuel p d _ hp hres ih =>
    right
    rcases ih with ⟨_, rfl⟩ | ⟨bs, fl, hinv, hl⟩
    · simp at hp
    · exact hinv.free_live2 hw hl hp hres

end Heap2

/-- The sizes recorded in the headers of the free regions add up to the free total. -/
theorem freeAddrs_size_sum {size : Nat → Nat} {bs : List Blk}
    (h : ∀ b ∈ bs, b.free = true → size b.addr = b.size) :
    ((freeAddrs bs).map size).sum = freeSum bs := by
  induction bs with
  | nil => rfl
  | cons b l ih =>
    have ih' := ih (fun x hx => h x (List.mem_cons_of_mem _ hx))
    cases hf : b.free with
    | true =>
      rw [freeAddrs_cons_free hf, freeSum_cons_free hf, List.map_cons, List.sum_cons, ih',
        h b (List.mem_cons_self _ _) hf]
    | false =>
      rw [freeAddrs_cons_used hf, freeSum_cons_used hf, ih']

namespace Heap4

variable {c : Config} {s s' : State} {bs : List Blk} {live : List (Nat × Nat)}

/-! ### Consequences of the invariant of `heap_4.c` -/

theorem malloc_initialised (hw : c.WF) (s : State) (fuel n : Nat) :
    pvPortMalloc c fuel s n = pvPortMalloc c fuel (initialised c s) n := by
  unfold initialised
  by_cases h0 : s.pxEnd = 0
  · rw [if_pos h0]; exact malloc_boot hw h0 fuel n
  · rw [if_neg h0]

theorem Inv.initialised_eq (hw : c.WF) (h : Inv c s bs) : initialised c s = s := by
  unfold initialised
  rw [if_neg (h.end_ne hw)]

/-- The state that the first step of `pvPortMalloc` makes of a reachable state satisfies the
invariant. -/
theorem Reach.initialised_inv (hw : c.WF) (hr : Reach c s live) :
    ∃ bs, Inv c (initialised c s) bs ∧ LiveOK (xHeapStructSize c) bs live := by
  rcases hr.inv hw with ⟨⟨next0, size0, rfl⟩, rfl⟩ | ⟨bs, hinv, hl⟩
  · refine ⟨_, prvHeapInit_inv hw _, ?_⟩
    intro p d
    simp
  · rw [hinv.initialised_eq hw]
    exact ⟨bs, hinv, hl⟩

/-- A reachable state of `heap_4.c` that is set up satisfies the invariant. -/
theorem Reach.inv_of_init (hw : c.WF) (hr : Reach c s live) (hi : s.pxEnd ≠ 0) :
    ∃ bs, Inv c s bs ∧ LiveOK (xHeapStructSize c) bs live := by
  rcases hr.inv hw with ⟨⟨next0, size0, rfl⟩, _⟩ | h
  · exact absurd rfl hi
  · exact h

/-- The header of a live allocation: the region is an allocated region of the heap, and its
header holds the size recorded when it was returned. -/
theorem Inv.live_block (hw : c.WF) (h : Inv c s bs) (hl : LiveOK (xHeapStructSize c) bs live)
    {p d : Nat} (hp : (p, d) ∈ live) :
    ∃ pre post a, p = a + xHeapStructSize c ∧ bs = pre ++ ⟨a, d, false⟩ :: post ∧
      regionSize c s p = d ∧ wsub c p (xHeapStructSize c) = a ∧
      s.xBlockSize a = d + heapBLOCK_ALLOCATED_BITMASK c ∧ s.pxNextFreeBlock a = 0 ∧
      d < 2 ^ (c.bits - 1) ∧ p ≠ 0 := by
  obtain ⟨b, hb, hbf, hp1, hp2⟩ := (hl p d).1 hp
  obtain ⟨pre, post, hbs⟩ := List.append_of_mem hb
  have hbe : b = ⟨b.addr, d, false⟩ := by
    cases b; simp_all
  obtain ⟨hm1, hm2, hm3, hm4, hm5⟩ := size_lt_half hw h.tiled' hb
  have hg := geometry hw
  have he := end_facts hw
  have hfits := hw.heap_fits
  have hsa : s.xBlockSize b.addr = d + heapBLOCK_ALLOCATED_BITMASK c := by
    have := h.sizes _ hb
    rw [hbf] at this
    simpa [hp2] using this
  have hpuc : wsub c p (xHeapStructSize c) = b.addr := by
    rw [hp1, wsub_eq c (by omega) (by omega)]
    omega
  refine ⟨pre, post, b.addr, hp1, by rw [← hbe]; exact hbs, ?_, hpuc, hsa,
    h.nexts b hb hbf, by omega, by omega⟩
  unfold regionSize
  rw [hpuc, hsa, hw.free_flag (by omega)]

/-- The walk over the free list of `heap_4.c` visits the free regions in address order. -/
theorem Inv.freeList_eq (hw : c.WF) (h : Inv c s bs) {fuel : Nat}
    (hfuel : c.configTOTAL_HEAP_SIZE < fuel) : freeList c fuel s = freeAddrs bs := by
  unfold freeList
  refine listFrom_chain h.chain ?_ ?_
  · rw [h.pxEnd_eq]; exact h.end_not_mem
  · exact h.length_lt hw hfuel

/-- The free bytes never exceed the size of the region that `prvHeapInit` set up. -/
theorem Inv.free_le (h : Inv c s bs) :
    s.xFreeBytesRemaining ≤ endAddress c - (alignedHeap c).1 := by
  rw [h.free_eq]
  have h1 := freeSum_le_sum bs
  have h2 := tiled_sum h.tiled'
  omega

/-- What a call of `pvPortMalloc` of `heap_4.c` that returned did, whatever the fuel, on a
state satisfying the invariant. -/
theorem Inv.malloc_ok (hw : c.WF) (h : Inv c s bs) {n fuel p : Nat}
    (hres : pvPortMalloc c fuel s n = Outcome.ok s' p) :
    (s' = s ∧ p = 0 ∧
      (¬ (heapBLOCK_SIZE_IS_VALID c (adjustWantedSize c n) = true ∧
          (adjustWantedSize c n > 0 ∧ adjustWantedSize c n ≤ s.xFreeBytesRemaining)) ∨
        ∀ b ∈ bs, b.free = true → b.size < adjustWantedSize c n)) ∨
    (∃ pre b post, bs = pre ++ b :: post ∧ b.free = true ∧
      adjustWantedSize c n ≤ b.size ∧ 0 < adjustWantedSize c n ∧
      p = b.addr + xHeapStructSize c ∧
      Inv c s' (allocAt c (adjustWantedSize c n) pre b post) ∧
      s'.xFreeBytesRemaining
        = s.xFreeBytesRemaining - allocSize c (adjustWantedSize c n) b ∧
      s'.xBlockSize b.addr
        = allocSize c (adjustWantedSize c n) b + heapBLOCK_ALLOCATED_BITMASK c ∧
      s'.xMinimumEverFreeBytesRemaining
        = min s.xMinimumEverFreeBytesRemaining s'.xFreeBytesRemaining ∧
      s'.xNumberOfSuccessfulAllocations = wadd c s.xNumberOfSuccessfulAllocations 1 ∧
      s'.xNumberOfSuccessfulFrees = s.xNumberOfSuccessfulFrees) := by
  have hres' : pvPortMalloc c (max fuel (c.configTOTAL_HEAP_SIZE + 1)) s n = Outcome.ok s' p := by
    rw [malloc_mono (by rw [hres]; simp) (Nat.le_max_left _ _), hres]
  rcases h.malloc hw n (fuel_max c fuel) with
    ⟨h1, h2⟩ | ⟨pre, b, post, s'', hbs, hf, hwb, hpos, _, h1, hrest⟩
  · rw [h1] at hres'
    injection hres' with e1 e2
    exact Or.inl ⟨e1.symm, e2.symm, h2⟩
  · rw [h1] at hres'
    injection hres' with e1 e2
    subst e1
    exact Or.inr ⟨pre, b, post, hbs, hf, hwb, hpos, e2.symm, hrest⟩

/-- The assertions of `pvPortMalloc` of `heap_4.c` hold on a state satisfying the
invariant. -/
theorem Inv.malloc_no_assert (hw : c.WF) (h : Inv c s bs) (n fuel : Nat) (s' : State) :
    pvPortMalloc c fuel s n ≠ Outcome.assertFailed s' := by
  intro hres
  have hres' : pvPortMalloc c (max fuel (c.configTOTAL_HEAP_SIZE + 1)) s n
      = Outcome.assertFailed s' := by
    rw [malloc_mono (by rw [hres]; simp) (Nat.le_max_left _ _), hres]
  rcases h.malloc hw n (fuel_max c fuel) with
    ⟨h1, _⟩ | ⟨pre, b, post, s'', _, _, _, _, _, h1, _⟩
  · rw [h1] at hres'; cases hres'
  · rw [h1] at hres'; cases hres'

/-- The region that a successful `pvPortMalloc` of `heap_4.c` marks as allocated. -/
theorem Inv.malloc_region (hw : c.WF) (h : Inv c s bs) {pre post : List Blk} {b : Blk}
    (hbs : bs = pre ++ b :: post) (hf : b.free = true) {w : Nat}
    (hsz : s'.xBlockSize b.addr = allocSize c w b + heapBLOCK_ALLOCATED_BITMASK c) :
    regionSize c s' (b.addr + xHeapStructSize c) = allocSize c w b ∧
      allocSize c w b ≤ b.size ∧ b.addr + xHeapStructSize c ≠ 0 ∧
      b.addr % c.portBYTE_ALIGNMENT = 0 ∧ b.addr + b.size ≤ endAddress c := by
  obtain ⟨hb1, hb2, hb3, hb4, hb5, hb6, hb7, hb8, hb9⟩ := h.free_block hw hbs hf
  have hg := geometry hw
  have he := end_facts hw
  have hfits := hw.heap_fits
  have hsize : allocSize c w b ≤ b.size := by
    unfold allocSize; split <;> omega
  refine ⟨?_, hsize, by omega, hb7, by omega⟩
  unfold regionSize
  rw [wsub_eq c (by omega) (by omega), Nat.add_sub_cancel, hsz, hw.free_flag (by omega)]

end Heap4

namespace Heap2

variable {c : Config} {s s' : State} {bs : List Blk} {fl : List Nat}
  {live : List (Nat × Nat)}

/-! ### Consequences of the invariant of `heap_2.c` -/

theorem malloc_initialised2 (s : State) (fuel n : Nat) :
    pvPortMalloc c fuel s n = pvPortMalloc c fuel (initialised c s) n := by
  unfold initialised pvPortMalloc
  cases h0 : s.xHeapHasBeenInitialised <;> simp [h0]

theorem Inv.initialised_eq2 (h : Inv c s bs fl) : initialised c s = s := by
  unfold initialised
  rw [if_neg (by rw [h.init]; simp)]

/-- The state that the first step of `pvPortMalloc` makes of a reachable state satisfies the
invariant. -/
theorem Reach.initialised_inv2 (hw : c.WF) (hr : Reach c s live) :
    ∃ bs fl, Inv c (initialised c s) bs fl ∧ LiveOK (heapSTRUCT_SIZE c) bs live := by
  rcases hr.inv2 hw with ⟨⟨next0, size0, rfl⟩, rfl⟩ | ⟨bs, fl, hinv, hl⟩
  · refine ⟨_, _, prvHeapInit_inv2 hw _ rfl, ?_⟩
    intro p d
    simp
  · rw [hinv.initialised_eq2]
    exact ⟨bs, fl, hinv, hl⟩

/-- A reachable state of `heap_2.c` that is set up satisfies the invariant. -/
theorem Reach.inv_of_init2 (hw : c.WF) (hr : Reach c s live)
    (hi : s.xHeapHasBeenInitialised = true) :
    ∃ bs fl, Inv c s bs fl ∧ LiveOK (heapSTRUCT_SIZE c) bs live := by
  rcases hr.inv2 hw with ⟨⟨next0, size0, rfl⟩, _⟩ | h
  · exact absurd hi (by simp [Heap2.boot])
  · exact h

/-- The header of a live allocation: the region is an allocated region of the heap, and its
header holds the size recorded when it was returned. -/
theorem Inv.live_block2 (hw : c.WF) (h : Inv c s bs fl)
    (hl : LiveOK (heapSTRUCT_SIZE c) bs live) {p d : Nat} (hp : (p, d) ∈ live) :
    ∃ pre post a, p = a + heapSTRUCT_SIZE c ∧ bs = pre ++ ⟨a, d, false⟩ :: post ∧
      regionSize c s p = d ∧ wsub c p (heapSTRUCT_SIZE c) = a ∧
      s.xBlockSize a = d + heapBLOCK_ALLOCATED_BITMASK c ∧ s.pxNextFreeBlock a = 0 ∧
      d < 2 ^ (c.bits - 1) ∧ p ≠ 0 := by
  obtain ⟨b, hb, hbf, hp1, hp2⟩ := (hl p d).1 hp
  obtain ⟨pre, post, hbs⟩ := List.append_of_mem hb
  have hbe : b = ⟨b.addr, d, false⟩ := by
    cases b; simp_all
  obtain ⟨hm1, hm2, hm3, hm4, hm5, hm6, hm7, hm8, hm9⟩ := size_lt_half2 hw h.tiled hb
  have hg := geometry2 hw
  have hfits := hw.heap_fits
  have hbig := h.big b hb
  have hsa : s.xBlockSize b.addr = d + heapBLOCK_ALLOCATED_BITMASK c := by
    have := h.sizes _ hb
    rw [hbf] at this
    simpa [hp2] using this
  have hpuc : wsub c p (heapSTRUCT_SIZE c) = b.addr := by
    rw [hp1, wsub_eq c (by omega) (by omega)]
    omega
  refine ⟨pre, post, b.addr, hp1, by rw [← hbe]; exact hbs, ?_, hpuc, hsa,
    h.nexts b hb hbf, by omega, by omega⟩
  unfold regionSize
  rw [hpuc, hsa, hw.free_flag (by omega)]

/-- The walk over the free list of `heap_2.c` visits the nodes `fl`. -/
theorem Inv.freeList_eq2 (hw : c.WF) (h : Inv c s bs fl) {fuel : Nat}
    (hfuel : c.configTOTAL_HEAP_SIZE < fuel) : freeList c fuel s = fl := by
  unfold freeList
  exact listFrom_chain h.chain (h.xEnd_not_mem hw) (h.length_lt2 hw hfuel)

/-- The sizes in the headers of the nodes of the free list add up to the free bytes. -/
theorem Inv.freeList_sum2 (h : Inv c s bs fl) :
    (fl.map s.xBlockSize).sum = s.xFreeBytesRemaining := by
  rw [(h.perm.map s.xBlockSize).sum_eq, h.free_eq]
  exact freeAddrs_size_sum (fun b hb hf => by rw [h.sizes b hb, if_pos hf])

/-- The free bytes never exceed the size of the region that `prvHeapInit` set up. -/
theorem Inv.free_le2 (h : Inv c s bs fl) :
    s.xFreeBytesRemaining ≤ configADJUSTED_HEAP_SIZE c := by
  rw [h.free_eq]
  have h1 := freeSum_le_sum bs
  have h2 := tiled_sum h.tiled
  omega

/-- What a call of `pvPortMalloc` of `heap_2.c` that returned did, whatever the fuel, on a
state satisfying the invariant. -/
theorem Inv.malloc_ok2 (hw : c.WF) (h : Inv c s bs fl) {n fuel p : Nat}
    (hres : pvPortMalloc c fuel s n = Outcome.ok s' p) :
    (s' = s ∧ p = 0 ∧
      (¬ (heapBLOCK_SIZE_IS_VALID c (adjustWantedSize c n) = true ∧
          (adjustWantedSize c n > 0 ∧ adjustWantedSize c n ≤ s.xFreeBytesRemaining)) ∨
        ∀ b ∈ bs, b.free = true → b.size < adjustWantedSize c n)) ∨
    (∃ pre b post fl', bs = pre ++ b :: post ∧ b.free = true ∧
      adjustWantedSize c n ≤ b.size ∧ 0 < adjustWantedSize c n ∧
      p = b.addr + heapSTRUCT_SIZE c ∧
      Inv c s' (allocAt c (adjustWantedSize c n) pre b post) fl' ∧
      s'.xFreeBytesRemaining
        = s.xFreeBytesRemaining - allocSize c (adjustWantedSize c n) b ∧
      s'.xBlockSize b.addr
        = allocSize c (adjustWantedSize c n) b + heapBLOCK_ALLOCATED_BITMASK c) := by
  have hres' : pvPortMalloc c (max fuel (c.configTOTAL_HEAP_SIZE + 1)) s n = Outcome.ok s' p := by
    rw [malloc_mono2 (by rw [hres]; simp) (Nat.le_max_left _ _), hres]
  rcases h.malloc2 hw n (fuel_max c fuel) with
    ⟨h1, h2⟩ | ⟨pre, b, post, s'', fl', hbs, hf, hwb, hpos, h1, hrest⟩
  · rw [h1] at hres'
    injection hres' with e1 e2
    exact Or.inl ⟨e1.symm, e2.symm, h2⟩
  · rw [h1] at hres'
    injection hres' with e1 e2
    subst e1
    exact Or.inr ⟨pre, b, post, fl', hbs, hf, hwb, hpos, e2.symm, hrest⟩

/-- The region that a successful `pvPortMalloc` of `heap_2.c` marks as allocated. -/
theorem Inv.malloc_region2 (hw : c.WF) (h : Inv c s bs fl) {pre post : List Blk} {b : Blk}
    (hbs : bs = pre ++ b :: post) (hf : b.free = true) {w : Nat}
    (hsz : s'.xBlockSize b.addr = allocSize c w b + heapBLOCK_ALLOCATED_BITMASK c) :
    regionSize c s' (b.addr + heapSTRUCT_SIZE c) = allocSize c w b ∧
      allocSize c w b ≤ b.size ∧ b.addr + heapSTRUCT_SIZE c ≠ 0 ∧
      b.addr % c.portBYTE_ALIGNMENT = 0 ∧
      b.addr + b.size ≤ alignedHeap c + configADJUSTED_HEAP_SIZE c := by
  obtain ⟨hb1, hb2, hb3, hb4, hb5, hb6, hb7, hb8, hb8', hb9⟩ := h.free_block2 hw hbs hf
  have hg := geometry2 hw
  have hfits := hw.heap_fits
  have hbig := h.big b (by rw [hbs]; simp)
  have hpos := hw.heap_pos
  have hsize : allocSize c w b ≤ b.size := by
    unfold allocSize; split <;> omega
  refine ⟨?_, hsize, by omega, hb7, by omega⟩
  unfold regionSize
  rw [wsub_eq c (by omega) (by omega), Nat.add_sub_cancel, hsz, hw.free_flag (by omega)]

end Heap2

/-! ### The configuration `demo` -/

theorem demo_fuel : demo.configTOTAL_HEAP_SIZE < 1033 := by decide

theorem demo_WF : demo.WF :=
  ⟨by decide, ⟨3, rfl⟩, by decide, by decide, by decide, by decide, by decide, by decide,
    by decide, by decide, by decide, by decide, by decide, by decide, by decide⟩

namespace Heap4

theorem demo1_eq : pvPortMalloc demo 1033 demoBoot 40 = Outcome.ok demo1 4104 := rfl

theorem demo2_eq : pvPortMalloc demo 1033 demo1 40 = Outcome.ok demo2 4160 := rfl

theorem demo3_eq : vPortFree demo 1033 demo2 4104 = Outcome.ok demo3 () := rfl

theorem reach_demoBoot : Reach demo demoBoot [] := Reach.boot _ _

theorem reach_demo1 : Reach demo demo1 [(4104, 56)] :=
  Reach.malloc 1033 40 reach_demoBoot (by decide) demo1_eq

theorem reach_demo2 : Reach demo demo2 [(4160, 56), (4104, 56)] :=
  Reach.malloc 1033 40 reach_demo1 (by decide) demo2_eq

theorem reach_demo3 : Reach demo demo3 [(4160, 56)] :=
  Reach.free 1033 4104 56 reach_demo2 (by decide) demo3_eq

end Heap4

namespace Heap2

theorem demo1_eq_heap2 : pvPortMalloc demo 1033 demoBoot 40 = Outcome.ok demo1 4104 := rfl

theorem demo2_eq_heap2 : pvPortMalloc demo 1033 demo1 40 = Outcome.ok demo2 4160 := rfl

theorem demo3_eq_heap2 : vPortFree demo 1033 demo2 4104 = Outcome.ok demo3 () := rfl

theorem reach2_demoBoot : Reach demo demoBoot [] := Reach.boot _ _

theorem reach2_demo1 : Reach demo demo1 [(4104, 56)] :=
  Reach.malloc 1033 40 reach2_demoBoot (by decide) demo1_eq_heap2

theorem reach2_demo2 : Reach demo demo2 [(4160, 56), (4104, 56)] :=
  Reach.malloc 1033 40 reach2_demo1 (by decide) demo2_eq_heap2

theorem reach2_demo3 : Reach demo demo3 [(4160, 56)] :=
  Reach.free 1033 4104 56 reach2_demo2 (by decide) demo3_eq_heap2

end Heap2

/-! ### `heap_1.c` -/

namespace Heap1

variable {c : Config} {s : State}

theorem adjusted_eq1 (h : c.WF) :
    configADJUSTED_HEAP_SIZE c = c.configTOTAL_HEAP_SIZE - c.portBYTE_ALIGNMENT := by
  have hb := h.heap_big
  have hf := h.heap_fits
  unfold configADJUSTED_HEAP_SIZE
  rw [wsub_eq c (by omega) (by omega)]

/-- The heap of `heap_1.c` starts on an aligned address inside `ucHeap` and ends inside
it. -/
theorem geometry1 (h : c.WF) :
    alignedHeap c % c.portBYTE_ALIGNMENT = 0 ∧ c.ucHeap ≤ alignedHeap c ∧
      alignedHeap c + configADJUSTED_HEAP_SIZE c < c.ucHeap + c.configTOTAL_HEAP_SIZE ∧
      0 < configADJUSTED_HEAP_SIZE c := by
  have hb := h.heap_big
  have hf := h.heap_fits
  have hA := h.align_pos
  obtain ⟨hr1, hr2, hr3, _⟩ := h.roundUp_facts (x := c.ucHeap) (by omega)
  rw [adjusted_eq1 h]
  unfold alignedHeap
  exact ⟨hr1, hr2, by omega, by omega⟩

/-- The size that `pvPortMalloc` of `heap_1.c` works with is a multiple of the alignment:
the request rounded up, or `0` when rounding up wraps around. -/
theorem alignWantedSize_facts (hw : c.WF) {n : Nat} (hn : n < c.wordMod) :
    alignWantedSize c n % c.portBYTE_ALIGNMENT = 0 ∧
      (alignWantedSize c n = 0 ∨ n ≤ alignWantedSize c n) ∧
      alignWantedSize c n < c.wordMod := by
  have hA := hw.align_pos
  have hmod := Nat.mod_lt n hA
  have hb := hw.heap_big
  have hf := hw.heap_fits
  unfold alignWantedSize
  by_cases h1 : c.portBYTE_ALIGNMENT ≠ 1
  · rw [if_pos h1, hw.and_mask]
    by_cases h2 : n % c.portBYTE_ALIGNMENT ≠ 0
    · rw [if_pos h2, wsub_eq c (by omega) (by omega)]
      by_cases h3 : wadd c n (c.portBYTE_ALIGNMENT - n % c.portBYTE_ALIGNMENT) > n
      · rw [if_pos h3]
        have hlt := wadd_lt c n (c.portBYTE_ALIGNMENT - n % c.portBYTE_ALIGNMENT)
        have hnw : n + (c.portBYTE_ALIGNMENT - n % c.portBYTE_ALIGNMENT) < c.wordMod := by
          by_contra hcon
          have : wadd c n (c.portBYTE_ALIGNMENT - n % c.portBYTE_ALIGNMENT)
              = n + (c.portBYTE_ALIGNMENT - n % c.portBYTE_ALIGNMENT) - c.wordMod := by
            unfold wadd
            rw [Nat.mod_eq_sub_mod (by omega), Nat.mod_eq_of_lt (by omega)]
          omega
        rw [wadd_eq c hnw]
        refine ⟨?_, Or.inr (by omega), hnw⟩
        have h4 : n + (c.portBYTE_ALIGNMENT - n % c.portBYTE_ALIGNMENT)
            = c.portBYTE_ALIGNMENT * (n / c.portBYTE_ALIGNMENT + 1) := by
          have := Nat.div_add_mod n c.portBYTE_ALIGNMENT
          rw [Nat.mul_add, Nat.mul_one]
          omega
        rw [h4, Nat.mul_mod_right]
      · rw [if_neg h3]
        exact ⟨Nat.zero_mod _, Or.inl rfl, hw.wordMod_pos⟩
    · rw [if_neg h2]
      exact ⟨by omega, Or.inr (Nat.le_refl _), hn⟩
  · rw [if_neg h1]
    have h1' : c.portBYTE_ALIGNMENT = 1 := by omega
    exact ⟨by rw [h1', Nat.mod_one], Or.inr (Nat.le_refl _), hn⟩

/-- What `pvPortMalloc` of `heap_1.c` does in a state with an aligned cursor inside the
heap: it returns `NULL` and leaves the cursor where it is, or it returns the aligned address
at the cursor and moves the cursor past the rounded size. -/
theorem malloc_step (hw : c.WF) (i1 : s.xNextFreeByte % c.portBYTE_ALIGNMENT = 0)
    (i2 : s.xNextFreeByte < configADJUSTED_HEAP_SIZE c)
    (i3 : s.pucAlignedHeap = 0 ∨ s.pucAlignedHeap = alignedHeap c)
    {n : Nat} (hn : n < c.wordMod) :
    (pvPortMalloc c s n).1.pucAlignedHeap = alignedHeap c ∧
    (((pvPortMalloc c s n).2 = 0 ∧ (pvPortMalloc c s n).1.xNextFreeByte = s.xNextFreeByte ∧
      ¬ (alignWantedSize c n > 0 ∧
        s.xNextFreeByte + alignWantedSize c n < configADJUSTED_HEAP_SIZE c)) ∨
    ((pvPortMalloc c s n).2 = alignedHeap c + s.xNextFreeByte ∧
      (pvPortMalloc c s n).2 ≠ 0 ∧ (pvPortMalloc c s n).2 % c.portBYTE_ALIGNMENT = 0 ∧
      (pvPortMalloc c s n).1.xNextFreeByte = s.xNextFreeByte + alignWantedSize c n ∧
      n ≤ alignWantedSize c n ∧ 0 < alignWantedSize c n ∧
      s.xNextFreeByte + alignWantedSize c n < configADJUSTED_HEAP_SIZE c)) := by
  obtain ⟨a1, a2, a3⟩ := alignWantedSize_facts hw hn
  obtain ⟨g1, g2, g3, g4⟩ := geometry1 hw
  have hfits := hw.heap_fits
  have hpos := hw.heap_pos
  have hb := hw.heap_big
  have had := adjusted_eq1 hw
  obtain ⟨s1, hs1⟩ : ∃ s1 : State, s1 = (if s.pucAlignedHeap = 0 then
      ({ s with pucAlignedHeap := alignedHeap c } : State) else s) := ⟨_, rfl⟩
  have hp : s1.pucAlignedHeap = alignedHeap c := by
    rw [hs1]
    split
    · rfl
    · rcases i3 with h | h
      · rename_i h'; exact absurd h h'
      · exact h
  have hx : s1.xNextFreeByte = s.xNextFreeByte := by
    rw [hs1]
    split <;> rfl
  have hcode : pvPortMalloc c s n =
      if alignWantedSize c n > 0 ∧
          (wadd c s1.xNextFreeByte (alignWantedSize c n) < configADJUSTED_HEAP_SIZE c ∧
            wadd c s1.xNextFreeByte (alignWantedSize c n) > s1.xNextFreeByte) then
        ({ s1 with xNextFreeByte := wadd c s1.xNextFreeByte (alignWantedSize c n) },
          wadd c s1.pucAlignedHeap s1.xNextFreeByte)
      else
        (s1, 0) := by
    rw [hs1]
    rfl
  rw [hcode, hx, hp]
  by_cases hfit : s.xNextFreeByte + alignWantedSize c n < c.wordMod
  · rw [wadd_eq c hfit]
    by_cases hc : alignWantedSize c n > 0 ∧
        (s.xNextFreeByte + alignWantedSize c n < configADJUSTED_HEAP_SIZE c ∧
          s.xNextFreeByte + alignWantedSize c n > s.xNextFreeByte)
    · rw [if_pos hc]
      have hret : wadd c (alignedHeap c) s.xNextFreeByte = alignedHeap c + s.xNextFreeByte :=
        wadd_eq c (by omega)
      refine ⟨rfl, Or.inr ⟨hret, ?_, ?_, rfl, by omega, hc.1, hc.2.1⟩⟩
      · show wadd c (alignedHeap c) s.xNextFreeByte ≠ 0
        rw [hret]; omega
      · show wadd c (alignedHeap c) s.xNextFreeByte % _ = 0
        rw [hret, Nat.add_mod, g1, i1]
        simp
    · rw [if_neg hc]
      exact ⟨hp, Or.inl ⟨rfl, hx, fun h => hc ⟨h.1, h.2, by omega⟩⟩⟩
  · have hlt := wadd_lt c s.xNextFreeByte (alignWantedSize c n)
    have hwr : wadd c s.xNextFreeByte (alignWantedSize c n)
        = s.xNextFreeByte + alignWantedSize c n - c.wordMod := by
      unfold wadd
      rw [Nat.mod_eq_sub_mod (by omega), Nat.mod_eq_of_lt (by omega)]
    rw [if_neg (by rw [hwr]; omega)]
    exact ⟨hp, Or.inl ⟨rfl, hx, by omega⟩⟩

/-- The invariant of `heap_1.c`: the cursor is aligned and inside the heap, and
`pucAlignedHeap` is unset or the aligned heap start. -/
theorem Reach.inv1 (hw : c.WF) (hr : Reach c s) :
    s.xNextFreeByte % c.portBYTE_ALIGNMENT = 0 ∧
      s.xNextFreeByte < configADJUSTED_HEAP_SIZE c ∧
      (s.pucAlignedHeap = 0 ∨ s.pucAlignedHeap = alignedHeap c) := by
  have hg := geometry1 hw
  induction hr with
  | boot => exact ⟨Nat.zero_mod _, hg.2.2.2, Or.inl rfl⟩
  | malloc n _ hn ih =>
    obtain ⟨i1, i2, i3⟩ := ih
    obtain ⟨a1, a2, a3⟩ := alignWantedSize_facts hw hn
    rcases malloc_step hw i1 i2 i3 hn with ⟨hp, ⟨_, h2, _⟩ | ⟨_, _, _, h2, _, _, h3⟩⟩
    · exact ⟨by rw [h2]; exact i1, by rw [h2]; exact i2, Or.inr hp⟩
    · refine ⟨?_, by rw [h2]; exact h3, Or.inr hp⟩
      rw [h2, Nat.add_mod, i1, a1]
      simp
  | init _ ih => exact ⟨Nat.zero_mod _, hg.2.2.2, ih.2.2⟩
  | free pv _ hres ih =>
    unfold vPortFree at hres
    split at hres
    · injection hres with e1
      rw [← e1]; exact ih
    · cases hres

end Heap1

/-- The regions of two different live allocations do not overlap, and neither do their
payloads. -/
theorem liveOK_disjoint {hs lo hi : Nat} {bs : List Blk} {live : List (Nat × Nat)}
    (ht : Tiled lo bs hi) (hl : LiveOK hs bs live) {x y : Nat × Nat} (hx : x ∈ live)
    (hy : y ∈ live) (hne : x ≠ y) :
    x.1 + (x.2 - hs) ≤ y.1 ∨ y.1 + (y.2 - hs) ≤ x.1 := by
  obtain ⟨bx, hbx, _, hx1, hx2⟩ := (hl x.1 x.2).1 hx
  obtain ⟨b, hb, _, hy1, hy2⟩ := (hl y.1 y.2).1 hy
  have hbne : bx ≠ b := by
    intro h
    apply hne
    rw [h] at hx1 hx2
    exact Prod.ext (hx1.trans hy1.symm) (hx2.trans hy2.symm)
  have h0 := (tiled_mem ht hbx).2.2
  have h1 := (tiled_mem ht hb).2.2
  rcases tiled_disjoint ht hbx hb hbne with h | h
  · left; omega
  · right; omega

/-- The payload of a live allocation does not overlap a free region. -/
theorem liveOK_free_disjoint {hs lo hi : Nat} {bs : List Blk} {live : List (Nat × Nat)}
    (ht : Tiled lo bs hi) (hl : LiveOK hs bs live) {x : Nat × Nat} (hx : x ∈ live)
    (hbig : hs ≤ x.2) {b : Blk} (hb : b ∈ bs) (hf : b.free = true) :
    x.1 + (x.2 - hs) ≤ b.addr ∨ b.addr + b.size ≤ x.1 := by
  obtain ⟨bx, hbx, hxf, hx1, hx2⟩ := (hl x.1 x.2).1 hx
  have hbne : bx ≠ b := by
    intro h
    rw [h, hf] at hxf
    cases hxf
  have h0 := (tiled_mem ht hbx).2.2
  have h1 := (tiled_mem ht hb).2.2
  rcases tiled_disjoint ht hbx hb hbne with h | h
  · left; omega
  · right; omega

/-- A pointer that is the payload of a free region is not live. -/
theorem liveOK_not_mem_of_free {hs lo hi : Nat} {bs : List Blk} {live : List (Nat × Nat)}
    (ht : Tiled lo bs hi) (hl : LiveOK hs bs live) {b : Blk} (hb : b ∈ bs)
    (hf : b.free = true) : b.addr + hs ∉ live.map Prod.fst := by
  intro h
  obtain ⟨x, hx, hx1⟩ := List.mem_map.1 h
  obtain ⟨bx, hbx, hxf, hx2, _⟩ := (hl x.1 x.2).1 hx
  have : bx = b := tiled_addr_inj ht hbx hb (by omega)
  rw [this, hf] at hxf
  cases hxf

theorem nodup_filter_fst {live : List (Nat × Nat)} (h : (live.map Prod.fst).Nodup) (p : Nat) :
    ((live.filter (fun x => x.1 ≠ p)).map Prod.fst).Nodup :=
  h.sublist ((List.filter_sublist live).map Prod.fst)

namespace Heap4

variable {c : Config} {s s' : State} {bs : List Blk} {live : List (Nat × Nat)}

theorem le_allocSize {w : Nat} {b : Blk} (h : w ≤ b.size) : w ≤ allocSize c w b := by
  unfold allocSize
  split
  · exact Nat.le_refl _
  · exact h

/-- No pointer is live twice in `heap_4.c`: `pvPortMalloc` never returns a live pointer. And
the region of a live allocation is larger than the request and the header together were. -/
theorem Reach.live_nodup (hw : c.WF) (hr : Reach c s live) :
    (live.map Prod.fst).Nodup ∧ ∀ x ∈ live, xHeapStructSize c < x.2 := by
  induction hr with
  | boot next0 size0 => exact ⟨List.nodup_nil, fun x hx => absurd hx (List.not_mem_nil x)⟩
  | malloc fuel n hr' hn hres ih =>
    rename_i s0 s1 live0 p
    obtain ⟨bs, hinv, hl⟩ := hr'.initialised_inv hw
    rw [malloc_initialised hw] at hres
    rcases hinv.malloc_ok hw hres with ⟨_, hp, _⟩ |
      ⟨pre, b, post, hbs, hf, hwb, hpos, hp, _, _, hsz, _⟩
    · rw [if_pos hp]; exact ih
    · obtain ⟨hreg, _, hp0, _⟩ := hinv.malloc_region hw hbs hf hsz
      rw [← hp] at hp0 hreg
      rw [if_neg hp0]
      have hadj := adjust_pos_facts hw hpos
      have hle := le_allocSize (c := c) hwb
      constructor
      · rw [List.map_cons, List.nodup_cons]
        refine ⟨?_, ih.1⟩
        rw [hp]
        exact liveOK_not_mem_of_free hinv.tiled hl (by rw [hbs]; simp) hf
      · intro x hx
        rcases List.mem_cons.1 hx with h | h
        · rw [h]
          show xHeapStructSize c < regionSize c s1 p
          rw [hreg]
          omega
        · exact ih.2 x h
  | free fuel p d _ hp hres ih =>
    exact ⟨nodup_filter_fst ih.1 p, fun x hx => ih.2 x (List.mem_filter.1 hx).1⟩

end Heap4

namespace Heap2

variable {c : Config} {s s' : State} {bs : List Blk} {fl : List Nat}
  {live : List (Nat × Nat)}

theorem le_allocSize2 {w : Nat} {b : Blk} (h : w ≤ b.size) : w ≤ allocSize c w b := by
  unfold allocSize
  split
  · exact Nat.le_refl _
  · exact h

/-- No pointer is live twice in `heap_2.c`: `pvPortMalloc` never returns a live pointer. And
the region of a live allocation is larger than the request and the header together were. -/
theorem Reach.live_nodup2 (hw : c.WF) (hr : Reach c s live) :
    (live.map Prod.fst).Nodup ∧ ∀ x ∈ live, heapSTRUCT_SIZE c < x.2 := by
  induction hr with
  | boot next0 size0 => exact ⟨List.nodup_nil, fun x hx => absurd hx (List.not_mem_nil x)⟩
  | malloc fuel n hr' hn hres ih =>
    rename_i s0 s1 live0 p
    obtain ⟨bs, fl, hinv, hl⟩ := hr'.initialised_inv2 hw
    rw [malloc_initialised2] at hres
    rcases hinv.malloc_ok2 hw hres with ⟨_, hp, _⟩ |
      ⟨pre, b, post, fl', hbs, hf, hwb, hpos, hp, _, _, hsz⟩
    · rw [if_pos hp]; exact ih
    · obtain ⟨hreg, _, hp0, _⟩ := hinv.malloc_region2 hw hbs hf hsz
      rw [← hp] at hp0 hreg
      rw [if_neg hp0]
      have hadj := adjust_pos_facts2 hw hpos
      have hle := le_allocSize2 (c := c) hwb
      constructor
      · rw [List.map_cons, List.nodup_cons]
        refine ⟨?_, ih.1⟩
        rw [hp]
        exact liveOK_not_mem_of_free hinv.tiled hl (by rw [hbs]; simp) hf
      · intro x hx
        rcases List.mem_cons.1 hx with h | h
        · rw [h]
          show heapSTRUCT_SIZE c < regionSize c s1 p
          rw [hreg]
          omega
        · exact ih.2 x h
  | free fuel p d _ hp hres ih =>
    exact ⟨nodup_filter_fst ih.1 p, fun x hx => ih.2 x (List.mem_filter.1 hx).1⟩

end Heap2

/-! ## The claims -/

/-- C1: in `heap_4.c` and `heap_2.c`, in every state reached from program start by calls of
`pvPortMalloc` and by calls of `vPortFree` on live pointers, the header of each live
allocation still holds the region size it was returned with, the payload byte ranges
`[P, P + region size - header size)` of any two live allocations are disjoint, and no live
payload overlaps a region on the free list, whose extent is `[a, a + a->xBlockSize)`. -/
theorem C1_live_payloads_disjoint {c : Config} (hw : c.WF)
    {s4 : Heap4.State} {live4 : List (Nat × Nat)} (h4 : Heap4.Reach c s4 live4)
    {s2 : Heap2.State} {live2 : List (Nat × Nat)} (h2 : Heap2.Reach c s2 live2)
    {fuel : Nat} (hfuel : c.configTOTAL_HEAP_SIZE < fuel) :
    ((∀ x ∈ live4, Heap4.regionSize c s4 x.1 = x.2) ∧
      live4.Pairwise (fun x y =>
        x.1 + (x.2 - Heap4.xHeapStructSize c) ≤ y.1 ∨
          y.1 + (y.2 - Heap4.xHeapStructSize c) ≤ x.1) ∧
      (∀ x ∈ live4, ∀ a ∈ Heap4.freeList c fuel s4,
        x.1 + (x.2 - Heap4.xHeapStructSize c) ≤ a ∨ a + s4.xBlockSize a ≤ x.1)) ∧
    ((∀ x ∈ live2, Heap2.regionSize c s2 x.1 = x.2) ∧
      live2.Pairwise (fun x y =>
        x.1 + (x.2 - Heap2.heapSTRUCT_SIZE c) ≤ y.1 ∨
          y.1 + (y.2 - Heap2.heapSTRUCT_SIZE c) ≤ x.1) ∧
      (∀ x ∈ live2, ∀ a ∈ Heap2.freeList c fuel s2,
        x.1 + (x.2 - Heap2.heapSTRUCT_SIZE c) ≤ a ∨ a + s2.xBlockSize a ≤ x.1)) := by
  constructor
  · obtain ⟨hnd, hbig⟩ := h4.live_nodup hw
    rcases h4.inv hw with ⟨_, rfl⟩ | ⟨bs, hinv, hl⟩
    · exact ⟨fun x hx => absurd hx (List.not_mem_nil x), List.Pairwise.nil,
        fun x hx => absurd hx (List.not_mem_nil x)⟩
    · refine ⟨?_, ?_, ?_⟩
      · intro x hx
        obtain ⟨_, _, _, _, _, h, _⟩ := hinv.live_block hw hl (p := x.1) (d := x.2) hx
        exact h
      · exact (List.Nodup.of_map _ hnd).pairwise_of_forall_ne
          (fun x hx y hy hne => liveOK_disjoint hinv.tiled hl hx hy hne)
      · intro x hx a ha
        rw [hinv.freeList_eq hw hfuel] at ha
        obtain ⟨b, hb, hf, rfl⟩ := mem_freeAddrs.1 ha
        rw [hinv.sizes b hb, if_pos hf]
        exact liveOK_free_disjoint hinv.tiled hl hx (Nat.le_of_lt (hbig x hx)) hb hf
  · obtain ⟨hnd, hbig⟩ := h2.live_nodup2 hw
    rcases h2.inv2 hw with ⟨_, rfl⟩ | ⟨bs, fl, hinv, hl⟩
    · exact ⟨fun x hx => absurd hx (List.not_mem_nil x), List.Pairwise.nil,
        fun x hx => absurd hx (List.not_mem_nil x)⟩
    · refine ⟨?_, ?_, ?_⟩
      · intro x hx
        obtain ⟨_, _, _, _, _, h, _⟩ := hinv.live_block2 hw hl (p := x.1) (d := x.2) hx
        exact h
      · exact (List.Nodup.of_map _ hnd).pairwise_of_forall_ne
          (fun x hx y hy hne => liveOK_disjoint hinv.tiled hl hx hy hne)
      · intro x hx a ha
        rw [hinv.freeList_eq2 hw hfuel] at ha
        obtain ⟨b, hb, hf, rfl⟩ := hinv.mem_fl.1 ha
        rw [hinv.sizes b hb, if_pos hf]
        exact liveOK_free_disjoint hinv.tiled hl hx (Nat.le_of_lt (hbig x hx)) hb hf

/-- The statement of C1 on `demo`, in the states in which two allocations of 40 bytes are
live. -/
theorem C1_live_payloads_disjoint_witness :
    ((∀ x ∈ [(4160, 56), (4104, 56)], Heap4.regionSize demo Heap4.demo2 x.1 = x.2) ∧
      [(4160, 56), (4104, 56)].Pairwise (fun x y =>
        x.1 + (x.2 - Heap4.xHeapStructSize demo) ≤ y.1 ∨
          y.1 + (y.2 - Heap4.xHeapStructSize demo) ≤ x.1) ∧
      (∀ x ∈ [(4160, 56), (4104, 56)], ∀ a ∈ Heap4.freeList demo 1033 Heap4.demo2,
        x.1 + (x.2 - Heap4.xHeapStructSize demo) ≤ a ∨
          a + Heap4.demo2.xBlockSize a ≤ x.1)) ∧
    ((∀ x ∈ [(4160, 56), (4104, 56)], Heap2.regionSize demo Heap2.demo2 x.1 = x.2) ∧
      [(4160, 56), (4104, 56)].Pairwise (fun x y =>
        x.1 + (x.2 - Heap2.heapSTRUCT_SIZE demo) ≤ y.1 ∨
          y.1 + (y.2 - Heap2.heapSTRUCT_SIZE demo) ≤ x.1) ∧
      (∀ x ∈ [(4160, 56), (4104, 56)], ∀ a ∈ Heap2.freeList demo 1033 Heap2.demo2,
        x.1 + (x.2 - Heap2.heapSTRUCT_SIZE demo) ≤ a ∨
          a + Heap2.demo2.xBlockSize a ≤ x.1)) :=
  C1_live_payloads_disjoint demo_WF Heap4.reach_demo2 Heap2.reach2_demo2 (by decide)

/-- The result of `pvPortMalloc` of `heap_4.c` in a reachable state: with fuel above the heap
size the call returns, and whatever the fuel a pointer returned is `NULL` or the aligned
payload address of a region as large as the adjusted size, which is larger than the request
and the header together. -/
theorem Heap4.Reach.malloc_facts {c : Config} (hw : c.WF) {s : Heap4.State}
    {live : List (Nat × Nat)} (hr : Heap4.Reach c s live) (n : Nat) :
    (∀ fuel, c.configTOTAL_HEAP_SIZE < fuel →
      ∃ s' p, Heap4.pvPortMalloc c fuel s n = Outcome.ok s' p) ∧
    (∀ fuel s', Heap4.pvPortMalloc c fuel s n ≠ Outcome.assertFailed s') ∧
    (∀ fuel s' p, Heap4.pvPortMalloc c fuel s n = Outcome.ok s' p → p ≠ 0 →
      p % c.portBYTE_ALIGNMENT = 0 ∧ Heap4.xHeapStructSize c < p ∧
      n + Heap4.xHeapStructSize c < Heap4.adjustWantedSize c n ∧
      Heap4.adjustWantedSize c n ≤ Heap4.regionSize c s' p ∧
      p - Heap4.xHeapStructSize c + Heap4.regionSize c s' p ≤ Heap4.endAddress c ∧
      s'.xFreeBytesRemaining + Heap4.regionSize c s' p
        = (Heap4.initialised c s).xFreeBytesRemaining) := by
  obtain ⟨bs, hinv, hl⟩ := hr.initialised_inv hw
  refine ⟨?_, ?_, ?_⟩
  · intro fuel hfuel
    rw [Heap4.malloc_initialised hw]
    rcases hinv.malloc hw n hfuel with ⟨h1, _⟩ | ⟨_, b, _, s', _, _, _, _, _, h1, _⟩
    · exact ⟨_, _, h1⟩
    · exact ⟨_, _, h1⟩
  · intro fuel s'
    rw [Heap4.malloc_initialised hw]
    exact hinv.malloc_no_assert hw n fuel s'
  · intro fuel s' p hres hp0
    rw [Heap4.malloc_initialised hw] at hres
    rcases hinv.malloc_ok hw hres with ⟨_, hp, _⟩ |
      ⟨pre, b, post, hbs, hf, hwb, hpos, hp, _, hfr, hsz, _⟩
    · exact absurd hp hp0
    · obtain ⟨hreg, hle, _, hal, hend⟩ := hinv.malloc_region hw hbs hf hsz
      obtain ⟨hb1, hb2, hb3, hb4, hb5, hb6, hb7, hb8, hb9⟩ := hinv.free_block hw hbs hf
      have hadj := Heap4.adjust_pos_facts hw hpos
      have hge := Heap4.le_allocSize (c := c) hwb
      have hs := Heap4.hs_facts hw
      have hg := Heap4.geometry hw
      have hfree : b.size ≤ (Heap4.initialised c s).xFreeBytesRemaining := by
        rw [hinv.free_eq]
        exact size_le_freeSum (by rw [hbs]; simp) hf
      rw [hp, hreg, hfr]
      refine ⟨?_, by omega, by omega, hge, by omega, by omega⟩
      rw [Nat.add_mod, hal, hs.1]
      simp

/-- The result of `pvPortMalloc` of `heap_2.c` in a reachable state: with fuel above the heap
size the call returns, and whatever the fuel a pointer returned is `NULL` or the aligned
payload address of a region as large as the adjusted size, which is larger than the request
and the header together. -/
theorem Heap2.Reach.malloc_facts2 {c : Config} (hw : c.WF) {s : Heap2.State}
    {live : List (Nat × Nat)} (hr : Heap2.Reach c s live) (n : Nat) :
    (∀ fuel, c.configTOTAL_HEAP_SIZE < fuel →
      ∃ s' p, Heap2.pvPortMalloc c fuel s n = Outcome.ok s' p) ∧
    (∀ fuel s', Heap2.pvPortMalloc c fuel s n ≠ Outcome.assertFailed s') ∧
    (∀ fuel s' p, Heap2.pvPortMalloc c fuel s n = Outcome.ok s' p → p ≠ 0 →
      p % c.portBYTE_ALIGNMENT = 0 ∧ Heap2.heapSTRUCT_SIZE c < p ∧
      n + Heap2.heapSTRUCT_SIZE c < Heap2.adjustWantedSize c n ∧
      Heap2.adjustWantedSize c n ≤ Heap2.regionSize c s' p ∧
      p - Heap2.heapSTRUCT_SIZE c + Heap2.regionSize c s' p
        ≤ Heap2.alignedHeap c + Heap2.configADJUSTED_HEAP_SIZE c ∧
      s'.xFreeBytesRemaining + Heap2.regionSize c s' p
        = (Heap2.initialised c s).xFreeBytesRemaining) := by
  obtain ⟨bs, fl, hinv, hl⟩ := hr.initialised_inv2 hw
  refine ⟨?_, ?_, ?_⟩
  · intro fuel hfuel
    rw [Heap2.malloc_initialised2]
    rcases hinv.malloc2 hw n hfuel with ⟨h1, _⟩ | ⟨_, b, _, s', _, _, _, _, _, h1, _⟩
    · exact ⟨_, _, h1⟩
    · exact ⟨_, _, h1⟩
  · intro fuel s' hres
    rw [Heap2.malloc_initialised2] at hres
    have hres' : Heap2.pvPortMalloc c (max fuel (c.configTOTAL_HEAP_SIZE + 1))
        (Heap2.initialised c s) n = Outcome.assertFailed s' := by
      rw [Heap2.malloc_mono2 (by rw [hres]; simp) (Nat.le_max_left _ _), hres]
    rcases hinv.malloc2 hw n (fuel_max c fuel) with
      ⟨h1, _⟩ | ⟨_, _, _, _, _, _, _, _, _, h1, _⟩
    · rw [h1] at hres'; cases hres'
    · rw [h1] at hres'; cases hres'
  · intro fuel s' p hres hp0
    rw [Heap2.malloc_initialised2] at hres
    rcases hinv.malloc_ok2 hw hres with ⟨_, hp, _⟩ |
      ⟨pre, b, post, fl', hbs, hf, hwb, hpos, hp, _, hfr, hsz⟩
    · exact absurd hp hp0
    · obtain ⟨hreg, hle, _, hal, hend⟩ := hinv.malloc_region2 hw hbs hf hsz
      obtain ⟨hb1, hb2, hb3, hb4, hb5, hb6, hb7, hb8, hb8', hb9⟩ := hinv.free_block2 hw hbs hf
      have hadj := Heap2.adjust_pos_facts2 hw hpos
      have hge := Heap2.le_allocSize2 (c := c) hwb
      have hs := Heap2.hs_facts2 hw
      have hg := Heap2.geometry2 hw
      have hpos' := hw.heap_pos
      have hlk := hw.link_pos
      have hfree : b.size ≤ (Heap2.initialised c s).xFreeBytesRemaining := by
        rw [hinv.free_eq]
        exact size_le_freeSum (by rw [hbs]; simp) hf
      rw [hp, hreg, hfr]
      refine ⟨?_, by omega, by omega, hge, by omega, by omega⟩
      rw [Nat.add_mod, hal, hs.1]
      simp

/-- C2: in all three schemes a pointer returned by `pvPortMalloc` in a reachable state, for
any request size, is a multiple of `portBYTE_ALIGNMENT` when it is not `NULL`.  In
`heap_4.c` neither of the two alignment assertions of `pvPortMalloc` fails, whatever the
fuel, and with fuel above the heap size the calls of `heap_4.c` and `heap_2.c` return. -/
theorem C2_returned_pointers_aligned {c : Config} (hw : c.WF)
    {s4 : Heap4.State} {live4 : List (Nat × Nat)} (h4 : Heap4.Reach c s4 live4)
    {s2 : Heap2.State} {live2 : List (Nat × Nat)} (h2 : Heap2.Reach c s2 live2)
    {s1 : Heap1.State} (h1 : Heap1.Reach c s1)
    {n : Nat} (hn : n < c.wordMod) {fuel : Nat} (hfuel : c.configTOTAL_HEAP_SIZE < fuel) :
    ((∃ s' p, Heap4.pvPortMalloc c fuel s4 n = Outcome.ok s' p) ∧
      (∀ f s', Heap4.pvPortMalloc c f s4 n ≠ Outcome.assertFailed s') ∧
      (∀ f s' p, Heap4.pvPortMalloc c f s4 n = Outcome.ok s' p → p ≠ 0 →
        p % c.portBYTE_ALIGNMENT = 0)) ∧
    ((∃ s' p, Heap2.pvPortMalloc c fuel s2 n = Outcome.ok s' p) ∧
      (∀ f s' p, Heap2.pvPortMalloc c f s2 n = Outcome.ok s' p → p ≠ 0 →
        p % c.portBYTE_ALIGNMENT = 0)) ∧
    ((Heap1.pvPortMalloc c s1 n).2 ≠ 0 →
      (Heap1.pvPortMalloc c s1 n).2 % c.portBYTE_ALIGNMENT = 0) := by
  obtain ⟨a1, a2, a3⟩ := h4.malloc_facts hw n
  obtain ⟨b1, b2, b3⟩ := h2.malloc_facts2 hw n
  refine ⟨⟨a1 fuel hfuel, a2, fun f s' p h hp => (a3 f s' p h hp).1⟩,
    ⟨b1 fuel hfuel, fun f s' p h hp => (b3 f s' p h hp).1⟩, ?_⟩
  intro hp
  obtain ⟨i1, i2, i3⟩ := h1.inv1 hw
  rcases (Heap1.malloc_step hw i1 i2 i3 hn).2 with ⟨h0, _⟩ | ⟨_, _, h, _⟩
  · exact absurd h0 hp
  · exact h

/-- The statement of C2 on `demo`, for a request of 40 bytes after one allocation: the
pointers returned are 4160, 4160 and 4112. -/
theorem C2_returned_pointers_aligned_witness :
    (Heap4.pvPortMalloc demo 1033 Heap4.demo1 40 = Outcome.ok Heap4.demo2 4160 ∧
      4160 % demo.portBYTE_ALIGNMENT = 0) ∧
    (Heap2.pvPortMalloc demo 1033 Heap2.demo1 40 = Outcome.ok Heap2.demo2 4160 ∧
      4160 % demo.portBYTE_ALIGNMENT = 0) ∧
    ((Heap1.pvPortMalloc demo (Heap1.pvPortMalloc demo Heap1.boot 10).1 40).2 = 4112 ∧
      (Heap1.pvPortMalloc demo (Heap1.pvPortMalloc demo Heap1.boot 10).1 40).2
        % demo.portBYTE_ALIGNMENT = 0) :=
  have h := C2_returned_pointers_aligned (n := 40) demo_WF Heap4.reach_demo1
    Heap2.reach2_demo1 (Heap1.Reach.malloc 10 Heap1.Reach.boot (by decide)) (by decide)
    demo_fuel
  ⟨⟨Heap4.demo2_eq, h.1.2.2 1033 Heap4.demo2 4160 Heap4.demo2_eq (by decide)⟩,
    ⟨Heap2.demo2_eq_heap2, h.2.1.2 1033 Heap2.demo2 4160 Heap2.demo2_eq_heap2 (by decide)⟩,
    ⟨by decide, h.2.2 (by decide)⟩⟩

/-- C3: in `heap_4.c` and `heap_2.c`, when `pvPortMalloc` returns a pointer `p` other than
`NULL` for a request of `n` bytes in a reachable state, the adjusted size is above the
request plus the header size, so it has not wrapped around, the region marked as allocated
is at least as large as the adjusted size, its size less the header size is at least `n`,
and the `n` bytes from `p` on lie inside the region, which lies inside the heap. -/
theorem C3_region_holds_request {c : Config} (hw : c.WF)
    {s4 : Heap4.State} {live4 : List (Nat × Nat)} (h4 : Heap4.Reach c s4 live4)
    {s2 : Heap2.State} {live2 : List (Nat × Nat)} (h2 : Heap2.Reach c s2 live2) (n : Nat) :
    (∀ f s' p, Heap4.pvPortMalloc c f s4 n = Outcome.ok s' p → p ≠ 0 →
      n + Heap4.xHeapStructSize c < Heap4.adjustWantedSize c n ∧
      Heap4.adjustWantedSize c n ≤ Heap4.regionSize c s' p ∧
      n ≤ Heap4.regionSize c s' p - Heap4.xHeapStructSize c ∧
      p + n ≤ p - Heap4.xHeapStructSize c + Heap4.regionSize c s' p ∧
      p - Heap4.xHeapStructSize c + Heap4.regionSize c s' p ≤ Heap4.endAddress c) ∧
    (∀ f s' p, Heap2.pvPortMalloc c f s2 n = Outcome.ok s' p → p ≠ 0 →
      n + Heap2.heapSTRUCT_SIZE c < Heap2.adjustWantedSize c n ∧
      Heap2.adjustWantedSize c n ≤ Heap2.regionSize c s' p ∧
      n ≤ Heap2.regionSize c s' p - Heap2.heapSTRUCT_SIZE c ∧
      p + n ≤ p - Heap2.heapSTRUCT_SIZE c + Heap2.regionSize c s' p ∧
      p - Heap2.heapSTRUCT_SIZE c + Heap2.regionSize c s' p
        ≤ Heap2.alignedHeap c + Heap2.configADJUSTED_HEAP_SIZE c) := by
  constructor
  · intro f s' p h hp
    obtain ⟨_, k1, k2, k3, k4, _⟩ := (h4.malloc_facts hw n).2.2 f s' p h hp
    exact ⟨k2, k3, by omega, by omega, k4⟩
  · intro f s' p h hp
    obtain ⟨_, k1, k2, k3, k4, _⟩ := (h2.malloc_facts2 hw n).2.2 f s' p h hp
    exact ⟨k2, k3, by omega, by omega, k4⟩

/-- The statement of C3 on `demo`, for a request of 40 bytes after one allocation: the
adjusted size and the region size are 56. -/
theorem C3_region_holds_request_witness :
    (Heap4.pvPortMalloc demo 1033 Heap4.demo1 40 = Outcome.ok Heap4.demo2 4160 ∧
      40 + Heap4.xHeapStructSize demo < Heap4.adjustWantedSize demo 40 ∧
      Heap4.adjustWantedSize demo 40 ≤ Heap4.regionSize demo Heap4.demo2 4160 ∧
      40 ≤ Heap4.regionSize demo Heap4.demo2 4160 - Heap4.xHeapStructSize demo ∧
      4160 + 40 ≤ 4160 - Heap4.xHeapStructSize demo + Heap4.regionSize demo Heap4.demo2 4160 ∧
      4160 - Heap4.xHeapStructSize demo + Heap4.regionSize demo Heap4.demo2 4160
        ≤ Heap4.endAddress demo) ∧
    (Heap2.pvPortMalloc demo 1033 Heap2.demo1 40 = Outcome.ok Heap2.demo2 4160 ∧
      40 + Heap2.heapSTRUCT_SIZE demo < Heap2.adjustWantedSize demo 40 ∧
      Heap2.adjustWantedSize demo 40 ≤ Heap2.regionSize demo Heap2.demo2 4160 ∧
      40 ≤ Heap2.regionSize demo Heap2.demo2 4160 - Heap2.heapSTRUCT_SIZE demo ∧
      4160 + 40 ≤ 4160 - Heap2.heapSTRUCT_SIZE demo + Heap2.regionSize demo Heap2.demo2 4160 ∧
      4160 - Heap2.heapSTRUCT_SIZE demo + Heap2.regionSize demo Heap2.demo2 4160
        ≤ Heap2.alignedHeap demo + Heap2.configADJUSTED_HEAP_SIZE demo) :=
  have h := C3_region_holds_request demo_WF Heap4.reach_demo1 Heap2.reach2_demo1 40
  ⟨⟨Heap4.demo2_eq, h.1 1033 Heap4.demo2 4160 Heap4.demo2_eq (by decide)⟩,
    ⟨Heap2.demo2_eq_heap2, h.2 1033 Heap2.demo2 4160 Heap2.demo2_eq_heap2 (by decide)⟩⟩

theorem wsub_lt (c : Config) (a b : Nat) : wsub c a b < c.wordMod :=
  Nat.mod_lt _ (by unfold Config.wordMod; exact Nat.pos_pow_of_pos _ (by decide))

/-- The largest `size_t` value leaves the remainder `portBYTE_ALIGNMENT - 1`. -/
theorem Config.WF.sizeMax_mod {c : Config} (h : c.WF) :
    heapSIZE_MAX c % c.portBYTE_ALIGNMENT = c.portBYTE_ALIGNMENT - 1 := by
  obtain ⟨k, hk⟩ := h.align_pow2
  have hb := h.heap_big
  have hf := h.heap_fits
  have hlt : 2 ^ k < 2 ^ c.bits := by
    have : c.wordMod = 2 ^ c.bits := rfl
    omega
  have hkb : k ≤ c.bits := Nat.le_of_lt ((Nat.pow_lt_pow_iff_right (by decide)).1 hlt)
  obtain ⟨m, hm⟩ : ∃ m, c.bits = k + m := ⟨c.bits - k, by omega⟩
  have hA : 0 < 2 ^ k := Nat.pos_pow_of_pos _ (by decide)
  have hM : 0 < 2 ^ m := Nat.pos_pow_of_pos _ (by decide)
  unfold heapSIZE_MAX Config.wordMod
  rw [hk, hm, Nat.pow_add]
  obtain ⟨j, hj⟩ : ∃ j, 2 ^ m = j + 1 := ⟨2 ^ m - 1, by omega⟩
  rw [hj]
  have : 2 ^ k * (j + 1) - 1 = 2 ^ k * j + (2 ^ k - 1) := by
    rw [Nat.mul_add, Nat.mul_one]; omega
  rw [this, Nat.mul_add_mod, Nat.mod_eq_of_lt (by omega)]

namespace Heap4

variable {c : Config}

theorem allocateBlock_nil {s : State} {w : Nat} (fuel : Nat)
    (h : ¬ (heapBLOCK_SIZE_IS_VALID c w = true ∧ (w > 0 ∧ w ≤ s.xFreeBytesRemaining))) :
    allocateBlock c fuel s w = Outcome.ok s 0 := by
  unfold allocateBlock
  rw [if_neg h]

theorem malloc_eq (hw : c.WF) (s : State) (fuel n : Nat) :
    pvPortMalloc c fuel s n = allocateBlock c fuel (initialised c s) (adjustWantedSize c n) := by
  rw [malloc_initialised hw]
  have hi : (initialised c s).pxEnd ≠ 0 := by
    unfold initialised
    split
    · have := geometry hw
      have := end_facts hw
      show endAddress c ≠ 0
      omega
    · assumption
  unfold pvPortMalloc
  simp only [if_neg hi]

/-- The calls of `pvPortMalloc` of `heap_4.c` that return `NULL` without a search. -/
theorem malloc_invalid (hw : c.WF) (s : State) (fuel : Nat) {n : Nat}
    (h : n = 0 ∨
      c.wordMod ≤ n + (xHeapStructSize c + c.portBYTE_ALIGNMENT - n % c.portBYTE_ALIGNMENT) ∨
      heapBLOCK_SIZE_IS_VALID c (adjustWantedSize c n) = false ∨
      (initialised c s).xFreeBytesRemaining < adjustWantedSize c n) :
    pvPortMalloc c fuel s n = Outcome.ok (initialised c s) 0 := by
  rw [malloc_eq hw]
  apply allocateBlock_nil
  rintro ⟨h1, h2, h3⟩
  rcases h with h | h | h | h
  · rw [h] at h2
    simp [adjustWantedSize] at h2
  · rcases adjust_facts hw n with ⟨h0, _⟩ | ⟨_, _, hlt⟩
    · omega
    · omega
  · rw [h] at h1; cases h1
  · omega

theorem sizeMax_overflows (hw : c.WF) :
    c.wordMod ≤ heapSIZE_MAX c + (xHeapStructSize c + c.portBYTE_ALIGNMENT
      - heapSIZE_MAX c % c.portBYTE_ALIGNMENT) := by
  rw [hw.sizeMax_mod]
  have := hw.align_pos
  have := hw.wordMod_pos
  unfold heapSIZE_MAX
  omega

end Heap4

namespace Heap2

variable {c : Config}

theorem allocateBlock_nil2 {s : State} {w : Nat} (fuel : Nat)
    (h : ¬ (heapBLOCK_SIZE_IS_VALID c w = true ∧ (w > 0 ∧ w ≤ s.xFreeBytesRemaining))) :
    allocateBlock c fuel s w = Outcome.ok s 0 := by
  unfold allocateBlock
  rw [if_neg h]

theorem malloc_eq2 (s : State) (fuel n : Nat) :
    pvPortMalloc c fuel s n = allocateBlock c fuel (initialised c s) (adjustWantedSize c n) :=
  rfl

/-- The calls of `pvPortMalloc` of `heap_2.c` that return `NULL` without a search. -/
theorem malloc_invalid2 (hw : c.WF) (s : State) (fuel : Nat) {n : Nat}
    (h : n = 0 ∨
      c.wordMod ≤ n + (heapSTRUCT_SIZE c + c.portBYTE_ALIGNMENT - n % c.portBYTE_ALIGNMENT) ∨
      heapBLOCK_SIZE_IS_VALID c (adjustWantedSize c n) = false ∨
      (initialised c s).xFreeBytesRemaining < adjustWantedSize c n) :
    pvPortMalloc c fuel s n = Outcome.ok (initialised c s) 0 := by
  rw [malloc_eq2]
  apply allocateBlock_nil2
  rintro ⟨h1, h2, h3⟩
  rcases h with h | h | h | h
  · rw [h] at h2
    simp [adjustWantedSize] at h2
  · rcases adjust_facts2 hw n with ⟨h0, _⟩ | ⟨_, _, hlt⟩
    · omega
    · omega
  · rw [h] at h1; cases h1
  · omega

theorem sizeMax_overflows2 (hw : c.WF) :
    c.wordMod ≤ heapSIZE_MAX c + (heapSTRUCT_SIZE c + c.portBYTE_ALIGNMENT
      - heapSIZE_MAX c % c.portBYTE_ALIGNMENT) := by
  rw [hw.sizeMax_mod]
  have := hw.align_pos
  have := hw.wordMod_pos
  unfold heapSIZE_MAX
  omega

end Heap2

namespace Heap1

variable {c : Config}

theorem malloc_nil_of_not {s : State} {n : Nat}
    (h : ¬ (alignWantedSize c n > 0 ∧
      (wadd c s.xNextFreeByte (alignWantedSize c n) < configADJUSTED_HEAP_SIZE c ∧
        wadd c s.xNextFreeByte (alignWantedSize c n) > s.xNextFreeByte))) :
    (pvPortMalloc c s n).2 = 0 := by
  obtain ⟨s1, hs1⟩ : ∃ s1 : State, s1 = (if s.pucAlignedHeap = 0 then
      ({ s with pucAlignedHeap := alignedHeap c } : State) else s) := ⟨_, rfl⟩
  have hx : s1.xNextFreeByte = s.xNextFreeByte := by
    rw [hs1]
    split <;> rfl
  rw [← hx] at h
  have hcode : pvPortMalloc c s n =
      if alignWantedSize c n > 0 ∧
          (wadd c s1.xNextFreeByte (alignWantedSize c n) < configADJUSTED_HEAP_SIZE c ∧
            wadd c s1.xNextFreeByte (alignWantedSize c n) > s1.xNextFreeByte) then
        ({ s1 with xNextFreeByte := wadd c s1.xNextFreeByte (alignWantedSize c n) },
          wadd c s1.pucAlignedHeap s1.xNextFreeByte)
      else
        (s1, 0) := by
    rw [hs1]
    rfl
  rw [hcode, if_neg h]

/-- A request of `SIZE_MAX` bytes gets `NULL` from `pvPortMalloc` of `heap_1.c`, whatever
the cursor is. -/
theorem malloc_sizeMax (hw : c.WF) (s : State) (hx : s.xNextFreeByte < c.wordMod) :
    (pvPortMalloc c s (heapSIZE_MAX c)).2 = 0 := by
  have hA := hw.align_pos
  have hW := hw.wordMod_pos
  have hb := hw.heap_big
  have hf := hw.heap_fits
  have hadj := wsub_lt c c.configTOTAL_HEAP_SIZE c.portBYTE_ALIGNMENT
  have hnot : ¬ (alignWantedSize c (heapSIZE_MAX c) > 0 ∧
      (wadd c s.xNextFreeByte (alignWantedSize c (heapSIZE_MAX c))
          < configADJUSTED_HEAP_SIZE c ∧
        wadd c s.xNextFreeByte (alignWantedSize c (heapSIZE_MAX c)) > s.xNextFreeByte)) := by
    by_cases h1 : c.portBYTE_ALIGNMENT ≠ 1
    · have hz : alignWantedSize c (heapSIZE_MAX c) = 0 := by
        unfold alignWantedSize
        rw [if_pos h1, hw.and_mask, hw.sizeMax_mod, if_pos (by omega),
          wsub_eq c (by omega) (by omega)]
        have h2 : c.portBYTE_ALIGNMENT - (c.portBYTE_ALIGNMENT - 1) = 1 := by omega
        have h3 : wadd c (heapSIZE_MAX c) 1 = 0 := by
          unfold wadd heapSIZE_MAX
          rw [Nat.sub_add_cancel hW, Nat.mod_self]
        rw [h2, h3, if_neg (by omega)]
      rw [hz]
      omega
    · have hz : alignWantedSize c (heapSIZE_MAX c) = heapSIZE_MAX c := by
        unfold alignWantedSize
        rw [if_neg h1]
      rw [hz]
      rintro ⟨_, h2, h3⟩
      unfold configADJUSTED_HEAP_SIZE at h2
      by_cases h0 : s.xNextFreeByte = 0
      · rw [h0] at h2
        unfold wadd heapSIZE_MAX at h2
        rw [Nat.zero_add, Nat.mod_eq_of_lt (by omega)] at h2
        omega
      · have : wadd c s.xNextFreeByte (heapSIZE_MAX c) = s.xNextFreeByte - 1 := by
          unfold wadd heapSIZE_MAX
          rw [Nat.mod_eq_sub_mod (by omega), Nat.mod_eq_of_lt (by omega)]
          omega
        omega
  exact malloc_nil_of_not hnot

end Heap1

/-- C4: in `heap_4.c` and `heap_2.c`, in every state, `pvPortMalloc` returns `NULL`, leaving
the state as its set-up step made it, when the request is `0`, or when adding the header and
the alignment padding to it overflows a `size_t`, or when the adjusted size has its top bit
set, or when the adjusted size is above the free bytes.  A request of `SIZE_MAX` bytes gets
`NULL` in `heap_4.c`, `heap_2.c` and `heap_1.c`. -/
theorem C4_invalid_request_returns_null {c : Config} (hw : c.WF) (s4 : Heap4.State)
    (s2 : Heap2.State) (s1 : Heap1.State) (hx : s1.xNextFreeByte < c.wordMod) (fuel : Nat) :
    (∀ n, (n = 0 ∨
        c.wordMod ≤ n + (Heap4.xHeapStructSize c + c.portBYTE_ALIGNMENT
          - n % c.portBYTE_ALIGNMENT) ∨
        heapBLOCK_SIZE_IS_VALID c (Heap4.adjustWantedSize c n) = false ∨
        (Heap4.initialised c s4).xFreeBytesRemaining < Heap4.adjustWantedSize c n) →
      Heap4.pvPortMalloc c fuel s4 n = Outcome.ok (Heap4.initialised c s4) 0) ∧
    (∀ n, (n = 0 ∨
        c.wordMod ≤ n + (Heap2.heapSTRUCT_SIZE c + c.portBYTE_ALIGNMENT
          - n % c.portBYTE_ALIGNMENT) ∨
        heapBLOCK_SIZE_IS_VALID c (Heap2.adjustWantedSize c n) = false ∨
        (Heap2.initialised c s2).xFreeBytesRemaining < Heap2.adjustWantedSize c n) →
      Heap2.pvPortMalloc c fuel s2 n = Outcome.ok (Heap2.initialised c s2) 0) ∧
    Heap4.pvPortMalloc c fuel s4 (heapSIZE_MAX c) = Outcome.ok (Heap4.initialised c s4) 0 ∧
    Heap2.pvPortMalloc c fuel s2 (heapSIZE_MAX c) = Outcome.ok (Heap2.initialised c s2) 0 ∧
    (Heap1.pvPortMalloc c s1 (heapSIZE_MAX c)).2 = 0 :=
  ⟨fun _ h => Heap4.malloc_invalid hw s4 fuel h, fun _ h => Heap2.malloc_invalid2 hw s2 fuel h,
    Heap4.malloc_invalid hw s4 fuel (Or.inr (Or.inl (Heap4.sizeMax_overflows hw))),
    Heap2.malloc_invalid2 hw s2 fuel (Or.inr (Or.inl (Heap2.sizeMax_overflows2 hw))),
    Heap1.malloc_sizeMax hw s1 hx⟩

/-- The statement of C4 on `demo` after one allocation, when 968 bytes are free: the requests
`0`, `4294967290` (the sum overflows), `2147483632` (the adjusted size is `2 ^ 31`), `2000`
(more than the free bytes) and `SIZE_MAX` all get `NULL`. -/
theorem C4_invalid_request_returns_null_witness :
    (Heap4.pvPortMalloc demo 1033 Heap4.demo1 0 = Outcome.ok Heap4.demo1 0 ∧
      Heap4.pvPortMalloc demo 1033 Heap4.demo1 4294967290 = Outcome.ok Heap4.demo1 0 ∧
      Heap4.pvPortMalloc demo 1033 Heap4.demo1 2147483632 = Outcome.ok Heap4.demo1 0 ∧
      Heap4.pvPortMalloc demo 1033 Heap4.demo1 2000 = Outcome.ok Heap4.demo1 0 ∧
      Heap4.pvPortMalloc demo 1033 Heap4.demo1 (heapSIZE_MAX demo)
        = Outcome.ok Heap4.demo1 0) ∧
    (Heap2.pvPortMalloc demo 1033 Heap2.demo1 0 = Outcome.ok Heap2.demo1 0 ∧
      Heap2.pvPortMalloc demo 1033 Heap2.demo1 4294967290 = Outcome.ok Heap2.demo1 0 ∧
      Heap2.pvPortMalloc demo 1033 Heap2.demo1 2147483632 = Outcome.ok Heap2.demo1 0 ∧
      Heap2.pvPortMalloc demo 1033 Heap2.demo1 2000 = Outcome.ok Heap2.demo1 0 ∧
      Heap2.pvPortMalloc demo 1033 Heap2.demo1 (heapSIZE_MAX demo)
        = Outcome.ok Heap2.demo1 0) ∧
    (Heap1.pvPortMalloc demo (Heap1.pvPortMalloc demo Heap1.boot 10).1 (heapSIZE_MAX demo)).2
      = 0 :=
  have h := C4_invalid_request_returns_null demo_WF Heap4.demo1 Heap2.demo1
    (Heap1.pvPortMalloc demo Heap1.boot 10).1 (by decide) 1033
  ⟨⟨h.1 0 (Or.inl rfl), h.1 4294967290 (Or.inr (Or.inl (by decide))),
      h.1 2147483632 (Or.inr (Or.inr (Or.inl (by decide)))),
      h.1 2000 (Or.inr (Or.inr (Or.inr (by decide)))), h.2.2.1⟩,
    ⟨h.2.1 0 (Or.inl rfl), h.2.1 4294967290 (Or.inr (Or.inl (by decide))),
      h.2.1 2147483632 (Or.inr (Or.inr (Or.inl (by decide)))),
      h.2.1 2000 (Or.inr (Or.inr (Or.inr (by decide)))), h.2.2.2.1⟩,
    h.2.2.2.2⟩

/-- C5: in a reachable state of `heap_4.c` or `heap_2.c` in which the heap is set up, a call
of `pvPortMalloc` that returns `NULL` leaves the whole state as it was: the header memory,
so the nodes, sizes and links of the free list, the free bytes, and in `heap_4.c` the
minimum ever free bytes and the two counters.  In a reachable state of `heap_1.c` such a
call leaves the cursor `xNextFreeByte` as it was. -/
theorem C5_null_leaves_state {c : Config} (hw : c.WF)
    {s4 : Heap4.State} {live4 : List (Nat × Nat)} (h4 : Heap4.Reach c s4 live4)
    (i4 : s4.pxEnd ≠ 0)
    {s2 : Heap2.State} {live2 : List (Nat × Nat)} (h2 : Heap2.Reach c s2 live2)
    (i2 : s2.xHeapHasBeenInitialised = true)
    {s1 : Heap1.State} (h1 : Heap1.Reach c s1) {n : Nat} (hn : n < c.wordMod) :
    (∀ f s', Heap4.pvPortMalloc c f s4 n = Outcome.ok s' 0 → s' = s4) ∧
    (∀ f s', Heap2.pvPortMalloc c f s2 n = Outcome.ok s' 0 → s' = s2) ∧
    ((Heap1.pvPortMalloc c s1 n).2 = 0 →
      (Heap1.pvPortMalloc c s1 n).1.xNextFreeByte = s1.xNextFreeByte) := by
  refine ⟨?_, ?_, ?_⟩
  · intro f s' hres
    obtain ⟨bs, hinv, hl⟩ := h4.inv_of_init hw i4
    rcases hinv.malloc_ok hw hres with ⟨h, _⟩ | ⟨pre, b, post, hbs, hf, _, _, hp, _, _, hsz, _⟩
    · exact h
    · exact absurd hp.symm (hinv.malloc_region hw hbs hf hsz).2.2.1
  · intro f s' hres
    obtain ⟨bs, fl, hinv, hl⟩ := h2.inv_of_init2 hw i2
    rcases hinv.malloc_ok2 hw hres with ⟨h, _⟩ | ⟨pre, b, post, fl', hbs, hf, _, _, hp, _, _, hsz⟩
    · exact h
    · exact absurd hp.symm (hinv.malloc_region2 hw hbs hf hsz).2.2.1
  · intro hp
    obtain ⟨j1, j2, j3⟩ := h1.inv1 hw
    rcases (Heap1.malloc_step hw j1 j2 j3 hn).2 with ⟨_, h, _⟩ | ⟨_, h0, _⟩
    · exact h
    · exact absurd hp h0

/-- The statement of C5 on `demo` after one allocation, for a request of 2000 bytes, which
gets `NULL`. -/
theorem C5_null_leaves_state_witness :
    (Heap4.pvPortMalloc demo 1033 Heap4.demo1 2000).state Heap4.demoBoot = Heap4.demo1 ∧
    (Heap2.pvPortMalloc demo 1033 Heap2.demo1 2000).state Heap2.demoBoot = Heap2.demo1 ∧
    (Heap1.pvPortMalloc demo (Heap1.pvPortMalloc demo Heap1.boot 10).1 2000).1.xNextFreeByte
      = (Heap1.pvPortMalloc demo Heap1.boot 10).1.xNextFreeByte :=
  have h := C5_null_leaves_state (n := 2000) demo_WF Heap4.reach_demo1 (by decide)
    Heap2.reach2_demo1 (by decide) (Heap1.Reach.malloc 10 Heap1.Reach.boot (by decide))
    (by decide)
  ⟨h.1 1033 _ rfl, h.2.1 1033 _ rfl, h.2.2 (by decide)⟩

/-- The value of `specRoundUp`: a multiple of `A` stays, and any other number goes up to the
next multiple. -/
theorem specRoundUp_eq {A : Nat} (hA : 0 < A) (x : Nat) :
    (x % A = 0 → specRoundUp A x = x) ∧ (x % A ≠ 0 → specRoundUp A x = x + (A - x % A)) := by
  have hq := Nat.div_add_mod x A
  have hr := Nat.mod_lt x hA
  unfold specRoundUp
  constructor
  · intro h0
    have e : x + A - 1 = (A - 1) + A * (x / A) := by omega
    rw [e, Nat.add_mul_div_left _ _ hA, Nat.div_eq_of_lt (by omega), Nat.zero_add,
      Nat.mul_comm]
    omega
  · intro h0
    have e : x + A - 1 = (x % A - 1) + A * (x / A + 1) := by
      rw [Nat.mul_add, Nat.mul_one]; omega
    rw [e, Nat.add_mul_div_left _ _ hA, Nat.div_eq_of_lt (by omega), Nat.zero_add,
      Nat.mul_comm, Nat.mul_add, Nat.mul_one]
    omega

/-- C6, as the code has it: in `heap_4.c` and `heap_2.c`, for a request above `0` for which
the sum does not overflow, the size that `pvPortMalloc` works with is the request plus the
padding `portBYTE_ALIGNMENT - request mod portBYTE_ALIGNMENT` plus the header size.  The
padding is never `0`: the size is the request rounded up plus the header size when the
request is not a multiple of the alignment, and `portBYTE_ALIGNMENT` more than that when it
is. -/
theorem C6_adjusted_size {c : Config} (hw : c.WF) {n : Nat} (hpos : 0 < n)
    (h4 : n + (Heap4.xHeapStructSize c + c.portBYTE_ALIGNMENT - n % c.portBYTE_ALIGNMENT)
      < c.wordMod)
    (h2 : n + (Heap2.heapSTRUCT_SIZE c + c.portBYTE_ALIGNMENT - n % c.portBYTE_ALIGNMENT)
      < c.wordMod) :
    (Heap4.adjustWantedSize c n
        = n + (c.portBYTE_ALIGNMENT - n % c.portBYTE_ALIGNMENT) + Heap4.xHeapStructSize c ∧
      (n % c.portBYTE_ALIGNMENT ≠ 0 → Heap4.adjustWantedSize c n = Heap4.specNeed c n) ∧
      (n % c.portBYTE_ALIGNMENT = 0 →
        Heap4.adjustWantedSize c n = Heap4.specNeed c n + c.portBYTE_ALIGNMENT)) ∧
    (Heap2.adjustWantedSize c n
        = n + (c.portBYTE_ALIGNMENT - n % c.portBYTE_ALIGNMENT) + Heap2.heapSTRUCT_SIZE c ∧
      (n % c.portBYTE_ALIGNMENT ≠ 0 → Heap2.adjustWantedSize c n = Heap2.specNeed c n) ∧
      (n % c.portBYTE_ALIGNMENT = 0 →
        Heap2.adjustWantedSize c n = Heap2.specNeed c n + c.portBYTE_ALIGNMENT)) := by
  have hA := hw.align_pos
  have hr := Nat.mod_lt n hA
  obtain ⟨r0, r1⟩ := specRoundUp_eq hA n
  constructor
  · have e : Heap4.adjustWantedSize c n
        = n + (Heap4.xHeapStructSize c + c.portBYTE_ALIGNMENT - n % c.portBYTE_ALIGNMENT) := by
      rcases Heap4.adjust_facts hw n with ⟨h0, h | h⟩ | ⟨_, h, _⟩
      · omega
      · omega
      · exact h
    unfold Heap4.specNeed
    refine ⟨by omega, fun h => ?_, fun h => ?_⟩
    · rw [r1 h]; omega
    · rw [r0 h]; omega
  · have e : Heap2.adjustWantedSize c n
        = n + (Heap2.heapSTRUCT_SIZE c + c.portBYTE_ALIGNMENT - n % c.portBYTE_ALIGNMENT) := by
      rcases Heap2.adjust_facts2 hw n with ⟨h0, h | h⟩ | ⟨_, h, _⟩
      · omega
      · omega
      · exact h
    unfold Heap2.specNeed
    refine ⟨by omega, fun h => ?_, fun h => ?_⟩
    · rw [r1 h]; omega
    · rw [r0 h]; omega

/-- The statement of C6 on `demo` for a request of 40 bytes: the size is 56. -/
theorem C6_adjusted_size_witness :
    (Heap4.adjustWantedSize demo 40
        = 40 + (demo.portBYTE_ALIGNMENT - 40 % demo.portBYTE_ALIGNMENT)
          + Heap4.xHeapStructSize demo ∧
      (40 % demo.portBYTE_ALIGNMENT ≠ 0 →
        Heap4.adjustWantedSize demo 40 = Heap4.specNeed demo 40) ∧
      (40 % demo.portBYTE_ALIGNMENT = 0 →
        Heap4.adjustWantedSize demo 40 = Heap4.specNeed demo 40 + demo.portBYTE_ALIGNMENT)) ∧
    (Heap2.adjustWantedSize demo 40
        = 40 + (demo.portBYTE_ALIGNMENT - 40 % demo.portBYTE_ALIGNMENT)
          + Heap2.heapSTRUCT_SIZE demo ∧
      (40 % demo.portBYTE_ALIGNMENT ≠ 0 →
        Heap2.adjustWantedSize demo 40 = Heap2.specNeed demo 40) ∧
      (40 % demo.portBYTE_ALIGNMENT = 0 →
        Heap2.adjustWantedSize demo 40 = Heap2.specNeed demo 40 + demo.portBYTE_ALIGNMENT)) :=
  C6_adjusted_size (n := 40) demo_WF (by decide) (by decide) (by decide)

/-- C6 as the specification words it fails on `demo`, where the alignment and the header
size are 8 and the heap set up is a single free region of 1024 bytes: for a request of 40
bytes the size reserved is 56, not the 48 of the request rounded up plus the header, and
`xPortGetFreeHeapSize` is 968 afterwards, not 976. -/
theorem C6_counterexample :
    (demo.portBYTE_ALIGNMENT = 8 ∧ Heap4.xHeapStructSize demo = 8 ∧
      Heap4.xPortGetFreeHeapSize (Heap4.initialised demo Heap4.demoBoot) = 1024 ∧
      Heap4.freeList demo 1033 (Heap4.initialised demo Heap4.demoBoot) = [4096] ∧
      Heap4.specNeed demo 40 = 48 ∧ Heap4.adjustWantedSize demo 40 = 56 ∧
      Heap4.adjustWantedSize demo 40 ≠ Heap4.specNeed demo 40 ∧
      Heap4.pvPortMalloc demo 1033 Heap4.demoBoot 40 = Outcome.ok Heap4.demo1 4104 ∧
      Heap4.regionSize demo Heap4.demo1 4104 = 56 ∧
      Heap4.xPortGetFreeHeapSize Heap4.demo1 = 968 ∧
      Heap4.xPortGetFreeHeapSize Heap4.demo1 ≠ 976) ∧
    (Heap2.heapSTRUCT_SIZE demo = 8 ∧
      Heap2.xPortGetFreeHeapSize (Heap2.initialised demo Heap2.demoBoot) = 1024 ∧
      Heap2.freeList demo 1033 (Heap2.initialised demo Heap2.demoBoot) = [4096] ∧
      Heap2.specNeed demo 40 = 48 ∧ Heap2.adjustWantedSize demo 40 = 56 ∧
      Heap2.adjustWantedSize demo 40 ≠ Heap2.specNeed demo 40 ∧
      Heap2.pvPortMalloc demo 1033 Heap2.demoBoot 40 = Outcome.ok Heap2.demo1 4104 ∧
      Heap2.regionSize demo Heap2.demo1 4104 = 56 ∧
      Heap2.xPortGetFreeHeapSize Heap2.demo1 = 968 ∧
      Heap2.xPortGetFreeHeapSize Heap2.demo1 ≠ 976) := by
  refine ⟨⟨rfl, by decide, by decide, by decide, by decide, by decide, by decide, rfl,
    by decide, by decide, by decide⟩, ⟨by decide, by decide, by decide, by decide, by decide,
    by decide, rfl, by decide, by decide, by decide⟩⟩

namespace Heap4

variable {c : Config} {s s' : State} {bs : List Blk} {live : List (Nat × Nat)}

/-- The size that `prvHeapInit` of `heap_4.c` gives the first free region. -/
theorem prvHeapInit_size (hw : c.WF) (s : State) :
    (prvHeapInit c s).xBlockSize (alignedHeap c).1 = endAddress c - (alignedHeap c).1 := by
  have := (prvHeapInit_inv hw s).sizes _ (List.mem_singleton_self _)
  simpa using this

/-- The sizes in the headers of the nodes of the free list add up to the free bytes. -/
theorem Inv.freeList_sum (hw : c.WF) (h : Inv c s bs) {fuel : Nat}
    (hfuel : c.configTOTAL_HEAP_SIZE < fuel) :
    ((freeList c fuel s).map s.xBlockSize).sum = s.xFreeBytesRemaining := by
  rw [h.freeList_eq hw hfuel, h.free_eq]
  exact freeAddrs_size_sum (fun b hb hf => by rw [h.sizes b hb, if_pos hf])

/-- The free bytes of a reachable state of `heap_4.c` are at most the size of the first free
region. -/
theorem Reach.free_bound (hw : c.WF) (hr : Reach c s live) :
    s.xFreeBytesRemaining ≤ endAddress c - (alignedHeap c).1 := by
  rcases hr.inv hw with ⟨⟨next0, size0, rfl⟩, _⟩ | ⟨bs, hinv, _⟩
  · exact Nat.zero_le _
  · exact hinv.free_le

end Heap4

namespace Heap2

variable {c : Config} {s s' : State} {bs : List Blk} {fl : List Nat}
  {live : List (Nat × Nat)}

/-- The size that `prvHeapInit` of `heap_2.c` gives the first free region. -/
theorem prvHeapInit_size2 (hw : c.WF) (s : State) :
    (prvHeapInit c s).xBlockSize (alignedHeap c) = configADJUSTED_HEAP_SIZE c := by
  have := (prvHeapInit_inv2 hw (Heap2.boot c s.pxNextFreeBlock s.xBlockSize) rfl).sizes _
    (List.mem_singleton_self _)
  simpa using this

/-- The free bytes of a reachable state of `heap_2.c` are at most the size of the first free
region. -/
theorem Reach.free_bound2 (hw : c.WF) (hr : Reach c s live) :
    s.xFreeBytesRemaining ≤ configADJUSTED_HEAP_SIZE c := by
  rcases hr.inv2 hw with ⟨⟨next0, size0, rfl⟩, _⟩ | ⟨bs, fl, hinv, _⟩
  · exact Nat.le_refl _
  · exact hinv.free_le2

end Heap2

/-- C7: in `heap_4.c` and `heap_2.c`, in every state reached from program start by calls of
`pvPortMalloc` and by calls of `vPortFree` on live pointers, once the heap is set up, which
the first step of `pvPortMalloc` does, the region sizes in the headers of the nodes of the
free list, the markers left out, add up to `xFreeBytesRemaining`, which is what
`xPortGetFreeHeapSize` returns, and this is at most the size that `prvHeapInit` gave the
first free region.  That bound holds before the heap is set up as well. -/
theorem C7_free_bytes_accounting {c : Config} (hw : c.WF)
    {s4 : Heap4.State} {live4 : List (Nat × Nat)} (h4 : Heap4.Reach c s4 live4)
    {s2 : Heap2.State} {live2 : List (Nat × Nat)} (h2 : Heap2.Reach c s2 live2)
    {fuel : Nat} (hfuel : c.configTOTAL_HEAP_SIZE < fuel) :
    ((s4.pxEnd ≠ 0 → Heap4.initialised c s4 = s4) ∧
      ((Heap4.freeList c fuel (Heap4.initialised c s4)).map
          (Heap4.initialised c s4).xBlockSize).sum
        = Heap4.xPortGetFreeHeapSize (Heap4.initialised c s4) ∧
      Heap4.xPortGetFreeHeapSize (Heap4.initialised c s4)
        ≤ (Heap4.prvHeapInit c s4).xBlockSize (Heap4.alignedHeap c).1 ∧
      Heap4.xPortGetFreeHeapSize s4
        ≤ (Heap4.prvHeapInit c s4).xBlockSize (Heap4.alignedHeap c).1) ∧
    ((s2.xHeapHasBeenInitialised = true → Heap2.initialised c s2 = s2) ∧
      ((Heap2.freeList c fuel (Heap2.initialised c s2)).map
          (Heap2.initialised c s2).xBlockSize).sum
        = Heap2.xPortGetFreeHeapSize (Heap2.initialised c s2) ∧
      Heap2.xPortGetFreeHeapSize (Heap2.initialised c s2)
        ≤ (Heap2.prvHeapInit c s2).xBlockSize (Heap2.alignedHeap c) ∧
      Heap2.xPortGetFreeHeapSize s2
        ≤ (Heap2.prvHeapInit c s2).xBlockSize (Heap2.alignedHeap c)) := by
  constructor
  · obtain ⟨bs, hinv, _⟩ := h4.initialised_inv hw
    rw [Heap4.prvHeapInit_size hw]
    refine ⟨fun h => ?_, hinv.freeList_sum hw hfuel, hinv.free_le, h4.free_bound hw⟩
    unfold Heap4.initialised
    rw [if_neg h]
  · obtain ⟨bs, fl, hinv, _⟩ := h2.initialised_inv2 hw
    rw [Heap2.prvHeapInit_size2 hw]
    refine ⟨fun h => ?_, ?_, hinv.free_le2, h2.free_bound2 hw⟩
    · unfold Heap2.initialised
      rw [if_neg (by rw [h]; simp)]
    · rw [hinv.freeList_eq2 hw hfuel]
      exact hinv.freeList_sum2

/-- The statement of C7 on `demo` in the states in which one allocation of 40 bytes is live
and another one has been freed: the free list has two nodes and 968 bytes are free. -/
theorem C7_free_bytes_accounting_witness :
    ((Heap4.freeList demo 1033 Heap4.demo3 = [4096, 4208] ∧
      ((Heap4.freeList demo 1033 (Heap4.initialised demo Heap4.demo3)).map
          (Heap4.initialised demo Heap4.demo3).xBlockSize).sum
        = Heap4.xPortGetFreeHeapSize (Heap4.initialised demo Heap4.demo3) ∧
      Heap4.xPortGetFreeHeapSize (Heap4.initialised demo Heap4.demo3)
        ≤ (Heap4.prvHeapInit demo Heap4.demo3).xBlockSize (Heap4.alignedHeap demo).1 ∧
      Heap4.xPortGetFreeHeapSize Heap4.demo3
        ≤ (Heap4.prvHeapInit demo Heap4.demo3).xBlockSize (Heap4.alignedHeap demo).1) ∧
    (Heap2.freeList demo 1033 Heap2.demo3 = [4096, 4208] ∧
      ((Heap2.freeList demo 1033 (Heap2.initialised demo Heap2.demo3)).map
          (Heap2.initialised demo Heap2.demo3).xBlockSize).sum
        = Heap2.xPortGetFreeHeapSize (Heap2.initialised demo Heap2.demo3) ∧
      Heap2.xPortGetFreeHeapSize (Heap2.initialised demo Heap2.demo3)
        ≤ (Heap2.prvHeapInit demo Heap2.demo3).xBlockSize (Heap2.alignedHeap demo) ∧
      Heap2.xPortGetFreeHeapSize Heap2.demo3
        ≤ (Heap2.prvHeapInit demo Heap2.demo3).xBlockSize (Heap2.alignedHeap demo))) :=
  have h := C7_free_bytes_accounting demo_WF Heap4.reach_demo3 Heap2.reach2_demo3 demo_fuel
  ⟨⟨by decide, h.1.2⟩, ⟨by decide, h.2.2⟩⟩

namespace Heap4

variable {c : Config} {s s' : State} {bs : List Blk} {live : List (Nat × Nat)}

theorem allocAt_eq (w : Nat) (pre post : List Blk) (b : Blk) :
    ∃ rest, allocAt c w pre b post = pre ++ ⟨b.addr, allocSize c w b, false⟩ :: rest := by
  unfold allocAt allocSize
  split
  · exact ⟨_, rfl⟩
  · exact ⟨_, rfl⟩

/-- What a call of `vPortFree` of `heap_4.c` on a live pointer did when it returned,
whatever the fuel; and with fuel above the heap size it returns. -/
theorem Inv.free_ok (hw : c.WF) (h : Inv c s bs) (hl : LiveOK (xHeapStructSize c) bs live)
    {p d : Nat} (hp : (p, d) ∈ live) :
    (∀ fuel, c.configTOTAL_HEAP_SIZE < fuel → ∃ s', vPortFree c fuel s p = Outcome.ok s' ()) ∧
    (∀ fuel s', vPortFree c fuel s p = Outcome.ok s' () →
      ∃ pre post, bs = pre ++ ⟨wsub c p (xHeapStructSize c), d, false⟩ :: post ∧
        Inv c s' (coalesce pre (wsub c p (xHeapStructSize c)) d post) ∧
        s'.xFreeBytesRemaining = s.xFreeBytesRemaining + d ∧
        s'.xMinimumEverFreeBytesRemaining = s.xMinimumEverFreeBytesRemaining ∧
        s'.xNumberOfSuccessfulAllocations = s.xNumberOfSuccessfulAllocations ∧
        s'.xNumberOfSuccessfulFrees = wadd c s.xNumberOfSuccessfulFrees 1 ∧
        heapBLOCK_IS_ALLOCATED c (s'.xBlockSize (wsub c p (xHeapStructSize c))) = false) := by
  obtain ⟨pre, post, a, hpa, hbs, _, hpuc, _⟩ := h.live_block hw hl hp
  rw [hpuc]
  constructor
  · intro fuel hfuel
    obtain ⟨s', h1, _⟩ := h.free hw hbs hfuel
    exact ⟨s', by rw [hpa]; exact h1⟩
  · intro fuel s' hres
    have hres' : vPortFree c (max fuel (c.configTOTAL_HEAP_SIZE + 1)) s p
        = Outcome.ok s' () := by
      rw [free_mono (by rw [hres]; simp) (Nat.le_max_left _ _), hres]
    obtain ⟨s'', h1, hinv, _, k1, k2, k3, k4, k5⟩ := h.free hw hbs
      (fuel_max c fuel)
    rw [← hpa, hres'] at h1
    injection h1 with e1
    subst e1
    exact ⟨pre, post, hbs, hinv, k1, k2, k3, k4, k5⟩

end Heap4

namespace Heap2

variable {c : Config} {s s' : State} {bs : List Blk} {fl : List Nat}
  {live : List (Nat × Nat)}

theorem allocAt_eq2 (w : Nat) (pre post : List Blk) (b : Blk) :
    ∃ rest, allocAt c w pre b post = pre ++ ⟨b.addr, allocSize c w b, false⟩ :: rest := by
  unfold allocAt allocSize
  split
  · exact ⟨_, rfl⟩
  · exact ⟨_, rfl⟩

/-- What a call of `vPortFree` of `heap_2.c` on a live pointer did when it returned,
whatever the fuel; and with fuel above the heap size it returns. -/
theorem Inv.free_ok2 (hw : c.WF) (h : Inv c s bs fl) (hl : LiveOK (heapSTRUCT_SIZE c) bs live)
    {p d : Nat} (hp : (p, d) ∈ live) :
    (∀ fuel, c.configTOTAL_HEAP_SIZE < fuel → ∃ s', vPortFree c fuel s p = Outcome.ok s' ()) ∧
    (∀ fuel s', vPortFree c fuel s p = Outcome.ok s' () →
      ∃ pre post fl', bs = pre ++ ⟨wsub c p (heapSTRUCT_SIZE c), d, false⟩ :: post ∧
        Inv c s' (pre ++ ⟨wsub c p (heapSTRUCT_SIZE c), d, true⟩ :: post) fl' ∧
        s'.xFreeBytesRemaining = s.xFreeBytesRemaining + d ∧
        heapBLOCK_IS_ALLOCATED c (s'.xBlockSize (wsub c p (heapSTRUCT_SIZE c))) = false) := by
  obtain ⟨pre, post, a, hpa, hbs, _, hpuc, _⟩ := h.live_block2 hw hl hp
  rw [hpuc]
  constructor
  · intro fuel hfuel
    obtain ⟨s', _, h1, _⟩ := h.free2 hw hbs hfuel
    exact ⟨s', by rw [hpa]; exact h1⟩
  · intro fuel s' hres
    have hres' : vPortFree c (max fuel (c.configTOTAL_HEAP_SIZE + 1)) s p
        = Outcome.ok s' () := by
      rw [free_mono2 (by rw [hres]; simp) (Nat.le_max_left _ _), hres]
    obtain ⟨s'', fl', h1, hinv, _, k1, k5⟩ := h.free2 hw hbs
      (fuel_max c fuel)
    rw [← hpa, hres'] at h1
    injection h1 with e1
    subst e1
    exact ⟨pre, post, fl', hbs, hinv, k1, k5⟩

end Heap2

/-- In `heap_4.c`, after `pvPortMalloc` has returned a pointer other than `NULL` in a
reachable state, `vPortFree` of that pointer returns, and then the same request gets a
pointer other than `NULL` again. -/
theorem Heap4.Reach.round_trip {c : Config} (hw : c.WF) {s : Heap4.State}
    {live : List (Nat × Nat)} (hr : Heap4.Reach c s live) {n : Nat} (hn : n < c.wordMod)
    {fuel : Nat} (hfuel : c.configTOTAL_HEAP_SIZE < fuel) {s1 : Heap4.State} {p : Nat}
    (hres : Heap4.pvPortMalloc c fuel s n = Outcome.ok s1 p) (hp : p ≠ 0) :
    ∃ s2, Heap4.vPortFree c fuel s1 p = Outcome.ok s2 () ∧
      ∃ s3 q, Heap4.pvPortMalloc c fuel s2 n = Outcome.ok s3 q ∧ q ≠ 0 := by
  have hr1 := Heap4.Reach.malloc fuel n hr hn hres
  rw [if_neg hp] at hr1
  obtain ⟨bs0, hinv0, _⟩ := hr.initialised_inv hw
  rw [Heap4.malloc_initialised hw] at hres
  rcases hinv0.malloc_ok hw hres with ⟨_, hp0, _⟩ |
    ⟨pre, b, post, hbs, hf, hwb, hpos, hpe, _, hfr, hsz, _⟩
  · exact absurd hp0 hp
  obtain ⟨hreg, hle, _, _, _⟩ := hinv0.malloc_region hw hbs hf hsz
  rw [← hpe] at hreg
  have hge := Heap4.le_allocSize (c := c) hwb
  have hbfree : b.size ≤ (Heap4.initialised c s).xFreeBytesRemaining := by
    rw [hinv0.free_eq]
    exact size_le_freeSum (by rw [hbs]; simp) hf
  have hbhalf := (Heap4.size_lt_half hw hinv0.tiled' (b := b) (by rw [hbs]; simp)).1
  obtain ⟨bs1, hinv1, hl1⟩ := hr1.inv_of_init hw (by
    rcases hr1.inv hw with ⟨_, h⟩ | ⟨_, h, _⟩
    · cases h
    · exact h.end_ne hw)
  have hmem : (p, Heap4.regionSize c s1 p) ∈ (p, Heap4.regionSize c s1 p) :: live :=
    List.mem_cons_self _ _
  obtain ⟨ht, hf2⟩ := hinv1.free_ok hw hl1 hmem
  obtain ⟨s2, hs2⟩ := ht fuel hfuel
  obtain ⟨pre1, post1, hbs1, hinv2, hfr2, _⟩ := hf2 fuel s2 hs2
  refine ⟨s2, hs2, ?_⟩
  have ht1 := hinv1.tiled'
  rw [hbs1] at ht1
  have htp : Tiled (Heap4.alignedHeap c).1 pre1 (wsub c p (Heap4.xHeapStructSize c)) :=
    (tiled_split ht1).1
  have hcov : ∃ m ∈ coalesce pre1 (wsub c p (Heap4.xHeapStructSize c))
      (Heap4.regionSize c s1 p) post1, m.free = true ∧
      m.addr ≤ wsub c p (Heap4.xHeapStructSize c) ∧
      wsub c p (Heap4.xHeapStructSize c) + Heap4.regionSize c s1 p ≤ m.addr + m.size :=
    coalesce_cover htp
  obtain ⟨m, hm, hmf, hm1, hm2⟩ := hcov
  rcases hinv2.malloc hw n hfuel with ⟨_, hno | hno⟩ | ⟨_, b', _, s3, _, _, _, _, _, h3, _⟩
  · exfalso
    apply hno
    refine ⟨(hw.valid_iff (by have := hw.wordMod_eq; omega)).2 (by omega), hpos, ?_⟩
    rw [hfr2, hfr, hreg]
    omega
  · have := hno m hm hmf
    rw [hreg] at hm2
    omega
  · refine ⟨s3, _, h3, ?_⟩
    have := Heap4.geometry hw
    have := (Heap4.hs_facts hw).2.1
    have := hw.link_pos
    omega

/-- In `heap_2.c`, after `pvPortMalloc` has returned a pointer other than `NULL` in a
reachable state, `vPortFree` of that pointer returns, and then the same request gets a
pointer other than `NULL` again. -/
theorem Heap2.Reach.round_trip2 {c : Config} (hw : c.WF) {s : Heap2.State}
    {live : List (Nat × Nat)} (hr : Heap2.Reach c s live) {n : Nat} (hn : n < c.wordMod)
    {fuel : Nat} (hfuel : c.configTOTAL_HEAP_SIZE < fuel) {s1 : Heap2.State} {p : Nat}
    (hres : Heap2.pvPortMalloc c fuel s n = Outcome.ok s1 p) (hp : p ≠ 0) :
    ∃ s2, Heap2.vPortFree c fuel s1 p = Outcome.ok s2 () ∧
      ∃ s3 q, Heap2.pvPortMalloc c fuel s2 n = Outcome.ok s3 q ∧ q ≠ 0 := by
  have hr1 := Heap2.Reach.malloc fuel n hr hn hres
  rw [if_neg hp] at hr1
  obtain ⟨bs0, fl0, hinv0, _⟩ := hr.initialised_inv2 hw
  rw [Heap2.malloc_initialised2] at hres
  rcases hinv0.malloc_ok2 hw hres with ⟨_, hp0, _⟩ |
    ⟨pre, b, post, fl', hbs, hf, hwb, hpos, hpe, _, hfr, hsz⟩
  · exact absurd hp0 hp
  obtain ⟨hreg, hle, _, _, _⟩ := hinv0.malloc_region2 hw hbs hf hsz
  rw [← hpe] at hreg
  have hge := Heap2.le_allocSize2 (c := c) hwb
  have hbfree : b.size ≤ (Heap2.initialised c s).xFreeBytesRemaining := by
    rw [hinv0.free_eq]
    exact size_le_freeSum (by rw [hbs]; simp) hf
  have hbhalf := (Heap2.size_lt_half2 hw hinv0.tiled (b := b) (by rw [hbs]; simp)).1
  obtain ⟨bs1, fl1, hinv1, hl1⟩ := hr1.inv_of_init2 hw (by
    rcases hr1.inv2 hw with ⟨_, h⟩ | ⟨_, _, h, _⟩
    · cases h
    · exact h.init)
  have hmem : (p, Heap2.regionSize c s1 p) ∈ (p, Heap2.regionSize c s1 p) :: live :=
    List.mem_cons_self _ _
  obtain ⟨ht, hf2⟩ := hinv1.free_ok2 hw hl1 hmem
  obtain ⟨s2, hs2⟩ := ht fuel hfuel
  obtain ⟨pre1, post1, fl2, hbs1, hinv2, hfr2, _⟩ := hf2 fuel s2 hs2
  refine ⟨s2, hs2, ?_⟩
  rcases hinv2.malloc2 hw n hfuel with ⟨_, hno | hno⟩ | ⟨_, b', _, s3, _, _, _, _, _, h3, _⟩
  · exfalso
    apply hno
    refine ⟨(hw.valid_iff (by have := hw.wordMod_eq; omega)).2 (by omega), hpos, ?_⟩
    rw [hfr2, hfr, hreg]
    omega
  · have := hno ⟨wsub c p (Heap2.heapSTRUCT_SIZE c), Heap2.regionSize c s1 p, true⟩
      (by simp) rfl
    rw [hreg] at this
    have h' : Heap2.allocSize c (Heap2.adjustWantedSize c n) b
        < Heap2.adjustWantedSize c n := this
    omega
  · refine ⟨s3, _, h3, ?_⟩
    have := Heap2.geometry2 hw
    have := (Heap2.hs_facts2 hw).2.1
    have := hw.link_pos
    omega

/-- C8: in `heap_4.c` and `heap_2.c`, in every reachable state and for every request size,
when `pvPortMalloc` returns a pointer `p` other than `NULL`, `vPortFree( p )` returns, and
after it the same request gets a pointer other than `NULL` again. -/
theorem C8_alloc_free_alloc {c : Config} (hw : c.WF)
    {s4 : Heap4.State} {live4 : List (Nat × Nat)} (h4 : Heap4.Reach c s4 live4)
    {s2 : Heap2.State} {live2 : List (Nat × Nat)} (h2 : Heap2.Reach c s2 live2)
    {n : Nat} (hn : n < c.wordMod) {fuel : Nat} (hfuel : c.configTOTAL_HEAP_SIZE < fuel) :
    (∀ s' p, Heap4.pvPortMalloc c fuel s4 n = Outcome.ok s' p → p ≠ 0 →
      ∃ t, Heap4.vPortFree c fuel s' p = Outcome.ok t () ∧
        ∃ u q, Heap4.pvPortMalloc c fuel t n = Outcome.ok u q ∧ q ≠ 0) ∧
    (∀ s' p, Heap2.pvPortMalloc c fuel s2 n = Outcome.ok s' p → p ≠ 0 →
      ∃ t, Heap2.vPortFree c fuel s' p = Outcome.ok t () ∧
        ∃ u q, Heap2.pvPortMalloc c fuel t n = Outcome.ok u q ∧ q ≠ 0) :=
  ⟨fun _ _ hres hp => h4.round_trip hw hn hfuel hres hp,
    fun _ _ hres hp => h2.round_trip2 hw hn hfuel hres hp⟩

/-- The statement of C8 on `demo` for a request of 40 bytes after one allocation, which gets
the pointer 4160. -/
theorem C8_alloc_free_alloc_witness :
    (Heap4.pvPortMalloc demo 1033 Heap4.demo1 40 = Outcome.ok Heap4.demo2 4160 ∧
      ∃ t, Heap4.vPortFree demo 1033 Heap4.demo2 4160 = Outcome.ok t () ∧
        ∃ u q, Heap4.pvPortMalloc demo 1033 t 40 = Outcome.ok u q ∧ q ≠ 0) ∧
    (Heap2.pvPortMalloc demo 1033 Heap2.demo1 40 = Outcome.ok Heap2.demo2 4160 ∧
      ∃ t, Heap2.vPortFree demo 1033 Heap2.demo2 4160 = Outcome.ok t () ∧
        ∃ u q, Heap2.pvPortMalloc demo 1033 t 40 = Outcome.ok u q ∧ q ≠ 0) :=
  have h := C8_alloc_free_alloc (n := 40) demo_WF Heap4.reach_demo1
    Heap2.reach2_demo1 (by decide) demo_fuel
  ⟨⟨Heap4.demo2_eq, h.1 Heap4.demo2 4160 Heap4.demo2_eq (by decide)⟩,
    ⟨Heap2.demo2_eq_heap2, h.2 Heap2.demo2 4160 Heap2.demo2_eq_heap2 (by decide)⟩⟩

namespace Heap4

variable {c : Config} {s s' : State} {live : List (Nat × Nat)}

theorem free_null (c : Config) (fuel : Nat) (s : State) :
    vPortFree c fuel s 0 = Outcome.ok s () := by
  unfold vPortFree
  simp

/-- The assertions of `vPortFree` of `heap_4.c`. -/
theorem free_assert (fuel : Nat) (s : State) {pv : Nat} (hpv : pv ≠ 0)
    (h : heapBLOCK_IS_ALLOCATED c (s.xBlockSize (wsub c pv (xHeapStructSize c))) = false ∨
      s.pxNextFreeBlock (wsub c pv (xHeapStructSize c)) ≠ 0) :
    vPortFree c fuel s pv = Outcome.assertFailed s := by
  unfold vPortFree
  simp only [hpv, ne_eq, not_false_eq_true, if_true]
  by_cases ha : heapBLOCK_IS_ALLOCATED c (s.xBlockSize (wsub c pv (xHeapStructSize c))) = false
  · rw [if_pos ha]
  · rw [if_neg ha]
    rcases h with h | h
    · exact absurd h ha
    · rw [if_pos h]

/-- A call of `vPortFree` of `heap_4.c` that ends in another state had a pointer other than
`NULL` whose header is marked as allocated and has no successor. -/
theorem free_changes {fuel pv : Nat}
    (h : vPortFree c fuel s pv = Outcome.ok s' () ∨
      vPortFree c fuel s pv = Outcome.assertFailed s') (hne : s' ≠ s) :
    pv ≠ 0 ∧ heapBLOCK_IS_ALLOCATED c (s.xBlockSize (wsub c pv (xHeapStructSize c))) = true ∧
      s.pxNextFreeBlock (wsub c pv (xHeapStructSize c)) = 0 := by
  have hsame : ∀ {o : Outcome State Unit}, (o = Outcome.ok s () ∨ o = Outcome.assertFailed s) →
      (o = Outcome.ok s' () ∨ o = Outcome.assertFailed s') → False := by
    intro o h1 h2
    rcases h1 with h1 | h1 <;> rcases h2 with h2 | h2 <;> rw [h1] at h2 <;>
      first
        | (injection h2 with e; exact hne e.symm)
        | cases h2
  by_cases hpv : pv = 0
  · exact (hsame (Or.inl (by rw [hpv]; exact free_null c fuel s)) h).elim
  by_cases ha : heapBLOCK_IS_ALLOCATED c (s.xBlockSize (wsub c pv (xHeapStructSize c))) = false
  · exact (hsame (Or.inr (free_assert fuel s hpv (Or.inl ha))) h).elim
  by_cases hn : s.pxNextFreeBlock (wsub c pv (xHeapStructSize c)) ≠ 0
  · exact (hsame (Or.inr (free_assert fuel s hpv (Or.inr hn))) h).elim
  exact ⟨hpv, by simpa using ha, by simpa using hn⟩

/-- A second `vPortFree` of a pointer right after the first trips the first assertion. -/
theorem Reach.double_free (hw : c.WF) (hr : Reach c s live) {p d : Nat} (hp : (p, d) ∈ live)
    {f : Nat} (hres : vPortFree c f s p = Outcome.ok s' ()) (f' : Nat) :
    vPortFree c f' s' p = Outcome.assertFailed s' := by
  rcases hr.inv hw with ⟨_, h⟩ | ⟨bs, hinv, hl⟩
  · rw [h] at hp; cases hp
  · obtain ⟨_, _, _, _, _, _, _, _, _, _, hp0⟩ := hinv.live_block hw hl hp
    obtain ⟨_, _, _, _, _, _, _, _, hflag⟩ := (hinv.free_ok hw hl hp).2 f s' hres
    exact free_assert f' s' hp0 (Or.inl hflag)

end Heap4

namespace Heap2

variable {c : Config} {s s' : State} {live : List (Nat × Nat)}

theorem free_null2 (c : Config) (fuel : Nat) (s : State) :
    vPortFree c fuel s 0 = Outcome.ok s () := by
  unfold vPortFree
  simp

/-- The assertions of `vPortFree` of `heap_2.c`. -/
theorem free_assert2 (fuel : Nat) (s : State) {pv : Nat} (hpv : pv ≠ 0)
    (h : heapBLOCK_IS_ALLOCATED c (s.xBlockSize (wsub c pv (heapSTRUCT_SIZE c))) = false ∨
      s.pxNextFreeBlock (wsub c pv (heapSTRUCT_SIZE c)) ≠ 0) :
    vPortFree c fuel s pv = Outcome.assertFailed s := by
  unfold vPortFree
  simp only [hpv, ne_eq, not_false_eq_true, if_true]
  by_cases ha : heapBLOCK_IS_ALLOCATED c (s.xBlockSize (wsub c pv (heapSTRUCT_SIZE c))) = false
  · rw [if_pos ha]
  · rw [if_neg ha]
    rcases h with h | h
    · exact absurd h ha
    · rw [if_pos h]

/-- A call of `vPortFree` of `heap_2.c` that ends in another state had a pointer other than
`NULL` whose header is marked as allocated and has no successor. -/
theorem free_changes2 {fuel pv : Nat}
    (h : vPortFree c fuel s pv = Outcome.ok s' () ∨
      vPortFree c fuel s pv = Outcome.assertFailed s') (hne : s' ≠ s) :
    pv ≠ 0 ∧ heapBLOCK_IS_ALLOCATED c (s.xBlockSize (wsub c pv (heapSTRUCT_SIZE c))) = true ∧
      s.pxNextFreeBlock (wsub c pv (heapSTRUCT_SIZE c)) = 0 := by
  have hsame : ∀ {o : Outcome State Unit}, (o = Outcome.ok s () ∨ o = Outcome.assertFailed s) →
      (o = Outcome.ok s' () ∨ o = Outcome.assertFailed s') → False := by
    intro o h1 h2
    rcases h1 with h1 | h1 <;> rcases h2 with h2 | h2 <;> rw [h1] at h2 <;>
      first
        | (injection h2 with e; exact hne e.symm)
        | cases h2
  by_cases hpv : pv = 0
  · exact (hsame (Or.inl (by rw [hpv]; exact free_null2 c fuel s)) h).elim
  by_cases ha : heapBLOCK_IS_ALLOCATED c (s.xBlockSize (wsub c pv (heapSTRUCT_SIZE c))) = false
  · exact (hsame (Or.inr (free_assert2 fuel s hpv (Or.inl ha))) h).elim
  by_cases hn : s.pxNextFreeBlock (wsub c pv (heapSTRUCT_SIZE c)) ≠ 0
  · exact (hsame (Or.inr (free_assert2 fuel s hpv (Or.inr hn))) h).elim
  exact ⟨hpv, by simpa using ha, by simpa using hn⟩

/-- A second `vPortFree` of a pointer right after the first trips the first assertion. -/
theorem Reach.double_free2 (hw : c.WF) (hr : Reach c s live) {p d : Nat} (hp : (p, d) ∈ live)
    {f : Nat} (hres : vPortFree c f s p = Outcome.ok s' ()) (f' : Nat) :
    vPortFree c f' s' p = Outcome.assertFailed s' := by
  rcases hr.inv2 hw with ⟨_, h⟩ | ⟨bs, fl, hinv, hl⟩
  · rw [h] at hp; cases hp
  · obtain ⟨_, _, _, _, _, _, _, _, _, _, hp0⟩ := hinv.live_block2 hw hl hp
    obtain ⟨_, _, _, _, _, _, hflag⟩ := (hinv.free_ok2 hw hl hp).2 f s' hres
    exact free_assert2 f' s' hp0 (Or.inl hflag)

end Heap2

/-- C9: in `heap_4.c` and `heap_2.c`, in every state, `vPortFree( NULL )` returns and leaves
the state as it is; for a pointer other than `NULL` whose header is not marked as allocated,
or has a successor, an assertion fails with the state, so the free list, the free bytes and
the count of frees, as it was; and a call that ends in another state had a pointer other
than `NULL` whose header is marked as allocated and has no successor.  In a reachable state,
after `vPortFree` of a live pointer has returned, a second `vPortFree` of the same pointer
fails its assertion. -/
theorem C9_free_guards {c : Config} (hw : c.WF) (s4 : Heap4.State) (s2 : Heap2.State)
    (fuel pv : Nat)
    {t4 : Heap4.State} {live4 : List (Nat × Nat)} (h4 : Heap4.Reach c t4 live4)
    {t2 : Heap2.State} {live2 : List (Nat × Nat)} (h2 : Heap2.Reach c t2 live2) :
    (Heap4.vPortFree c fuel s4 0 = Outcome.ok s4 () ∧
      (pv ≠ 0 →
        (heapBLOCK_IS_ALLOCATED c (s4.xBlockSize (wsub c pv (Heap4.xHeapStructSize c))) = false ∨
          s4.pxNextFreeBlock (wsub c pv (Heap4.xHeapStructSize c)) ≠ 0) →
        Heap4.vPortFree c fuel s4 pv = Outcome.assertFailed s4) ∧
      (∀ s', (Heap4.vPortFree c fuel s4 pv = Outcome.ok s' () ∨
          Heap4.vPortFree c fuel s4 pv = Outcome.assertFailed s') → s' ≠ s4 →
        pv ≠ 0 ∧
          heapBLOCK_IS_ALLOCATED c (s4.xBlockSize (wsub c pv (Heap4.xHeapStructSize c))) = true ∧
          s4.pxNextFreeBlock (wsub c pv (Heap4.xHeapStructSize c)) = 0) ∧
      (∀ p d f s' f', (p, d) ∈ live4 → Heap4.vPortFree c f t4 p = Outcome.ok s' () →
        Heap4.vPortFree c f' s' p = Outcome.assertFailed s')) ∧
    (Heap2.vPortFree c fuel s2 0 = Outcome.ok s2 () ∧
      (pv ≠ 0 →
        (heapBLOCK_IS_ALLOCATED c (s2.xBlockSize (wsub c pv (Heap2.heapSTRUCT_SIZE c))) = false ∨
          s2.pxNextFreeBlock (wsub c pv (Heap2.heapSTRUCT_SIZE c)) ≠ 0) →
        Heap2.vPortFree c fuel s2 pv = Outcome.assertFailed s2) ∧
      (∀ s', (Heap2.vPortFree c fuel s2 pv = Outcome.ok s' () ∨
          Heap2.vPortFree c fuel s2 pv = Outcome.assertFailed s') → s' ≠ s2 →
        pv ≠ 0 ∧
          heapBLOCK_IS_ALLOCATED c (s2.xBlockSize (wsub c pv (Heap2.heapSTRUCT_SIZE c))) = true ∧
          s2.pxNextFreeBlock (wsub c pv (Heap2.heapSTRUCT_SIZE c)) = 0) ∧
      (∀ p d f s' f', (p, d) ∈ live2 → Heap2.vPortFree c f t2 p = Outcome.ok s' () →
        Heap2.vPortFree c f' s' p = Outcome.assertFailed s')) :=
  ⟨⟨Heap4.free_null c fuel s4, fun hpv h => Heap4.free_assert fuel s4 hpv h,
      fun _ h hne => Heap4.free_changes h hne,
      fun _ _ _ _ f' hp hres => h4.double_free hw hp hres f'⟩,
    ⟨Heap2.free_null2 c fuel s2, fun hpv h => Heap2.free_assert2 fuel s2 hpv h,
      fun _ h hne => Heap2.free_changes2 h hne,
      fun _ _ _ _ f' hp hres => h2.double_free2 hw hp hres f'⟩⟩

/-- The statement of C9 on `demo` in the states in which two allocations are live: the
pointer 4112 is inside a payload, and the header read for it is not marked as allocated; the
pointer 4104 is live, and its second `vPortFree` fails. -/
theorem C9_free_guards_witness :
    (Heap4.vPortFree demo 1033 Heap4.demo2 0 = Outcome.ok Heap4.demo2 () ∧
      Heap4.vPortFree demo 1033 Heap4.demo2 4112 = Outcome.assertFailed Heap4.demo2 ∧
      Heap4.vPortFree demo 1033 Heap4.demo2 4104 = Outcome.ok Heap4.demo3 () ∧
      Heap4.vPortFree demo 1033 Heap4.demo3 4104 = Outcome.assertFailed Heap4.demo3) ∧
    (Heap2.vPortFree demo 1033 Heap2.demo2 0 = Outcome.ok Heap2.demo2 () ∧
      Heap2.vPortFree demo 1033 Heap2.demo2 4112 = Outcome.assertFailed Heap2.demo2 ∧
      Heap2.vPortFree demo 1033 Heap2.demo2 4104 = Outcome.ok Heap2.demo3 () ∧
      Heap2.vPortFree demo 1033 Heap2.demo3 4104 = Outcome.assertFailed Heap2.demo3) :=
  have h := C9_free_guards demo_WF Heap4.demo2 Heap2.demo2 1033 4112 Heap4.reach_demo2
    Heap2.reach2_demo2
  ⟨⟨h.1.1, h.1.2.1 (by decide) (Or.inl (by decide)), Heap4.demo3_eq,
      h.1.2.2.2 4104 56 1033 Heap4.demo3 1033 (by decide) Heap4.demo3_eq⟩,
    ⟨h.2.1, h.2.2.1 (by decide) (Or.inl (by decide)), Heap2.demo3_eq_heap2,
      h.2.2.2.2 4104 56 1033 Heap2.demo3 1033 (by decide) Heap2.demo3_eq_heap2⟩⟩

/-- C10: in `heap_4.c` and `heap_2.c`, for a live allocation `p` of a reachable state, the
header of `p` holds the region size `d` that it held when `pvPortMalloc` returned `p`;
`vPortFree( p )` returns, and what `xPortGetFreeHeapSize` returns is `d` more after it than
before; in `heap_4.c` the count of frees has gone up by one, as a `size_t`, and the count of
allocations and the minimum ever free bytes are as before.  And when `pvPortMalloc` returns
a pointer other than `NULL`, what `xPortGetFreeHeapSize` returns after it is the region size
in the header of that pointer less than it was once the heap was set up. -/
theorem C10_free_returns_region {c : Config} (hw : c.WF)
    {s4 : Heap4.State} {live4 : List (Nat × Nat)} (h4 : Heap4.Reach c s4 live4)
    {s2 : Heap2.State} {live2 : List (Nat × Nat)} (h2 : Heap2.Reach c s2 live2)
    {fuel : Nat} (hfuel : c.configTOTAL_HEAP_SIZE < fuel) :
    ((∀ p d, (p, d) ∈ live4 → Heap4.regionSize c s4 p = d ∧
        (∃ s', Heap4.vPortFree c fuel s4 p = Outcome.ok s' ()) ∧
        ∀ f s', Heap4.vPortFree c f s4 p = Outcome.ok s' () →
          Heap4.xPortGetFreeHeapSize s' = Heap4.xPortGetFreeHeapSize s4 + d ∧
          s'.xNumberOfSuccessfulFrees = wadd c s4.xNumberOfSuccessfulFrees 1 ∧
          s'.xNumberOfSuccessfulAllocations = s4.xNumberOfSuccessfulAllocations ∧
          Heap4.xPortGetMinimumEverFreeHeapSize s'
            = Heap4.xPortGetMinimumEverFreeHeapSize s4) ∧
      (∀ n f s' p, Heap4.pvPortMalloc c f s4 n = Outcome.ok s' p → p ≠ 0 →
        Heap4.xPortGetFreeHeapSize s' + Heap4.regionSize c s' p
          = Heap4.xPortGetFreeHeapSize (Heap4.initialised c s4))) ∧
    ((∀ p d, (p, d) ∈ live2 → Heap2.regionSize c s2 p = d ∧
        (∃ s', Heap2.vPortFree c fuel s2 p = Outcome.ok s' ()) ∧
        ∀ f s', Heap2.vPortFree c f s2 p = Outcome.ok s' () →
          Heap2.xPortGetFreeHeapSize s' = Heap2.xPortGetFreeHeapSize s2 + d) ∧
      (∀ n f s' p, Heap2.pvPortMalloc c f s2 n = Outcome.ok s' p → p ≠ 0 →
        Heap2.xPortGetFreeHeapSize s' + Heap2.regionSize c s' p
          = Heap2.xPortGetFreeHeapSize (Heap2.initialised c s2))) := by
  constructor
  · constructor
    · intro p d hp
      rcases h4.inv hw with ⟨_, h⟩ | ⟨bs, hinv, hl⟩
      · rw [h] at hp; cases hp
      · obtain ⟨_, _, _, _, _, hreg, _⟩ := hinv.live_block hw hl hp
        obtain ⟨ht, hf⟩ := hinv.free_ok hw hl hp
        refine ⟨hreg, ht fuel hfuel, ?_⟩
        intro f s' hres
        obtain ⟨_, _, _, _, k1, k2, k3, k4, _⟩ := hf f s' hres
        exact ⟨k1, k4, k3, k2⟩
    · intro n f s' p hres hp
      exact ((h4.malloc_facts hw n).2.2 f s' p hres hp).2.2.2.2.2
  · constructor
    · intro p d hp
      rcases h2.inv2 hw with ⟨_, h⟩ | ⟨bs, fl, hinv, hl⟩
      · rw [h] at hp; cases hp
      · obtain ⟨_, _, _, _, _, hreg, _⟩ := hinv.live_block2 hw hl hp
        obtain ⟨ht, hf⟩ := hinv.free_ok2 hw hl hp
        refine ⟨hreg, ht fuel hfuel, ?_⟩
        intro f s' hres
        obtain ⟨_, _, _, _, _, k1, _⟩ := hf f s' hres
        exact k1
    · intro n f s' p hres hp
      exact ((h2.malloc_facts2 hw n).2.2 f s' p hres hp).2.2.2.2.2

/-- The statement of C10 on `demo` in the states in which two allocations of 40 bytes are
live and 912 bytes are free: freeing the first allocation, whose header holds the region
size 56, takes the free bytes to 968, and a third allocation, at 4216, takes them down by
the region size in its header. -/
theorem C10_free_returns_region_witness :
    (Heap4.regionSize demo Heap4.demo2 4104 = 56 ∧
      Heap4.vPortFree demo 1033 Heap4.demo2 4104 = Outcome.ok Heap4.demo3 () ∧
      (Heap4.xPortGetFreeHeapSize Heap4.demo3 = Heap4.xPortGetFreeHeapSize Heap4.demo2 + 56 ∧
        Heap4.demo3.xNumberOfSuccessfulFrees
          = wadd demo Heap4.demo2.xNumberOfSuccessfulFrees 1 ∧
        Heap4.demo3.xNumberOfSuccessfulAllocations
          = Heap4.demo2.xNumberOfSuccessfulAllocations ∧
        Heap4.xPortGetMinimumEverFreeHeapSize Heap4.demo3
          = Heap4.xPortGetMinimumEverFreeHeapSize Heap4.demo2) ∧
      Heap4.xPortGetFreeHeapSize
          ((Heap4.pvPortMalloc demo 1033 Heap4.demo2 40).state Heap4.demoBoot)
        + Heap4.regionSize demo
          ((Heap4.pvPortMalloc demo 1033 Heap4.demo2 40).state Heap4.demoBoot) 4216
        = Heap4.xPortGetFreeHeapSize (Heap4.initialised demo Heap4.demo2) ∧
      Heap4.xPortGetFreeHeapSize Heap4.demo2 = 912) ∧
    (Heap2.regionSize demo Heap2.demo2 4104 = 56 ∧
      Heap2.vPortFree demo 1033 Heap2.demo2 4104 = Outcome.ok Heap2.demo3 () ∧
      Heap2.xPortGetFreeHeapSize Heap2.demo3 = Heap2.xPortGetFreeHeapSize Heap2.demo2 + 56 ∧
      Heap2.xPortGetFreeHeapSize
          ((Heap2.pvPortMalloc demo 1033 Heap2.demo2 40).state Heap2.demoBoot)
        + Heap2.regionSize demo
          ((Heap2.pvPortMalloc demo 1033 Heap2.demo2 40).state Heap2.demoBoot) 4216
        = Heap2.xPortGetFreeHeapSize (Heap2.initialised demo Heap2.demo2) ∧
      Heap2.xPortGetFreeHeapSize Heap2.demo2 = 912) :=
  have h := C10_free_returns_region demo_WF Heap4.reach_demo2 Heap2.reach2_demo2 demo_fuel
  ⟨⟨(h.1.1 4104 56 (by decide)).1, Heap4.demo3_eq,
      (h.1.1 4104 56 (by decide)).2.2 1033 Heap4.demo3 Heap4.demo3_eq,
      h.1.2 40 1033 _ 4216 rfl (by decide), by decide⟩,
    ⟨(h.2.1 4104 56 (by decide)).1, Heap2.demo3_eq_heap2,
      (h.2.1 4104 56 (by decide)).2.2 1033 Heap2.demo3 Heap2.demo3_eq_heap2,
      h.2.2 40 1033 _ 4216 rfl (by decide), by decide⟩⟩

theorem specRoundUp_zero (A : Nat) (hA : 0 < A) : specRoundUp A 0 = 0 := by
  unfold specRoundUp
  rw [Nat.zero_add, Nat.div_eq_of_lt (by omega), Nat.zero_mul]

theorem specRoundUp_ge {A : Nat} (hA : 0 < A) (x : Nat) :
    x ≤ specRoundUp A x ∧ specRoundUp A x < x + A ∧ specRoundUp A x % A = 0 := by
  obtain ⟨r0, r1⟩ := specRoundUp_eq hA x
  have hr := Nat.mod_lt x hA
  refine ⟨?_, ?_, ?_⟩
  · by_cases h : x % A = 0
    · rw [r0 h]
    · rw [r1 h]; omega
  · by_cases h : x % A = 0
    · rw [r0 h]; omega
    · rw [r1 h]; omega
  · unfold specRoundUp
    exact Nat.mul_mod_left _ _

namespace Heap1

variable {c : Config} {s : State}

/-- The size that `pvPortMalloc` of `heap_1.c` works with is the request rounded up to a
multiple of the alignment when that is a `size_t`, and `0` when it is not. -/
theorem alignWantedSize_eq (hw : c.WF) {n : Nat} (hn : n < c.wordMod) :
    alignWantedSize c n = if specRoundUp c.portBYTE_ALIGNMENT n < c.wordMod then
      specRoundUp c.portBYTE_ALIGNMENT n else 0 := by
  have hA := hw.align_pos
  have hmod := Nat.mod_lt n hA
  have hb := hw.heap_big
  have hf := hw.heap_fits
  obtain ⟨r0, r1⟩ := specRoundUp_eq hA n
  unfold alignWantedSize
  by_cases h1 : c.portBYTE_ALIGNMENT ≠ 1
  · rw [if_pos h1, hw.and_mask]
    by_cases h2 : n % c.portBYTE_ALIGNMENT ≠ 0
    · rw [if_pos h2, wsub_eq c (by omega) (by omega), r1 h2]
      by_cases hfit : n + (c.portBYTE_ALIGNMENT - n % c.portBYTE_ALIGNMENT) < c.wordMod
      · rw [wadd_eq c hfit, if_pos (by omega), if_pos hfit]
      · have hwr : wadd c n (c.portBYTE_ALIGNMENT - n % c.portBYTE_ALIGNMENT)
            = n + (c.portBYTE_ALIGNMENT - n % c.portBYTE_ALIGNMENT) - c.wordMod := by
          unfold wadd
          rw [Nat.mod_eq_sub_mod (by omega), Nat.mod_eq_of_lt (by omega)]
        rw [hwr, if_neg (by omega), if_neg hfit]
    · rw [if_neg h2, r0 (by omega), if_pos hn]
  · rw [if_neg h1]
    have h1' : c.portBYTE_ALIGNMENT = 1 := by omega
    rw [r0 (by rw [h1', Nat.mod_one]), if_pos hn]

/-- What `pvPortMalloc` of `heap_1.c` does, in exact arithmetic, for any cursor. -/
theorem malloc_exact (hw : c.WF)
    (hb : s.pucAlignedHeap = 0 ∨ s.pucAlignedHeap = alignedHeap c)
    {n : Nat} (hn : n < c.wordMod) :
    (0 < n ∧ s.xNextFreeByte + specRoundUp c.portBYTE_ALIGNMENT n
        < configADJUSTED_HEAP_SIZE c ∧
      (pvPortMalloc c s n).2 = alignedHeap c + s.xNextFreeByte ∧
      (pvPortMalloc c s n).2 ≠ 0 ∧
      (pvPortMalloc c s n).1.xNextFreeByte
        = s.xNextFreeByte + specRoundUp c.portBYTE_ALIGNMENT n) ∨
    (¬ (0 < n ∧ s.xNextFreeByte + specRoundUp c.portBYTE_ALIGNMENT n
        < configADJUSTED_HEAP_SIZE c) ∧
      (pvPortMalloc c s n).2 = 0 ∧
      (pvPortMalloc c s n).1.xNextFreeByte = s.xNextFreeByte) := by
  have hA := hw.align_pos
  obtain ⟨g1, g2, g3, g4⟩ := geometry1 hw
  have hfits := hw.heap_fits
  have hpos := hw.heap_pos
  have hadjlt := wsub_lt c c.configTOTAL_HEAP_SIZE c.portBYTE_ALIGNMENT
  have hadj : configADJUSTED_HEAP_SIZE c < c.wordMod := hadjlt
  obtain ⟨q1, q2, q3⟩ := specRoundUp_ge hA n
  have hz := specRoundUp_zero c.portBYTE_ALIGNMENT hA
  have haw := alignWantedSize_eq hw hn
  obtain ⟨s1, hs1⟩ : ∃ s1 : State, s1 = (if s.pucAlignedHeap = 0 then
      ({ s with pucAlignedHeap := alignedHeap c } : State) else s) := ⟨_, rfl⟩
  have hp : s1.pucAlignedHeap = alignedHeap c := by
    rw [hs1]
    split
    · rfl
    · rcases hb with h | h
      · rename_i h'; exact absurd h h'
      · exact h
  have hx1 : s1.xNextFreeByte = s.xNextFreeByte := by
    rw [hs1]
    split <;> rfl
  have hcode : pvPortMalloc c s n =
      if alignWantedSize c n > 0 ∧
          (wadd c s1.xNextFreeByte (alignWantedSize c n) < configADJUSTED_HEAP_SIZE c ∧
            wadd c s1.xNextFreeByte (alignWantedSize c n) > s1.xNextFreeByte) then
        ({ s1 with xNextFreeByte := wadd c s1.xNextFreeByte (alignWantedSize c n) },
          wadd c s1.pucAlignedHeap s1.xNextFreeByte)
      else
        (s1, 0) := by
    rw [hs1]
    rfl
  rw [hcode, hx1, hp]
  by_cases hgood : 0 < n ∧ s.xNextFreeByte + specRoundUp c.portBYTE_ALIGNMENT n
      < configADJUSTED_HEAP_SIZE c
  · left
    have hR : specRoundUp c.portBYTE_ALIGNMENT n < c.wordMod := by omega
    rw [if_pos hR] at haw
    rw [haw, wadd_eq c (show s.xNextFreeByte + specRoundUp c.portBYTE_ALIGNMENT n
      < c.wordMod from by omega), if_pos ⟨by omega, hgood.2, by omega⟩]
    have hret : wadd c (alignedHeap c) s.xNextFreeByte = alignedHeap c + s.xNextFreeByte :=
      wadd_eq c (by omega)
    refine ⟨hgood.1, hgood.2, hret, ?_, rfl⟩
    show wadd c (alignedHeap c) s.xNextFreeByte ≠ 0
    rw [hret]; omega
  · right
    have hcond : ¬ (alignWantedSize c n > 0 ∧
        (wadd c s.xNextFreeByte (alignWantedSize c n) < configADJUSTED_HEAP_SIZE c ∧
          wadd c s.xNextFreeByte (alignWantedSize c n) > s.xNextFreeByte)) := by
      rintro ⟨k1, k2, k3⟩
      by_cases hR : specRoundUp c.portBYTE_ALIGNMENT n < c.wordMod
      · rw [if_pos hR] at haw
        rw [haw] at k1 k2 k3
        have hn0 : 0 < n := by
          rcases Nat.eq_zero_or_pos n with h0 | h0
          · rw [h0, hz] at k1; exact absurd k1 (by decide)
          · exact h0
        by_cases hfit : s.xNextFreeByte + specRoundUp c.portBYTE_ALIGNMENT n < c.wordMod
        · rw [wadd_eq c hfit] at k2
          exact hgood ⟨hn0, k2⟩
        · have hwr : wadd c s.xNextFreeByte (specRoundUp c.portBYTE_ALIGNMENT n)
              = s.xNextFreeByte + specRoundUp c.portBYTE_ALIGNMENT n - c.wordMod := by
            unfold wadd
            rw [Nat.mod_eq_sub_mod (by omega), Nat.mod_eq_of_lt (by omega)]
          omega
      · rw [if_neg hR] at haw
        omega
    rw [if_neg hcond]
    exact ⟨hgood, rfl, hx1⟩

/-- A run of `heap_1.c` from a reachable state ends in a reachable state, with the cursor
not below where it was. -/
theorem Run.reach_le (hw : c.WF) {t : State} (hr : Reach c s) (h : Run c s t) :
    Reach c t ∧ s.xNextFreeByte ≤ t.xNextFreeByte := by
  induction h with
  | refl => exact ⟨hr, Nat.le_refl _⟩
  | malloc n _ hn ih =>
    rename_i u
    obtain ⟨i1, i2, i3⟩ := ih.1.inv1 hw
    refine ⟨Reach.malloc n ih.1 hn, ?_⟩
    rcases (malloc_step hw i1 i2 i3 hn).2 with ⟨_, h2, _⟩ | ⟨_, _, _, h2, _⟩
    · rw [h2]; exact ih.2
    · rw [h2]; omega
  | free pv _ hres ih =>
    refine ⟨Reach.free pv ih.1 hres, ?_⟩
    unfold vPortFree at hres
    split at hres
    · injection hres with e1
      rw [← e1]; exact ih.2
    · cases hres

theorem freeHeapSize_eq (hw : c.WF) (hr : Reach c s) :
    xPortGetFreeHeapSize c s = configADJUSTED_HEAP_SIZE c - s.xNextFreeByte := by
  obtain ⟨_, i2, _⟩ := hr.inv1 hw
  have hadj : configADJUSTED_HEAP_SIZE c < c.wordMod :=
    wsub_lt c c.configTOTAL_HEAP_SIZE c.portBYTE_ALIGNMENT
  unfold xPortGetFreeHeapSize
  rw [wsub_eq c (by omega) hadj]

end Heap1

/-- C11: in `heap_1.c`, for every cursor `xNextFreeByte` and every request `n`,
`pvPortMalloc` returns a pointer other than `NULL` if and only if `n > 0` and the cursor plus
`n` rounded up to a multiple of the alignment is below `configADJUSTED_HEAP_SIZE`, in exact
arithmetic; then the pointer is the aligned heap start plus the cursor, and the cursor moves
up by the rounded size; otherwise the cursor stays. -/
theorem C11_bump_allocate {c : Config} (hw : c.WF) (s : Heap1.State)
    (hb : s.pucAlignedHeap = 0 ∨ s.pucAlignedHeap = Heap1.alignedHeap c)
    {n : Nat} (hn : n < c.wordMod) :
    ((Heap1.pvPortMalloc c s n).2 ≠ 0 ↔
      (0 < n ∧ s.xNextFreeByte + specRoundUp c.portBYTE_ALIGNMENT n
        < Heap1.configADJUSTED_HEAP_SIZE c)) ∧
    ((Heap1.pvPortMalloc c s n).2 ≠ 0 →
      (Heap1.pvPortMalloc c s n).2 = Heap1.alignedHeap c + s.xNextFreeByte ∧
      (Heap1.pvPortMalloc c s n).1.xNextFreeByte
        = s.xNextFreeByte + specRoundUp c.portBYTE_ALIGNMENT n) ∧
    ((Heap1.pvPortMalloc c s n).2 = 0 →
      (Heap1.pvPortMalloc c s n).1.xNextFreeByte = s.xNextFreeByte) := by
  rcases Heap1.malloc_exact hw hb hn with ⟨h1, h2, h3, h4, h5⟩ | ⟨h1, h2, h3⟩
  · exact ⟨⟨fun _ => ⟨h1, h2⟩, fun _ => h4⟩, fun _ => ⟨h3, h5⟩, fun h => absurd h h4⟩
  · exact ⟨⟨fun h => absurd h2 h, fun h => absurd h h1⟩, fun h => absurd h2 h, fun _ => h3⟩

/-- The statement of C11 on `demo`, where the alignment is 8 and the heap has 1024 bytes:
two calls of `pvPortMalloc( 10 )` from program start return 4096 and 4096 + 16, and
`xPortGetFreeHeapSize` returns 1024 - 32 after them. -/
theorem C11_bump_allocate_witness :
    (Heap1.pvPortMalloc demo Heap1.boot 10).2 = 4096 ∧
    (Heap1.pvPortMalloc demo (Heap1.pvPortMalloc demo Heap1.boot 10).1 10).2 = 4096 + 16 ∧
    (Heap1.pvPortMalloc demo (Heap1.pvPortMalloc demo Heap1.boot 10).1 10).1.xNextFreeByte
      = (Heap1.pvPortMalloc demo Heap1.boot 10).1.xNextFreeByte
        + specRoundUp demo.portBYTE_ALIGNMENT 10 ∧
    Heap1.xPortGetFreeHeapSize demo
        (Heap1.pvPortMalloc demo (Heap1.pvPortMalloc demo Heap1.boot 10).1 10).1
      = Heap1.configADJUSTED_HEAP_SIZE demo - 32 :=
  have h := C11_bump_allocate (n := 10) demo_WF (Heap1.pvPortMalloc demo Heap1.boot 10).1
    (Or.inr (by decide)) (by decide)
  ⟨by decide, (h.2.1 (by decide)).1, (h.2.1 (by decide)).2, by decide⟩

/-- C12: in `heap_1.c`, `vPortFree` fails its assertion exactly when its argument is not
`NULL`, and returns with the state as it was exactly when it is `NULL`.  Over every run of
calls of `pvPortMalloc` and `vPortFree` from a reachable state, with no call of
`vPortInitialiseBlocks`, the cursor `xNextFreeByte` does not go down, what
`xPortGetFreeHeapSize` returns does not go up, and the cursor stays below
`configADJUSTED_HEAP_SIZE`. -/
theorem C12_bump_never_frees {c : Config} (hw : c.WF) {s t : Heap1.State}
    (hr : Heap1.Reach c s) (hrun : Heap1.Run c s t) (pv : Nat) :
    (Heap1.vPortFree t pv = Outcome.assertFailed t ↔ pv ≠ 0) ∧
    (Heap1.vPortFree t pv = Outcome.ok t () ↔ pv = 0) ∧
    (∀ u, Heap1.vPortFree t pv ≠ Outcome.ok u () ∨ u = t) ∧
    s.xNextFreeByte ≤ t.xNextFreeByte ∧
    Heap1.xPortGetFreeHeapSize c t ≤ Heap1.xPortGetFreeHeapSize c s ∧
    t.xNextFreeByte ≤ Heap1.configADJUSTED_HEAP_SIZE c := by
  obtain ⟨hrt, hle⟩ := hrun.reach_le hw hr
  obtain ⟨_, i2, _⟩ := hrt.inv1 hw
  rw [Heap1.freeHeapSize_eq hw hr, Heap1.freeHeapSize_eq hw hrt]
  refine ⟨?_, ?_, ?_, hle, by omega, by omega⟩
  · unfold Heap1.vPortFree
    by_cases h : pv = 0
    · rw [if_pos h]; simp [h]
    · rw [if_neg h]; simp [h]
  · unfold Heap1.vPortFree
    by_cases h : pv = 0
    · rw [if_pos h]; simp [h]
    · rw [if_neg h]; simp [h]
  · intro u
    unfold Heap1.vPortFree
    by_cases h : pv = 0
    · rw [if_pos h]
      by_cases hu : u = t
      · exact Or.inr hu
      · left
        intro hh
        injection hh with e
        exact hu e.symm
    · rw [if_neg h]
      left
      intro hh
      cases hh

/-- The statement of C12 on `demo` for the run of two calls of `pvPortMalloc( 10 )` and a
call of `vPortFree( NULL )` from program start, and for the pointer 4096. -/
theorem C12_bump_never_frees_witness :
    (Heap1.vPortFree (Heap1.pvPortMalloc demo (Heap1.pvPortMalloc demo Heap1.boot 10).1 10).1
        4096
      = Outcome.assertFailed
        (Heap1.pvPortMalloc demo (Heap1.pvPortMalloc demo Heap1.boot 10).1 10).1 ↔
        4096 ≠ 0) ∧
    Heap1.boot.xNextFreeByte
      ≤ (Heap1.pvPortMalloc demo (Heap1.pvPortMalloc demo Heap1.boot 10).1 10).1.xNextFreeByte ∧
    Heap1.xPortGetFreeHeapSize demo
        (Heap1.pvPortMalloc demo (Heap1.pvPortMalloc demo Heap1.boot 10).1 10).1
      ≤ Heap1.xPortGetFreeHeapSize demo Heap1.boot ∧
    (Heap1.pvPortMalloc demo (Heap1.pvPortMalloc demo Heap1.boot 10).1 10).1.xNextFreeByte
      ≤ Heap1.configADJUSTED_HEAP_SIZE demo :=
  have h := C12_bump_never_frees demo_WF Heap1.Reach.boot
    (Heap1.Run.free 0
      (Heap1.Run.malloc 10 (Heap1.Run.malloc 10 Heap1.Run.refl (by decide)) (by decide))
      rfl) 4096
  ⟨h.1, h.2.2.2.1, h.2.2.2.2.1, h.2.2.2.2.2⟩

theorem multiple_unique {A a b x : Nat} (ha : a % A = 0) (hb : b % A = 0)
    (h1 : x ≤ a) (h2 : a < x + A) (h3 : x ≤ b) (h4 : b < x + A) : a = b := by
  rcases Nat.le_total a b with hle | hle
  · have hm : (b - a) % A = 0 := Nat.sub_mod_eq_zero_of_mod_eq (by rw [ha, hb])
    rw [Nat.mod_eq_of_lt (by omega)] at hm
    omega
  · have hm : (a - b) % A = 0 := Nat.sub_mod_eq_zero_of_mod_eq (by rw [ha, hb])
    rw [Nat.mod_eq_of_lt (by omega)] at hm
    omega

/-- The address that the code rounds `&ucHeap[ 0 ]` up to is the `base` of the
specification. -/
theorem Config.WF.base_eq {c : Config} (h : c.WF) :
    wadd c c.ucHeap (c.portBYTE_ALIGNMENT - 1) &&& wnot c (portBYTE_ALIGNMENT_MASK c)
      = specBase c := by
  have hb := h.heap_big
  have hf := h.heap_fits
  have hA := h.align_pos
  obtain ⟨hr1, hr2, hr3, _⟩ := h.roundUp_facts (x := c.ucHeap) (by omega)
  obtain ⟨q1, q2, q3⟩ := specRoundUp_ge hA c.ucHeap
  exact multiple_unique hr1 q3 hr2 hr3 q1 q2

/-- The part of `ucHeap` from `base` on is larger than `configTOTAL_HEAP_SIZE -
portBYTE_ALIGNMENT`. -/
theorem Config.WF.usable_gt {c : Config} (h : c.WF) :
    c.configTOTAL_HEAP_SIZE - c.portBYTE_ALIGNMENT < specUsable c := by
  have hb := h.heap_big
  have hA := h.align_pos
  obtain ⟨q1, q2, q3⟩ := specRoundUp_ge hA c.ucHeap
  unfold specUsable specBase
  omega

/-- When the array length is a multiple of the alignment and the array is not aligned, the
capacity as the specification words it is `configTOTAL_HEAP_SIZE - portBYTE_ALIGNMENT`. -/
theorem Config.WF.specTotalAligned_eq {c : Config} (h : c.WF)
    (hT : c.configTOTAL_HEAP_SIZE % c.portBYTE_ALIGNMENT = 0)
    (hU : c.ucHeap % c.portBYTE_ALIGNMENT ≠ 0) :
    specTotalAligned c = c.configTOTAL_HEAP_SIZE - c.portBYTE_ALIGNMENT := by
  have hb := h.heap_big
  have hA := h.align_pos
  obtain ⟨q1, q2, q3⟩ := specRoundUp_ge hA c.ucHeap
  have hne : specRoundUp c.portBYTE_ALIGNMENT c.ucHeap ≠ c.ucHeap := by
    intro e
    rw [e] at q3
    exact hU q3
  have hu1 : c.configTOTAL_HEAP_SIZE - c.portBYTE_ALIGNMENT < specUsable c := h.usable_gt
  have hu2 : specUsable c < c.configTOTAL_HEAP_SIZE := by
    unfold specUsable specBase
    omega
  have hm1 : (c.configTOTAL_HEAP_SIZE - c.portBYTE_ALIGNMENT) % c.portBYTE_ALIGNMENT = 0 :=
    Nat.sub_mod_eq_zero_of_mod_eq (by rw [hT, Nat.mod_self])
  have hm2 : (specUsable c / c.portBYTE_ALIGNMENT * c.portBYTE_ALIGNMENT)
      % c.portBYTE_ALIGNMENT = 0 := Nat.mul_mod_left _ _
  have hd := Nat.div_add_mod (specUsable c) c.portBYTE_ALIGNMENT
  have hr := Nat.mod_lt (specUsable c) hA
  have hc := Nat.mul_comm c.portBYTE_ALIGNMENT (specUsable c / c.portBYTE_ALIGNMENT)
  unfold specTotalAligned
  by_contra hne2
  rcases Nat.lt_or_gt_of_ne hne2 with hlt | hgt
  · -- the rounded value is a multiple below `T - A`, so `usable` is below `T - A`
    have := multiple_unique (x := specUsable c + 1 - c.portBYTE_ALIGNMENT) hm2 hm1
      (by omega) (by omega) (by omega) (by omega)
    omega
  · -- a multiple strictly between `T - A` and `T`
    have hm3 : (specUsable c / c.portBYTE_ALIGNMENT * c.portBYTE_ALIGNMENT
        - (c.configTOTAL_HEAP_SIZE - c.portBYTE_ALIGNMENT)) % c.portBYTE_ALIGNMENT = 0 :=
      Nat.sub_mod_eq_zero_of_mod_eq (by rw [hm1, hm2])
    rw [Nat.mod_eq_of_lt (by omega)] at hm3
    omega

/-- C13, as the code has it: in `heap_1.c` and `heap_2.c` the capacity of the heap is
`configADJUSTED_HEAP_SIZE = configTOTAL_HEAP_SIZE - portBYTE_ALIGNMENT` for every placement of
`ucHeap`.  It is what `xPortGetFreeHeapSize` returns before any allocation in both files, and
in `heap_2.c` the size of the first free block, the size in `xEnd`, and
`xFreeBytesRemaining` once the heap is set up.  The heap starts at the `base` of the
specification, the capacity is below the `usable` of the specification, and it is `usable`
rounded down to a multiple of the alignment when `configTOTAL_HEAP_SIZE` is such a multiple
and `ucHeap` is not aligned. -/
theorem C13_capacity_is_total_minus_alignment {c : Config} (hw : c.WF)
    (next0 size0 : Nat → Nat) :
    Heap1.xPortGetFreeHeapSize c Heap1.boot
      = c.configTOTAL_HEAP_SIZE - c.portBYTE_ALIGNMENT ∧
    Heap2.xPortGetFreeHeapSize (Heap2.boot c next0 size0)
      = c.configTOTAL_HEAP_SIZE - c.portBYTE_ALIGNMENT ∧
    (Heap2.initialised c (Heap2.boot c next0 size0)).xBlockSize (Heap2.alignedHeap c)
      = c.configTOTAL_HEAP_SIZE - c.portBYTE_ALIGNMENT ∧
    (Heap2.initialised c (Heap2.boot c next0 size0)).xBlockSize c.xEnd
      = c.configTOTAL_HEAP_SIZE - c.portBYTE_ALIGNMENT ∧
    Heap2.xPortGetFreeHeapSize (Heap2.initialised c (Heap2.boot c next0 size0))
      = c.configTOTAL_HEAP_SIZE - c.portBYTE_ALIGNMENT ∧
    Heap2.freeList c (c.configTOTAL_HEAP_SIZE + 1) (Heap2.initialised c (Heap2.boot c next0 size0))
      = [Heap2.alignedHeap c] ∧
    Heap1.alignedHeap c = specBase c ∧ Heap2.alignedHeap c = specBase c ∧
    c.configTOTAL_HEAP_SIZE - c.portBYTE_ALIGNMENT < specUsable c ∧
    (c.configTOTAL_HEAP_SIZE % c.portBYTE_ALIGNMENT = 0 →
      c.ucHeap % c.portBYTE_ALIGNMENT ≠ 0 →
      specTotalAligned c = c.configTOTAL_HEAP_SIZE - c.portBYTE_ALIGNMENT) := by
  have hinv := Heap2.prvHeapInit_inv2 hw (Heap2.boot c next0 size0) rfl
  have hi : Heap2.initialised c (Heap2.boot c next0 size0)
      = { Heap2.prvHeapInit c (Heap2.boot c next0 size0) with
          xHeapHasBeenInitialised := true } := rfl
  rw [hi]
  refine ⟨?_, Heap2.adjusted_eq2 hw, ?_, ?_, ?_, ?_, hw.base_eq, hw.base_eq, hw.usable_gt,
    hw.specTotalAligned_eq⟩
  · rw [Heap1.freeHeapSize_eq hw Heap1.Reach.boot, Heap1.adjusted_eq1 hw]
    rfl
  · have := hinv.sizes _ (List.mem_singleton.2 rfl)
    rw [this, if_pos rfl, Heap2.adjusted_eq2 hw]
  · rw [hinv.end_size, Heap2.adjusted_eq2 hw]
  · show Heap2.xPortGetFreeHeapSize _ = _
    unfold Heap2.xPortGetFreeHeapSize
    rw [hinv.free_eq, ← Heap2.adjusted_eq2 hw]
    simp [freeSum, freeBlocks]
  · exact hinv.freeList_eq2 hw (by omega)

/-- The statement of C13 on `demo`, whose array of 1032 bytes gives a capacity of 1024. -/
theorem C13_capacity_is_total_minus_alignment_witness :
    Heap1.xPortGetFreeHeapSize demo Heap1.boot = 1024 ∧
    Heap2.xPortGetFreeHeapSize Heap2.demoBoot = 1024 ∧
    (Heap2.initialised demo Heap2.demoBoot).xBlockSize 4096 = 1024 ∧
    (Heap2.initialised demo Heap2.demoBoot).xBlockSize 272 = 1024 :=
  have h := C13_capacity_is_total_minus_alignment demo_WF (fun _ => 0) (fun _ => 0)
  ⟨h.1, h.2.1, h.2.2.1, h.2.2.2.1⟩

/-- The capacity that C13 words is not the capacity of the code: on `demo`, whose `ucHeap`
is aligned, `usable` rounded down is the whole array, 1032 bytes, and both `heap_1.c` and
`heap_2.c` report 1024 free bytes before any allocation. -/
theorem C13_counterexample :
    demo.WF ∧ specTotalAligned demo = 1032 ∧
    Heap1.xPortGetFreeHeapSize demo Heap1.boot = 1024 ∧
    Heap2.xPortGetFreeHeapSize (Heap2.initialised demo Heap2.demoBoot) = 1024 ∧
    (Heap2.initialised demo Heap2.demoBoot).xBlockSize 4096 = 1024 ∧
    (Heap2.initialised demo Heap2.demoBoot).xBlockSize demo.xEnd = 1024 ∧
    Heap1.xPortGetFreeHeapSize demo Heap1.boot ≠ specTotalAligned demo :=
  ⟨demo_WF, by decide, by decide, by decide, by decide, by decide, by decide⟩

/-- C18: `vPortInitialiseBlocks` of `heap_1.c` sets the cursor `xNextFreeByte` to `0` from
any state and leaves `pucAlignedHeap`, so that `xPortGetFreeHeapSize` then returns
`configADJUSTED_HEAP_SIZE`, and a second call leaves the state of the first; in `heap_2.c` and
`heap_4.c` the function leaves the whole state as it is. -/
theorem C18_initialise_blocks (c : Config) (s1 : Heap1.State) (s2 : Heap2.State)
    (s4 : Heap4.State) :
    (Heap1.vPortInitialiseBlocks s1).xNextFreeByte = 0 ∧
    (Heap1.vPortInitialiseBlocks s1).pucAlignedHeap = s1.pucAlignedHeap ∧
    Heap1.xPortGetFreeHeapSize c (Heap1.vPortInitialiseBlocks s1)
      = Heap1.configADJUSTED_HEAP_SIZE c ∧
    Heap1.vPortInitialiseBlocks (Heap1.vPortInitialiseBlocks s1)
      = Heap1.vPortInitialiseBlocks s1 ∧
    Heap2.vPortInitialiseBlocks s2 = s2 ∧
    Heap4.vPortInitialiseBlocks s4 = s4 := by
  refine ⟨rfl, rfl, ?_, rfl, rfl, rfl⟩
  have hadj : Heap1.configADJUSTED_HEAP_SIZE c < c.wordMod :=
    wsub_lt c c.configTOTAL_HEAP_SIZE c.portBYTE_ALIGNMENT
  show wsub c (Heap1.configADJUSTED_HEAP_SIZE c) 0 = _
  exact wsub_eq c (Nat.zero_le _) hadj

/-- The macro `heapMULTIPLY_WILL_OVERFLOW` tells whether the exact product is a `size_t`. -/
theorem multiply_will_overflow_iff (c : Config) (a b : Nat) :
    heapMULTIPLY_WILL_OVERFLOW c a b = true ↔ a * b > heapSIZE_MAX c := by
  unfold heapMULTIPLY_WILL_OVERFLOW
  rw [Bool.and_eq_true, decide_eq_true_iff, decide_eq_true_iff]
  constructor
  · rintro ⟨ha, hb⟩
    have := (Nat.div_lt_iff_lt_mul ha).1 hb
    rw [Nat.mul_comm]
    exact this
  · intro h
    have ha : 0 < a := by
      rcases Nat.eq_zero_or_pos a with h0 | h0
      · rw [h0, Nat.zero_mul] at h; omega
      · exact h0
    refine ⟨ha, (Nat.div_lt_iff_lt_mul ha).2 ?_⟩
    rw [Nat.mul_comm]
    exact h

/-- The macro `heapADD_WILL_OVERFLOW` tells whether the exact sum is a `size_t`. -/
theorem add_will_overflow_iff (c : Config) (a : Nat) {b : Nat} (hb : b < c.wordMod) :
    heapADD_WILL_OVERFLOW c a b = true ↔ a + b > heapSIZE_MAX c := by
  unfold heapADD_WILL_OVERFLOW
  rw [decide_eq_true_iff]
  unfold heapSIZE_MAX
  omega

theorem wordMod_pos_any (c : Config) : 0 < c.wordMod :=
  Nat.pos_pow_of_pos _ (by decide)

namespace Heap4

/-- The calls of `pvPortCalloc` of `heap_4.c` whose product does not fit. -/
theorem calloc_overflow (c : Config) (fuel : Nat) (s : State) (bytes : Nat → Nat) {a b : Nat}
    (h : a * b > heapSIZE_MAX c) : pvPortCalloc c fuel s bytes a b = Outcome.ok (s, bytes) 0 := by
  unfold pvPortCalloc
  rw [if_neg (by rw [(multiply_will_overflow_iff c a b).2 h]; simp)]

/-- The calls of `pvPortCalloc` of `heap_4.c` whose product fits, in terms of the call of
`pvPortMalloc` with the exact product. -/
theorem calloc_fits (c : Config) (fuel : Nat) (s : State) (bytes : Nat → Nat) {a b : Nat}
    (h : a * b ≤ heapSIZE_MAX c) :
    pvPortCalloc c fuel s bytes a b =
      match pvPortMalloc c fuel s (a * b) with
      | Outcome.ok s' pv =>
        if pv ≠ 0 then
          Outcome.ok (memsetState c s' pv (a * b), memset bytes pv 0 (a * b)) pv
        else
          Outcome.ok (s', bytes) pv
      | Outcome.assertFailed s' => Outcome.assertFailed (s', bytes)
      | Outcome.outOfFuel => Outcome.outOfFuel := by
  have hno : heapMULTIPLY_WILL_OVERFLOW c a b = false := by
    cases hm : heapMULTIPLY_WILL_OVERFLOW c a b
    · rfl
    · have := (multiply_will_overflow_iff c a b).1 hm
      omega
  have hmod : a * b % c.wordMod = a * b := by
    have := wordMod_pos_any c
    unfold heapSIZE_MAX at h
    exact Nat.mod_eq_of_lt (by omega)
  unfold pvPortCalloc
  rw [if_pos hno, hmod]

theorem calloc_result (c : Config) (fuel : Nat) (s : State) (bytes : Nat → Nat) {a b : Nat}
    (h : a * b ≤ heapSIZE_MAX c) :
    (pvPortCalloc c fuel s bytes a b).result = (pvPortMalloc c fuel s (a * b)).result := by
  rw [calloc_fits c fuel s bytes h]
  cases pvPortMalloc c fuel s (a * b) with
  | ok s' pv =>
    by_cases hp : pv = 0
    · simp [hp, Outcome.result]
    · simp [hp, Outcome.result]
  | assertFailed s' => rfl
  | outOfFuel => rfl

end Heap4

namespace Heap2

/-- The calls of `pvPortCalloc` of `heap_2.c` whose product does not fit. -/
theorem calloc_overflow2 (c : Config) (fuel : Nat) (s : State) (bytes : Nat → Nat) {a b : Nat}
    (h : a * b > heapSIZE_MAX c) : pvPortCalloc c fuel s bytes a b = Outcome.ok (s, bytes) 0 := by
  unfold pvPortCalloc
  rw [if_neg (by rw [(multiply_will_overflow_iff c a b).2 h]; simp)]

/-- The calls of `pvPortCalloc` of `heap_2.c` whose product fits, in terms of the call of
`pvPortMalloc` with the exact product. -/
theorem calloc_fits2 (c : Config) (fuel : Nat) (s : State) (bytes : Nat → Nat) {a b : Nat}
    (h : a * b ≤ heapSIZE_MAX c) :
    pvPortCalloc c fuel s bytes a b =
      match pvPortMalloc c fuel s (a * b) with
      | Outcome.ok s' pv =>
        if pv ≠ 0 then
          Outcome.ok (memsetState c s' pv (a * b), memset bytes pv 0 (a * b)) pv
        else
          Outcome.ok (s', bytes) pv
      | Outcome.assertFailed s' => Outcome.assertFailed (s', bytes)
      | Outcome.outOfFuel => Outcome.outOfFuel := by
  have hno : heapMULTIPLY_WILL_OVERFLOW c a b = false := by
    cases hm : heapMULTIPLY_WILL_OVERFLOW c a b
    · rfl
    · have := (multiply_will_overflow_iff c a b).1 hm
      omega
  have hmod : a * b % c.wordMod = a * b := by
    have := wordMod_pos_any c
    unfold heapSIZE_MAX at h
    exact Nat.mod_eq_of_lt (by omega)
  unfold pvPortCalloc
  rw [if_pos hno, hmod]

theorem calloc_result2 (c : Config) (fuel : Nat) (s : State) (bytes : Nat → Nat) {a b : Nat}
    (h : a * b ≤ heapSIZE_MAX c) :
    (pvPortCalloc c fuel s bytes a b).result = (pvPortMalloc c fuel s (a * b)).result := by
  rw [calloc_fits2 c fuel s bytes h]
  cases pvPortMalloc c fuel s (a * b) with
  | ok s' pv =>
    by_cases hp : pv = 0
    · simp [hp, Outcome.result]
    · simp [hp, Outcome.result]
  | assertFailed s' => rfl
  | outOfFuel => rfl

end Heap2

/-- C14: for every `a` and every `size_t` value `b`, `heapMULTIPLY_WILL_OVERFLOW( a, b )` holds if
and only if the exact product `a * b` is above `SIZE_MAX`, and `heapADD_WILL_OVERFLOW( a, b )`
if and only if the exact sum is.  In `heap_4.c` and `heap_2.c`, `pvPortCalloc( a, b )` with a
product above `SIZE_MAX` returns `NULL` and leaves the state and the memory as they were,
whatever the state and the fuel, so `pvPortMalloc` has not run; with a product that fits it
returns what `pvPortMalloc` returns for the exact product, and returns if and only if
`pvPortMalloc` does; and in a reachable state, with fuel above the heap size, it returns. -/
theorem C14_calloc_overflow_guard (c : Config) (fuel : Nat) (s4 : Heap4.State)
    (s2 : Heap2.State) (l4 l2 : List (Nat × Nat)) (bytes : Nat → Nat) {a b : Nat}
    (hb : b < c.wordMod) :
    (heapMULTIPLY_WILL_OVERFLOW c a b = true ↔ a * b > heapSIZE_MAX c) ∧
    (heapADD_WILL_OVERFLOW c a b = true ↔ a + b > heapSIZE_MAX c) ∧
    (a * b > heapSIZE_MAX c →
      Heap4.pvPortCalloc c fuel s4 bytes a b = Outcome.ok (s4, bytes) 0 ∧
      Heap2.pvPortCalloc c fuel s2 bytes a b = Outcome.ok (s2, bytes) 0) ∧
    (a * b ≤ heapSIZE_MAX c →
      (Heap4.pvPortCalloc c fuel s4 bytes a b).result
        = (Heap4.pvPortMalloc c fuel s4 (a * b)).result ∧
      (Heap2.pvPortCalloc c fuel s2 bytes a b).result
        = (Heap2.pvPortMalloc c fuel s2 (a * b)).result) ∧
    (c.WF → c.configTOTAL_HEAP_SIZE < fuel → Heap4.Reach c s4 l4 → Heap2.Reach c s2 l2 →
      (∃ t p, Heap4.pvPortCalloc c fuel s4 bytes a b = Outcome.ok t p) ∧
      (∃ t p, Heap2.pvPortCalloc c fuel s2 bytes a b = Outcome.ok t p)) := by
  refine ⟨multiply_will_overflow_iff c a b, add_will_overflow_iff c a hb,
    fun h => ⟨Heap4.calloc_overflow c fuel s4 bytes h, Heap2.calloc_overflow2 c fuel s2 bytes h⟩,
    fun h => ⟨Heap4.calloc_result c fuel s4 bytes h, Heap2.calloc_result2 c fuel s2 bytes h⟩,
    ?_⟩
  intro hw hfuel h4 h2
  by_cases h : a * b ≤ heapSIZE_MAX c
  · obtain ⟨s4', p4, e4⟩ := (h4.malloc_facts hw (a * b)).1 fuel hfuel
    obtain ⟨s2', p2, e2⟩ := (h2.malloc_facts2 hw (a * b)).1 fuel hfuel
    constructor
    · rw [Heap4.calloc_fits c fuel s4 bytes h, e4]
      by_cases hp : p4 = 0
      · simp only [hp, ne_eq, not_true_eq_false, if_false]
        exact ⟨_, _, rfl⟩
      · simp only [hp, ne_eq, not_false_eq_true, if_true]
        exact ⟨_, _, rfl⟩
    · rw [Heap2.calloc_fits2 c fuel s2 bytes h, e2]
      by_cases hp : p2 = 0
      · simp only [hp, ne_eq, not_true_eq_false, if_false]
        exact ⟨_, _, rfl⟩
      · simp only [hp, ne_eq, not_false_eq_true, if_true]
        exact ⟨_, _, rfl⟩
  · exact ⟨⟨_, _, Heap4.calloc_overflow c fuel s4 bytes (by omega)⟩,
      ⟨_, _, Heap2.calloc_overflow2 c fuel s2 bytes (by omega)⟩⟩

/-- The statement of C14 on `demo` for `pvPortCalloc( 65536, 65536 )`, whose product is
`2 ^ 32`, in the state after one allocation. -/
theorem C14_calloc_overflow_guard_witness :
    (65536 : Nat) < demo.wordMod ∧
    (heapMULTIPLY_WILL_OVERFLOW demo 65536 65536 = true ↔
      65536 * 65536 > heapSIZE_MAX demo) ∧
    (heapADD_WILL_OVERFLOW demo 65536 65536 = true ↔ 65536 + 65536 > heapSIZE_MAX demo) ∧
    Heap4.pvPortCalloc demo 1033 Heap4.demo1 (fun _ => 170) 65536 65536
      = Outcome.ok (Heap4.demo1, fun _ => 170) 0 ∧
    Heap2.pvPortCalloc demo 1033 Heap2.demo1 (fun _ => 170) 65536 65536
      = Outcome.ok (Heap2.demo1, fun _ => 170) 0 :=
  have h := C14_calloc_overflow_guard demo 1033 Heap4.demo1 Heap2.demo1 [] []
    (fun _ => 170) (show 65536 < demo.wordMod by decide)
  ⟨by decide, h.1, h.2.1, (h.2.2.1 (by decide)).1, (h.2.2.1 (by decide)).2⟩

/-- A `memset` that starts behind a header leaves the fields of the header. -/
theorem memsetField_before (c : Config) (f : Nat → Nat) {pv len a : Nat}
    (h : a + c.sizeofBlockLink ≤ pv ∨ pv + len ≤ a) : memsetField c f pv len a = f a := by
  unfold memsetField
  rw [if_neg (by omega)]

theorem memset_inside (bytes : Nat → Nat) {pv len a : Nat} (h1 : pv ≤ a) (h2 : a < pv + len) :
    memset bytes pv 0 len a = 0 := by
  unfold memset
  rw [if_pos ⟨h1, h2⟩]

theorem memset_outside (bytes : Nat → Nat) {pv len a : Nat} (h : a < pv ∨ pv + len ≤ a) :
    memset bytes pv 0 len a = bytes a := by
  unfold memset
  rw [if_neg (by omega)]

namespace Heap4

variable {c : Config} {s s' : State} {live : List (Nat × Nat)}

/-- The header of the region that `pvPortMalloc` of `heap_4.c` returns: it lies in front of
the payload, it is marked as allocated, and the region has room for the header and more than
the bytes asked for. -/
theorem Reach.malloc_header (hw : c.WF) (hr : Reach c s live) {n fuel p : Nat}
    (hres : pvPortMalloc c fuel s n = Outcome.ok s' p) (hp0 : p ≠ 0) :
    xHeapStructSize c < p ∧ wsub c p (xHeapStructSize c) = p - xHeapStructSize c ∧
      heapBLOCK_IS_ALLOCATED c (s'.xBlockSize (p - xHeapStructSize c)) = true ∧
      p + n < p - xHeapStructSize c + regionSize c s' p ∧
      p - xHeapStructSize c + regionSize c s' p ≤ endAddress c := by
  obtain ⟨bs, hinv, hl⟩ := hr.initialised_inv hw
  rw [malloc_initialised hw] at hres
  rcases hinv.malloc_ok hw hres with ⟨_, hp, _⟩ |
    ⟨pre, b, post, hbs, hf, hwb, hpos, hp, _, hfr, hsz, _⟩
  · exact absurd hp hp0
  · obtain ⟨hreg, hle, _, hal, hend⟩ := hinv.malloc_region hw hbs hf hsz
    obtain ⟨hb1, hb2, hb3, hb4, hb5, hb6, hb7, hb8, hb9⟩ := hinv.free_block hw hbs hf
    obtain ⟨hm1, hm2, hm3, hm4, hm5⟩ := size_lt_half hw hinv.tiled' (show b ∈ bs by rw [hbs]; simp)
    have hadj := adjust_pos_facts hw hpos
    have hge := le_allocSize (c := c) hwb
    have hs := hs_facts hw
    have hg := geometry hw
    have he := end_facts hw
    have hfits := hw.heap_fits
    subst hp
    have hsub : b.addr + xHeapStructSize c - xHeapStructSize c = b.addr := by omega
    rw [hreg]
    refine ⟨by omega, wsub_eq c (by omega) (by omega), ?_, by omega, by omega⟩
    rw [hsub, hsz]
    exact hw.isAllocated_flag (by omega)

/-- A successful `pvPortCalloc` of `heap_4.c` is a successful `pvPortMalloc` of the product
followed by the `memset`. -/
theorem calloc_ok {bytes : Nat → Nat} {a b fuel p : Nat} {t : State × (Nat → Nat)}
    (hres : pvPortCalloc c fuel s bytes a b = Outcome.ok t p) (hp0 : p ≠ 0) :
    ∃ s', pvPortMalloc c fuel s (a * b) = Outcome.ok s' p ∧
      t = (memsetState c s' p (a * b), memset bytes p 0 (a * b)) := by
  by_cases h : a * b ≤ heapSIZE_MAX c
  · rw [calloc_fits c fuel s bytes h] at hres
    cases hm : pvPortMalloc c fuel s (a * b) with
    | ok s' pv =>
      rw [hm] at hres
      by_cases hpv : pv = 0
      · simp only [hpv, ne_eq, not_true_eq_false, if_false] at hres
        injection hres with _ e2
        exact absurd e2.symm hp0
      · simp only [hpv, ne_eq, not_false_eq_true, if_true] at hres
        injection hres with e1 e2
        subst e2
        exact ⟨s', rfl, e1.symm⟩
    | assertFailed s' => rw [hm] at hres; cases hres
    | outOfFuel => rw [hm] at hres; cases hres
  · rw [calloc_overflow c fuel s bytes (by omega)] at hres
    injection hres with _ e2
    exact absurd e2.symm hp0

end Heap4

namespace Heap2

variable {c : Config} {s s' : State} {live : List (Nat × Nat)}

/-- The header of the region that `pvPortMalloc` of `heap_2.c` returns: it lies in front of
the payload, it is marked as allocated, and the region has room for the header and more than
the bytes asked for. -/
theorem Reach.malloc_header2 (hw : c.WF) (hr : Reach c s live) {n fuel p : Nat}
    (hres : pvPortMalloc c fuel s n = Outcome.ok s' p) (hp0 : p ≠ 0) :
    heapSTRUCT_SIZE c < p ∧ wsub c p (heapSTRUCT_SIZE c) = p - heapSTRUCT_SIZE c ∧
      heapBLOCK_IS_ALLOCATED c (s'.xBlockSize (p - heapSTRUCT_SIZE c)) = true ∧
      p + n < p - heapSTRUCT_SIZE c + regionSize c s' p ∧
      p - heapSTRUCT_SIZE c + regionSize c s' p
        ≤ alignedHeap c + configADJUSTED_HEAP_SIZE c := by
  obtain ⟨bs, fl, hinv, hl⟩ := hr.initialised_inv2 hw
  rw [malloc_initialised2] at hres
  rcases hinv.malloc_ok2 hw hres with ⟨_, hp, _⟩ |
    ⟨pre, b, post, fl', hbs, hf, hwb, hpos, hp, _, hfr, hsz⟩
  · exact absurd hp hp0
  · obtain ⟨hreg, hle, _, hal, hend⟩ := hinv.malloc_region2 hw hbs hf hsz
    obtain ⟨hb1, hb2, hb3, hb4, hb5, hb6, hb7, hb8, hb8', hb9⟩ := hinv.free_block2 hw hbs hf
    obtain ⟨hm1, hm2, hm3, hm4, hm5, _⟩ :=
      size_lt_half2 hw hinv.tiled (show b ∈ bs by rw [hbs]; simp)
    have hadj := adjust_pos_facts2 hw hpos
    have hge := le_allocSize2 (c := c) hwb
    have hs := hs_facts2 hw
    have hg := geometry2 hw
    have hfits := hw.heap_fits
    have hpos' := hw.heap_pos
    subst hp
    have hsub : b.addr + heapSTRUCT_SIZE c - heapSTRUCT_SIZE c = b.addr := by omega
    rw [hreg]
    refine ⟨by omega, wsub_eq c (by omega) (by omega), ?_, by omega, by omega⟩
    rw [hsub, hsz]
    exact hw.isAllocated_flag (by omega)

/-- A successful `pvPortCalloc` of `heap_2.c` is a successful `pvPortMalloc` of the product
followed by the `memset`. -/
theorem calloc_ok2 {bytes : Nat → Nat} {a b fuel p : Nat} {t : State × (Nat → Nat)}
    (hres : pvPortCalloc c fuel s bytes a b = Outcome.ok t p) (hp0 : p ≠ 0) :
    ∃ s', pvPortMalloc c fuel s (a * b) = Outcome.ok s' p ∧
      t = (memsetState c s' p (a * b), memset bytes p 0 (a * b)) := by
  by_cases h : a * b ≤ heapSIZE_MAX c
  · rw [calloc_fits2 c fuel s bytes h] at hres
    cases hm : pvPortMalloc c fuel s (a * b) with
    | ok s' pv =>
      rw [hm] at hres
      by_cases hpv : pv = 0
      · simp only [hpv, ne_eq, not_true_eq_false, if_false] at hres
        injection hres with _ e2
        exact absurd e2.symm hp0
      · simp only [hpv, ne_eq, not_false_eq_true, if_true] at hres
        injection hres with e1 e2
        subst e2
        exact ⟨s', rfl, e1.symm⟩
    | assertFailed s' => rw [hm] at hres; cases hres
    | outOfFuel => rw [hm] at hres; cases hres
  · rw [calloc_overflow2 c fuel s bytes (by omega)] at hres
    injection hres with _ e2
    exact absurd e2.symm hp0

end Heap2

/-- C15: in `heap_4.c` and `heap_2.c`, in every reachable state, for every `n` and `size`
and every content `bytes` of memory, a `pvPortCalloc( n, size )` that returns a pointer `p`
other than `NULL` is the `pvPortMalloc` of `n * size` followed by the `memset`: each of the
`n * size` bytes from `p` on reads `0` and the other bytes are as they were; the header of
the region, in front of `p`, has the size and the link that `pvPortMalloc` left and is marked
as allocated; the bytes written end before the end of the region; and no header field that
lies in front of `p` or behind the bytes written is altered.  With fuel above the heap size
the call returns. -/
theorem C15_calloc_zeroes {c : Config} (hw : c.WF) {s4 : Heap4.State} {l4 : List (Nat × Nat)}
    (h4 : Heap4.Reach c s4 l4) {s2 : Heap2.State} {l2 : List (Nat × Nat)}
    (h2 : Heap2.Reach c s2 l2) (bytes : Nat → Nat) (n size : Nat) :
    (∀ fuel t p, Heap4.pvPortCalloc c fuel s4 bytes n size = Outcome.ok t p → p ≠ 0 →
      ∃ s', Heap4.pvPortMalloc c fuel s4 (n * size) = Outcome.ok s' p ∧
        (∀ a, p ≤ a → a < p + n * size → t.2 a = 0) ∧
        (∀ a, a < p ∨ p + n * size ≤ a → t.2 a = bytes a) ∧
        t.1.xBlockSize (p - Heap4.xHeapStructSize c) = s'.xBlockSize (p - Heap4.xHeapStructSize c) ∧
        t.1.pxNextFreeBlock (p - Heap4.xHeapStructSize c) = s'.pxNextFreeBlock (p - Heap4.xHeapStructSize c) ∧
        heapBLOCK_IS_ALLOCATED c (t.1.xBlockSize (p - Heap4.xHeapStructSize c)) = true ∧
        Heap4.regionSize c t.1 p = Heap4.regionSize c s' p ∧
        p + n * size < p - Heap4.xHeapStructSize c + Heap4.regionSize c t.1 p ∧
        (∀ a, a + c.sizeofBlockLink ≤ p ∨ p + n * size ≤ a →
          t.1.xBlockSize a = s'.xBlockSize a ∧ t.1.pxNextFreeBlock a = s'.pxNextFreeBlock a) ∧
        t.1.xFreeBytesRemaining = s'.xFreeBytesRemaining) ∧
    (∀ fuel t p, Heap2.pvPortCalloc c fuel s2 bytes n size = Outcome.ok t p → p ≠ 0 →
      ∃ s', Heap2.pvPortMalloc c fuel s2 (n * size) = Outcome.ok s' p ∧
        (∀ a, p ≤ a → a < p + n * size → t.2 a = 0) ∧
        (∀ a, a < p ∨ p + n * size ≤ a → t.2 a = bytes a) ∧
        t.1.xBlockSize (p - Heap2.heapSTRUCT_SIZE c) = s'.xBlockSize (p - Heap2.heapSTRUCT_SIZE c) ∧
        t.1.pxNextFreeBlock (p - Heap2.heapSTRUCT_SIZE c) = s'.pxNextFreeBlock (p - Heap2.heapSTRUCT_SIZE c) ∧
        heapBLOCK_IS_ALLOCATED c (t.1.xBlockSize (p - Heap2.heapSTRUCT_SIZE c)) = true ∧
        Heap2.regionSize c t.1 p = Heap2.regionSize c s' p ∧
        p + n * size < p - Heap2.heapSTRUCT_SIZE c + Heap2.regionSize c t.1 p ∧
        (∀ a, a + c.sizeofBlockLink ≤ p ∨ p + n * size ≤ a →
          t.1.xBlockSize a = s'.xBlockSize a ∧ t.1.pxNextFreeBlock a = s'.pxNextFreeBlock a) ∧
        t.1.xFreeBytesRemaining = s'.xFreeBytesRemaining) ∧
    (∀ fuel, c.configTOTAL_HEAP_SIZE < fuel →
      (∃ t p, Heap4.pvPortCalloc c fuel s4 bytes n size = Outcome.ok t p) ∧
      (∃ t p, Heap2.pvPortCalloc c fuel s2 bytes n size = Outcome.ok t p)) := by
  refine ⟨?_, ?_, ?_⟩
  · intro fuel t p hres hp0
    obtain ⟨s', hm, ht⟩ := Heap4.calloc_ok hres hp0
    obtain ⟨k1, k2, k3, k4, _⟩ := h4.malloc_header hw hm hp0
    have hs := Heap4.hs_facts hw
    have hfront : p - Heap4.xHeapStructSize c + c.sizeofBlockLink ≤ p ∨ p + n * size ≤ p - Heap4.xHeapStructSize c := by
      left; omega
    have e1 : t.1.xBlockSize (p - Heap4.xHeapStructSize c) = s'.xBlockSize (p - Heap4.xHeapStructSize c) := by
      rw [ht]; exact memsetField_before c _ hfront
    have e2 : t.1.pxNextFreeBlock (p - Heap4.xHeapStructSize c) = s'.pxNextFreeBlock (p - Heap4.xHeapStructSize c) := by
      rw [ht]; exact memsetField_before c _ hfront
    have e3 : Heap4.regionSize c t.1 p = Heap4.regionSize c s' p := by
      unfold Heap4.regionSize
      rw [k2, e1]
    refine ⟨s', hm, ?_, ?_, e1, e2, by rw [e1]; exact k3, e3, by rw [e3]; exact k4, ?_, ?_⟩
    · intro a h1 h2
      rw [ht]; exact memset_inside bytes h1 h2
    · intro a h
      rw [ht]; exact memset_outside bytes h
    · intro a h
      rw [ht]
      exact ⟨memsetField_before c _ h, memsetField_before c _ h⟩
    · rw [ht]; rfl
  · intro fuel t p hres hp0
    obtain ⟨s', hm, ht⟩ := Heap2.calloc_ok2 hres hp0
    obtain ⟨k1, k2, k3, k4, _⟩ := h2.malloc_header2 hw hm hp0
    have hs := Heap2.hs_facts2 hw
    have hfront : p - Heap2.heapSTRUCT_SIZE c + c.sizeofBlockLink ≤ p ∨ p + n * size ≤ p - Heap2.heapSTRUCT_SIZE c := by
      left; omega
    have e1 : t.1.xBlockSize (p - Heap2.heapSTRUCT_SIZE c) = s'.xBlockSize (p - Heap2.heapSTRUCT_SIZE c) := by
      rw [ht]; exact memsetField_before c _ hfront
    have e2 : t.1.pxNextFreeBlock (p - Heap2.heapSTRUCT_SIZE c) = s'.pxNextFreeBlock (p - Heap2.heapSTRUCT_SIZE c) := by
      rw [ht]; exact memsetField_before c _ hfront
    have e3 : Heap2.regionSize c t.1 p = Heap2.regionSize c s' p := by
      unfold Heap2.regionSize
      rw [k2, e1]
    refine ⟨s', hm, ?_, ?_, e1, e2, by rw [e1]; exact k3, e3, by rw [e3]; exact k4, ?_, ?_⟩
    · intro a h1 h2
      rw [ht]; exact memset_inside bytes h1 h2
    · intro a h
      rw [ht]; exact memset_outside bytes h
    · intro a h
      rw [ht]
      exact ⟨memsetField_before c _ h, memsetField_before c _ h⟩
    · rw [ht]; rfl
  · intro fuel hfuel
    by_cases h : n * size ≤ heapSIZE_MAX c
    · obtain ⟨s4', p4, e4⟩ := (h4.malloc_facts hw (n * size)).1 fuel hfuel
      obtain ⟨s2', p2, e2⟩ := (h2.malloc_facts2 hw (n * size)).1 fuel hfuel
      constructor
      · rw [Heap4.calloc_fits c fuel s4 bytes h, e4]
        by_cases hp : p4 = 0
        · simp only [hp, ne_eq, not_true_eq_false, if_false]
          exact ⟨_, _, rfl⟩
        · simp only [hp, ne_eq, not_false_eq_true, if_true]
          exact ⟨_, _, rfl⟩
      · rw [Heap2.calloc_fits2 c fuel s2 bytes h, e2]
        by_cases hp : p2 = 0
        · simp only [hp, ne_eq, not_true_eq_false, if_false]
          exact ⟨_, _, rfl⟩
        · simp only [hp, ne_eq, not_false_eq_true, if_true]
          exact ⟨_, _, rfl⟩
    · exact ⟨⟨_, _, Heap4.calloc_overflow c fuel s4 bytes (by omega)⟩,
        ⟨_, _, Heap2.calloc_overflow2 c fuel s2 bytes (by omega)⟩⟩

/-- The statement of C15 on `demo` for `pvPortCalloc( 16, 4 )` at program start, every byte
of memory holding `170` before: the call returns 4104, the 64 bytes from 4104 to 4167 read
`0`, the byte at 4168 is as it was, and the header at 4096 is marked as allocated and holds
the region size 80. -/
theorem C15_calloc_zeroes_witness :
    Heap4.pvPortCalloc demo 1033 Heap4.demoBoot (fun _ => 170) 16 4
      = Outcome.ok Heap4.demoCalloc 4104 ∧
    Heap2.pvPortCalloc demo 1033 Heap2.demoBoot (fun _ => 170) 16 4
      = Outcome.ok Heap2.demoCalloc 4104 ∧
    Heap4.demoCalloc.2 4104 = 0 ∧ Heap4.demoCalloc.2 4167 = 0 ∧
    Heap2.demoCalloc.2 4104 = 0 ∧ Heap2.demoCalloc.2 4167 = 0 ∧
    Heap4.demoCalloc.2 4168 = 170 ∧ Heap2.demoCalloc.2 4168 = 170 ∧
    heapBLOCK_IS_ALLOCATED demo (Heap4.demoCalloc.1.xBlockSize 4096) = true ∧
    heapBLOCK_IS_ALLOCATED demo (Heap2.demoCalloc.1.xBlockSize 4096) = true ∧
    Heap4.regionSize demo Heap4.demoCalloc.1 4104 = 80 ∧
    Heap2.regionSize demo Heap2.demoCalloc.1 4104 = 80 ∧
    4104 + 16 * 4 < 4104 - Heap4.xHeapStructSize demo
      + Heap4.regionSize demo Heap4.demoCalloc.1 4104 ∧
    4104 + 16 * 4 < 4104 - Heap2.heapSTRUCT_SIZE demo
      + Heap2.regionSize demo Heap2.demoCalloc.1 4104 :=
  have h := C15_calloc_zeroes demo_WF Heap4.reach_demoBoot Heap2.reach2_demoBoot
    (fun _ => 170) 16 4
  match h.1 1033 Heap4.demoCalloc 4104 rfl (by decide),
    h.2.1 1033 Heap2.demoCalloc 4104 rfl (by decide) with
  | ⟨_, _, a1, a2, _, _, a3, _, a4, _⟩, ⟨_, _, b1, b2, _, _, b3, _, b4, _⟩ =>
    ⟨rfl, rfl, a1 4104 (by decide) (by decide), a1 4167 (by decide) (by decide),
      b1 4104 (by decide) (by decide), b1 4167 (by decide) (by decide),
      a2 4168 (Or.inr (by decide)), b2 4168 (Or.inr (by decide)), a3, b3,
      by decide, by decide, a4, b4⟩

/-- The running maximum of a walk: it is above the start value and above every element, and
it is the start value or an element. -/
theorem foldl_max_spec (f : Nat → Nat) (l : List Nat) (m0 : Nat) :
    m0 ≤ l.foldl (fun m a => max m (f a)) m0 ∧
      (∀ a ∈ l, f a ≤ l.foldl (fun m a => max m (f a)) m0) ∧
      (l.foldl (fun m a => max m (f a)) m0 = m0 ∨
        ∃ a ∈ l, f a = l.foldl (fun m a => max m (f a)) m0) := by
  induction l generalizing m0 with
  | nil => exact ⟨Nat.le_refl _, fun a ha => absurd ha (List.not_mem_nil a), Or.inl rfl⟩
  | cons b l ih =>
    obtain ⟨i1, i2, i3⟩ := ih (max m0 (f b))
    rw [List.foldl_cons]
    refine ⟨by omega, ?_, ?_⟩
    · intro a ha
      rcases List.mem_cons.1 ha with rfl | ha
      · omega
      · exact i2 a ha
    · rcases i3 with i3 | ⟨a, ha, i3⟩
      · rcases Nat.le_total m0 (f b) with hle | hle
        · right
          exact ⟨b, List.mem_cons_self _ _, by rw [i3]; omega⟩
        · left
          rw [i3]; omega
      · exact Or.inr ⟨a, List.mem_cons_of_mem _ ha, i3⟩

/-- The running minimum of a walk: it is below the start value and below every element, and
it is the start value or an element. -/
theorem foldl_min_spec (f : Nat → Nat) (l : List Nat) (m0 : Nat) :
    l.foldl (fun m a => min m (f a)) m0 ≤ m0 ∧
      (∀ a ∈ l, l.foldl (fun m a => min m (f a)) m0 ≤ f a) ∧
      (l.foldl (fun m a => min m (f a)) m0 = m0 ∨
        ∃ a ∈ l, f a = l.foldl (fun m a => min m (f a)) m0) := by
  induction l generalizing m0 with
  | nil => exact ⟨Nat.le_refl _, fun a ha => absurd ha (List.not_mem_nil a), Or.inl rfl⟩
  | cons b l ih =>
    obtain ⟨i1, i2, i3⟩ := ih (min m0 (f b))
    rw [List.foldl_cons]
    refine ⟨by omega, ?_, ?_⟩
    · intro a ha
      rcases List.mem_cons.1 ha with rfl | ha
      · omega
      · exact i2 a ha
    · rcases i3 with i3 | ⟨a, ha, i3⟩
      · rcases Nat.le_total m0 (f b) with hle | hle
        · left
          rw [i3]; omega
        · right
          exact ⟨b, List.mem_cons_self _ _, by rw [i3]; omega⟩
      · exact Or.inr ⟨a, List.mem_cons_of_mem _ ha, i3⟩

namespace Heap4

variable {c : Config} {s : State} {bs : List Blk} {live : List (Nat × Nat)}

/-- The loop of `vPortGetHeapStats` over a free list: it counts the nodes and keeps the
running maximum and minimum of their sizes. -/
theorem statsLoop_chain {l : List Nat} {p fuel : Nat} (k mx mn : Nat)
    (h : Chain s.pxNextFreeBlock p l s.pxEnd) (he : s.pxEnd ∉ l) (hf : l.length < fuel)
    (hk : k < c.wordMod) :
    statsLoop c s fuel (s.pxNextFreeBlock p) k mx mn
      = some ((k + l.length) % c.wordMod,
          l.foldl (fun m a => max m (s.xBlockSize a)) mx,
          l.foldl (fun m a => min m (s.xBlockSize a)) mn) := by
  induction l generalizing p fuel k mx mn with
  | nil =>
    obtain ⟨f, rfl⟩ : ∃ f, fuel = f + 1 := ⟨fuel - 1, by simp at hf; omega⟩
    have h' : s.pxNextFreeBlock p = s.pxEnd := h
    simp [statsLoop, h', Nat.mod_eq_of_lt hk]
  | cons b l ih =>
    obtain ⟨f, rfl⟩ : ∃ f, fuel = f + 1 := ⟨fuel - 1, by simp at hf; omega⟩
    obtain ⟨h1, h2⟩ := h
    have hne : b ≠ s.pxEnd := fun e => he (by rw [← e]; exact List.mem_cons_self _ _)
    have hlen : l.length < f := by simp at hf; omega
    have hmax : (if s.xBlockSize b > mx then s.xBlockSize b else mx) = max mx (s.xBlockSize b) := by
      split <;> omega
    have hmin : (if s.xBlockSize b < mn then s.xBlockSize b else mn) = min mn (s.xBlockSize b) := by
      split <;> omega
    have hcnt : (wadd c k 1 + l.length) % c.wordMod = (k + (l.length + 1)) % c.wordMod := by
      unfold wadd
      rw [Nat.add_mod, Nat.mod_mod, ← Nat.add_mod]
      congr 1
      omega
    rw [h1]
    simp only [statsLoop, if_pos hne, hmax, hmin]
    rw [ih (wadd c k 1) _ _ h2 (fun hx => he (List.mem_cons_of_mem _ hx)) hlen (wadd_lt c k 1),
      hcnt]
    rfl

/-- What `vPortGetHeapStats` of `heap_4.c` returns on a state satisfying the invariant, with
fuel above the heap size. -/
theorem Inv.stats (hw : c.WF) (h : Inv c s bs) {fuel : Nat}
    (hfuel : c.configTOTAL_HEAP_SIZE < fuel) :
    vPortGetHeapStats c fuel s = Outcome.ok s
      { xSizeOfLargestFreeBlockInBytes :=
          (freeList c fuel s).foldl (fun m a => max m (s.xBlockSize a)) 0
        xSizeOfSmallestFreeBlockInBytes :=
          (freeList c fuel s).foldl (fun m a => min m (s.xBlockSize a))
            (c.portMAX_DELAY % c.wordMod)
        xNumberOfFreeBlocks := (freeList c fuel s).length
        xAvailableHeapSpaceInBytes := s.xFreeBytesRemaining
        xNumberOfSuccessfulAllocations := s.xNumberOfSuccessfulAllocations
        xNumberOfSuccessfulFrees := s.xNumberOfSuccessfulFrees
        xMinimumEverFreeBytesRemaining := s.xMinimumEverFreeBytesRemaining } := by
  have hlen := h.length_lt hw hfuel
  have hend : s.pxEnd ∉ freeAddrs bs := by rw [h.pxEnd_eq]; exact h.end_not_mem
  have hloop := statsLoop_chain (c := c) 0 0 (c.portMAX_DELAY % c.wordMod)
    h.chain hend hlen hw.wordMod_pos
  have hg := geometry hw
  have hb := base_facts hw
  have he := end_facts hw
  have hfits := hw.heap_fits
  have hlw : (freeAddrs bs).length < c.wordMod := by
    have h1 := freeAddrs_length_le bs
    have h2 := tiled_length h.tiled'
    omega
  have hne : s.pxNextFreeBlock c.xStart ≠ 0 := by
    cases hl : freeAddrs bs with
    | nil =>
      have hc := h.chain
      rw [hl] at hc
      have hc' : s.pxNextFreeBlock c.xStart = s.pxEnd := hc
      rw [hc']
      exact h.end_ne hw
    | cons a l =>
      have hc := h.chain
      rw [hl] at hc
      rw [hc.1]
      have := h.mem_free (show a ∈ freeAddrs bs by rw [hl]; exact List.mem_cons_self _ _)
      omega
  rw [Nat.zero_add, Nat.mod_eq_of_lt hlw] at hloop
  unfold vPortGetHeapStats
  simp only [if_pos hne, hloop, h.freeList_eq hw hfuel]

end Heap4

/-- C16, as the code has it: in `heap_4.c`, in every reachable state in which the heap is
set up, with fuel above the heap size, `vPortGetHeapStats` returns and leaves the state as it
is.  `xNumberOfFreeBlocks` is the number of regions on the free list, `xEnd` not counted;
`xSizeOfLargestFreeBlockInBytes` is an upper bound of the region sizes on the list, and is
one of them when the list is not empty; `xAvailableHeapSpaceInBytes`,
`xMinimumEverFreeBytesRemaining` and the two counters are the current values.
`xSizeOfSmallestFreeBlockInBytes` is a lower bound of the region sizes and of
`portMAX_DELAY`: it is the smallest region size when some region on the list is not larger
than `portMAX_DELAY`, and it is `portMAX_DELAY` when every region on the list is larger. -/
theorem C16_heap_stats {c : Config} (hw : c.WF) {s : Heap4.State} {live : List (Nat × Nat)}
    (hr : Heap4.Reach c s live) (hi : s.pxEnd ≠ 0) {fuel : Nat}
    (hfuel : c.configTOTAL_HEAP_SIZE < fuel) :
    (∃ st, Heap4.vPortGetHeapStats c fuel s = Outcome.ok s st) ∧
    (∀ s' st, Heap4.vPortGetHeapStats c fuel s = Outcome.ok s' st →
      s' = s ∧
      st.xNumberOfFreeBlocks = (Heap4.freeList c fuel s).length ∧
      (∀ a ∈ Heap4.freeList c fuel s, s.xBlockSize a ≤ st.xSizeOfLargestFreeBlockInBytes) ∧
      (Heap4.freeList c fuel s ≠ [] →
        ∃ a ∈ Heap4.freeList c fuel s, s.xBlockSize a = st.xSizeOfLargestFreeBlockInBytes) ∧
      (∀ a ∈ Heap4.freeList c fuel s, st.xSizeOfSmallestFreeBlockInBytes ≤ s.xBlockSize a) ∧
      st.xSizeOfSmallestFreeBlockInBytes ≤ c.portMAX_DELAY % c.wordMod ∧
      ((∃ a ∈ Heap4.freeList c fuel s, s.xBlockSize a ≤ c.portMAX_DELAY % c.wordMod) →
        ∃ a ∈ Heap4.freeList c fuel s,
          s.xBlockSize a = st.xSizeOfSmallestFreeBlockInBytes) ∧
      ((∀ a ∈ Heap4.freeList c fuel s, c.portMAX_DELAY % c.wordMod < s.xBlockSize a) →
        st.xSizeOfSmallestFreeBlockInBytes = c.portMAX_DELAY % c.wordMod) ∧
      st.xAvailableHeapSpaceInBytes = Heap4.xPortGetFreeHeapSize s ∧
      st.xMinimumEverFreeBytesRemaining = Heap4.xPortGetMinimumEverFreeHeapSize s ∧
      st.xNumberOfSuccessfulAllocations = s.xNumberOfSuccessfulAllocations ∧
      st.xNumberOfSuccessfulFrees = s.xNumberOfSuccessfulFrees) := by
  obtain ⟨bs, hinv, _⟩ := hr.inv_of_init hw hi
  have hst := hinv.stats hw hfuel
  refine ⟨⟨_, hst⟩, ?_⟩
  intro s' st hres
  rw [hst] at hres
  injection hres with e1 e2
  subst e1
  subst e2
  obtain ⟨m1, m2, m3⟩ := foldl_max_spec s.xBlockSize (Heap4.freeList c fuel s) 0
  obtain ⟨n1, n2, n3⟩ := foldl_min_spec s.xBlockSize (Heap4.freeList c fuel s)
    (c.portMAX_DELAY % c.wordMod)
  refine ⟨rfl, rfl, m2, ?_, n2, n1, ?_, ?_, rfl, rfl, rfl, rfl⟩
  · intro hne
    rcases m3 with m3 | m3
    · obtain ⟨a, l, hl⟩ := List.exists_cons_of_ne_nil hne
      have ha : a ∈ Heap4.freeList c fuel s := by rw [hl]; exact List.mem_cons_self _ _
      have hle := m2 a ha
      have h0 : s.xBlockSize a = 0 := by rw [m3] at hle; omega
      exact ⟨a, ha, h0.trans m3.symm⟩
    · exact m3
  · rintro ⟨a, ha, hle⟩
    rcases n3 with n3 | n3
    · have h1 := n2 a ha
      have h0 : s.xBlockSize a = c.portMAX_DELAY % c.wordMod := by rw [n3] at h1; omega
      exact ⟨a, ha, h0.trans n3.symm⟩
    · exact n3
  · intro hall
    rcases n3 with n3 | ⟨a, ha, n3⟩
    · exact n3
    · have h1 := hall a ha
      have h2 : s.xBlockSize a ≤ c.portMAX_DELAY % c.wordMod := by rw [n3]; exact n1
      omega

/-- The statement of C16 on `demo`, whose `portMAX_DELAY` is `SIZE_MAX`, in the state after
two allocations and the release of the first: the free list holds the regions at 4096, of 56
bytes, and at 4208, of 912 bytes. -/
theorem C16_heap_stats_witness :
    Heap4.vPortGetHeapStats demo 1033 Heap4.demo3 = Outcome.ok Heap4.demo3
      { xAvailableHeapSpaceInBytes := 968
        xSizeOfLargestFreeBlockInBytes := 912
        xSizeOfSmallestFreeBlockInBytes := 56
        xNumberOfFreeBlocks := 2
        xMinimumEverFreeBytesRemaining := 912
        xNumberOfSuccessfulAllocations := 2
        xNumberOfSuccessfulFrees := 1 } ∧
    (2 : Nat) = (Heap4.freeList demo 1033 Heap4.demo3).length ∧
    Heap4.demo3.xBlockSize 4208 ≤ 912 ∧ (56 : Nat) ≤ Heap4.demo3.xBlockSize 4096 ∧
    (968 : Nat) = Heap4.xPortGetFreeHeapSize Heap4.demo3 :=
  have h := (C16_heap_stats demo_WF Heap4.reach_demo3 (show Heap4.demo3.pxEnd ≠ 0 by decide)
    demo_fuel).2 Heap4.demo3
      { xAvailableHeapSpaceInBytes := 968
        xSizeOfLargestFreeBlockInBytes := 912
        xSizeOfSmallestFreeBlockInBytes := 56
        xNumberOfFreeBlocks := 2
        xMinimumEverFreeBytesRemaining := 912
        xNumberOfSuccessfulAllocations := 2
        xNumberOfSuccessfulFrees := 1 } rfl
  ⟨rfl, h.2.1, h.2.2.1 4208 (by decide), h.2.2.2.2.1 4096 (by decide), h.2.2.2.2.2.2.2.2.1⟩

/-- The smallest free block that `vPortGetHeapStats` reports is not the smallest region on
the free list when `portMAX_DELAY` is below the region sizes: on `demoTick16`, a 32-bit port
whose `portMAX_DELAY` is `0xffff`, after one `pvPortMalloc( 40 )` the free list holds the one
region at 4152, of 199944 bytes, and the size reported as the smallest is 65535. -/
theorem C16_smallest_capped :
    demoTick16.WF ∧
    Heap4.pvPortMalloc demoTick16 200009 Heap4.demoBoot 40
      = Outcome.ok Heap4.demoTick1 4104 ∧
    Heap4.freeList demoTick16 200009 Heap4.demoTick1 = [4152] ∧
    Heap4.demoTick1.xBlockSize 4152 = 199944 ∧
    (Heap4.vPortGetHeapStats demoTick16 200009 Heap4.demoTick1).result
      = some
        { xAvailableHeapSpaceInBytes := 199944
          xSizeOfLargestFreeBlockInBytes := 199944
          xSizeOfSmallestFreeBlockInBytes := 65535
          xNumberOfFreeBlocks := 1
          xMinimumEverFreeBytesRemaining := 199944
          xNumberOfSuccessfulAllocations := 1
          xNumberOfSuccessfulFrees := 0 } :=
  ⟨⟨by decide, ⟨3, rfl⟩, by decide, by decide, by decide, by decide, by decide, by decide,
    by decide, by decide, by decide, by decide, by decide, by decide, by decide⟩,
    rfl, by decide, by decide, by decide⟩

namespace Heap4

variable {c : Config} {s t : State} {live l : List (Nat × Nat)}

/-- A run from a reachable state ends in a reachable state. -/
theorem Run.reach (hr : Reach c s live) (h : Run c s live t l) : Reach c t l := by
  induction h with
  | refl => exact hr
  | malloc fuel n _ hn hres ih => exact Reach.malloc fuel n ih hn hres
  | free fuel p d _ hp hres ih => exact Reach.free fuel p d ih hp hres

/-- The watermark after a call of `pvPortMalloc` of `heap_4.c` in a reachable state that is
set up: it has not gone up, and the heap is still set up. -/
theorem Reach.malloc_min (hw : c.WF) (hr : Reach c t l) (hi : t.pxEnd ≠ 0) {fuel n p : Nat}
    {u : State} (hres : pvPortMalloc c fuel t n = Outcome.ok u p) :
    u.pxEnd ≠ 0 ∧ u.xMinimumEverFreeBytesRemaining ≤ t.xMinimumEverFreeBytesRemaining ∧
      (p ≠ 0 → u.xMinimumEverFreeBytesRemaining
          = min t.xMinimumEverFreeBytesRemaining u.xFreeBytesRemaining ∧
        u.xNumberOfSuccessfulAllocations = wadd c t.xNumberOfSuccessfulAllocations 1) := by
  obtain ⟨bs, hinv, _⟩ := hr.inv_of_init hw hi
  rcases hinv.malloc_ok hw hres with ⟨h1, hp, _⟩ |
    ⟨pre, b, post, _, _, _, _, _, hinv', _, _, hmin, hcnt, _⟩
  · rw [h1]
    exact ⟨hi, Nat.le_refl _, fun hp0 => absurd hp hp0⟩
  · refine ⟨hinv'.end_ne hw, ?_, fun _ => ⟨hmin, hcnt⟩⟩
    rw [hmin]
    exact Nat.min_le_left _ _

/-- The watermark after a call of `vPortFree` of `heap_4.c` on a live pointer: it is as it
was, and the heap is still set up. -/
theorem Reach.free_min (hw : c.WF) (hr : Reach c t l) (hi : t.pxEnd ≠ 0) {fuel p d : Nat}
    {u : State} (hp : (p, d) ∈ l) (hres : vPortFree c fuel t p = Outcome.ok u ()) :
    u.pxEnd ≠ 0 ∧ u.xMinimumEverFreeBytesRemaining = t.xMinimumEverFreeBytesRemaining := by
  obtain ⟨bs, hinv, hl⟩ := hr.inv_of_init hw hi
  obtain ⟨pre, post, _, hinv', _, hmin, _⟩ := (hinv.free_ok hw hl hp).2 fuel u hres
  exact ⟨hinv'.end_ne hw, hmin⟩

/-- Over a run from a state that is set up the watermark does not go up. -/
theorem Run.min_mono (hw : c.WF) (hr : Reach c s live) (hi : s.pxEnd ≠ 0)
    (h : Run c s live t l) :
    t.pxEnd ≠ 0 ∧ t.xMinimumEverFreeBytesRemaining ≤ s.xMinimumEverFreeBytesRemaining := by
  induction h with
  | refl => exact ⟨hi, Nat.le_refl _⟩
  | malloc fuel n hrun hn hres ih =>
    obtain ⟨k1, k2, _⟩ := (hrun.reach hr).malloc_min hw ih.1 hres
    exact ⟨k1, Nat.le_trans k2 ih.2⟩
  | free fuel p d hrun hp hres ih =>
    obtain ⟨k1, k2⟩ := (hrun.reach hr).free_min hw ih.1 hp hres
    exact ⟨k1, by rw [k2]; exact ih.2⟩

theorem initialised_counts (c : Config) (s : State) :
    (initialised c s).xNumberOfSuccessfulAllocations = s.xNumberOfSuccessfulAllocations := by
  unfold initialised
  split <;> rfl

end Heap4

/-- C17: in `heap_4.c`, let `t` be a state that a run of calls of `pvPortMalloc` and of
`vPortFree` on live pointers leads to from a reachable state `s` in which the heap is set
up.  A `pvPortMalloc` in `t` that returns a pointer other than `NULL` leaves the watermark
`xMinimumEverFreeBytesRemaining` at the minimum of its old value and the new
`xFreeBytesRemaining`, and `xNumberOfSuccessfulAllocations` one higher, as a `size_t`: the
sum `+ 1` is exact unless the counter was `SIZE_MAX`.  A `vPortFree` in `t`, of a live pointer
or of `NULL`, leaves the watermark.  What `xPortGetMinimumEverFreeHeapSize` returns in `t` is
at most what it returned in `s` and at most what `xPortGetFreeHeapSize` returns in `t`.  The
first `pvPortMalloc` after program start, which sets the heap up, leaves the watermark at the
minimum of the size of the first free region and the new `xFreeBytesRemaining`, and the
counter at one more than it was. -/
theorem C17_watermark {c : Config} (hw : c.WF) {s t : Heap4.State}
    {live l : List (Nat × Nat)} (hr : Heap4.Reach c s live) (hi : s.pxEnd ≠ 0)
    (hrun : Heap4.Run c s live t l) :
    (∀ fuel n u p, Heap4.pvPortMalloc c fuel t n = Outcome.ok u p → p ≠ 0 →
      Heap4.xPortGetMinimumEverFreeHeapSize u
        = min (Heap4.xPortGetMinimumEverFreeHeapSize t) (Heap4.xPortGetFreeHeapSize u) ∧
      u.xNumberOfSuccessfulAllocations = wadd c t.xNumberOfSuccessfulAllocations 1 ∧
      (t.xNumberOfSuccessfulAllocations < heapSIZE_MAX c →
        u.xNumberOfSuccessfulAllocations = t.xNumberOfSuccessfulAllocations + 1)) ∧
    (∀ fuel p u, (p = 0 ∨ ∃ d, (p, d) ∈ l) → Heap4.vPortFree c fuel t p = Outcome.ok u () →
      Heap4.xPortGetMinimumEverFreeHeapSize u = Heap4.xPortGetMinimumEverFreeHeapSize t) ∧
    Heap4.xPortGetMinimumEverFreeHeapSize t ≤ Heap4.xPortGetMinimumEverFreeHeapSize s ∧
    Heap4.xPortGetMinimumEverFreeHeapSize t ≤ Heap4.xPortGetFreeHeapSize t ∧
    (∀ next0 size0 fuel n u p,
      Heap4.pvPortMalloc c fuel (Heap4.boot next0 size0) n = Outcome.ok u p → p ≠ 0 →
      Heap4.xPortGetMinimumEverFreeHeapSize u
        = min (Heap4.endAddress c - (Heap4.alignedHeap c).1) (Heap4.xPortGetFreeHeapSize u) ∧
      u.xNumberOfSuccessfulAllocations
        = wadd c (Heap4.boot next0 size0).xNumberOfSuccessfulAllocations 1) := by
  have hrt := hrun.reach hr
  obtain ⟨hti, hle⟩ := hrun.min_mono hw hr hi
  obtain ⟨bs, hinv, _⟩ := hrt.inv_of_init hw hti
  refine ⟨?_, ?_, hle, hinv.min_le, ?_⟩
  · intro fuel n u p hres hp0
    obtain ⟨_, _, k⟩ := hrt.malloc_min hw hti hres
    obtain ⟨k1, k2⟩ := k hp0
    refine ⟨k1, k2, fun hlt => ?_⟩
    rw [k2]
    exact wadd_eq c (by unfold heapSIZE_MAX at hlt; omega)
  · intro fuel p u hp hres
    rcases hp with rfl | ⟨d, hd⟩
    · rw [Heap4.free_null] at hres
      injection hres with e
      rw [← e]
    · exact (hrt.free_min hw hti hd hres).2
  · intro next0 size0 fuel n u p hres hp0
    rw [Heap4.malloc_boot hw rfl] at hres
    have hinv0 := Heap4.prvHeapInit_inv hw (Heap4.boot next0 size0)
    rcases hinv0.malloc_ok hw hres with ⟨_, hp, _⟩ |
      ⟨pre, b, post, _, _, _, _, _, _, _, _, hmin, hcnt, _⟩
    · exact absurd hp hp0
    · have hm0 : (Heap4.prvHeapInit c (Heap4.boot next0 size0)).xMinimumEverFreeBytesRemaining
          = Heap4.endAddress c - (Heap4.alignedHeap c).1 :=
        (show _ = (Heap4.prvHeapInit c (Heap4.boot next0 size0)).xBlockSize
          (Heap4.alignedHeap c).1 from rfl).trans (Heap4.prvHeapInit_size hw _)
      rw [hm0] at hmin
      exact ⟨hmin, hcnt⟩

/-- The statement of C17 on `demo` for the run from the state after the first allocation
over a second allocation and the release of the first, and for a third allocation and the
release of the second after it. -/
theorem C17_watermark_witness :
    Heap4.pvPortMalloc demo 1033 Heap4.demo3 40
      = Outcome.ok ((Heap4.pvPortMalloc demo 1033 Heap4.demo3 40).state Heap4.demo3) 4104 ∧
    Heap4.xPortGetMinimumEverFreeHeapSize
        ((Heap4.pvPortMalloc demo 1033 Heap4.demo3 40).state Heap4.demo3)
      = min (Heap4.xPortGetMinimumEverFreeHeapSize Heap4.demo3)
          (Heap4.xPortGetFreeHeapSize
            ((Heap4.pvPortMalloc demo 1033 Heap4.demo3 40).state Heap4.demo3)) ∧
    ((Heap4.pvPortMalloc demo 1033 Heap4.demo3 40).state
        Heap4.demo3).xNumberOfSuccessfulAllocations
      = Heap4.demo3.xNumberOfSuccessfulAllocations + 1 ∧
    Heap4.xPortGetMinimumEverFreeHeapSize Heap4.demo3
      ≤ Heap4.xPortGetMinimumEverFreeHeapSize Heap4.demo1 ∧
    Heap4.xPortGetMinimumEverFreeHeapSize Heap4.demo3
      ≤ Heap4.xPortGetFreeHeapSize Heap4.demo3 :=
  have h := C17_watermark demo_WF Heap4.reach_demo1 (show Heap4.demo1.pxEnd ≠ 0 by decide)
    (show Heap4.Run demo Heap4.demo1 [(4104, 56)] Heap4.demo3 [(4160, 56)] from
      Heap4.Run.free 1033 4104 56
        (show Heap4.Run demo Heap4.demo1 [(4104, 56)] Heap4.demo2 [(4160, 56), (4104, 56)] from
          Heap4.Run.malloc 1033 40 Heap4.Run.refl (by decide) Heap4.demo2_eq)
        (by decide) Heap4.demo3_eq)
  have k := h.1 1033 40 ((Heap4.pvPortMalloc demo 1033 Heap4.demo3 40).state Heap4.demo3) 4104
    rfl (by decide)
  ⟨rfl, k.1, k.2.2 (by decide), h.2.2.1, h.2.2.2.1⟩

namespace Heap4

variable {c : Config} {s s' : State} {bs : List Blk} {live : List (Nat × Nat)}

/-- The first free region of `heap_4.c` in terms of the specification: it starts at `base`
and, with its header, fits in the `usable` bytes. -/
theorem region_le_usable (hw : c.WF) :
    (alignedHeap c).1 = specBase c ∧
      endAddress c - (alignedHeap c).1 + xHeapStructSize c ≤ specUsable c := by
  have hA := hw.align_pos
  have hbig := hw.heap_big
  obtain ⟨b1, b2, b3, _⟩ := base_facts hw
  obtain ⟨e1, e2, e3⟩ := end_facts hw
  obtain ⟨q1, q2, q3⟩ := specRoundUp_ge hA c.ucHeap
  have hbase : (alignedHeap c).1 = specBase c := multiple_unique b1 q3 b2 b3 q1 q2
  refine ⟨hbase, ?_⟩
  unfold specUsable
  rw [← hbase]
  omega

/-- The adjusted size of a request that `pvPortMalloc` can serve is at least a header and
one alignment unit. -/
theorem adjust_ge (hw : c.WF) {n : Nat} (hpos : 0 < adjustWantedSize c n) :
    xHeapStructSize c + c.portBYTE_ALIGNMENT ≤ adjustWantedSize c n := by
  have hA := hw.align_pos
  have hle := Nat.mod_le n c.portBYTE_ALIGNMENT
  have hlt := Nat.mod_lt n hA
  rcases adjust_facts hw n with ⟨h0, _⟩ | ⟨_, h2, _⟩
  · omega
  · rw [h2]; omega

/-- In a configuration of `heap_4.c` whose first free region is smaller than a header and an
alignment unit, no `pvPortMalloc` returns a pointer. -/
theorem Reach.null_of_small (hw : c.WF)
    (hu : specUsable c < heapMINIMUM_BLOCK_SIZE c + c.portBYTE_ALIGNMENT)
    (hr : Reach c s live) {n fuel p : Nat} (hres : pvPortMalloc c fuel s n = Outcome.ok s' p) :
    p = 0 := by
  obtain ⟨bs, hinv, _⟩ := hr.initialised_inv hw
  rw [malloc_initialised hw] at hres
  rcases hinv.malloc_ok hw hres with ⟨_, hp, _⟩ | ⟨pre, b, post, hbs, hf, hwb, hpos, _⟩
  · exact hp
  · exfalso
    obtain ⟨_, _, hm3, hm4, _⟩ := size_lt_half hw hinv.tiled' (show b ∈ bs by rw [hbs]; simp)
    have hge := adjust_ge hw hpos
    have hmin := minBlock_eq hw
    obtain ⟨_, hreg⟩ := region_le_usable hw
    omega

end Heap4

theorem freeBlocks_append (l1 l2 : List Blk) :
    freeBlocks (l1 ++ l2) = freeBlocks l1 ++ freeBlocks l2 := by
  simp [freeBlocks]

/-- With at most one free region, the free bytes are `0` or the size of that region. -/
theorem freeSum_of_single {bs : List Blk} {w : Nat} (h1 : (freeBlocks bs).length ≤ 1)
    (h2 : ∀ b ∈ bs, b.free = true → b.size < w) : freeSum bs = 0 ∨ freeSum bs < w := by
  unfold freeSum
  cases hfb : freeBlocks bs with
  | nil => left; rfl
  | cons b l =>
    cases l with
    | nil =>
      right
      have hb : b ∈ freeBlocks bs := by rw [hfb]; exact List.mem_cons_self _ _
      have hb' := List.mem_filter.1 hb
      have := h2 b hb'.1 (by simpa using hb'.2)
      simpa using this
    | cons b' l' =>
      rw [hfb] at h1
      simp at h1

/-- Splitting the only free region, or taking it whole, leaves at most one free region in
`heap_4.c`. -/
theorem freeBlocks_coalesce_nil (x sz : Nat) (post : List Blk) (h : freeBlocks post = []) :
    (freeBlocks (coalesce [] x sz post)).length ≤ 1 := by
  cases post with
  | nil => simp [coalesce, freeBlocks]
  | cons g post' =>
    have hg : g.free = false := by
      cases hgf : g.free with
      | false => rfl
      | true => simp [freeBlocks, hgf] at h
    have h' : List.filter (fun b => b.free) post' = [] := by
      simpa [freeBlocks, hg] using h
    simp [coalesce, freeBlocks, hg, h']

theorem single_free_split {pre post : List Blk} {b : Blk} (hf : b.free = true)
    (h : (freeBlocks (pre ++ b :: post)).length ≤ 1) :
    freeBlocks pre = [] ∧ freeBlocks post = [] := by
  rw [freeBlocks_append] at h
  have hb : freeBlocks (b :: post) = b :: freeBlocks post := by simp [freeBlocks, hf]
  rw [hb, List.length_append, List.length_cons] at h
  constructor
  · exact List.eq_nil_of_length_eq_zero (by omega)
  · exact List.eq_nil_of_length_eq_zero (by omega)

namespace Heap4

variable {c : Config} {s s' : State} {bs : List Blk}

theorem allocAt_single {pre post : List Blk} {b : Blk} (w : Nat) (hf : b.free = true)
    (h : (freeBlocks (pre ++ b :: post)).length ≤ 1) :
    (freeBlocks (allocAt c w pre b post)).length ≤ 1 := by
  obtain ⟨h1, h2⟩ := single_free_split hf h
  unfold allocAt
  split
  · rw [freeBlocks_append, h1, List.nil_append]
    have := freeBlocks_coalesce_nil (b.addr + w) (b.size - w) post h2
    simpa [freeBlocks] using this
  · rw [freeBlocks_append, h1, List.nil_append]
    simp only [freeBlocks] at h2 ⊢
    simp [h2]

/-- A `pvPortMalloc( n )` of `heap_4.c` that returns `NULL` with at most one free region
leaves fewer free bytes than the request, a header and an alignment unit together. -/
theorem Inv.null_bound (hw : c.WF) (h : Inv c s bs) (h1 : (freeBlocks bs).length ≤ 1)
    {n : Nat} (hn : 0 < n)
    (hnull : ¬ (heapBLOCK_SIZE_IS_VALID c (adjustWantedSize c n) = true ∧
        (adjustWantedSize c n > 0 ∧ adjustWantedSize c n ≤ s.xFreeBytesRemaining)) ∨
      ∀ b ∈ bs, b.free = true → b.size < adjustWantedSize c n) :
    s.xFreeBytesRemaining < n + xHeapStructSize c + c.portBYTE_ALIGNMENT := by
  have hA := hw.align_pos
  have hfree := h.free_le
  have hg := geometry hw
  have hM := hw.wordMod_eq
  have hmod := Nat.mod_le n c.portBYTE_ALIGNMENT
  rcases adjust_facts hw n with ⟨h0, hz | hov⟩ | ⟨_, h2, h3⟩
  · omega
  · omega
  · have hpos : 0 < adjustWantedSize c n := by rw [h2]; omega
    have hadj := adjust_pos_facts hw hpos
    rcases hnull with hnull | hnull
    · by_cases hv : heapBLOCK_SIZE_IS_VALID c (adjustWantedSize c n) = true
      · have : ¬ adjustWantedSize c n ≤ s.xFreeBytesRemaining := fun hle =>
          hnull ⟨hv, hpos, hle⟩
        omega
      · have : ¬ adjustWantedSize c n < 2 ^ (c.bits - 1) := fun hlt =>
          hv ((hw.valid_iff hadj.2.2.2.1).2 hlt)
        omega
    · rcases freeSum_of_single h1 hnull with hs0 | hs0
      · rw [h.free_eq, hs0]; omega
      · rw [h.free_eq]; omega

/-- The calls of `pvPortMalloc( n )` of `heap_4.c` until the first `NULL`, from a state with
at most one free region: they end within as many calls as there are free bytes, and one
more, in a state with fewer free bytes than the request, a header and an alignment unit
together, in which `pvPortMalloc( n )` returns `NULL`. -/
theorem Inv.until_null (hw : c.WF) {n : Nat} (hn : 0 < n) {fuel : Nat}
    (hfuel : c.configTOTAL_HEAP_SIZE < fuel) (k : Nat) :
    ∀ (s : State) (bs : List Blk), Inv c s bs → (freeBlocks bs).length ≤ 1 →
      (∀ t, mallocUntilNull c fuel n k s = some t →
        t.xFreeBytesRemaining < n + xHeapStructSize c + c.portBYTE_ALIGNMENT ∧
          pvPortMalloc c fuel t n = Outcome.ok t 0) ∧
      (s.xFreeBytesRemaining < k → ∃ t, mallocUntilNull c fuel n k s = some t) := by
  induction k with
  | zero =>
    intro s bs _ _
    exact ⟨fun t ht => by simp [mallocUntilNull] at ht, fun hlt => absurd hlt (Nat.not_lt_zero _)⟩
  | succ k ih =>
    intro s bs h h1
    rcases h.malloc hw n hfuel with ⟨hres, hnull⟩ |
      ⟨pre, b, post, s', hbs, hf, hwb, hpos, _, hres, hinv', hfr, _⟩
    · have hstep : mallocUntilNull c fuel n (k + 1) s = some s := by
        simp [mallocUntilNull, hres]
      rw [hstep]
      refine ⟨fun t ht => ?_, fun _ => ⟨s, rfl⟩⟩
      injection ht with e
      rw [← e]
      exact ⟨h.null_bound hw h1 hn hnull, hres⟩
    · obtain ⟨_, _, _, hb4, hb5, hb6, _⟩ := h.free_block hw hbs hf
      have hg := geometry hw
      have hs := hs_facts hw
      have hp0 : b.addr + xHeapStructSize c ≠ 0 := by omega
      have hstep : mallocUntilNull c fuel n (k + 1) s = mallocUntilNull c fuel n k s' := by
        simp [mallocUntilNull, hres, hp0]
      rw [hstep]
      rw [hbs] at h1
      obtain ⟨i1, i2⟩ := ih s' _ hinv' (allocAt_single _ hf h1)
      refine ⟨i1, fun hlt => i2 ?_⟩
      have hge := le_allocSize (c := c) hwb
      have hfree : b.size ≤ s.xFreeBytesRemaining := by
        rw [h.free_eq, hbs]
        exact size_le_freeSum (by simp) hf
      have hle : allocSize c (adjustWantedSize c n) b ≤ b.size := by
        unfold allocSize; split <;> omega
      omega

/-- The first call of `pvPortMalloc` sets the heap up, so the calls until the first `NULL`
are those from the state that is set up. -/
theorem until_null_initialised (hw : c.WF) (fuel n k : Nat) (s : State) :
    mallocUntilNull c fuel n k s = mallocUntilNull c fuel n k (initialised c s) := by
  cases k with
  | zero => rfl
  | succ k => simp only [mallocUntilNull, ← malloc_initialised hw]

end Heap4

namespace Heap2

variable {c : Config} {s s' : State} {bs : List Blk} {fl : List Nat}

theorem allocAt_single2 {pre post : List Blk} {b : Blk} (w : Nat) (hf : b.free = true)
    (h : (freeBlocks (pre ++ b :: post)).length ≤ 1) :
    (freeBlocks (allocAt c w pre b post)).length ≤ 1 := by
  obtain ⟨h1, h2⟩ := single_free_split hf h
  unfold allocAt
  split
  · rw [freeBlocks_append, h1, List.nil_append]
    simp only [freeBlocks] at h2 ⊢
    simp [h2]
  · rw [freeBlocks_append, h1, List.nil_append]
    simp only [freeBlocks] at h2 ⊢
    simp [h2]

/-- A `pvPortMalloc( n )` of `heap_2.c` that returns `NULL` with at most one free region
leaves fewer free bytes than the request, a header and an alignment unit together. -/
theorem Inv.null_bound2 (hw : c.WF) (h : Inv c s bs fl) (h1 : (freeBlocks bs).length ≤ 1)
    {n : Nat} (hn : 0 < n)
    (hnull : ¬ (heapBLOCK_SIZE_IS_VALID c (adjustWantedSize c n) = true ∧
        (adjustWantedSize c n > 0 ∧ adjustWantedSize c n ≤ s.xFreeBytesRemaining)) ∨
      ∀ b ∈ bs, b.free = true → b.size < adjustWantedSize c n) :
    s.xFreeBytesRemaining < n + heapSTRUCT_SIZE c + c.portBYTE_ALIGNMENT := by
  have hA := hw.align_pos
  have hfree := h.free_le2
  have hg := geometry2 hw
  have hM := hw.wordMod_eq
  have hmod := Nat.mod_le n c.portBYTE_ALIGNMENT
  rcases adjust_facts2 hw n with ⟨h0, hz | hov⟩ | ⟨_, h2, h3⟩
  · omega
  · omega
  · have hpos : 0 < adjustWantedSize c n := by rw [h2]; omega
    have hadj := adjust_pos_facts2 hw hpos
    rcases hnull with hnull | hnull
    · by_cases hv : heapBLOCK_SIZE_IS_VALID c (adjustWantedSize c n) = true
      · have : ¬ adjustWantedSize c n ≤ s.xFreeBytesRemaining := fun hle =>
          hnull ⟨hv, hpos, hle⟩
        omega
      · have : ¬ adjustWantedSize c n < 2 ^ (c.bits - 1) := fun hlt =>
          hv ((hw.valid_iff hadj.2.2.2.1).2 hlt)
        omega
    · rcases freeSum_of_single h1 hnull with hs0 | hs0
      · rw [h.free_eq, hs0]; omega
      · rw [h.free_eq]; omega

/-- The calls of `pvPortMalloc( n )` of `heap_2.c` until the first `NULL`, from a state with
at most one free region: they end within as many calls as there are free bytes, and one
more, in a state with fewer free bytes than the request, a header and an alignment unit
together, in which `pvPortMalloc( n )` returns `NULL`. -/
theorem Inv.until_null2 (hw : c.WF) {n : Nat} (hn : 0 < n) {fuel : Nat}
    (hfuel : c.configTOTAL_HEAP_SIZE < fuel) (k : Nat) :
    ∀ (s : State) (bs : List Blk) (fl : List Nat), Inv c s bs fl →
      (freeBlocks bs).length ≤ 1 →
      (∀ t, mallocUntilNull c fuel n k s = some t →
        t.xFreeBytesRemaining < n + heapSTRUCT_SIZE c + c.portBYTE_ALIGNMENT ∧
          pvPortMalloc c fuel t n = Outcome.ok t 0) ∧
      (s.xFreeBytesRemaining < k → ∃ t, mallocUntilNull c fuel n k s = some t) := by
  induction k with
  | zero =>
    intro s bs fl _ _
    exact ⟨fun t ht => by simp [mallocUntilNull] at ht, fun hlt => absurd hlt (Nat.not_lt_zero _)⟩
  | succ k ih =>
    intro s bs fl h h1
    rcases h.malloc2 hw n hfuel with ⟨hres, hnull⟩ |
      ⟨pre, b, post, s', fl', hbs, hf, hwb, hpos, hres, hinv', hfr, _⟩
    · have hstep : mallocUntilNull c fuel n (k + 1) s = some s := by
        simp [mallocUntilNull, hres]
      rw [hstep]
      refine ⟨fun t ht => ?_, fun _ => ⟨s, rfl⟩⟩
      injection ht with e
      rw [← e]
      exact ⟨h.null_bound2 hw h1 hn hnull, hres⟩
    · obtain ⟨_, _, _, hb4, hb5, hb6, _⟩ := h.free_block2 hw hbs hf
      have hg := geometry2 hw
      have hs := hs_facts2 hw
      have hpos' := hw.heap_pos
      have hp0 : b.addr + heapSTRUCT_SIZE c ≠ 0 := by omega
      have hstep : mallocUntilNull c fuel n (k + 1) s = mallocUntilNull c fuel n k s' := by
        simp [mallocUntilNull, hres, hp0]
      rw [hstep]
      rw [hbs] at h1
      obtain ⟨i1, i2⟩ := ih s' _ fl' hinv' (allocAt_single2 _ hf h1)
      refine ⟨i1, fun hlt => i2 ?_⟩
      have hge := le_allocSize2 (c := c) hwb
      have hfree : b.size ≤ s.xFreeBytesRemaining := by
        rw [h.free_eq, hbs]
        exact size_le_freeSum (by simp) hf
      have hle : allocSize c (adjustWantedSize c n) b ≤ b.size := by
        unfold allocSize; split <;> omega
      omega

/-- The first call of `pvPortMalloc` sets the heap up, so the calls until the first `NULL`
are those from the state that is set up. -/
theorem until_null_initialised2 (fuel n k : Nat) (s : State) :
    mallocUntilNull c fuel n k s = mallocUntilNull c fuel n k (initialised c s) := by
  cases k with
  | zero => rfl
  | succ k => simp only [mallocUntilNull, ← malloc_initialised2]

end Heap2

/-- C20: in `heap_4.c` and `heap_2.c`, for every request `n > 0`, calling `pvPortMalloc( n )`
again and again from program start, with fuel above the heap size, comes to a call that
returns `NULL`, and in the state that this call leaves `xPortGetFreeHeapSize` returns less
than `n + HEADER + portBYTE_ALIGNMENT`, `HEADER` being `xHeapStructSize` in `heap_4.c` and
`heapSTRUCT_SIZE` in `heap_2.c`; in that state `pvPortMalloc( n )` returns `NULL` again and
changes nothing. -/
theorem C20_exhaustion_bound {c : Config} (hw : c.WF) {n : Nat} (hn : 0 < n) {fuel : Nat}
    (hfuel : c.configTOTAL_HEAP_SIZE < fuel) (next0 size0 : Nat → Nat) :
    (∃ k t, Heap4.mallocUntilNull c fuel n k (Heap4.boot next0 size0) = some t) ∧
    (∀ k t, Heap4.mallocUntilNull c fuel n k (Heap4.boot next0 size0) = some t →
      Heap4.xPortGetFreeHeapSize t < n + Heap4.xHeapStructSize c + c.portBYTE_ALIGNMENT ∧
      Heap4.pvPortMalloc c fuel t n = Outcome.ok t 0) ∧
    (∃ k t, Heap2.mallocUntilNull c fuel n k (Heap2.boot c next0 size0) = some t) ∧
    (∀ k t, Heap2.mallocUntilNull c fuel n k (Heap2.boot c next0 size0) = some t →
      Heap2.xPortGetFreeHeapSize t < n + Heap2.heapSTRUCT_SIZE c + c.portBYTE_ALIGNMENT ∧
      Heap2.pvPortMalloc c fuel t n = Outcome.ok t 0) := by
  have h4 : Heap4.Inv c (Heap4.initialised c (Heap4.boot next0 size0))
      [⟨(Heap4.alignedHeap c).1, Heap4.endAddress c - (Heap4.alignedHeap c).1, true⟩] :=
    Heap4.prvHeapInit_inv hw _
  have h2 : Heap2.Inv c (Heap2.initialised c (Heap2.boot c next0 size0))
      [⟨Heap2.alignedHeap c, Heap2.configADJUSTED_HEAP_SIZE c, true⟩] [Heap2.alignedHeap c] :=
    Heap2.prvHeapInit_inv2 hw _ rfl
  have hone4 : (freeBlocks
      [⟨(Heap4.alignedHeap c).1, Heap4.endAddress c - (Heap4.alignedHeap c).1, true⟩]).length
      ≤ 1 := by simp [freeBlocks]
  have hone2 : (freeBlocks
      [⟨Heap2.alignedHeap c, Heap2.configADJUSTED_HEAP_SIZE c, true⟩]).length ≤ 1 := by
    simp [freeBlocks]
  refine ⟨?_, ?_, ?_, ?_⟩
  · obtain ⟨t, ht⟩ := (Heap4.Inv.until_null hw hn hfuel _ _ _ h4 hone4).2 (Nat.lt_succ_self _)
    exact ⟨_, t, by rw [Heap4.until_null_initialised hw]; exact ht⟩
  · intro k t ht
    rw [Heap4.until_null_initialised hw] at ht
    exact (Heap4.Inv.until_null hw hn hfuel k _ _ h4 hone4).1 t ht
  · obtain ⟨t, ht⟩ := (Heap2.Inv.until_null2 hw hn hfuel _ _ _ _ h2 hone2).2
      (Nat.lt_succ_self _)
    exact ⟨_, t, by rw [Heap2.until_null_initialised2]; exact ht⟩
  · intro k t ht
    rw [Heap2.until_null_initialised2] at ht
    exact (Heap2.Inv.until_null2 hw hn hfuel k _ _ _ h2 hone2).1 t ht

/-- The statement of C20 on `demo` for requests of 100 bytes: the tenth call returns `NULL`
and leaves no free byte, in `heap_4.c` and in `heap_2.c`. -/
theorem C20_exhaustion_bound_witness :
    Heap4.mallocUntilNull demo 1033 100 10 Heap4.demoBoot = some Heap4.demoFull ∧
    Heap2.mallocUntilNull demo 1033 100 10 Heap2.demoBoot = some Heap2.demoFull ∧
    Heap4.xPortGetFreeHeapSize Heap4.demoFull
      < 100 + Heap4.xHeapStructSize demo + demo.portBYTE_ALIGNMENT ∧
    Heap2.xPortGetFreeHeapSize Heap2.demoFull
      < 100 + Heap2.heapSTRUCT_SIZE demo + demo.portBYTE_ALIGNMENT ∧
    Heap4.xPortGetFreeHeapSize Heap4.demoFull = 0 ∧
    Heap2.xPortGetFreeHeapSize Heap2.demoFull = 0 :=
  have h := C20_exhaustion_bound demo_WF (show 0 < 100 by decide) demo_fuel
    (fun _ => 0) (fun _ => 0)
  ⟨rfl, rfl, (h.2.1 10 Heap4.demoFull rfl).1, (h.2.2.2 10 Heap2.demoFull rfl).1,
    by decide, by decide⟩

/-! ### The regions are determined by the headers -/

/-- Two tilings of the same range whose regions agree with the same size fields are the same
tiling: the size field at the start of a region gives its size and whether it is free. -/
theorem tiled_unique {size : Nat → Nat} {M : Nat} {bs bs' : List Blk} {lo hi : Nat}
    (h : Tiled lo bs hi) (h' : Tiled lo bs' hi)
    (hs : ∀ b ∈ bs, size b.addr = if b.free then b.size else b.size + M)
    (hs' : ∀ b ∈ bs', size b.addr = if b.free then b.size else b.size + M)
    (hM : ∀ b ∈ bs, b.size < M) (hM' : ∀ b ∈ bs', b.size < M) : bs = bs' := by
  induction bs generalizing lo bs' with
  | nil =>
    cases bs' with
    | nil => rfl
    | cons b' t' =>
      exfalso
      have h0 : lo = hi := h
      obtain ⟨_, h2, h3⟩ := h'
      have := tiled_le h3
      omega
  | cons b t ih =>
    cases bs' with
    | nil =>
      exfalso
      have h0 : lo = hi := h'
      obtain ⟨_, h2, h3⟩ := h
      have := tiled_le h3
      omega
    | cons b' t' =>
      obtain ⟨a1, a2, a3⟩ := h
      obtain ⟨b1, b2, b3⟩ := h'
      have e1 := hs b (List.mem_cons_self _ _)
      have e2 := hs' b' (List.mem_cons_self _ _)
      have m1 := hM b (List.mem_cons_self _ _)
      have m2 := hM' b' (List.mem_cons_self _ _)
      rw [a1] at e1
      rw [b1] at e2
      have hb : b = b' := by
        cases b with
        | mk ba bz bf =>
          cases b' with
          | mk ba' bz' bf' =>
            simp only at a1 b1 e1 e2 m1 m2
            cases bf <;> cases bf' <;> simp at e1 e2 <;> simp <;> omega
      subst hb
      have ht : t = t' := ih a3 b3 (fun x hx => hs x (List.mem_cons_of_mem _ hx))
        (fun x hx => hs' x (List.mem_cons_of_mem _ hx))
        (fun x hx => hM x (List.mem_cons_of_mem _ hx))
        (fun x hx => hM' x (List.mem_cons_of_mem _ hx))
      rw [ht]

/-- The sizes of the regions of a tiling with aligned region starts and an aligned end are
multiples of the alignment. -/
theorem tiled_size_mod {A : Nat} {bs : List Blk} {lo hi : Nat} (h : Tiled lo bs hi)
    (ha : ∀ b ∈ bs, b.addr % A = 0) (hhi : hi % A = 0) : ∀ b ∈ bs, b.size % A = 0 := by
  induction bs generalizing lo with
  | nil => intro b hb; exact absurd hb (List.not_mem_nil b)
  | cons x t ih =>
    obtain ⟨h1, h2, h3⟩ := h
    intro b hb
    rcases List.mem_cons.1 hb with rfl | hb
    · have hx := ha b (List.mem_cons_self _ _)
      have hnext : (b.addr + b.size) % A = 0 := by
        rw [h1]
        cases t with
        | nil =>
          have : lo + b.size = hi := h3
          rw [this]; exact hhi
        | cons y t' =>
          rw [← h3.1]
          exact ha y (List.mem_cons_of_mem _ (List.mem_cons_self _ _))
      have := Nat.sub_mod_eq_zero_of_mod_eq (show (b.addr + b.size) % A = b.addr % A by
        rw [hnext, hx])
      rwa [Nat.add_sub_cancel_left] at this
    · exact ih h3 (fun y hy => ha y (List.mem_cons_of_mem _ hy)) b hb

/-! ### No two free regions follow one another -/

theorem noAdj_replace_last {pre : List Blk} {b u : Blk} (hu : u.free = false)
    (h : NoAdj (pre ++ [b])) : NoAdj (pre ++ [u]) := by
  unfold NoAdj at h ⊢
  rw [List.chain'_append] at h ⊢
  refine ⟨h.1, List.chain'_singleton _, ?_⟩
  intro x _ y hy
  simp only [List.head?_cons, Option.mem_def, Option.some.injEq] at hy
  subst hy
  exact Or.inr hu

theorem noAdj_coalesce_nil (y n : Nat) {post : List Blk} (h : NoAdj post) :
    NoAdj (coalesce [] y n post) := by
  unfold NoAdj at h ⊢
  rw [coalesce_front_nil]
  cases post with
  | nil => exact List.chain'_singleton _
  | cons g post' =>
    cases hg : g.free
    · simp only [hg, Bool.false_eq_true, if_false]
      exact List.chain'_cons'.2 ⟨fun z hz => by
        simp only [List.head?_cons, Option.mem_def, Option.some.injEq] at hz
        subst hz; exact Or.inr hg, h⟩
    · simp only [hg, if_true]
      obtain ⟨h1, h2⟩ := List.chain'_cons'.1 h
      refine List.chain'_cons'.2 ⟨fun z hz => ?_, h2⟩
      rcases h1 z hz with h3 | h3
      · rw [hg] at h3; exact absurd h3 (by simp)
      · exact Or.inr h3

theorem noAdj_cons_used {u : Blk} {l : List Blk} (hu : u.free = false) (h : NoAdj l) :
    NoAdj (u :: l) :=
  List.chain'_cons'.2 ⟨fun _ _ => Or.inl hu, h⟩

/-- Freeing a region and merging it with its free neighbours leaves no two free regions
that follow one another. -/
theorem noAdj_coalesce {pre post : List Blk} {x sz : Nat}
    (h : NoAdj (pre ++ ⟨x, sz, false⟩ :: post)) : NoAdj (coalesce pre x sz post) := by
  have hsp := List.chain'_split.1 h
  have hpost : NoAdj post := (List.chain'_cons'.1 hsp.2).2
  rcases List.eq_nil_or_concat pre with rfl | ⟨pre', f, rfl⟩
  · exact noAdj_coalesce_nil x sz hpost
  · rw [List.concat_eq_append] at h hsp ⊢
    have hpf : NoAdj (pre' ++ [f]) := by
      have := (List.chain'_append.1 hsp.1).1
      exact this
    cases hf : f.free
    · rw [coalesce_front_used pre' hf]
      exact List.chain'_split.2 ⟨hpf, noAdj_cons_used hf (noAdj_coalesce_nil x sz hpost)⟩
    · rw [coalesce_front_free pre' hf]
      have hp' := List.chain'_append.1 hpf
      refine List.chain'_append.2 ⟨hp'.1, noAdj_coalesce_nil _ _ hpost, ?_⟩
      intro a ha y _
      rcases hp'.2.2 a ha f (by simp) with h3 | h3
      · exact Or.inl h3
      · rw [hf] at h3; exact absurd h3 (by simp)

/-- The regions of `coalesce` are regions of `pre`, regions of `post`, or at least as large
as the region freed. -/
theorem coalesce_mem_size {pre post : List Blk} {x sz : Nat} {y : Blk}
    (hy : y ∈ coalesce pre x sz post) : y ∈ pre ∨ y ∈ post ∨ sz ≤ y.size := by
  have hnil : ∀ (a n : Nat), y ∈ coalesce [] a n post → y ∈ post ∨ n ≤ y.size := by
    intro a n hy
    rw [coalesce_front_nil] at hy
    cases post with
    | nil =>
      simp only [List.mem_singleton] at hy
      right; rw [hy]
    | cons g post' =>
      cases hg : g.free
      · simp only [hg, Bool.false_eq_true, if_false, List.mem_cons] at hy
        rcases hy with hy | hy | hy
        · right; rw [hy]
        · left; rw [hy]; exact List.mem_cons_self _ _
        · left; exact List.mem_cons_of_mem _ hy
      · simp only [hg, if_true, List.mem_cons] at hy
        rcases hy with hy | hy
        · right; rw [hy]; show n ≤ n + g.size; omega
        · left; exact List.mem_cons_of_mem _ hy
  rcases List.eq_nil_or_concat pre with rfl | ⟨pre', f, rfl⟩
  · exact Or.inr (hnil x sz hy)
  · rw [List.concat_eq_append] at hy ⊢
    cases hf : f.free
    · rw [coalesce_front_used pre' hf] at hy
      rcases List.mem_append.1 hy with h1 | h1
      · exact Or.inl (List.mem_append_left _ h1)
      · rcases List.mem_cons.1 h1 with h2 | h2
        · left; rw [h2]; simp
        · exact Or.inr (hnil x sz h2)
    · rw [coalesce_front_free pre' hf] at hy
      rcases List.mem_append.1 hy with h1 | h1
      · exact Or.inl (List.mem_append_left _ h1)
      · rcases hnil f.addr (f.size + sz) h1 with h2 | h2
        · exact Or.inr (Or.inl h2)
        · right; right; omega

namespace Heap4

variable {c : Config} {s s' : State} {bs bs' : List Blk} {live : List (Nat × Nat)}

/-- The regions of `heap_4.c` are determined by the state. -/
theorem Inv.unique (hw : c.WF) (h : Inv c s bs) (h' : Inv c s bs') : bs = bs' :=
  tiled_unique h.tiled' h'.tiled' h.sizes h'.sizes
    (fun b hb => by rw [hw.bitmask_eq]; exact (size_lt_half hw h.tiled' hb).1)
    (fun b hb => by rw [hw.bitmask_eq]; exact (size_lt_half hw h'.tiled' hb).1)

/-- The region sizes of `heap_4.c` are multiples of the alignment. -/
theorem Inv.size_mod (hw : c.WF) (h : Inv c s bs) :
    ∀ b ∈ bs, b.size % c.portBYTE_ALIGNMENT = 0 :=
  tiled_size_mod h.tiled' h.aligned (end_facts hw).1

/-- The header size is at least the alignment. -/
theorem hs_ge_align (hw : c.WF) : c.portBYTE_ALIGNMENT ≤ xHeapStructSize c := by
  obtain ⟨h1, h2, _⟩ := hs_facts hw
  have hl := hw.link_pos
  exact Nat.le_of_dvd (by omega) (Nat.dvd_of_mod_eq_zero h1)

/-- Taking a free region, whole or split, leaves no two free regions that follow one
another. -/
theorem noAdj_allocAt (w : Nat) {pre post : List Blk} {b : Blk}
    (h : NoAdj (pre ++ b :: post)) : NoAdj (allocAt c w pre b post) := by
  have hsp := List.chain'_split.1 h
  obtain ⟨hhead, hpost⟩ := List.chain'_cons'.1 hsp.2
  unfold allocAt
  split
  · refine List.chain'_split.2 ⟨noAdj_replace_last rfl hsp.1, ?_⟩
    exact noAdj_cons_used rfl (noAdj_coalesce_nil _ _ hpost)
  · refine List.chain'_split.2 ⟨noAdj_replace_last rfl hsp.1, ?_⟩
    exact noAdj_cons_used rfl hpost

/-- With no free region behind it, the rest of a split region is not merged. -/
theorem allocAt_noAdj_eq (w : Nat) {pre post : List Blk} {b : Blk} (hf : b.free = true)
    (h : NoAdj (pre ++ b :: post)) (hsp : b.size - w > heapMINIMUM_BLOCK_SIZE c) :
    allocAt c w pre b post
      = pre ++ ⟨b.addr, w, false⟩ :: ⟨b.addr + w, b.size - w, true⟩ :: post := by
  have hs := List.chain'_split.1 h
  obtain ⟨hhead, _⟩ := List.chain'_cons'.1 hs.2
  unfold allocAt
  rw [if_pos hsp, coalesce_front_nil]
  cases post with
  | nil => rfl
  | cons g post' =>
    have hg : g.free = false := by
      rcases hhead g (by simp) with h1 | h1
      · rw [hf] at h1; exact absurd h1 (by simp)
      · exact h1
    simp only [hg, Bool.false_eq_true, if_false]

/-- The regions after an allocation are regions from before, the region allocated, or the
rest of a split, which is larger than the minimum block size. -/
theorem allocAt_mem_size (w : Nat) {pre post : List Blk} {b y : Blk}
    (hy : y ∈ allocAt c w pre b post) :
    y ∈ pre ∨ y ∈ post ∨ y.size = allocSize c w b ∨
      heapMINIMUM_BLOCK_SIZE c < y.size := by
  unfold allocAt at hy
  unfold allocSize
  by_cases hsp : b.size - w > heapMINIMUM_BLOCK_SIZE c
  · rw [if_pos hsp] at hy
    rw [if_pos hsp]
    rcases List.mem_append.1 hy with h1 | h1
    · exact Or.inl h1
    · rcases List.mem_cons.1 h1 with h2 | h2
      · right; right; left; rw [h2]
      · rcases coalesce_mem_size h2 with h3 | h3 | h3
        · exact absurd h3 (List.not_mem_nil y)
        · exact Or.inr (Or.inl h3)
        · right; right; right; omega
  · rw [if_neg hsp] at hy
    rw [if_neg hsp]
    rcases List.mem_append.1 hy with h1 | h1
    · exact Or.inl h1
    · rcases List.mem_cons.1 h1 with h2 | h2
      · right; right; left; rw [h2]
      · exact Or.inr (Or.inl h2)

/-- Every reachable state of `heap_4.c` in which the heap is set up satisfies the invariant
for regions of which no two free ones follow one another and each of which is at least as
large as the smaller of the first free region and a header with an alignment unit. -/
theorem Reach.strong (hw : c.WF) (hr : Reach c s live) :
    ((∃ next0 size0, s = Heap4.boot next0 size0) ∧ live = []) ∨
      ∃ bs, Inv c s bs ∧ LiveOK (xHeapStructSize c) bs live ∧ NoAdj bs ∧
        ∀ b ∈ bs, min (endAddress c - (alignedHeap c).1)
          (xHeapStructSize c + c.portBYTE_ALIGNMENT) ≤ b.size := by
  have hinit : NoAdj [⟨(alignedHeap c).1, endAddress c - (alignedHeap c).1, true⟩] ∧
      ∀ b ∈ [(⟨(alignedHeap c).1, endAddress c - (alignedHeap c).1, true⟩ : Blk)],
        min (endAddress c - (alignedHeap c).1)
          (xHeapStructSize c + c.portBYTE_ALIGNMENT) ≤ b.size := by
    refine ⟨List.chain'_singleton _, ?_⟩
    intro b hb
    rw [List.mem_singleton.1 hb]
    exact Nat.min_le_left _ _
  have hstep : ∀ {s0 s1 : State} {bs0 : List Blk} {l0 : List (Nat × Nat)} {fuel n p : Nat},
      Inv c s0 bs0 → LiveOK (xHeapStructSize c) bs0 l0 → NoAdj bs0 →
      (∀ b ∈ bs0, min (endAddress c - (alignedHeap c).1)
          (xHeapStructSize c + c.portBYTE_ALIGNMENT) ≤ b.size) →
      pvPortMalloc c fuel s0 n = Outcome.ok s1 p →
      ∃ bs1, Inv c s1 bs1 ∧
        LiveOK (xHeapStructSize c) bs1 (if p = 0 then l0 else (p, regionSize c s1 p) :: l0) ∧
        NoAdj bs1 ∧ ∀ b ∈ bs1, min (endAddress c - (alignedHeap c).1)
          (xHeapStructSize c + c.portBYTE_ALIGNMENT) ≤ b.size := by
    intro s0 s1 bs0 l0 fuel n p hinv hl hna hlow hres
    obtain ⟨bs1, hinv1, hl1⟩ := hinv.malloc_live hw hl hres
    rcases hinv.malloc_ok hw hres with ⟨h1, _, _⟩ |
      ⟨pre, b, post, hbs, hf, hwb, hpos, _, hinv', _⟩
    · rw [h1] at hinv1
      have := hinv1.unique hw hinv
      subst this
      exact ⟨_, by rw [h1]; exact hinv, hl1, hna, hlow⟩
    · have := hinv1.unique hw hinv'
      subst this
      rw [hbs] at hna hlow
      refine ⟨_, hinv', hl1, noAdj_allocAt _ hna, ?_⟩
      intro y hy
      have hge := adjust_ge hw hpos
      have hmin := minBlock_eq hw
      have hsa := hs_ge_align hw
      have hlb := hlow b (by simp)
      rcases allocAt_mem_size _ hy with h3 | h3 | h3 | h3
      · exact hlow y (List.mem_append_left _ h3)
      · exact hlow y (List.mem_append_right _ (List.mem_cons_of_mem _ h3))
      · rw [h3]
        unfold allocSize
        split <;> omega
      · omega
  induction hr with
  | boot next0 size0 => exact Or.inl ⟨⟨next0, size0, rfl⟩, rfl⟩
  | malloc fuel n _ hn hres ih =>
    right
    rcases ih with ⟨⟨next0, size0, rfl⟩, rfl⟩ | ⟨bs, hinv, hl, hna, hlow⟩
    · rw [malloc_boot hw rfl] at hres
      exact hstep (prvHeapInit_inv hw _) (fun p d => by simp) hinit.1 hinit.2 hres
    · exact hstep hinv hl hna hlow hres
  | free fuel p d _ hp hres ih =>
    right
    rcases ih with ⟨_, rfl⟩ | ⟨bs, hinv, hl, hna, hlow⟩
    · exact absurd hp (List.not_mem_nil _)
    · obtain ⟨bs1, hinv1, hl1⟩ := hinv.free_live hw hl hp hres
      obtain ⟨pre, post, hbs, hinv', _⟩ := (hinv.free_ok hw hl hp).2 fuel _ hres
      have := hinv1.unique hw hinv'
      subst this
      rw [hbs] at hna hlow
      refine ⟨_, hinv', hl1, noAdj_coalesce hna, ?_⟩
      intro y hy
      rcases coalesce_mem_size hy with h3 | h3 | h3
      · exact hlow y (List.mem_append_left _ h3)
      · exact hlow y (List.mem_append_right _ (List.mem_cons_of_mem _ h3))
      · have := hlow ⟨wsub c p (xHeapStructSize c), d, false⟩ (by simp)
        have e : (⟨wsub c p (xHeapStructSize c), d, false⟩ : Blk).size = d := rfl
        omega

/-- A reachable state of `heap_4.c` that is set up, with the regions of `Reach.strong`. -/
theorem Reach.strong_of_init (hw : c.WF) (hr : Reach c s live) (hi : s.pxEnd ≠ 0) :
    ∃ bs, Inv c s bs ∧ LiveOK (xHeapStructSize c) bs live ∧ NoAdj bs ∧
      ∀ b ∈ bs, min (endAddress c - (alignedHeap c).1)
        (xHeapStructSize c + c.portBYTE_ALIGNMENT) ≤ b.size := by
  rcases hr.strong hw with ⟨⟨next0, size0, rfl⟩, _⟩ | h
  · exact absurd rfl hi
  · exact h

end Heap4

namespace Heap2

variable {c : Config} {s s' : State} {bs bs' : List Blk} {fl fl' : List Nat}
  {live : List (Nat × Nat)}

/-- The regions of `heap_2.c` are determined by the state. -/
theorem Inv.unique2 (hw : c.WF) (h : Inv c s bs fl) (h' : Inv c s bs' fl') : bs = bs' :=
  tiled_unique h.tiled h'.tiled h.sizes h'.sizes
    (fun b hb => by rw [hw.bitmask_eq]; exact (size_lt_half2 hw h.tiled hb).1)
    (fun b hb => by rw [hw.bitmask_eq]; exact (size_lt_half2 hw h'.tiled hb).1)

/-- The header size is at least the alignment. -/
theorem hs_ge_align2 (hw : c.WF) : c.portBYTE_ALIGNMENT ≤ heapSTRUCT_SIZE c := by
  obtain ⟨h1, h2, _⟩ := hs_facts2 hw
  have hl := hw.link_pos
  exact Nat.le_of_dvd (by omega) (Nat.dvd_of_mod_eq_zero h1)

/-- The adjusted size of a request that `pvPortMalloc` can serve is at least a header and
one alignment unit. -/
theorem adjust_ge2 (hw : c.WF) {n : Nat} (hpos : 0 < adjustWantedSize c n) :
    heapSTRUCT_SIZE c + c.portBYTE_ALIGNMENT ≤ adjustWantedSize c n := by
  have hA := hw.align_pos
  have hle := Nat.mod_le n c.portBYTE_ALIGNMENT
  have hlt := Nat.mod_lt n hA
  rcases adjust_facts2 hw n with ⟨h0, _⟩ | ⟨_, h2, _⟩
  · omega
  · rw [h2]; omega

/-- The regions after an allocation are regions from before, the region allocated, or the
rest of a split, which is larger than the minimum block size. -/
theorem allocAt_mem_size2 (w : Nat) {pre post : List Blk} {b y : Blk}
    (hy : y ∈ allocAt c w pre b post) :
    y ∈ pre ∨ y ∈ post ∨ y.size = allocSize c w b ∨
      heapMINIMUM_BLOCK_SIZE c < y.size := by
  unfold allocAt at hy
  unfold allocSize
  by_cases hsp : b.size - w > heapMINIMUM_BLOCK_SIZE c
  · rw [if_pos hsp] at hy
    rw [if_pos hsp]
    rcases List.mem_append.1 hy with h1 | h1
    · exact Or.inl h1
    · rcases List.mem_cons.1 h1 with h2 | h2
      · right; right; left; rw [h2]
      · rcases List.mem_cons.1 h2 with h3 | h3
        · right; right; right; rw [h3]; exact hsp
        · exact Or.inr (Or.inl h3)
  · rw [if_neg hsp] at hy
    rw [if_neg hsp]
    rcases List.mem_append.1 hy with h1 | h1
    · exact Or.inl h1
    · rcases List.mem_cons.1 h1 with h2 | h2
      · right; right; left; rw [h2]
      · exact Or.inr (Or.inl h2)

/-- Every reachable state of `heap_2.c` in which the heap is set up satisfies the invariant
for regions each of which is at least as large as a header with an alignment unit. -/
theorem Reach.strong2 (hw : c.WF) (hr : Reach c s live) :
    ((∃ next0 size0, s = Heap2.boot c next0 size0) ∧ live = []) ∨
      ∃ bs fl, Inv c s bs fl ∧ LiveOK (heapSTRUCT_SIZE c) bs live ∧
        ∀ b ∈ bs, heapSTRUCT_SIZE c + c.portBYTE_ALIGNMENT ≤ b.size := by
  have hinit : ∀ b ∈ [(⟨alignedHeap c, configADJUSTED_HEAP_SIZE c, true⟩ : Blk)],
      heapSTRUCT_SIZE c + c.portBYTE_ALIGNMENT ≤ b.size := by
    intro b hb
    rw [List.mem_singleton.1 hb]
    have := hs_facts2 hw
    have := adjusted_eq2 hw
    have := hw.heap_big
    show heapSTRUCT_SIZE c + c.portBYTE_ALIGNMENT ≤ configADJUSTED_HEAP_SIZE c
    omega
  have hstep : ∀ {s0 s1 : State} {bs0 : List Blk} {fl0 : List Nat} {l0 : List (Nat × Nat)}
      {fuel n p : Nat},
      Inv c s0 bs0 fl0 → LiveOK (heapSTRUCT_SIZE c) bs0 l0 →
      (∀ b ∈ bs0, heapSTRUCT_SIZE c + c.portBYTE_ALIGNMENT ≤ b.size) →
      pvPortMalloc c fuel s0 n = Outcome.ok s1 p →
      ∃ bs1 fl1, Inv c s1 bs1 fl1 ∧
        LiveOK (heapSTRUCT_SIZE c) bs1 (if p = 0 then l0 else (p, regionSize c s1 p) :: l0) ∧
        ∀ b ∈ bs1, heapSTRUCT_SIZE c + c.portBYTE_ALIGNMENT ≤ b.size := by
    intro s0 s1 bs0 fl0 l0 fuel n p hinv hl hlow hres
    obtain ⟨bs1, fl1, hinv1, hl1⟩ := hinv.malloc_live2 hw hl hres
    rcases hinv.malloc_ok2 hw hres with ⟨h1, _, _⟩ |
      ⟨pre, b, post, fl', hbs, hf, hwb, hpos, _, hinv', _⟩
    · rw [h1] at hinv1
      have := hinv1.unique2 hw hinv
      subst this
      exact ⟨_, _, by rw [h1]; exact hinv, hl1, hlow⟩
    · have := hinv1.unique2 hw hinv'
      subst this
      rw [hbs] at hlow
      refine ⟨_, _, hinv', hl1, ?_⟩
      intro y hy
      have hge := adjust_ge2 hw hpos
      have hmin := minBlock_eq2 hw
      have hsa := hs_ge_align2 hw
      have hlb := hlow b (by simp)
      rcases allocAt_mem_size2 _ hy with h3 | h3 | h3 | h3
      · exact hlow y (List.mem_append_left _ h3)
      · exact hlow y (List.mem_append_right _ (List.mem_cons_of_mem _ h3))
      · rw [h3]
        unfold allocSize
        split <;> omega
      · omega
  induction hr with
  | boot next0 size0 => exact Or.inl ⟨⟨next0, size0, rfl⟩, rfl⟩
  | malloc fuel n _ hn hres ih =>
    right
    rcases ih with ⟨⟨next0, size0, rfl⟩, rfl⟩ | ⟨bs, fl, hinv, hl, hlow⟩
    · rw [malloc_boot2] at hres
      exact hstep (prvHeapInit_inv2 hw _ rfl) (fun p d => by simp) hinit hres
    · exact hstep hinv hl hlow hres
  | free fuel p d _ hp hres ih =>
    right
    rcases ih with ⟨_, rfl⟩ | ⟨bs, fl, hinv, hl, hlow⟩
    · exact absurd hp (List.not_mem_nil _)
    · obtain ⟨bs1, fl1, hinv1, hl1⟩ := hinv.free_live2 hw hl hp hres
      obtain ⟨pre, post, fl', hbs, hinv', _⟩ := (hinv.free_ok2 hw hl hp).2 fuel _ hres
      have := hinv1.unique2 hw hinv'
      subst this
      rw [hbs] at hlow
      refine ⟨_, _, hinv', hl1, ?_⟩
      intro y hy
      simp only [List.mem_append, List.mem_cons] at hy
      rcases hy with h3 | h3 | h3
      · exact hlow y (List.mem_append_left _ h3)
      · rw [h3]
        exact hlow ⟨wsub c p (heapSTRUCT_SIZE c), d, false⟩ (by simp)
      · exact hlow y (List.mem_append_right _ (List.mem_cons_of_mem _ h3))

/-- A reachable state of `heap_2.c` that is set up, with the regions of `Reach.strong2`. -/
theorem Reach.strong_of_init2 (hw : c.WF) (hr : Reach c s live)
    (hi : s.xHeapHasBeenInitialised = true) :
    ∃ bs fl, Inv c s bs fl ∧ LiveOK (heapSTRUCT_SIZE c) bs live ∧
      ∀ b ∈ bs, heapSTRUCT_SIZE c + c.portBYTE_ALIGNMENT ≤ b.size := by
  rcases hr.strong2 hw with ⟨⟨next0, size0, rfl⟩, _⟩ | h
  · exact absurd hi (by simp [Heap2.boot])
  · exact h

end Heap2

/-- In a tiling with no two free regions that follow one another, a free region does not
end where a later free region starts. -/
theorem noAdj_gap {bs : List Blk} {lo hi : Nat} (h : Tiled lo bs hi) (hn : NoAdj bs) :
    bs.Pairwise (fun x y => x.free = true → y.free = true → x.addr + x.size < y.addr) := by
  induction bs generalizing lo with
  | nil => exact List.Pairwise.nil
  | cons b t ih =>
    obtain ⟨h1, h2, h3⟩ := h
    obtain ⟨hhead, htail⟩ := List.chain'_cons'.1 hn
    refine List.Pairwise.cons ?_ (ih h3 htail)
    intro y hy hbf hyf
    cases t with
    | nil => exact absurd hy (List.not_mem_nil y)
    | cons t0 t' =>
      obtain ⟨k1, k2, k3⟩ := h3
      rcases List.mem_cons.1 hy with rfl | hy'
      · rcases hhead y (by simp) with h4 | h4
        · rw [hbf] at h4; exact absurd h4 (by simp)
        · rw [hyf] at h4; exact absurd h4 (by simp)
      · have := (tiled_mem k3 hy').1
        omega

/-- A tiling of a range that is not empty, all of whose regions are free and no two of which
follow one another, is one region. -/
theorem single_of_all_free {bs : List Blk} {lo hi : Nat} (h : Tiled lo bs hi) (hlt : lo < hi)
    (hn : NoAdj bs) (hf : ∀ b ∈ bs, b.free = true) : bs = [⟨lo, hi - lo, true⟩] := by
  cases bs with
  | nil =>
    have : lo = hi := h
    omega
  | cons b t =>
    obtain ⟨h1, h2, h3⟩ := h
    cases t with
    | nil =>
      have h3' : lo + b.size = hi := h3
      have hb := hf b (List.mem_cons_self _ _)
      cases b with
      | mk ba bz bf =>
        simp only at h1 h3' hb
        subst h1; subst hb
        have : bz = hi - ba := by omega
        rw [this]
    | cons t0 t' =>
      exfalso
      obtain ⟨hhead, _⟩ := List.chain'_cons'.1 hn
      have hb := hf b (List.mem_cons_self _ _)
      have ht := hf t0 (List.mem_cons_of_mem _ (List.mem_cons_self _ _))
      rcases hhead t0 (by simp) with h4 | h4
      · rw [hb] at h4; exact absurd h4 (by simp)
      · rw [ht] at h4; exact absurd h4 (by simp)

namespace Heap4

variable {c : Config} {s : State} {live : List (Nat × Nat)}

theorem demoA_eq : pvPortMalloc demo 1033 demoBoot 32 = Outcome.ok demoA 4104 := rfl

theorem demoAB_eq : pvPortMalloc demo 1033 demoA 32 = Outcome.ok demoAB 4152 := rfl

theorem demoABC_eq : pvPortMalloc demo 1033 demoAB 32 = Outcome.ok demoABC 4200 := rfl

theorem demoFreeB_eq : vPortFree demo 1033 demoABC 4152 = Outcome.ok demoFreeB () := rfl

theorem demoFreeBA_eq : vPortFree demo 1033 demoFreeB 4104 = Outcome.ok demoFreeBA () := rfl

theorem demoFreeBAC_eq : vPortFree demo 1033 demoFreeBA 4200 = Outcome.ok demoFreeBAC () := rfl

theorem reach_demoA : Reach demo demoA [(4104, 48)] :=
  Reach.malloc 1033 32 reach_demoBoot (by decide) demoA_eq

theorem reach_demoAB : Reach demo demoAB [(4152, 48), (4104, 48)] :=
  Reach.malloc 1033 32 reach_demoA (by decide) demoAB_eq

theorem reach_demoABC : Reach demo demoABC [(4200, 48), (4152, 48), (4104, 48)] :=
  Reach.malloc 1033 32 reach_demoAB (by decide) demoABC_eq

theorem reach_demoFreeB : Reach demo demoFreeB [(4200, 48), (4104, 48)] :=
  Reach.free 1033 4152 48 reach_demoABC (by decide) demoFreeB_eq

theorem reach_demoFreeBA : Reach demo demoFreeBA [(4200, 48)] :=
  Reach.free 1033 4104 48 reach_demoFreeB (by decide) demoFreeBA_eq

theorem reach_demoFreeBAC : Reach demo demoFreeBAC [] :=
  Reach.free 1033 4200 48 reach_demoFreeBA (by decide) demoFreeBAC_eq

/-- With no allocation live, the heap of `heap_4.c` is the one free region it was set up
with. -/
theorem Reach.all_free (hw : c.WF) (hr : Reach c s []) (hi : s.pxEnd ≠ 0) :
    Inv c s [⟨(alignedHeap c).1, endAddress c - (alignedHeap c).1, true⟩] := by
  obtain ⟨bs, hinv, hl, hna, _⟩ := hr.strong_of_init hw hi
  have hfree : ∀ b ∈ bs, b.free = true := by
    intro b hb
    cases hbf : b.free
    · exact absurd ((hl (b.addr + xHeapStructSize c) b.size).2 ⟨b, hb, hbf, rfl, rfl⟩)
        (List.not_mem_nil _)
    · rfl
  have := single_of_all_free hinv.tiled' (end_facts hw).2.1 hna hfree
  rw [this] at hinv
  exact hinv

end Heap4

/-- C21: in `heap_4.c`, in every state reached from program start by calls of `pvPortMalloc`
and calls of `vPortFree` on live pointers, in any order, in which the heap is set up and no
allocation is live any more, the free list holds exactly one region, at the aligned start of
the heap, whose size is the size of the first free region that `prvHeapInit` makes, and
`xPortGetFreeHeapSize` returns that size, the value it has once the heap is set up. -/
theorem C21_free_all_restores {c : Config} (hw : c.WF) {s : Heap4.State}
    (hr : Heap4.Reach c s []) (hi : s.pxEnd ≠ 0) {fuel : Nat}
    (hfuel : c.configTOTAL_HEAP_SIZE < fuel) (next0 size0 : Nat → Nat) :
    Heap4.freeList c fuel s = [(Heap4.alignedHeap c).1] ∧
    s.xBlockSize (Heap4.alignedHeap c).1 = Heap4.endAddress c - (Heap4.alignedHeap c).1 ∧
    (Heap4.initialised c (Heap4.boot next0 size0)).xBlockSize (Heap4.alignedHeap c).1
      = Heap4.endAddress c - (Heap4.alignedHeap c).1 ∧
    Heap4.freeList c fuel (Heap4.initialised c (Heap4.boot next0 size0))
      = [(Heap4.alignedHeap c).1] ∧
    Heap4.xPortGetFreeHeapSize s = Heap4.endAddress c - (Heap4.alignedHeap c).1 ∧
    Heap4.xPortGetFreeHeapSize s
      = Heap4.xPortGetFreeHeapSize (Heap4.initialised c (Heap4.boot next0 size0)) := by
  have hinv := hr.all_free hw hi
  have hinv0 : Heap4.Inv c (Heap4.initialised c (Heap4.boot next0 size0))
      [⟨(Heap4.alignedHeap c).1, Heap4.endAddress c - (Heap4.alignedHeap c).1, true⟩] :=
    Heap4.prvHeapInit_inv hw _
  have hsz := hinv.sizes _ (List.mem_singleton_self _)
  have hsz0 := hinv0.sizes _ (List.mem_singleton_self _)
  have hf : Heap4.xPortGetFreeHeapSize s
      = Heap4.endAddress c - (Heap4.alignedHeap c).1 := by
    show s.xFreeBytesRemaining = _
    rw [hinv.free_eq]
    simp [freeSum, freeBlocks]
  have hf0 : Heap4.xPortGetFreeHeapSize (Heap4.initialised c (Heap4.boot next0 size0))
      = Heap4.endAddress c - (Heap4.alignedHeap c).1 := by
    show (Heap4.initialised c (Heap4.boot next0 size0)).xFreeBytesRemaining = _
    rw [hinv0.free_eq]
    simp [freeSum, freeBlocks]
  refine ⟨?_, by simpa using hsz, by simpa using hsz0, ?_, hf, by rw [hf, hf0]⟩
  · rw [hinv.freeList_eq hw hfuel]; rfl
  · rw [hinv0.freeList_eq hw hfuel]; rfl

/-- The statement of C21 on `demo`: three regions of 48 bytes are allocated at 4104, 4152
and 4200 and freed in the order second, first, third; the free list then holds the one region
at 4096, of 1024 bytes. -/
theorem C21_free_all_restores_witness :
    Heap4.freeList demo 1033 Heap4.demoFreeBAC = [4096] ∧
    Heap4.demoFreeBAC.xBlockSize 4096 = 1024 ∧
    Heap4.xPortGetFreeHeapSize Heap4.demoFreeBAC = 1024 ∧
    Heap4.xPortGetFreeHeapSize Heap4.demoFreeBAC
      = Heap4.xPortGetFreeHeapSize (Heap4.initialised demo Heap4.demoBoot) :=
  have h := C21_free_all_restores demo_WF Heap4.reach_demoFreeBAC
    (show Heap4.demoFreeBAC.pxEnd ≠ 0 by decide) demo_fuel (fun _ => 0) (fun _ => 0)
  ⟨h.1, h.2.1, h.2.2.2.2.1, h.2.2.2.2.2⟩

/-- C23: in `heap_4.c`, in every reachable state in which the heap is set up, the walk over
the free list from `xStart` to `pxEnd` visits the regions in strictly ascending order of
address, and no free region ends where a later region of the list starts: the end of each
lies strictly below the start of every later one, and at or below `pxEnd`. -/
theorem C23_address_order_no_contiguous {c : Config} (hw : c.WF) {s : Heap4.State}
    {live : List (Nat × Nat)} (hr : Heap4.Reach c s live) (hi : s.pxEnd ≠ 0) {fuel : Nat}
    (hfuel : c.configTOTAL_HEAP_SIZE < fuel) :
    Chain s.pxNextFreeBlock c.xStart (Heap4.freeList c fuel s) s.pxEnd ∧
    (Heap4.freeList c fuel s).Pairwise (fun a b => a < b) ∧
    (Heap4.freeList c fuel s).Pairwise (fun a b => a + s.xBlockSize a < b) ∧
    (Heap4.freeList c fuel s).Chain' (fun a b => a + s.xBlockSize a ≠ b) ∧
    (∀ a ∈ Heap4.freeList c fuel s, a + s.xBlockSize a ≤ s.pxEnd) := by
  obtain ⟨bs, hinv, _, hna, _⟩ := hr.strong_of_init hw hi
  rw [hinv.freeList_eq hw hfuel]
  have hgap := noAdj_gap hinv.tiled' hna
  have hpw : (freeAddrs bs).Pairwise (fun a b => a + s.xBlockSize a < b) := by
    unfold freeAddrs freeBlocks
    rw [List.pairwise_map]
    refine (hgap.filter _).imp_of_mem ?_
    intro x y hx hy hxy
    have hx' := List.mem_filter.1 hx
    have hy' := List.mem_filter.1 hy
    have hxf : x.free = true := by simpa using hx'.2
    have hyf : y.free = true := by simpa using hy'.2
    rw [hinv.sizes x hx'.1, if_pos hxf]
    exact hxy hxf hyf
  refine ⟨hinv.chain, freeAddrs_sorted hinv.tiled', hpw, ?_, ?_⟩
  · exact List.Pairwise.chain' (hpw.imp (fun h => Nat.ne_of_lt h))
  · intro a ha
    obtain ⟨b, hb, hbf, rfl⟩ := mem_freeAddrs.1 ha
    rw [hinv.sizes b hb, if_pos hbf, hinv.pxEnd_eq]
    exact (tiled_mem hinv.tiled' hb).2.1

/-- The statement of C23 on `demo` in the state after three allocations and the release of
the second: the free list holds the regions at 4144, of 48 bytes, and at 4240. -/
theorem C23_address_order_no_contiguous_witness :
    Heap4.freeList demo 1033 Heap4.demoFreeB = [4144, 4240] ∧
    (Heap4.freeList demo 1033 Heap4.demoFreeB).Pairwise (fun a b => a < b) ∧
    (Heap4.freeList demo 1033 Heap4.demoFreeB).Pairwise
      (fun a b => a + Heap4.demoFreeB.xBlockSize a < b) ∧
    4144 + Heap4.demoFreeB.xBlockSize 4144 = 4192 :=
  have h := C23_address_order_no_contiguous demo_WF Heap4.reach_demoFreeB
    (show Heap4.demoFreeB.pxEnd ≠ 0 by decide) demo_fuel
  ⟨by decide, h.2.1, h.2.2.1, by decide⟩

/-- C24: in `heap_2.c`, in every reachable state in which the heap is set up, the walk over
the free list from `xStart` ends at `xEnd`, the sizes of the regions met on the way are in
non-decreasing order, and `xEnd` comes last: it is no region of the list, its size field holds
`configADJUSTED_HEAP_SIZE`, the capacity of the heap, which no region exceeds, and its link is
`NULL`. -/
theorem C24_size_order {c : Config} (hw : c.WF) {s : Heap2.State}
    {live : List (Nat × Nat)} (hr : Heap2.Reach c s live)
    (hi : s.xHeapHasBeenInitialised = true) {fuel : Nat}
    (hfuel : c.configTOTAL_HEAP_SIZE < fuel) :
    Chain s.pxNextFreeBlock c.xStart (Heap2.freeList c fuel s) c.xEnd ∧
    (Heap2.freeList c fuel s).Pairwise (fun a b => s.xBlockSize a ≤ s.xBlockSize b) ∧
    (∀ a ∈ Heap2.freeList c fuel s, s.xBlockSize a ≤ s.xBlockSize c.xEnd) ∧
    (Heap2.freeList c fuel s ++ [c.xEnd]).Pairwise
      (fun a b => s.xBlockSize a ≤ s.xBlockSize b) ∧
    c.xEnd ∉ Heap2.freeList c fuel s ∧
    s.xBlockSize c.xEnd = Heap2.configADJUSTED_HEAP_SIZE c ∧
    s.pxNextFreeBlock c.xEnd = 0 := by
  obtain ⟨bs, fl, hinv, _⟩ := hr.inv_of_init2 hw hi
  rw [hinv.freeList_eq2 hw hfuel]
  have hle : ∀ a ∈ fl, s.xBlockSize a ≤ s.xBlockSize c.xEnd := by
    intro a ha
    obtain ⟨b, hb, hbf, rfl⟩ := hinv.mem_fl.1 ha
    rw [hinv.sizes b hb, if_pos hbf, hinv.end_size]
    exact (Heap2.size_lt_half2 hw hinv.tiled hb).2.2.2.2.2.1
  refine ⟨hinv.chain, hinv.sorted, hle, ?_, hinv.xEnd_not_mem hw, hinv.end_size, hinv.end_next⟩
  refine List.pairwise_append.2 ⟨hinv.sorted, List.pairwise_singleton _ _, ?_⟩
  intro a ha b hb
  rw [List.mem_singleton.1 hb]
  exact hle a ha

/-- The statement of C24 on `demo` in the state after two allocations of 56 bytes and the
release of the first: the free list holds the region of 56 bytes at 4096 and then the
region of 912 bytes at 4208, and `xEnd` holds 1024. -/
theorem C24_size_order_witness :
    Heap2.freeList demo 1033 Heap2.demo3 = [4096, 4208] ∧
    Heap2.demo3.xBlockSize 4096 = 56 ∧ Heap2.demo3.xBlockSize 4208 = 912 ∧
    (Heap2.freeList demo 1033 Heap2.demo3).Pairwise
      (fun a b => Heap2.demo3.xBlockSize a ≤ Heap2.demo3.xBlockSize b) ∧
    Heap2.demo3.xBlockSize demo.xEnd = 1024 :=
  have h := C24_size_order demo_WF Heap2.reach2_demo3 (show _ = true from rfl) demo_fuel
  ⟨by decide, by decide, by decide, h.2.1, h.2.2.2.2.2.1⟩

/-- C25: in `heap_2.c`, for every reachable state and every request whose adjusted size is
not zero and has the top bit clear, `pvPortMalloc` with fuel above the heap size returns; the
pointer is not `NULL` if and only if some region of the free list, as it is once the heap is
set up, has at least the adjusted size; and the region taken, whose header lies
`heapSTRUCT_SIZE` below the pointer, is a region of the free list of at least the adjusted
size and no larger than any region of the list of at least the adjusted size. -/
theorem C25_best_fit {c : Config} (hw : c.WF) {s : Heap2.State}
    {live : List (Nat × Nat)} (hr : Heap2.Reach c s live) (n : Nat) {fuel : Nat}
    (hfuel : c.configTOTAL_HEAP_SIZE < fuel)
    (hpos : 0 < Heap2.adjustWantedSize c n)
    (hvalid : heapBLOCK_SIZE_IS_VALID c (Heap2.adjustWantedSize c n) = true) :
    ∃ s' p, Heap2.pvPortMalloc c fuel s n = Outcome.ok s' p ∧
      (p ≠ 0 ↔ ∃ a ∈ Heap2.freeList c fuel (Heap2.initialised c s),
        Heap2.adjustWantedSize c n ≤ (Heap2.initialised c s).xBlockSize a) ∧
      (p ≠ 0 →
        p - Heap2.heapSTRUCT_SIZE c ∈ Heap2.freeList c fuel (Heap2.initialised c s) ∧
        Heap2.adjustWantedSize c n
          ≤ (Heap2.initialised c s).xBlockSize (p - Heap2.heapSTRUCT_SIZE c) ∧
        ∀ a ∈ Heap2.freeList c fuel (Heap2.initialised c s),
          Heap2.adjustWantedSize c n ≤ (Heap2.initialised c s).xBlockSize a →
          (Heap2.initialised c s).xBlockSize (p - Heap2.heapSTRUCT_SIZE c)
            ≤ (Heap2.initialised c s).xBlockSize a) := by
  obtain ⟨bs, fl, hinv, _⟩ := hr.initialised_inv2 hw
  rw [Heap2.malloc_initialised2, hinv.freeList_eq2 hw hfuel]
  rcases hinv.malloc_pos2 hw n hfuel with ⟨h1, h2⟩ |
    ⟨pre, b, post, s', fl', k1, k2, k3, k4, k5, k6, k7, k8, l1, l2, hfl, hlt, _⟩
  · refine ⟨_, 0, h1, ?_, fun h => absurd rfl h⟩
    constructor
    · intro h; exact absurd rfl h
    · rintro ⟨a, ha, hle⟩
      exfalso
      obtain ⟨b, hb, hbf, rfl⟩ := hinv.mem_fl.1 ha
      rw [hinv.sizes b hb, if_pos hbf] at hle
      rcases h2 with h2 | h2
      · apply h2
        refine ⟨hvalid, hpos, ?_⟩
        rw [hinv.free_eq]
        exact le_trans hle (size_le_freeSum hb hbf)
      · have := h2 b hb hbf
        omega
  · have hs := Heap2.hs_facts2 hw
    have hlk := hw.link_pos
    have hsub : b.addr + Heap2.heapSTRUCT_SIZE c - Heap2.heapSTRUCT_SIZE c = b.addr := by
      omega
    have hb : b ∈ bs := by rw [k1]; simp
    have hsz : (Heap2.initialised c s).xBlockSize b.addr = b.size := by
      rw [hinv.sizes b hb, if_pos k2]
    have hmem : b.addr ∈ fl := by rw [hfl]; simp
    refine ⟨s', _, k5, ?_, ?_⟩
    · constructor
      · intro _
        exact ⟨b.addr, hmem, by rw [hsz]; exact k3⟩
      · intro _
        omega
    · intro _
      rw [hsub]
      refine ⟨hmem, by rw [hsz]; exact k3, ?_⟩
      intro a ha hle
      rw [hfl] at ha
      rcases List.mem_append.1 ha with ha | ha
      · have := hlt a ha
        omega
      · rcases List.mem_cons.1 ha with rfl | ha
        · exact le_refl _
        · have hso := hinv.sorted
          rw [hfl] at hso
          exact (List.pairwise_cons.1 (List.pairwise_append.1 hso).2.1).1 a ha

/-- The statement of C25 on `demo` in the state with the free regions of 56 bytes at 4096
and of 912 bytes at 4208: a request of 40 bytes, adjusted to 56, is given the region of 56
bytes. -/
theorem C25_best_fit_witness :
    Heap2.adjustWantedSize demo 40 = 56 ∧
    (∃ s', Heap2.pvPortMalloc demo 1033 Heap2.demo3 40 = Outcome.ok s' 4104) ∧
    ∃ s' p, Heap2.pvPortMalloc demo 1033 Heap2.demo3 40 = Outcome.ok s' p ∧
      (p ≠ 0 ↔ ∃ a ∈ Heap2.freeList demo 1033 (Heap2.initialised demo Heap2.demo3),
        Heap2.adjustWantedSize demo 40 ≤ (Heap2.initialised demo Heap2.demo3).xBlockSize a) ∧
      (p ≠ 0 →
        p - Heap2.heapSTRUCT_SIZE demo
            ∈ Heap2.freeList demo 1033 (Heap2.initialised demo Heap2.demo3) ∧
        Heap2.adjustWantedSize demo 40
          ≤ (Heap2.initialised demo Heap2.demo3).xBlockSize (p - Heap2.heapSTRUCT_SIZE demo) ∧
        ∀ a ∈ Heap2.freeList demo 1033 (Heap2.initialised demo Heap2.demo3),
          Heap2.adjustWantedSize demo 40 ≤ (Heap2.initialised demo Heap2.demo3).xBlockSize a →
          (Heap2.initialised demo Heap2.demo3).xBlockSize (p - Heap2.heapSTRUCT_SIZE demo)
            ≤ (Heap2.initialised demo Heap2.demo3).xBlockSize a) :=
  ⟨by decide, ⟨_, rfl⟩,
    C25_best_fit demo_WF Heap2.reach2_demo3 40 demo_fuel (by decide) (by decide)⟩

namespace Heap4

theorem demoG1_eq : pvPortMalloc demo 1033 demoBoot 800 = Outcome.ok demoG1 4104 := rfl

theorem demoG2_eq : pvPortMalloc demo 1033 demoG1 40 = Outcome.ok demoG2 4920 := rfl

theorem demoG3_eq : vPortFree demo 1033 demoG2 4104 = Outcome.ok demoG3 () := rfl

theorem reach_demoG1 : Reach demo demoG1 [(4104, 816)] :=
  Reach.malloc 1033 800 reach_demoBoot (by decide) demoG1_eq

theorem reach_demoG2 : Reach demo demoG2 [(4920, 56), (4104, 816)] :=
  Reach.malloc 1033 40 reach_demoG1 (by decide) demoG2_eq

theorem reach_demoG3 : Reach demo demoG3 [(4920, 56)] :=
  Reach.free 1033 4104 816 reach_demoG2 (by decide) demoG3_eq

end Heap4

/-- C26: in `heap_4.c`, for every reachable state and every request whose adjusted size is
not zero and has the top bit clear, `pvPortMalloc` with fuel above the heap size returns; the
pointer is not `NULL` if and only if some region of the free list, as it is once the heap is
set up, has at least the adjusted size; the region taken, whose header lies `xHeapStructSize`
below the pointer, is the region of lowest address among the regions of the list of at least
the adjusted size.  And in one reachable state the region taken is larger than another
region of the list that has at least the adjusted size. -/
theorem C26_first_fit {c : Config} (hw : c.WF) {s : Heap4.State}
    {live : List (Nat × Nat)} (hr : Heap4.Reach c s live) (n : Nat) {fuel : Nat}
    (hfuel : c.configTOTAL_HEAP_SIZE < fuel)
    (hpos : 0 < Heap4.adjustWantedSize c n)
    (hvalid : heapBLOCK_SIZE_IS_VALID c (Heap4.adjustWantedSize c n) = true) :
    (∃ s' p, Heap4.pvPortMalloc c fuel s n = Outcome.ok s' p ∧
      (p ≠ 0 ↔ ∃ a ∈ Heap4.freeList c fuel (Heap4.initialised c s),
        Heap4.adjustWantedSize c n ≤ (Heap4.initialised c s).xBlockSize a) ∧
      (p ≠ 0 →
        p - Heap4.xHeapStructSize c ∈ Heap4.freeList c fuel (Heap4.initialised c s) ∧
        Heap4.adjustWantedSize c n
          ≤ (Heap4.initialised c s).xBlockSize (p - Heap4.xHeapStructSize c) ∧
        ∀ a ∈ Heap4.freeList c fuel (Heap4.initialised c s),
          Heap4.adjustWantedSize c n ≤ (Heap4.initialised c s).xBlockSize a →
          p - Heap4.xHeapStructSize c ≤ a)) ∧
    (∃ s1, Heap4.Reach demo Heap4.demoG3 [(4920, 56)] ∧
      Heap4.pvPortMalloc demo 1033 Heap4.demoG3 40 = Outcome.ok s1 4104 ∧
      Heap4.adjustWantedSize demo 40 = 56 ∧
      Heap4.freeList demo 1033 Heap4.demoG3 = [4096, 4968] ∧
      Heap4.demoG3.xBlockSize 4096 = 816 ∧ Heap4.demoG3.xBlockSize 4968 = 152) := by
  refine ⟨?_, ⟨_, Heap4.reach_demoG3, rfl, by decide, by decide, by decide, by decide⟩⟩
  obtain ⟨bs, hinv, _⟩ := hr.initialised_inv hw
  rw [Heap4.malloc_initialised hw, hinv.freeList_eq hw hfuel]
  rcases hinv.malloc hw n hfuel with ⟨h1, h2⟩ |
    ⟨pre, b, post, s', k1, k2, k3, k4, hlt, k5, _⟩
  · refine ⟨_, 0, h1, ?_, fun h => absurd rfl h⟩
    constructor
    · intro h; exact absurd rfl h
    · rintro ⟨a, ha, hle⟩
      exfalso
      obtain ⟨b, hb, hbf, rfl⟩ := mem_freeAddrs.1 ha
      rw [hinv.sizes b hb, if_pos hbf] at hle
      rcases h2 with h2 | h2
      · apply h2
        refine ⟨hvalid, hpos, ?_⟩
        rw [hinv.free_eq]
        exact le_trans hle (size_le_freeSum hb hbf)
      · have := h2 b hb hbf
        omega
  · have hs := Heap4.hs_facts hw
    have hlk := hw.link_pos
    have hsub : b.addr + Heap4.xHeapStructSize c - Heap4.xHeapStructSize c = b.addr := by
      omega
    have hb : b ∈ bs := by rw [k1]; simp
    have hsz : (Heap4.initialised c s).xBlockSize b.addr = b.size := by
      rw [hinv.sizes b hb, if_pos k2]
    have hmem : b.addr ∈ freeAddrs bs := mem_freeAddrs.2 ⟨b, hb, k2, rfl⟩
    refine ⟨s', _, k5, ?_, ?_⟩
    · constructor
      · intro _
        exact ⟨b.addr, hmem, by rw [hsz]; exact k3⟩
      · intro _
        omega
    · intro _
      rw [hsub]
      refine ⟨hmem, by rw [hsz]; exact k3, ?_⟩
      intro a ha hle
      obtain ⟨x, hx, hxf, rfl⟩ := mem_freeAddrs.1 ha
      rw [hinv.sizes x hx, if_pos hxf] at hle
      have htl := hinv.tiled'
      rw [k1] at hx htl
      rcases List.mem_append.1 hx with hx | hx
      · have := hlt x hx hxf
        omega
      · rcases List.mem_cons.1 hx with rfl | hx
        · exact le_refl _
        · have := (tiled_mem (tiled_split htl).2.2 hx).1
          omega

/-- The statement of C26 on `demo` in the state with the free regions of 816 bytes at 4096
and of 152 bytes at 4968: a request of 40 bytes, adjusted to 56, is given the region at
4096. -/
theorem C26_first_fit_witness :
    (∃ s' p, Heap4.pvPortMalloc demo 1033 Heap4.demoG3 40 = Outcome.ok s' p ∧
      (p ≠ 0 ↔ ∃ a ∈ Heap4.freeList demo 1033 (Heap4.initialised demo Heap4.demoG3),
        Heap4.adjustWantedSize demo 40 ≤ (Heap4.initialised demo Heap4.demoG3).xBlockSize a) ∧
      (p ≠ 0 →
        p - Heap4.xHeapStructSize demo
          ∈ Heap4.freeList demo 1033 (Heap4.initialised demo Heap4.demoG3) ∧
        Heap4.adjustWantedSize demo 40
          ≤ (Heap4.initialised demo Heap4.demoG3).xBlockSize
              (p - Heap4.xHeapStructSize demo) ∧
        ∀ a ∈ Heap4.freeList demo 1033 (Heap4.initialised demo Heap4.demoG3),
          Heap4.adjustWantedSize demo 40
              ≤ (Heap4.initialised demo Heap4.demoG3).xBlockSize a →
          p - Heap4.xHeapStructSize demo ≤ a)) :=
  (C26_first_fit demo_WF Heap4.reach_demoG3 40 demo_fuel (by decide) (by decide)).1

/-- The free regions of a tiling other than the free region `b` are those before it and
those behind it. -/
theorem mem_freeAddrs_around {pre post : List Blk} {b : Blk} {lo hi : Nat}
    (ht : Tiled lo (pre ++ b :: post) hi) (a : Nat) :
    (a ∈ freeAddrs (pre ++ b :: post) ∧ a ≠ b.addr) ↔
      (a ∈ freeAddrs pre ∨ a ∈ freeAddrs post) := by
  obtain ⟨t1, t2, t3⟩ := tiled_split ht
  constructor
  · rintro ⟨ha, hne⟩
    obtain ⟨x, hx, hxf, rfl⟩ := mem_freeAddrs.1 ha
    rcases List.mem_append.1 hx with hx | hx
    · exact Or.inl (mem_freeAddrs.2 ⟨x, hx, hxf, rfl⟩)
    · rcases List.mem_cons.1 hx with rfl | hx
      · exact absurd rfl hne
      · exact Or.inr (mem_freeAddrs.2 ⟨x, hx, hxf, rfl⟩)
  · rintro (ha | ha)
    · obtain ⟨x, hx, hxf, rfl⟩ := mem_freeAddrs.1 ha
      have := tiled_mem t1 hx
      exact ⟨mem_freeAddrs.2 ⟨x, List.mem_append_left _ hx, hxf, rfl⟩, by omega⟩
    · obtain ⟨x, hx, hxf, rfl⟩ := mem_freeAddrs.1 ha
      have := tiled_mem t3 hx
      exact ⟨mem_freeAddrs.2 ⟨x, List.mem_append_right _ (List.mem_cons_of_mem _ hx), hxf,
        rfl⟩, by omega⟩

/-- An address inside a region of a tiling is not the address of a region. -/
theorem tiled_inner_not_mem {pre post : List Blk} {b : Blk} {lo hi : Nat}
    (ht : Tiled lo (pre ++ b :: post) hi) {w : Nat} (h0 : 0 < w) (h1 : w < b.size) :
    b.addr + w ∉ freeAddrs (pre ++ b :: post) := by
  obtain ⟨t1, t2, t3⟩ := tiled_split ht
  intro ha
  obtain ⟨x, hx, _, hxa⟩ := mem_freeAddrs.1 ha
  rcases List.mem_append.1 hx with hx | hx
  · have := tiled_mem t1 hx
    omega
  · rcases List.mem_cons.1 hx with rfl | hx
    · omega
    · have := tiled_mem t3 hx
      omega

/-- The free regions after a region has been taken whole. -/
theorem mem_freeAddrs_whole {pre post : List Blk} {b : Blk} (a : Nat) :
    a ∈ freeAddrs (pre ++ ⟨b.addr, b.size, false⟩ :: post) ↔
      (a ∈ freeAddrs pre ∨ a ∈ freeAddrs post) := by
  simp only [mem_freeAddrs, List.mem_append, List.mem_cons]
  constructor
  · rintro ⟨x, hx | rfl | hx, hxf, hxa⟩
    · exact Or.inl ⟨x, hx, hxf, hxa⟩
    · exact absurd hxf (by simp)
    · exact Or.inr ⟨x, hx, hxf, hxa⟩
  · rintro (⟨x, hx, hxf, hxa⟩ | ⟨x, hx, hxf, hxa⟩)
    · exact ⟨x, Or.inl hx, hxf, hxa⟩
    · exact ⟨x, Or.inr (Or.inr hx), hxf, hxa⟩

/-- The free regions after a region has been split for the size `w`. -/
theorem mem_freeAddrs_halves {pre post : List Blk} {b : Blk} {w : Nat} (a : Nat) :
    a ∈ freeAddrs (pre ++ ⟨b.addr, w, false⟩ :: ⟨b.addr + w, b.size - w, true⟩ :: post) ↔
      ((a ∈ freeAddrs pre ∨ a ∈ freeAddrs post) ∨ a = b.addr + w) := by
  simp only [mem_freeAddrs, List.mem_append, List.mem_cons]
  constructor
  · rintro ⟨x, hx | rfl | rfl | hx, hxf, hxa⟩
    · exact Or.inl (Or.inl ⟨x, hx, hxf, hxa⟩)
    · exact absurd hxf (by simp)
    · exact Or.inr hxa.symm
    · exact Or.inl (Or.inr ⟨x, hx, hxf, hxa⟩)
  · rintro ((⟨x, hx, hxf, hxa⟩ | ⟨x, hx, hxf, hxa⟩) | rfl)
    · exact ⟨x, Or.inl hx, hxf, hxa⟩
    · exact ⟨x, Or.inr (Or.inr (Or.inr hx)), hxf, hxa⟩
    · exact ⟨_, Or.inr (Or.inr (Or.inl rfl)), rfl, rfl⟩

namespace Heap4

variable {c : Config} {s s' : State} {bs : List Blk} {live : List (Nat × Nat)}

/-- The state that the first step of `pvPortMalloc` makes of a reachable state satisfies the
invariant, with no two free regions that follow one another. -/
theorem Reach.initialised_strong (hw : c.WF) (hr : Reach c s live) :
    ∃ bs, Inv c (initialised c s) bs ∧ LiveOK (xHeapStructSize c) bs live ∧ NoAdj bs := by
  rcases hr.strong hw with ⟨⟨next0, size0, rfl⟩, rfl⟩ | ⟨bs, hinv, hl, hna, _⟩
  · refine ⟨_, prvHeapInit_inv hw _, ?_, List.chain'_singleton _⟩
    intro p d
    simp
  · rw [hinv.initialised_eq hw]
    exact ⟨bs, hinv, hl, hna⟩

/-- What a successful `pvPortMalloc` of `heap_4.c` does with the region it found, in a
reachable state: the region is split exactly when the rest is larger than
`heapMINIMUM_BLOCK_SIZE`. -/
theorem Reach.split_facts (hw : c.WF) (hr : Reach c s live) {n fuel p : Nat}
    (hfuel : c.configTOTAL_HEAP_SIZE < fuel)
    (hres : pvPortMalloc c fuel s n = Outcome.ok s' p) (hp : p ≠ 0) :
    p - xHeapStructSize c ∈ freeList c fuel (initialised c s) ∧
    adjustWantedSize c n ≤ (initialised c s).xBlockSize (p - xHeapStructSize c) ∧
    ((initialised c s).xBlockSize (p - xHeapStructSize c) - adjustWantedSize c n
        > heapMINIMUM_BLOCK_SIZE c →
      regionSize c s' p = adjustWantedSize c n ∧
      s'.xBlockSize (p - xHeapStructSize c + adjustWantedSize c n)
        = (initialised c s).xBlockSize (p - xHeapStructSize c) - adjustWantedSize c n ∧
      p - xHeapStructSize c + adjustWantedSize c n ∉ freeList c fuel (initialised c s) ∧
      ∀ a, a ∈ freeList c fuel s' ↔
        ((a ∈ freeList c fuel (initialised c s) ∧ a ≠ p - xHeapStructSize c) ∨
          a = p - xHeapStructSize c + adjustWantedSize c n)) ∧
    (¬ ((initialised c s).xBlockSize (p - xHeapStructSize c) - adjustWantedSize c n
        > heapMINIMUM_BLOCK_SIZE c) →
      regionSize c s' p = (initialised c s).xBlockSize (p - xHeapStructSize c) ∧
      ∀ a, a ∈ freeList c fuel s' ↔
        (a ∈ freeList c fuel (initialised c s) ∧ a ≠ p - xHeapStructSize c)) := by
  obtain ⟨bs, hinv, _, hna⟩ := hr.initialised_strong hw
  rw [malloc_initialised hw] at hres
  rw [hinv.freeList_eq hw hfuel]
  rcases hinv.malloc hw n hfuel with ⟨h1, _⟩ |
    ⟨pre, b, post, s'', k1, k2, k3, k4, _, k5, k6, _, k8, _⟩
  · rw [h1] at hres
    injection hres with _ e2
    exact absurd e2.symm hp
  · rw [k5] at hres
    injection hres with e1 e2
    subst e1
    subst e2
    have hs := hs_facts hw
    have hlk := hw.link_pos
    have hsub : b.addr + xHeapStructSize c - xHeapStructSize c = b.addr := by omega
    have hb : b ∈ bs := by rw [k1]; simp
    have hsz : (initialised c s).xBlockSize b.addr = b.size := by
      rw [hinv.sizes b hb, if_pos k2]
    have hreg := (hinv.malloc_region hw k1 k2 k8).1
    have htl := hinv.tiled'
    rw [k1] at htl
    rw [hsub, hsz, k6.freeList_eq hw hfuel]
    refine ⟨mem_freeAddrs.2 ⟨b, hb, k2, rfl⟩, k3, ?_, ?_⟩
    · intro hsp
      have hal := allocAt_noAdj_eq (c := c) (adjustWantedSize c n) k2 (k1 ▸ hna) hsp
      rw [hal] at k6 ⊢
      have hnew := k6.sizes ⟨b.addr + adjustWantedSize c n, b.size - adjustWantedSize c n, true⟩
        (by simp)
      refine ⟨?_, by simpa using hnew, ?_, ?_⟩
      · rw [hreg]; unfold allocSize; rw [if_pos hsp]
      · rw [k1]
        exact tiled_inner_not_mem htl k4 (by omega)
      · intro a
        rw [mem_freeAddrs_halves, k1, mem_freeAddrs_around htl]
    · intro hsp
      have hal : allocAt c (adjustWantedSize c n) pre b post
          = pre ++ ⟨b.addr, b.size, false⟩ :: post := by
        unfold allocAt; rw [if_neg hsp]
      rw [hal]
      refine ⟨?_, ?_⟩
      · rw [hreg]; unfold allocSize; rw [if_neg hsp]
      · intro a
        rw [mem_freeAddrs_whole, k1, mem_freeAddrs_around htl]

end Heap4

namespace Heap2

variable {c : Config} {s s' : State} {bs : List Blk} {fl : List Nat}
  {live : List (Nat × Nat)}

/-- What a successful `pvPortMalloc` of `heap_2.c` does with the region it found, in a
reachable state: the region is split exactly when the rest is larger than
`heapMINIMUM_BLOCK_SIZE`. -/
theorem Reach.split_facts2 (hw : c.WF) (hr : Reach c s live) {n fuel p : Nat}
    (hfuel : c.configTOTAL_HEAP_SIZE < fuel)
    (hres : pvPortMalloc c fuel s n = Outcome.ok s' p) (hp : p ≠ 0) :
    p - heapSTRUCT_SIZE c ∈ freeList c fuel (initialised c s) ∧
    adjustWantedSize c n ≤ (initialised c s).xBlockSize (p - heapSTRUCT_SIZE c) ∧
    ((initialised c s).xBlockSize (p - heapSTRUCT_SIZE c) - adjustWantedSize c n
        > heapMINIMUM_BLOCK_SIZE c →
      regionSize c s' p = adjustWantedSize c n ∧
      s'.xBlockSize (p - heapSTRUCT_SIZE c + adjustWantedSize c n)
        = (initialised c s).xBlockSize (p - heapSTRUCT_SIZE c) - adjustWantedSize c n ∧
      p - heapSTRUCT_SIZE c + adjustWantedSize c n ∉ freeList c fuel (initialised c s) ∧
      ∀ a, a ∈ freeList c fuel s' ↔
        ((a ∈ freeList c fuel (initialised c s) ∧ a ≠ p - heapSTRUCT_SIZE c) ∨
          a = p - heapSTRUCT_SIZE c + adjustWantedSize c n)) ∧
    (¬ ((initialised c s).xBlockSize (p - heapSTRUCT_SIZE c) - adjustWantedSize c n
        > heapMINIMUM_BLOCK_SIZE c) →
      regionSize c s' p = (initialised c s).xBlockSize (p - heapSTRUCT_SIZE c) ∧
      ∀ a, a ∈ freeList c fuel s' ↔
        (a ∈ freeList c fuel (initialised c s) ∧ a ≠ p - heapSTRUCT_SIZE c)) := by
  obtain ⟨bs, fl, hinv, _⟩ := hr.initialised_inv2 hw
  rw [malloc_initialised2] at hres
  rw [hinv.freeList_eq2 hw hfuel]
  rcases hinv.malloc2 hw n hfuel with ⟨h1, _⟩ |
    ⟨pre, b, post, s'', fl', k1, k2, k3, k4, k5, k6, _, k8⟩
  · rw [h1] at hres
    injection hres with _ e2
    exact absurd e2.symm hp
  · rw [k5] at hres
    injection hres with e1 e2
    subst e1
    subst e2
    have hs := hs_facts2 hw
    have hlk := hw.link_pos
    have hsub : b.addr + heapSTRUCT_SIZE c - heapSTRUCT_SIZE c = b.addr := by omega
    have hb : b ∈ bs := by rw [k1]; simp
    have hsz : (initialised c s).xBlockSize b.addr = b.size := by
      rw [hinv.sizes b hb, if_pos k2]
    have hreg := (hinv.malloc_region2 hw k1 k2 k8).1
    have htl := hinv.tiled
    rw [k1] at htl
    have hmem : ∀ a, a ∈ fl ↔ a ∈ freeAddrs (pre ++ b :: post) := by
      intro a; rw [hinv.perm.mem_iff, k1]
    have hmem' : ∀ a, a ∈ fl' ↔ a ∈ freeAddrs (allocAt c (adjustWantedSize c n) pre b post) :=
      fun a => k6.perm.mem_iff
    rw [hsub, hsz, k6.freeList_eq2 hw hfuel]
    refine ⟨(hmem _).2 (mem_freeAddrs.2 ⟨b, by simp, k2, rfl⟩), k3, ?_, ?_⟩
    · intro hsp
      have hal : allocAt c (adjustWantedSize c n) pre b post
          = pre ++ ⟨b.addr, adjustWantedSize c n, false⟩ ::
              ⟨b.addr + adjustWantedSize c n, b.size - adjustWantedSize c n, true⟩ :: post := by
        unfold allocAt; rw [if_pos hsp]
      rw [hal] at k6 hmem'
      have hnew := k6.sizes ⟨b.addr + adjustWantedSize c n, b.size - adjustWantedSize c n, true⟩
        (by simp)
      refine ⟨?_, by simpa using hnew, ?_, ?_⟩
      · rw [hreg]; unfold allocSize; rw [if_pos hsp]
      · rw [hmem]
        exact tiled_inner_not_mem htl k4 (by omega)
      · intro a
        rw [hmem', mem_freeAddrs_halves, hmem, mem_freeAddrs_around htl]
    · intro hsp
      have hal : allocAt c (adjustWantedSize c n) pre b post
          = pre ++ ⟨b.addr, b.size, false⟩ :: post := by
        unfold allocAt; rw [if_neg hsp]
      rw [hal] at hmem'
      refine ⟨?_, ?_⟩
      · rw [hreg]; unfold allocSize; rw [if_neg hsp]
      · intro a
        rw [hmem', mem_freeAddrs_whole, hmem, mem_freeAddrs_around htl]

end Heap2

/-- C27, as the code has it: in `heap_4.c` and `heap_2.c`, when `pvPortMalloc` in a reachable
state returns a pointer, the region it took, whose header lies one header size below the
pointer, was on the free list with a size of at least the adjusted size.  The region is split
if and only if its size less the adjusted size is strictly larger than
`heapMINIMUM_BLOCK_SIZE`: then the allocated region has the adjusted size, and a region with
the rest of the size, at the address of the region plus the adjusted size, which was no
region of the free list, is on the free list in place of the region taken; otherwise the
allocated region has the size of the region taken and the free list is the one from before
without that region. -/
theorem C27_split_rule {c : Config} (hw : c.WF)
    {s4 s4' : Heap4.State} {live4 : List (Nat × Nat)} (h4 : Heap4.Reach c s4 live4)
    {s2 s2' : Heap2.State} {live2 : List (Nat × Nat)} (h2 : Heap2.Reach c s2 live2)
    {n4 n2 fuel p4 p2 : Nat} (hfuel : c.configTOTAL_HEAP_SIZE < fuel)
    (r4 : Heap4.pvPortMalloc c fuel s4 n4 = Outcome.ok s4' p4) (q4 : p4 ≠ 0)
    (r2 : Heap2.pvPortMalloc c fuel s2 n2 = Outcome.ok s2' p2) (q2 : p2 ≠ 0) :
    (p4 - Heap4.xHeapStructSize c ∈ Heap4.freeList c fuel (Heap4.initialised c s4) ∧
      Heap4.adjustWantedSize c n4
        ≤ (Heap4.initialised c s4).xBlockSize (p4 - Heap4.xHeapStructSize c) ∧
      ((Heap4.initialised c s4).xBlockSize (p4 - Heap4.xHeapStructSize c)
          - Heap4.adjustWantedSize c n4 > Heap4.heapMINIMUM_BLOCK_SIZE c →
        Heap4.regionSize c s4' p4 = Heap4.adjustWantedSize c n4 ∧
        s4'.xBlockSize (p4 - Heap4.xHeapStructSize c + Heap4.adjustWantedSize c n4)
          = (Heap4.initialised c s4).xBlockSize (p4 - Heap4.xHeapStructSize c)
            - Heap4.adjustWantedSize c n4 ∧
        p4 - Heap4.xHeapStructSize c + Heap4.adjustWantedSize c n4
          ∉ Heap4.freeList c fuel (Heap4.initialised c s4) ∧
        ∀ a, a ∈ Heap4.freeList c fuel s4' ↔
          ((a ∈ Heap4.freeList c fuel (Heap4.initialised c s4) ∧
              a ≠ p4 - Heap4.xHeapStructSize c) ∨
            a = p4 - Heap4.xHeapStructSize c + Heap4.adjustWantedSize c n4)) ∧
      (¬ ((Heap4.initialised c s4).xBlockSize (p4 - Heap4.xHeapStructSize c)
          - Heap4.adjustWantedSize c n4 > Heap4.heapMINIMUM_BLOCK_SIZE c) →
        Heap4.regionSize c s4' p4
          = (Heap4.initialised c s4).xBlockSize (p4 - Heap4.xHeapStructSize c) ∧
        ∀ a, a ∈ Heap4.freeList c fuel s4' ↔
          (a ∈ Heap4.freeList c fuel (Heap4.initialised c s4) ∧
            a ≠ p4 - Heap4.xHeapStructSize c))) ∧
    (p2 - Heap2.heapSTRUCT_SIZE c ∈ Heap2.freeList c fuel (Heap2.initialised c s2) ∧
      Heap2.adjustWantedSize c n2
        ≤ (Heap2.initialised c s2).xBlockSize (p2 - Heap2.heapSTRUCT_SIZE c) ∧
      ((Heap2.initialised c s2).xBlockSize (p2 - Heap2.heapSTRUCT_SIZE c)
          - Heap2.adjustWantedSize c n2 > Heap2.heapMINIMUM_BLOCK_SIZE c →
        Heap2.regionSize c s2' p2 = Heap2.adjustWantedSize c n2 ∧
        s2'.xBlockSize (p2 - Heap2.heapSTRUCT_SIZE c + Heap2.adjustWantedSize c n2)
          = (Heap2.initialised c s2).xBlockSize (p2 - Heap2.heapSTRUCT_SIZE c)
            - Heap2.adjustWantedSize c n2 ∧
        p2 - Heap2.heapSTRUCT_SIZE c + Heap2.adjustWantedSize c n2
          ∉ Heap2.freeList c fuel (Heap2.initialised c s2) ∧
        ∀ a, a ∈ Heap2.freeList c fuel s2' ↔
          ((a ∈ Heap2.freeList c fuel (Heap2.initialised c s2) ∧
              a ≠ p2 - Heap2.heapSTRUCT_SIZE c) ∨
            a = p2 - Heap2.heapSTRUCT_SIZE c + Heap2.adjustWantedSize c n2)) ∧
      (¬ ((Heap2.initialised c s2).xBlockSize (p2 - Heap2.heapSTRUCT_SIZE c)
          - Heap2.adjustWantedSize c n2 > Heap2.heapMINIMUM_BLOCK_SIZE c) →
        Heap2.regionSize c s2' p2
          = (Heap2.initialised c s2).xBlockSize (p2 - Heap2.heapSTRUCT_SIZE c) ∧
        ∀ a, a ∈ Heap2.freeList c fuel s2' ↔
          (a ∈ Heap2.freeList c fuel (Heap2.initialised c s2) ∧
            a ≠ p2 - Heap2.heapSTRUCT_SIZE c))) :=
  ⟨h4.split_facts hw hfuel r4 q4, h2.split_facts2 hw hfuel r2 q2⟩

/-- The statement of C27 on `demo` for `pvPortMalloc( 40 )` at program start: the region of
1024 bytes at 4096 is split into an allocated region of 56 bytes and a free region of 968
bytes at 4152. -/
theorem C27_split_rule_witness :
    (Heap4.pvPortMalloc demo 1033 Heap4.demoBoot 40 = Outcome.ok Heap4.demo1 4104 ∧
      (Heap4.initialised demo Heap4.demoBoot).xBlockSize 4096 = 1024 ∧
      Heap4.adjustWantedSize demo 40 = 56 ∧
      Heap4.regionSize demo Heap4.demo1 4104 = 56 ∧
      Heap4.demo1.xBlockSize 4152 = 968 ∧
      (∀ a, a ∈ Heap4.freeList demo 1033 Heap4.demo1 ↔
        ((a ∈ Heap4.freeList demo 1033 (Heap4.initialised demo Heap4.demoBoot) ∧ a ≠ 4096) ∨
          a = 4152))) ∧
    (Heap2.pvPortMalloc demo 1033 Heap2.demoBoot 40 = Outcome.ok Heap2.demo1 4104 ∧
      (Heap2.initialised demo Heap2.demoBoot).xBlockSize 4096 = 1024 ∧
      Heap2.adjustWantedSize demo 40 = 56 ∧
      Heap2.regionSize demo Heap2.demo1 4104 = 56 ∧
      Heap2.demo1.xBlockSize 4152 = 968 ∧
      (∀ a, a ∈ Heap2.freeList demo 1033 Heap2.demo1 ↔
        ((a ∈ Heap2.freeList demo 1033 (Heap2.initialised demo Heap2.demoBoot) ∧ a ≠ 4096) ∨
          a = 4152))) :=
  have h := C27_split_rule demo_WF Heap4.reach_demoBoot Heap2.reach2_demoBoot demo_fuel
    Heap4.demo1_eq (by decide) Heap2.demo1_eq_heap2 (by decide)
  have a4 := h.1.2.2.1 (by decide)
  have a2 := h.2.2.2.1 (by decide)
  ⟨⟨Heap4.demo1_eq, by decide, by decide, a4.1, a4.2.1, a4.2.2.2⟩,
    ⟨Heap2.demo1_eq_heap2, by decide, by decide, a2.1, a2.2.1, a2.2.2.2⟩⟩

/-- C27 as the specification words it fails on `demo`: at program start the free region has
1024 bytes, `pvPortMalloc( 992 )` needs 1008 bytes, and the rest of 16 bytes is
`heapMINIMUM_BLOCK_SIZE`, so at least `MIN_BLOCK`; the region is not split: the allocated
region has 1024 bytes and the free list is empty afterwards. -/
theorem C27_counterexample :
    (Heap4.freeList demo 1033 (Heap4.initialised demo Heap4.demoBoot) = [4096] ∧
      (Heap4.initialised demo Heap4.demoBoot).xBlockSize 4096 = 1024 ∧
      Heap4.adjustWantedSize demo 992 = 1008 ∧ Heap4.heapMINIMUM_BLOCK_SIZE demo = 16 ∧
      (Heap4.initialised demo Heap4.demoBoot).xBlockSize 4096
        - Heap4.adjustWantedSize demo 992 ≥ Heap4.heapMINIMUM_BLOCK_SIZE demo ∧
      Heap4.pvPortMalloc demo 1033 Heap4.demoBoot 992 = Outcome.ok Heap4.demoWhole 4104 ∧
      Heap4.regionSize demo Heap4.demoWhole 4104 = 1024 ∧
      Heap4.regionSize demo Heap4.demoWhole 4104 ≠ Heap4.adjustWantedSize demo 992 ∧
      Heap4.freeList demo 1033 Heap4.demoWhole = []) ∧
    (Heap2.freeList demo 1033 (Heap2.initialised demo Heap2.demoBoot) = [4096] ∧
      (Heap2.initialised demo Heap2.demoBoot).xBlockSize 4096 = 1024 ∧
      Heap2.adjustWantedSize demo 992 = 1008 ∧ Heap2.heapMINIMUM_BLOCK_SIZE demo = 16 ∧
      (Heap2.initialised demo Heap2.demoBoot).xBlockSize 4096
        - Heap2.adjustWantedSize demo 992 ≥ Heap2.heapMINIMUM_BLOCK_SIZE demo ∧
      Heap2.pvPortMalloc demo 1033 Heap2.demoBoot 992 = Outcome.ok Heap2.demoWhole 4104 ∧
      Heap2.regionSize demo Heap2.demoWhole 4104 = 1024 ∧
      Heap2.regionSize demo Heap2.demoWhole 4104 ≠ Heap2.adjustWantedSize demo 992 ∧
      Heap2.freeList demo 1033 Heap2.demoWhole = []) :=
  ⟨⟨by decide, by decide, by decide, by decide, by decide, rfl, by decide, by decide,
      by decide⟩,
    ⟨by decide, by decide, by decide, by decide, by decide, rfl, by decide, by decide,
      by decide⟩⟩

theorem demoWide_WF : demoWide.WF :=
  ⟨by decide, ⟨3, rfl⟩, by decide, by decide, by decide, by decide, by decide, by decide,
    by decide, by decide, by decide, by decide, by decide, by decide, by decide⟩

namespace Heap4

variable {c : Config} {s : State} {live : List (Nat × Nat)}

/-- The sizes of the regions of a reachable state of `heap_4.c`: multiples of the alignment
between a header and an alignment unit, or the whole heap when it is smaller, and the size of
the first free region. -/
theorem Reach.size_bounds (hw : c.WF) (hr : Reach c s live) (hi : s.pxEnd ≠ 0) {fuel : Nat}
    (hfuel : c.configTOTAL_HEAP_SIZE < fuel) :
    (∀ p d, (p, d) ∈ live → regionSize c s p = d ∧ d % c.portBYTE_ALIGNMENT = 0 ∧
      min (endAddress c - (alignedHeap c).1) (xHeapStructSize c + c.portBYTE_ALIGNMENT) ≤ d ∧
      d ≤ endAddress c - (alignedHeap c).1) ∧
    (∀ a ∈ freeList c fuel s, s.xBlockSize a % c.portBYTE_ALIGNMENT = 0 ∧
      min (endAddress c - (alignedHeap c).1) (xHeapStructSize c + c.portBYTE_ALIGNMENT)
        ≤ s.xBlockSize a ∧
      s.xBlockSize a ≤ endAddress c - (alignedHeap c).1) ∧
    xHeapStructSize c + c.portBYTE_ALIGNMENT ≤ heapMINIMUM_BLOCK_SIZE c := by
  obtain ⟨bs, hinv, hl, _, hlow⟩ := hr.strong_of_init hw hi
  have hmod := hinv.size_mod hw
  have hup : ∀ b ∈ bs, b.size ≤ endAddress c - (alignedHeap c).1 := by
    intro b hb
    have := size_lt_half hw hinv.tiled' hb
    omega
  refine ⟨?_, ?_, ?_⟩
  · intro p d hp
    obtain ⟨pre, post, a, _, hbs, hreg, _⟩ := hinv.live_block hw hl hp
    have hb : (⟨a, d, false⟩ : Blk) ∈ bs := by rw [hbs]; simp
    exact ⟨hreg, hmod _ hb, hlow _ hb, hup _ hb⟩
  · rw [hinv.freeList_eq hw hfuel]
    intro a ha
    obtain ⟨b, hb, hbf, rfl⟩ := mem_freeAddrs.1 ha
    rw [hinv.sizes b hb, if_pos hbf]
    exact ⟨hmod _ hb, hlow _ hb, hup _ hb⟩
  · have := hs_ge_align hw
    rw [minBlock_eq hw]
    omega

theorem demoWide1_eq :
    pvPortMalloc demoWide 1048 demoBoot 1 = Outcome.ok demoWide1 4112 := rfl

theorem reach_demoWide1 : Reach demoWide demoWide1 [(4112, 24)] :=
  Reach.malloc 1048 1 (Reach.boot _ _) (by decide) demoWide1_eq

end Heap4

namespace Heap2

variable {c : Config} {s : State} {live : List (Nat × Nat)}

/-- The sizes of the regions of a reachable state of `heap_2.c`: at least a header and an
alignment unit, at most `configADJUSTED_HEAP_SIZE`, and multiples of the alignment when
`configADJUSTED_HEAP_SIZE` is one. -/
theorem Reach.size_bounds2 (hw : c.WF) (hr : Reach c s live)
    (hi : s.xHeapHasBeenInitialised = true) {fuel : Nat}
    (hfuel : c.configTOTAL_HEAP_SIZE < fuel) :
    (∀ p d, (p, d) ∈ live → regionSize c s p = d ∧
      heapSTRUCT_SIZE c + c.portBYTE_ALIGNMENT ≤ d ∧ d ≤ configADJUSTED_HEAP_SIZE c ∧
      (configADJUSTED_HEAP_SIZE c % c.portBYTE_ALIGNMENT = 0 →
        d % c.portBYTE_ALIGNMENT = 0)) ∧
    (∀ a ∈ freeList c fuel s,
      heapSTRUCT_SIZE c + c.portBYTE_ALIGNMENT ≤ s.xBlockSize a ∧
      s.xBlockSize a ≤ configADJUSTED_HEAP_SIZE c ∧
      (configADJUSTED_HEAP_SIZE c % c.portBYTE_ALIGNMENT = 0 →
        s.xBlockSize a % c.portBYTE_ALIGNMENT = 0)) ∧
    heapSTRUCT_SIZE c + c.portBYTE_ALIGNMENT ≤ heapMINIMUM_BLOCK_SIZE c := by
  obtain ⟨bs, fl, hinv, hl, hlow⟩ := hr.strong_of_init2 hw hi
  have hmod : configADJUSTED_HEAP_SIZE c % c.portBYTE_ALIGNMENT = 0 →
      ∀ b ∈ bs, b.size % c.portBYTE_ALIGNMENT = 0 := by
    intro h0
    refine tiled_size_mod hinv.tiled hinv.aligned ?_
    rw [Nat.add_mod, (geometry2 hw).1, h0]
    simp
  have hup : ∀ b ∈ bs, b.size ≤ configADJUSTED_HEAP_SIZE c := fun b hb =>
    (size_lt_half2 hw hinv.tiled hb).2.2.2.2.2.1
  refine ⟨?_, ?_, ?_⟩
  · intro p d hp
    obtain ⟨pre, post, a, _, hbs, hreg, _⟩ := hinv.live_block2 hw hl hp
    have hb : (⟨a, d, false⟩ : Blk) ∈ bs := by rw [hbs]; simp
    exact ⟨hreg, hlow _ hb, hup _ hb, fun h0 => hmod h0 _ hb⟩
  · rw [hinv.freeList_eq2 hw hfuel]
    intro a ha
    obtain ⟨b, hb, hbf, rfl⟩ := hinv.mem_fl.1 ha
    rw [hinv.sizes b hb, if_pos hbf]
    exact ⟨hlow _ hb, hup _ hb, fun h0 => hmod h0 _ hb⟩
  · have := hs_ge_align2 hw
    rw [minBlock_eq2 hw]
    omega

theorem demoWide1_eq_heap2 :
    pvPortMalloc demoWide 1048 demoWideBoot 1 = Outcome.ok demoWide1 4112 := rfl

theorem reach2_demoWide1 : Reach demoWide demoWide1 [(4112, 24)] :=
  Reach.malloc 1048 1 (Reach.boot _ _) (by decide) demoWide1_eq_heap2

end Heap2

/-- C28, as the code has it: in every reachable state of `heap_4.c` and `heap_2.c` in which
the heap is set up, the region of every live allocation and every region of the free list has
a size of at most the size of the first free region that `prvHeapInit` makes, and of at least
`xHeapStructSize + portBYTE_ALIGNMENT`, the smallest adjusted size, in `heap_4.c` unless the
whole heap is smaller.  That bound is at most `heapMINIMUM_BLOCK_SIZE`, twice the header
size.  In `heap_4.c` the sizes are multiples of `portBYTE_ALIGNMENT`; in `heap_2.c` they are
when `configADJUSTED_HEAP_SIZE` is one. -/
theorem C28_region_sizes {c : Config} (hw : c.WF)
    {s4 : Heap4.State} {live4 : List (Nat × Nat)} (h4 : Heap4.Reach c s4 live4)
    (i4 : s4.pxEnd ≠ 0)
    {s2 : Heap2.State} {live2 : List (Nat × Nat)} (h2 : Heap2.Reach c s2 live2)
    (i2 : s2.xHeapHasBeenInitialised = true) {fuel : Nat}
    (hfuel : c.configTOTAL_HEAP_SIZE < fuel) :
    ((∀ p d, (p, d) ∈ live4 → Heap4.regionSize c s4 p = d ∧ d % c.portBYTE_ALIGNMENT = 0 ∧
        min (Heap4.endAddress c - (Heap4.alignedHeap c).1)
          (Heap4.xHeapStructSize c + c.portBYTE_ALIGNMENT) ≤ d ∧
        d ≤ Heap4.endAddress c - (Heap4.alignedHeap c).1) ∧
      (∀ a ∈ Heap4.freeList c fuel s4, s4.xBlockSize a % c.portBYTE_ALIGNMENT = 0 ∧
        min (Heap4.endAddress c - (Heap4.alignedHeap c).1)
          (Heap4.xHeapStructSize c + c.portBYTE_ALIGNMENT) ≤ s4.xBlockSize a ∧
        s4.xBlockSize a ≤ Heap4.endAddress c - (Heap4.alignedHeap c).1) ∧
      Heap4.xHeapStructSize c + c.portBYTE_ALIGNMENT ≤ Heap4.heapMINIMUM_BLOCK_SIZE c) ∧
    ((∀ p d, (p, d) ∈ live2 → Heap2.regionSize c s2 p = d ∧
        Heap2.heapSTRUCT_SIZE c + c.portBYTE_ALIGNMENT ≤ d ∧
        d ≤ Heap2.configADJUSTED_HEAP_SIZE c ∧
        (Heap2.configADJUSTED_HEAP_SIZE c % c.portBYTE_ALIGNMENT = 0 →
          d % c.portBYTE_ALIGNMENT = 0)) ∧
      (∀ a ∈ Heap2.freeList c fuel s2,
        Heap2.heapSTRUCT_SIZE c + c.portBYTE_ALIGNMENT ≤ s2.xBlockSize a ∧
        s2.xBlockSize a ≤ Heap2.configADJUSTED_HEAP_SIZE c ∧
        (Heap2.configADJUSTED_HEAP_SIZE c % c.portBYTE_ALIGNMENT = 0 →
          s2.xBlockSize a % c.portBYTE_ALIGNMENT = 0)) ∧
      Heap2.heapSTRUCT_SIZE c + c.portBYTE_ALIGNMENT ≤ Heap2.heapMINIMUM_BLOCK_SIZE c) :=
  ⟨h4.size_bounds hw i4 hfuel, h2.size_bounds2 hw i2 hfuel⟩

/-- The statement of C28 on `demo` in the states after two allocations of 56 bytes and the
release of the first: the live region at 4160 has 56 bytes, a multiple of 8 between 16 and
1024, and so have the regions of the free lists. -/
theorem C28_region_sizes_witness :
    (Heap4.regionSize demo Heap4.demo3 4160 = 56 ∧ 56 % demo.portBYTE_ALIGNMENT = 0 ∧
      (∀ a ∈ Heap4.freeList demo 1033 Heap4.demo3,
        Heap4.demo3.xBlockSize a % demo.portBYTE_ALIGNMENT = 0 ∧
        min (Heap4.endAddress demo - (Heap4.alignedHeap demo).1)
          (Heap4.xHeapStructSize demo + demo.portBYTE_ALIGNMENT)
            ≤ Heap4.demo3.xBlockSize a ∧
        Heap4.demo3.xBlockSize a ≤ Heap4.endAddress demo - (Heap4.alignedHeap demo).1)) ∧
    (Heap2.regionSize demo Heap2.demo3 4160 = 56 ∧
      (∀ a ∈ Heap2.freeList demo 1033 Heap2.demo3,
        Heap2.heapSTRUCT_SIZE demo + demo.portBYTE_ALIGNMENT ≤ Heap2.demo3.xBlockSize a ∧
        Heap2.demo3.xBlockSize a ≤ Heap2.configADJUSTED_HEAP_SIZE demo ∧
        (Heap2.configADJUSTED_HEAP_SIZE demo % demo.portBYTE_ALIGNMENT = 0 →
          Heap2.demo3.xBlockSize a % demo.portBYTE_ALIGNMENT = 0))) :=
  have h := C28_region_sizes demo_WF Heap4.reach_demo3 (show Heap4.demo3.pxEnd ≠ 0 by decide)
    Heap2.reach2_demo3 (show Heap2.demo3.xHeapHasBeenInitialised = true from rfl) demo_fuel
  have a4 := h.1.1 4160 56 (by decide)
  have a2 := h.2.1 4160 56 (by decide)
  ⟨⟨a4.1, a4.2.1, h.1.2.1⟩, ⟨a2.1, h.2.2.1⟩⟩

/-- C28 as the specification words it fails on `demoWide`, a port with 16-byte headers,
8-byte alignment and an array of 1047 bytes: after `pvPortMalloc( 1 )` at program start the
allocated region has 24 bytes in `heap_4.c` and in `heap_2.c`, below the 32 bytes of
`heapMINIMUM_BLOCK_SIZE`, and in `heap_2.c` the free list holds a region of 1015 bytes, no
multiple of 8. -/
theorem C28_counterexample :
    demoWide.WF ∧
    (Heap4.Reach demoWide Heap4.demoWide1 [(4112, 24)] ∧
      Heap4.regionSize demoWide Heap4.demoWide1 4112 = 24 ∧
      Heap4.heapMINIMUM_BLOCK_SIZE demoWide = 32 ∧
      Heap4.regionSize demoWide Heap4.demoWide1 4112
        < Heap4.heapMINIMUM_BLOCK_SIZE demoWide) ∧
    (Heap2.Reach demoWide Heap2.demoWide1 [(4112, 24)] ∧
      Heap2.regionSize demoWide Heap2.demoWide1 4112 = 24 ∧
      Heap2.heapMINIMUM_BLOCK_SIZE demoWide = 32 ∧
      Heap2.regionSize demoWide Heap2.demoWide1 4112
        < Heap2.heapMINIMUM_BLOCK_SIZE demoWide ∧
      Heap2.freeList demoWide 1048 Heap2.demoWide1 = [4120] ∧
      Heap2.demoWide1.xBlockSize 4120 = 1015 ∧
      Heap2.demoWide1.xBlockSize 4120 % demoWide.portBYTE_ALIGNMENT ≠ 0) :=
  ⟨demoWide_WF,
    ⟨Heap4.reach_demoWide1, by decide, by decide, by decide⟩,
    ⟨Heap2.reach2_demoWide1, by decide, by decide, by decide, by decide, by decide,
      by decide⟩⟩

namespace Heap4

variable {c : Config} {s : State} {live : List (Nat × Nat)}

/-- With the header marked as allocated and without a successor, `vPortFree` of `heap_4.c`
fails no assertion. -/
theorem free_guards_pass (fuel : Nat) (s : State) {pv : Nat}
    (hbit : heapBLOCK_IS_ALLOCATED c (s.xBlockSize (wsub c pv (xHeapStructSize c))) = true)
    (hnext : s.pxNextFreeBlock (wsub c pv (xHeapStructSize c)) = 0) (t : State) :
    vPortFree c fuel s pv ≠ Outcome.assertFailed t := by
  unfold vPortFree
  by_cases hpv : pv ≠ 0
  · simp only [hpv, hbit, hnext, if_true, ne_eq, not_true_eq_false, if_false,
      Bool.true_eq_false, not_false_eq_true]
    split <;> simp
  · simp only [hpv, if_false]
    simp

/-- The headers of a reachable state of `heap_4.c`: free regions are not marked as allocated,
live regions are and have no successor, and `vPortFree` of a live pointer fails no
assertion and returns. -/
theorem Reach.flags (hw : c.WF) (hr : Reach c s live) {fuel : Nat}
    (hfuel : c.configTOTAL_HEAP_SIZE < fuel) :
    (s.pxEnd ≠ 0 → ∀ a ∈ freeList c fuel s, heapBLOCK_IS_ALLOCATED c (s.xBlockSize a) = false) ∧
    (∀ p d, (p, d) ∈ live →
      heapBLOCK_IS_ALLOCATED c (s.xBlockSize (wsub c p (xHeapStructSize c))) = true ∧
      s.pxNextFreeBlock (wsub c p (xHeapStructSize c)) = 0 ∧
      (∀ f t, vPortFree c f s p ≠ Outcome.assertFailed t) ∧
      ∃ s', vPortFree c fuel s p = Outcome.ok s' ()) := by
  constructor
  · intro hi a ha
    obtain ⟨bs, hinv, _⟩ := hr.inv_of_init hw hi
    rw [hinv.freeList_eq hw hfuel] at ha
    obtain ⟨b, hb, hbf, rfl⟩ := mem_freeAddrs.1 ha
    rw [hinv.sizes b hb, if_pos hbf]
    exact hw.isAllocated_of_lt (size_lt_half hw hinv.tiled' hb).1
  · intro p d hp
    rcases hr.inv hw with ⟨_, rfl⟩ | ⟨bs, hinv, hl⟩
    · exact absurd hp (List.not_mem_nil _)
    · obtain ⟨pre, post, a, _, _, _, hsub, hsz, hnx, hd, _⟩ := hinv.live_block hw hl hp
      have hbit : heapBLOCK_IS_ALLOCATED c (s.xBlockSize (wsub c p (xHeapStructSize c)))
          = true := by
        rw [hsub, hsz]; exact hw.isAllocated_flag hd
      have hnext : s.pxNextFreeBlock (wsub c p (xHeapStructSize c)) = 0 := by
        rw [hsub]; exact hnx
      exact ⟨hbit, hnext, fun f t => free_guards_pass f s hbit hnext t,
        (hinv.free_ok hw hl hp).1 fuel hfuel⟩

end Heap4

namespace Heap2

variable {c : Config} {s : State} {live : List (Nat × Nat)}

/-- With the header marked as allocated and without a successor, `vPortFree` of `heap_2.c`
fails no assertion. -/
theorem free_guards_pass2 (fuel : Nat) (s : State) {pv : Nat}
    (hbit : heapBLOCK_IS_ALLOCATED c (s.xBlockSize (wsub c pv (heapSTRUCT_SIZE c))) = true)
    (hnext : s.pxNextFreeBlock (wsub c pv (heapSTRUCT_SIZE c)) = 0) (t : State) :
    vPortFree c fuel s pv ≠ Outcome.assertFailed t := by
  unfold vPortFree
  by_cases hpv : pv ≠ 0
  · simp only [hpv, hbit, hnext, if_true, ne_eq, not_true_eq_false, if_false,
      Bool.true_eq_false, not_false_eq_true]
    split <;> simp
  · simp only [hpv, if_false]
    simp

/-- The headers of a reachable state of `heap_2.c`: free regions are not marked as allocated,
live regions are and have no successor, and `vPortFree` of a live pointer fails no
assertion and returns. -/
theorem Reach.flags2 (hw : c.WF) (hr : Reach c s live) {fuel : Nat}
    (hfuel : c.configTOTAL_HEAP_SIZE < fuel) :
    (s.xHeapHasBeenInitialised = true →
      ∀ a ∈ freeList c fuel s, heapBLOCK_IS_ALLOCATED c (s.xBlockSize a) = false) ∧
    (∀ p d, (p, d) ∈ live →
      heapBLOCK_IS_ALLOCATED c (s.xBlockSize (wsub c p (heapSTRUCT_SIZE c))) = true ∧
      s.pxNextFreeBlock (wsub c p (heapSTRUCT_SIZE c)) = 0 ∧
      (∀ f t, vPortFree c f s p ≠ Outcome.assertFailed t) ∧
      ∃ s', vPortFree c fuel s p = Outcome.ok s' ()) := by
  constructor
  · intro hi a ha
    obtain ⟨bs, fl, hinv, _⟩ := hr.inv_of_init2 hw hi
    rw [hinv.freeList_eq2 hw hfuel] at ha
    obtain ⟨b, hb, hbf, rfl⟩ := hinv.mem_fl.1 ha
    rw [hinv.sizes b hb, if_pos hbf]
    exact hw.isAllocated_of_lt (size_lt_half2 hw hinv.tiled hb).1
  · intro p d hp
    rcases hr.inv2 hw with ⟨_, rfl⟩ | ⟨bs, fl, hinv, hl⟩
    · exact absurd hp (List.not_mem_nil _)
    · obtain ⟨pre, post, a, _, _, _, hsub, hsz, hnx, hd, _⟩ := hinv.live_block2 hw hl hp
      have hbit : heapBLOCK_IS_ALLOCATED c (s.xBlockSize (wsub c p (heapSTRUCT_SIZE c)))
          = true := by
        rw [hsub, hsz]; exact hw.isAllocated_flag hd
      have hnext : s.pxNextFreeBlock (wsub c p (heapSTRUCT_SIZE c)) = 0 := by
        rw [hsub]; exact hnx
      exact ⟨hbit, hnext, fun f t => free_guards_pass2 f s hbit hnext t,
        (hinv.free_ok2 hw hl hp).1 fuel hfuel⟩

end Heap2

/-- C29: in every reachable state of `heap_4.c` and `heap_2.c`, every region of the free
list, once the heap is set up, has the allocation bit of its size field clear; the header of
every live allocation has the bit set and the link `NULL`; so `vPortFree` of a live pointer
fails neither of its two assertions, whatever the fuel, and returns with fuel above the heap
size. -/
theorem C29_flag_exclusivity {c : Config} (hw : c.WF)
    {s4 : Heap4.State} {live4 : List (Nat × Nat)} (h4 : Heap4.Reach c s4 live4)
    {s2 : Heap2.State} {live2 : List (Nat × Nat)} (h2 : Heap2.Reach c s2 live2)
    {fuel : Nat} (hfuel : c.configTOTAL_HEAP_SIZE < fuel) :
    ((s4.pxEnd ≠ 0 →
        ∀ a ∈ Heap4.freeList c fuel s4, heapBLOCK_IS_ALLOCATED c (s4.xBlockSize a) = false) ∧
      (∀ p d, (p, d) ∈ live4 →
        heapBLOCK_IS_ALLOCATED c (s4.xBlockSize (wsub c p (Heap4.xHeapStructSize c))) = true ∧
        s4.pxNextFreeBlock (wsub c p (Heap4.xHeapStructSize c)) = 0 ∧
        (∀ f t, Heap4.vPortFree c f s4 p ≠ Outcome.assertFailed t) ∧
        ∃ s', Heap4.vPortFree c fuel s4 p = Outcome.ok s' ())) ∧
    ((s2.xHeapHasBeenInitialised = true →
        ∀ a ∈ Heap2.freeList c fuel s2, heapBLOCK_IS_ALLOCATED c (s2.xBlockSize a) = false) ∧
      (∀ p d, (p, d) ∈ live2 →
        heapBLOCK_IS_ALLOCATED c (s2.xBlockSize (wsub c p (Heap2.heapSTRUCT_SIZE c))) = true ∧
        s2.pxNextFreeBlock (wsub c p (Heap2.heapSTRUCT_SIZE c)) = 0 ∧
        (∀ f t, Heap2.vPortFree c f s2 p ≠ Outcome.assertFailed t) ∧
        ∃ s', Heap2.vPortFree c fuel s2 p = Outcome.ok s' ())) :=
  ⟨h4.flags hw hfuel, h2.flags2 hw hfuel⟩

/-- The statement of C29 on `demo` in the states after two allocations and the release of
the first: the regions of the free lists are not marked, the header at 4152 of the live
pointer 4160 is, and its link is `NULL`. -/
theorem C29_flag_exclusivity_witness :
    ((∀ a ∈ Heap4.freeList demo 1033 Heap4.demo3,
        heapBLOCK_IS_ALLOCATED demo (Heap4.demo3.xBlockSize a) = false) ∧
      heapBLOCK_IS_ALLOCATED demo (Heap4.demo3.xBlockSize 4152) = true ∧
      Heap4.demo3.pxNextFreeBlock 4152 = 0 ∧
      (∀ f t, Heap4.vPortFree demo f Heap4.demo3 4160 ≠ Outcome.assertFailed t)) ∧
    ((∀ a ∈ Heap2.freeList demo 1033 Heap2.demo3,
        heapBLOCK_IS_ALLOCATED demo (Heap2.demo3.xBlockSize a) = false) ∧
      heapBLOCK_IS_ALLOCATED demo (Heap2.demo3.xBlockSize 4152) = true ∧
      Heap2.demo3.pxNextFreeBlock 4152 = 0 ∧
      (∀ f t, Heap2.vPortFree demo f Heap2.demo3 4160 ≠ Outcome.assertFailed t)) :=
  have h := C29_flag_exclusivity demo_WF Heap4.reach_demo3 Heap2.reach2_demo3 demo_fuel
  have a4 := h.1.2 4160 56 (by decide)
  have a2 := h.2.2 4160 56 (by decide)
  ⟨⟨h.1.1 (by decide), a4.1, a4.2.1, a4.2.2.1⟩,
    ⟨h.2.1 rfl, a2.1, a2.2.1, a2.2.2.1⟩⟩

namespace Heap4

variable {c : Config} {s s' : State} {bs : List Blk} {live : List (Nat × Nat)}

/-- The free region that ends at `pxEnd` is linked to `pxEnd`. -/
theorem Inv.next_of_last (h : Inv c s bs) {b : Blk} (hb : b ∈ bs) (hbf : b.free = true)
    (hend : b.addr + b.size = s.pxEnd) : s.pxNextFreeBlock b.addr = s.pxEnd := by
  obtain ⟨l1, l2, hl⟩ := List.append_of_mem (mem_freeAddrs.2 ⟨b, hb, hbf, rfl⟩)
  have hc := h.chain
  have hso := freeAddrs_sorted h.tiled
  rw [hl] at hc hso
  have hc2 := (chain_append.1 hc).2
  cases l2 with
  | nil => exact hc2
  | cons y l2' =>
    exfalso
    have hy : y ∈ freeAddrs bs := by rw [hl]; simp
    obtain ⟨g, hg, _, hga⟩ := mem_freeAddrs.1 hy
    have hlt : b.addr < y :=
      (List.pairwise_cons.1 (List.pairwise_append.1 hso).2.1).1 y (List.mem_cons_self _ _)
    have hgm := tiled_mem h.tiled hg
    have hbm := tiled_mem h.tiled hb
    have hne : b ≠ g := by
      intro e
      rw [e, hga] at hlt
      exact Nat.lt_irrefl _ hlt
    rcases tiled_disjoint h.tiled hb hg hne with h1 | h1 <;> omega

/-- The header at `pxEnd` in a reachable state of `heap_4.c` that is set up: it ends the
free list, holds the size 0 and the link `NULL`, lies behind every free region, and is not
the header of a region that `pvPortMalloc` returns, nor part of a region that `vPortFree`
puts on the free list. -/
theorem Reach.end_marker (hw : c.WF) (hr : Reach c s live) (hi : s.pxEnd ≠ 0) {fuel : Nat}
    (hfuel : c.configTOTAL_HEAP_SIZE < fuel) :
    s.pxEnd = endAddress c ∧
    Chain s.pxNextFreeBlock c.xStart (freeList c fuel s) s.pxEnd ∧
    s.pxNextFreeBlock ((freeList c fuel s).getLastD c.xStart) = s.pxEnd ∧
    s.pxEnd ∉ freeList c fuel s ∧
    (∀ a ∈ freeList c fuel s, a + s.xBlockSize a ≤ s.pxEnd) ∧
    s.xBlockSize s.pxEnd = 0 ∧ s.pxNextFreeBlock s.pxEnd = 0 ∧
    (∀ n f t p, pvPortMalloc c f s n = Outcome.ok t p →
      p ≠ s.pxEnd + xHeapStructSize c ∧
      (p ≠ 0 → p - xHeapStructSize c + regionSize c t p ≤ s.pxEnd) ∧
      t.pxEnd = s.pxEnd ∧ t.xBlockSize t.pxEnd = 0 ∧ t.pxNextFreeBlock t.pxEnd = 0) ∧
    (∀ p d t, (p, d) ∈ live → vPortFree c fuel s p = Outcome.ok t () →
      t.pxEnd = s.pxEnd ∧ t.xBlockSize t.pxEnd = 0 ∧ t.pxNextFreeBlock t.pxEnd = 0 ∧
      (wsub c p (xHeapStructSize c) + d = s.pxEnd →
        ∃ a ∈ freeList c fuel t, a ≤ wsub c p (xHeapStructSize c) ∧
          a + t.xBlockSize a = s.pxEnd ∧ t.pxNextFreeBlock a = s.pxEnd)) := by
  obtain ⟨bs, hinv, hl⟩ := hr.inv_of_init hw hi
  have hfl := hinv.freeList_eq hw hfuel
  rw [hfl]
  refine ⟨hinv.pxEnd_eq, hinv.chain, chain_next_last hinv.chain, ?_, ?_, hinv.end_size,
    hinv.end_next, ?_, ?_⟩
  · rw [hinv.pxEnd_eq]; exact hinv.end_not_mem
  · intro a ha
    obtain ⟨b, hb, hbf, rfl⟩ := mem_freeAddrs.1 ha
    rw [hinv.sizes b hb, if_pos hbf]
    exact (tiled_mem hinv.tiled hb).2.1
  · intro n f t p hres
    have hs := hs_facts hw
    have hlk := hw.link_pos
    rcases hinv.malloc_ok hw hres with ⟨e1, e2, _⟩ |
      ⟨pre, b, post, hbs, hf, _, _, e2, k6, _, k8, _⟩
    · subst e1
      subst e2
      exact ⟨by omega, fun h => absurd rfl h, rfl, hinv.end_size, hinv.end_next⟩
    · obtain ⟨hreg, hle, _, _, hend⟩ := hinv.malloc_region hw hbs hf k8
      have hb : b ∈ bs := by rw [hbs]; simp
      have hbm := tiled_mem hinv.tiled hb
      have hpe := hinv.pxEnd_eq
      subst e2
      refine ⟨by omega, fun _ => ?_, by rw [k6.pxEnd_eq, hpe], k6.end_size, k6.end_next⟩
      rw [hreg]
      omega
  · intro p d t hp hres
    obtain ⟨pre, post, hbs, k, _⟩ := (hinv.free_ok hw hl hp).2 fuel t hres
    have hpe : t.pxEnd = s.pxEnd := by rw [k.pxEnd_eq, hinv.pxEnd_eq]
    refine ⟨hpe, k.end_size, k.end_next, ?_⟩
    intro hend
    have htl := hinv.tiled
    rw [hbs] at htl
    obtain ⟨m, hm, hmf, hma, hme⟩ :=
      @coalesce_cover pre post _ _ d (tiled_split htl).1
    have hmm := tiled_mem k.tiled hm
    have hmend : m.addr + m.size = t.pxEnd := by
      simp only at hma hme
      omega
    refine ⟨m.addr, ?_, hma, ?_, ?_⟩
    · rw [k.freeList_eq hw hfuel]
      exact mem_freeAddrs.2 ⟨m, hm, hmf, rfl⟩
    · rw [k.sizes m hm, if_pos hmf, hmend, hpe]
    · rw [k.next_of_last hm hmf hmend, hpe]

theorem demoWhole_eq : pvPortMalloc demo 1033 demoBoot 992 = Outcome.ok demoWhole 4104 := rfl

theorem reach_demoWhole : Reach demo demoWhole [(4104, 1024)] :=
  Reach.malloc 1033 992 reach_demoBoot (by decide) demoWhole_eq

end Heap4

/-- C30: in `heap_4.c`, in every reachable state in which the heap is set up, the header at
`pxEnd` ends the free list: the walk from `xStart` over the regions of the list arrives at
it, it is no region of the list, and every region of the list ends at or before it.  It holds
the size 0 and the link `NULL`, and does so after every `pvPortMalloc` and every `vPortFree`
of a live pointer.  `pvPortMalloc` never returns its payload: a region returned ends at or
before it.  When `vPortFree` frees a region that ends exactly at `pxEnd`, the free region
that holds the freed bytes afterwards still ends exactly at `pxEnd` and is linked to it. -/
theorem C30_end_marker {c : Config} (hw : c.WF) {s : Heap4.State}
    {live : List (Nat × Nat)} (hr : Heap4.Reach c s live) (hi : s.pxEnd ≠ 0) {fuel : Nat}
    (hfuel : c.configTOTAL_HEAP_SIZE < fuel) :
    s.pxEnd = Heap4.endAddress c ∧
    Chain s.pxNextFreeBlock c.xStart (Heap4.freeList c fuel s) s.pxEnd ∧
    s.pxNextFreeBlock ((Heap4.freeList c fuel s).getLastD c.xStart) = s.pxEnd ∧
    s.pxEnd ∉ Heap4.freeList c fuel s ∧
    (∀ a ∈ Heap4.freeList c fuel s, a + s.xBlockSize a ≤ s.pxEnd) ∧
    s.xBlockSize s.pxEnd = 0 ∧ s.pxNextFreeBlock s.pxEnd = 0 ∧
    (∀ n f t p, Heap4.pvPortMalloc c f s n = Outcome.ok t p →
      p ≠ s.pxEnd + Heap4.xHeapStructSize c ∧
      (p ≠ 0 → p - Heap4.xHeapStructSize c + Heap4.regionSize c t p ≤ s.pxEnd) ∧
      t.pxEnd = s.pxEnd ∧ t.xBlockSize t.pxEnd = 0 ∧ t.pxNextFreeBlock t.pxEnd = 0) ∧
    (∀ p d t, (p, d) ∈ live → Heap4.vPortFree c fuel s p = Outcome.ok t () →
      t.pxEnd = s.pxEnd ∧ t.xBlockSize t.pxEnd = 0 ∧ t.pxNextFreeBlock t.pxEnd = 0 ∧
      (wsub c p (Heap4.xHeapStructSize c) + d = s.pxEnd →
        ∃ a ∈ Heap4.freeList c fuel t, a ≤ wsub c p (Heap4.xHeapStructSize c) ∧
          a + t.xBlockSize a = s.pxEnd ∧ t.pxNextFreeBlock a = s.pxEnd)) :=
  hr.end_marker hw hi hfuel

/-- The statement of C30 on `demo` in the state in which the whole heap, the 1024 bytes from
4096 to `pxEnd` at 5120, is one live allocation: after `vPortFree` the free list holds the
region at 4096, of 1024 bytes and linked to 5120, and the header at 5120 holds the size 0 and
the link `NULL`. -/
theorem C30_end_marker_witness :
    Heap4.demoWhole.pxEnd = 5120 ∧
    Heap4.vPortFree demo 1033 Heap4.demoWhole 4104 = Outcome.ok Heap4.demoWholeFreed () ∧
    wsub demo 4104 (Heap4.xHeapStructSize demo) + 1024 = Heap4.demoWhole.pxEnd ∧
    Heap4.demoWholeFreed.pxEnd = Heap4.demoWhole.pxEnd ∧
    Heap4.demoWholeFreed.xBlockSize Heap4.demoWholeFreed.pxEnd = 0 ∧
    Heap4.demoWholeFreed.pxNextFreeBlock Heap4.demoWholeFreed.pxEnd = 0 ∧
    (∃ a ∈ Heap4.freeList demo 1033 Heap4.demoWholeFreed,
      a ≤ wsub demo 4104 (Heap4.xHeapStructSize demo) ∧
      a + Heap4.demoWholeFreed.xBlockSize a = Heap4.demoWhole.pxEnd ∧
      Heap4.demoWholeFreed.pxNextFreeBlock a = Heap4.demoWhole.pxEnd) ∧
    Heap4.freeList demo 1033 Heap4.demoWholeFreed = [4096] :=
  have h := C30_end_marker demo_WF Heap4.reach_demoWhole
    (show Heap4.demoWhole.pxEnd ≠ 0 by decide) demo_fuel
  have a := h.2.2.2.2.2.2.2.2 4104 1024 Heap4.demoWholeFreed (by decide) rfl
  ⟨by decide, rfl, by decide, a.1, a.2.1, a.2.2.1, a.2.2.2 (by decide), by decide⟩

namespace Heap4

variable {c : Config}

/-- When the block being inserted is not merged with the block it is inserted before, its
link is set to that block. -/
theorem mergeBehind_keep {s : State} {i y : Nat}
    (h : ¬ (wadd c y (s.xBlockSize y) = s.pxNextFreeBlock i ∧
      s.pxNextFreeBlock i ≠ s.pxEnd)) :
    mergeBehind c s i y = s.setNext y (s.pxNextFreeBlock i) := by
  unfold mergeBehind
  by_cases h1 : wadd c y (s.xBlockSize y) = s.pxNextFreeBlock i
  · have h2 : s.pxNextFreeBlock i = s.pxEnd := by
      by_contra h2; exact h ⟨h1, h2⟩
    rw [if_pos h1, if_neg (fun hh => hh h2), h2]
  · rw [if_neg h1]

/-- The header fields after `prvInsertBlockIntoFreeList` has inserted the block `x` into a
free list that is ordered by address, `l1` being the nodes below `x` and `l2` the nodes
above it. -/
theorem insert_fields {s : State} {x fuel : Nat} {l1 l2 : List Nat}
    (hch : Chain s.pxNextFreeBlock c.xStart (l1 ++ l2) s.pxEnd)
    (h1 : ∀ a ∈ l1, a < x) (h2 : ∀ a ∈ l2, x < a)
    (hx0 : x ≠ c.xStart) (hxe : x < s.pxEnd)
    (hwrap : ∀ a ∈ c.xStart :: x :: (l1 ++ l2), a + s.xBlockSize a < c.wordMod)
    (hfuel : (l1 ++ l2).length < fuel) :
    ∃ s', prvInsertBlockIntoFreeList c fuel s x = some s' ∧ s'.pxEnd = s.pxEnd ∧
      (∀ a, a ≠ l1.getLastD c.xStart → a ≠ x →
        s'.pxNextFreeBlock a = s.pxNextFreeBlock a ∧ s'.xBlockSize a = s.xBlockSize a) ∧
      (if l1.getLastD c.xStart + s.xBlockSize (l1.getLastD c.xStart) = x then
        s'.xBlockSize (l1.getLastD c.xStart)
          = s.xBlockSize (l1.getLastD c.xStart) + s.xBlockSize x
            + (if x + s.xBlockSize x = l2.headD s.pxEnd ∧ l2.headD s.pxEnd ≠ s.pxEnd
                then s.xBlockSize (l2.headD s.pxEnd) else 0) ∧
        s'.pxNextFreeBlock (l1.getLastD c.xStart)
          = (if x + s.xBlockSize x = l2.headD s.pxEnd ∧ l2.headD s.pxEnd ≠ s.pxEnd
              then s.pxNextFreeBlock (l2.headD s.pxEnd) else l2.headD s.pxEnd)
      else
        s'.xBlockSize (l1.getLastD c.xStart) = s.xBlockSize (l1.getLastD c.xStart) ∧
        s'.xBlockSize x
          = s.xBlockSize x
            + (if x + s.xBlockSize x = l2.headD s.pxEnd ∧ l2.headD s.pxEnd ≠ s.pxEnd
                then s.xBlockSize (l2.headD s.pxEnd) else 0) ∧
        s'.pxNextFreeBlock (l1.getLastD c.xStart) = x ∧
        s'.pxNextFreeBlock x
          = (if x + s.xBlockSize x = l2.headD s.pxEnd ∧ l2.headD s.pxEnd ≠ s.pxEnd
              then s.pxNextFreeBlock (l2.headD s.pxEnd) else l2.headD s.pxEnd)) := by
  have hnext : s.pxNextFreeBlock (l1.getLastD c.xStart) = l2.headD s.pxEnd :=
    chain_next_mid hch
  have hloop : insertLoop s.pxNextFreeBlock x fuel c.xStart
      = some (l1.getLastD c.xStart) := by
    rw [insertLoop_spec s.pxNextFreeBlock x s.pxEnd (by omega) _ _ _ hch hfuel,
      List.takeWhile_append_of_pos (fun a ha => by simpa using h1 a ha),
      takeWhile_eq_nil_of_forall_not (fun a ha => by
        have := h2 a ha
        simp only [decide_eq_false_iff_not]; omega),
      List.append_nil]
  have hcur : l1.getLastD c.xStart = c.xStart ∨ l1.getLastD c.xStart ∈ l1 := getLastD_mem_or
  have hcx : l1.getLastD c.xStart ≠ x := by
    rcases hcur with h | h
    · rw [h]; exact hx0.symm
    · have := h1 _ h; omega
  have hcm : l1.getLastD c.xStart ∈ c.xStart :: x :: (l1 ++ l2) := by
    rcases hcur with h | h
    · rw [h]; exact List.mem_cons_self _ _
    · exact List.mem_cons_of_mem _ (List.mem_cons_of_mem _ (List.mem_append_left _ h))
  have hcw := hwrap _ hcm
  have hxw := hwrap x (List.mem_cons_of_mem _ (List.mem_cons_self _ _))
  have hnm : l2.headD s.pxEnd ≠ s.pxEnd → l2.headD s.pxEnd ∈ l2 := by
    intro hne
    cases l2 with
    | nil => exact absurd rfl hne
    | cons a t => exact List.mem_cons_self _ _
  generalize l1.getLastD c.xStart = cur at *
  generalize l2.headD s.pxEnd = nxt at *
  have hnx : nxt ≠ s.pxEnd → x < nxt ∧ nxt + s.xBlockSize nxt < c.wordMod := by
    intro hne
    have hm := hnm hne
    exact ⟨h2 _ hm, hwrap _ (List.mem_cons_of_mem _ (List.mem_cons_of_mem _
      (List.mem_append_right _ hm)))⟩
  by_cases hf : cur + s.xBlockSize cur = x
  · have hfw : wadd c cur (s.xBlockSize cur) = x := by
      rw [wadd_eq c hcw]; exact hf
    have hsum : wadd c (s.xBlockSize cur) (s.xBlockSize x)
        = s.xBlockSize cur + s.xBlockSize x := wadd_eq c (by omega)
    rw [insert_eval_merge hloop hfw, hsum]
    have e2 : (s.setSize cur (s.xBlockSize cur + s.xBlockSize x)).xBlockSize cur
        = s.xBlockSize cur + s.xBlockSize x := store_same _ _ _
    by_cases hb : x + s.xBlockSize x = nxt ∧ nxt ≠ s.pxEnd
    · obtain ⟨hn1, hn2⟩ := hnx hb.2
      have hnc : nxt ≠ cur := by omega
      have m1 : wadd c cur ((s.setSize cur (s.xBlockSize cur + s.xBlockSize x)).xBlockSize cur)
          = (s.setSize cur (s.xBlockSize cur + s.xBlockSize x)).pxNextFreeBlock cur := by
        rw [e2, wadd_eq c (by omega)]
        show _ = s.pxNextFreeBlock cur
        rw [hnext]; omega
      have m2 : (s.setSize cur (s.xBlockSize cur + s.xBlockSize x)).pxNextFreeBlock cur
          ≠ (s.setSize cur (s.xBlockSize cur + s.xBlockSize x)).pxEnd := by
        show s.pxNextFreeBlock cur ≠ s.pxEnd
        rw [hnext]; exact hb.2
      rw [mergeBehind_merge m1 m2]
      refine ⟨_, rfl, rfl, ?_, ?_⟩
      · intro a ha _
        constructor
        · show store s.pxNextFreeBlock cur _ a = _
          rw [store_ne _ _ ha]
        · show store (store s.xBlockSize cur _) cur _ a = _
          rw [store_ne _ _ ha, store_ne _ _ ha]
      · rw [if_pos hf, if_pos hb, if_pos hb]
        constructor
        · show store (store s.xBlockSize cur _) cur _ cur = _
          rw [store_same, e2]
          show wadd c _ (store s.xBlockSize cur _ (s.pxNextFreeBlock cur)) = _
          rw [hnext, store_ne _ _ hnc, wadd_eq c (by omega)]
        · show store s.pxNextFreeBlock cur _ cur = _
          rw [store_same]
          show s.pxNextFreeBlock (s.pxNextFreeBlock cur) = _
          rw [hnext]
    · have m1 : ¬ (wadd c cur
            ((s.setSize cur (s.xBlockSize cur + s.xBlockSize x)).xBlockSize cur)
          = (s.setSize cur (s.xBlockSize cur + s.xBlockSize x)).pxNextFreeBlock cur ∧
          (s.setSize cur (s.xBlockSize cur + s.xBlockSize x)).pxNextFreeBlock cur
            ≠ (s.setSize cur (s.xBlockSize cur + s.xBlockSize x)).pxEnd) := by
        rw [e2, wadd_eq c (by omega)]
        show ¬ (_ = s.pxNextFreeBlock cur ∧ s.pxNextFreeBlock cur ≠ s.pxEnd)
        rw [hnext]
        intro hh
        exact hb ⟨by omega, hh.2⟩
      rw [mergeBehind_keep m1]
      refine ⟨_, rfl, rfl, ?_, ?_⟩
      · intro a ha _
        constructor
        · show store s.pxNextFreeBlock cur _ a = _
          rw [store_ne _ _ ha]
        · show store s.xBlockSize cur _ a = _
          rw [store_ne _ _ ha]
      · rw [if_pos hf, if_neg hb, if_neg hb]
        constructor
        · show store s.xBlockSize cur _ cur = _
          rw [store_same]; rfl
        · show store s.pxNextFreeBlock cur _ cur = _
          rw [store_same]
          show s.pxNextFreeBlock cur = _
          rw [hnext]
  · have hfw : wadd c cur (s.xBlockSize cur) ≠ x := by
      rw [wadd_eq c hcw]; exact hf
    rw [insert_eval_apart hloop hfw hcx]
    by_cases hb : x + s.xBlockSize x = nxt ∧ nxt ≠ s.pxEnd
    · obtain ⟨hn1, hn2⟩ := hnx hb.2
      have hnc : nxt ≠ x := by omega
      have m1 : wadd c x (s.xBlockSize x) = s.pxNextFreeBlock cur := by
        rw [wadd_eq c hxw, hnext]; exact hb.1
      have m2 : s.pxNextFreeBlock cur ≠ s.pxEnd := by
        rw [hnext]; exact hb.2
      rw [mergeBehind_merge m1 m2]
      refine ⟨_, rfl, rfl, ?_, ?_⟩
      · intro a ha hax
        constructor
        · show store (store s.pxNextFreeBlock x _) cur _ a = _
          rw [store_ne _ _ ha, store_ne _ _ hax]
        · show store s.xBlockSize x _ a = _
          rw [store_ne _ _ hax]
      · rw [if_neg hf, if_pos hb, if_pos hb]
        refine ⟨?_, ?_, ?_, ?_⟩
        · show store s.xBlockSize x _ cur = _
          rw [store_ne _ _ hcx]
        · show store s.xBlockSize x _ x = _
          rw [store_same, hnext, wadd_eq c (by omega)]
        · show store (store s.pxNextFreeBlock x _) cur _ cur = _
          rw [store_same]
        · show store (store s.pxNextFreeBlock x _) cur _ x = _
          rw [store_ne _ _ hcx.symm, store_same, hnext]
    · have m1 : ¬ (wadd c x (s.xBlockSize x) = s.pxNextFreeBlock cur ∧
          s.pxNextFreeBlock cur ≠ s.pxEnd) := by
        rw [wadd_eq c hxw, hnext]; exact hb
      rw [mergeBehind_keep m1]
      refine ⟨_, rfl, rfl, ?_, ?_⟩
      · intro a ha hax
        constructor
        · show store (store s.pxNextFreeBlock x _) cur _ a = _
          rw [store_ne _ _ ha, store_ne _ _ hax]
        · rfl
      · rw [if_neg hf, if_neg hb, if_neg hb]
        refine ⟨rfl, rfl, ?_, ?_⟩
        · show store (store s.pxNextFreeBlock x _) cur _ cur = _
          rw [store_same]
        · show store (store s.pxNextFreeBlock x _) cur _ x = _
          rw [store_ne _ _ hcx.symm, store_same, hnext]

end Heap4

/-- The first link of a chain. -/
theorem chain_head {next : Nat → Nat} {l : List Nat} {p e : Nat} (h : Chain next p l e) :
    next p = l.headD e := by
  cases l with
  | nil => exact h
  | cons a l => exact h.1

/-- C22: `prvInsertBlockIntoFreeList` of `heap_4.c` is called for the block `x` on a free
list that is ordered by address and does not hold `x`, `l1` being the nodes below `x`, so
that the walk stops at the last of them, or at `xStart`, and `l2` the nodes above `x`.  The
call returns.  The block is merged into the node the walk stopped at if and only if that
node ends at `x`; the block or the merged node absorbs the node behind if and only if it
ends at that node and that node is not `pxEnd`.  The list afterwards is `l1`, then `x`
unless it was merged into the node in front, then `l2`, without its first node when that
was absorbed; the node that holds the block has the sum of the sizes merged, the other nodes
keep their sizes; and the bytes covered by the nodes of the list afterwards are the bytes
covered before and the bytes of the block. -/
theorem C22_insert_merges {c : Config} {s : Heap4.State} (x fuel : Nat) (l1 l2 : List Nat)
    (hch : Chain s.pxNextFreeBlock c.xStart (l1 ++ l2) s.pxEnd)
    (hso : (l1 ++ l2).Pairwise (fun a b => a < b))
    (h1 : ∀ a ∈ l1, a < x) (h2 : ∀ a ∈ l2, x < a)
    (hxs : c.xStart ∉ l1 ++ l2) (hx0 : x ≠ c.xStart) (hxe : x < s.pxEnd)
    (hs0 : s.xBlockSize c.xStart = 0)
    (hwrap : ∀ a ∈ c.xStart :: x :: (l1 ++ l2), a + s.xBlockSize a < c.wordMod)
    (hfuel : (l1 ++ l2).length < fuel) :
    ∃ s', Heap4.prvInsertBlockIntoFreeList c fuel s x = some s' ∧ s'.pxEnd = s.pxEnd ∧
      Chain s'.pxNextFreeBlock c.xStart
        (l1 ++ ((if l1.getLastD c.xStart + s.xBlockSize (l1.getLastD c.xStart) = x
            then [] else [x]) ++
          (if x + s.xBlockSize x = l2.headD s.pxEnd ∧ l2.headD s.pxEnd ≠ s.pxEnd
            then l2.tail else l2))) s.pxEnd ∧
      s'.xBlockSize (if l1.getLastD c.xStart + s.xBlockSize (l1.getLastD c.xStart) = x
          then l1.getLastD c.xStart else x)
        = (if l1.getLastD c.xStart + s.xBlockSize (l1.getLastD c.xStart) = x
            then s.xBlockSize (l1.getLastD c.xStart) else 0) + s.xBlockSize x
          + (if x + s.xBlockSize x = l2.headD s.pxEnd ∧ l2.headD s.pxEnd ≠ s.pxEnd
              then s.xBlockSize (l2.headD s.pxEnd) else 0) ∧
      (∀ a ∈ l1 ++ l2,
        a ≠ (if l1.getLastD c.xStart + s.xBlockSize (l1.getLastD c.xStart) = x
          then l1.getLastD c.xStart else x) → s'.xBlockSize a = s.xBlockSize a) ∧
      (∀ y, (∃ a ∈ l1 ++ ((if l1.getLastD c.xStart + s.xBlockSize (l1.getLastD c.xStart) = x
              then [] else [x]) ++
            (if x + s.xBlockSize x = l2.headD s.pxEnd ∧ l2.headD s.pxEnd ≠ s.pxEnd
              then l2.tail else l2)), a ≤ y ∧ y < a + s'.xBlockSize a) ↔
        ((∃ a ∈ l1 ++ l2, a ≤ y ∧ y < a + s.xBlockSize a) ∨
          (x ≤ y ∧ y < x + s.xBlockSize x))) := by
  obtain ⟨s', hres, hend, hoth, hfld⟩ := Heap4.insert_fields hch h1 h2 hx0 hxe hwrap hfuel
  refine ⟨s', hres, hend, ?_⟩
  have hnd : (c.xStart :: (l1 ++ l2)).Nodup :=
    List.nodup_cons.2 ⟨hxs, hso.imp (fun h => Nat.ne_of_lt h)⟩
  have hxL : x ∉ l1 ++ l2 := by
    intro h
    rcases List.mem_append.1 h with h | h
    · have := h1 x h; omega
    · have := h2 x h; omega
  have hcur : l1.getLastD c.xStart = c.xStart ∨ l1.getLastD c.xStart ∈ l1 := getLastD_mem_or
  have hnext : s.pxNextFreeBlock (l1.getLastD c.xStart) = l2.headD s.pxEnd :=
    chain_next_mid hch
  have hl2 : l2.headD s.pxEnd ≠ s.pxEnd → l2 = l2.headD s.pxEnd :: l2.tail := by
    intro hne
    cases l2 with
    | nil => exact absurd rfl hne
    | cons a t => rfl
  have hsm : ∀ a ∈ l1 ++ l2, a ≠ l1.getLastD c.xStart → s'.xBlockSize a = s.xBlockSize a :=
    fun a ha hac => (hoth a hac (fun h => hxL (h ▸ ha))).2
  have hnx : ∀ a ∈ c.xStart :: (l1 ++ l2), a ≠ l1.getLastD c.xStart →
      s'.pxNextFreeBlock a = s.pxNextFreeBlock a := by
    intro a ha hac
    refine (hoth a hac ?_).1
    intro h
    rcases List.mem_cons.1 ha with h' | h'
    · exact hx0 (h ▸ h')
    · exact hxL (h ▸ h')
  generalize hC : l1.getLastD c.xStart = cur at *
  generalize hN : l2.headD s.pxEnd = nxt at *
  by_cases hf : cur + s.xBlockSize cur = x
  · have hc1 : cur ∈ l1 := by
      rcases hcur with h | h
      · exfalso
        rw [h, hs0] at hf
        exact hx0 hf.symm
      · exact h
    have hcl : cur < x := h1 cur hc1
    by_cases hb : x + s.xBlockSize x = nxt ∧ nxt ≠ s.pxEnd
    · simp only [if_pos hf, if_pos hb, List.nil_append] at hfld ⊢
      obtain ⟨f1, f2⟩ := hfld
      have hl := hl2 hb.2
      generalize l2.tail = t at *
      subst hl
      have hxn : x < nxt := h2 nxt (List.mem_cons_self _ _)
      have hsub : ∀ a, a ∈ l1 ++ t → a ∈ l1 ++ nxt :: t := by
        intro a ha
        rcases List.mem_append.1 ha with h | h
        · exact List.mem_append_left _ h
        · exact List.mem_append_right _ (List.mem_cons_of_mem _ h)
      refine ⟨?_, f1, fun a ha hac => hsm a ha hac, ?_⟩
      · refine chain_unlink hch hnd (by rw [hC]; exact f2) (fun a ha hac => hnx a ?_ (by
          rw [hC] at hac; exact hac))
        rcases List.mem_cons.1 ha with h | h
        · rw [h]; exact List.mem_cons_self _ _
        · exact List.mem_cons_of_mem _ (hsub a h)
      · intro y
        constructor
        · rintro ⟨a, ha, h3, h4⟩
          by_cases hac : a = cur
          · rw [hac] at h3 h4
            rw [f1] at h4
            by_cases q1 : y < cur + s.xBlockSize cur
            · exact Or.inl ⟨cur, List.mem_append_left _ hc1, h3, q1⟩
            · by_cases q2 : y < x + s.xBlockSize x
              · exact Or.inr ⟨by omega, q2⟩
              · exact Or.inl ⟨nxt, by simp, by omega, by omega⟩
          · rw [hsm a (hsub a ha) hac] at h4
            exact Or.inl ⟨a, hsub a ha, h3, h4⟩
        · rintro (⟨a, ha, h3, h4⟩ | ⟨h3, h4⟩)
          · by_cases hac : a = cur
            · rw [hac] at h3 h4
              exact ⟨cur, List.mem_append_left _ hc1, h3, by rw [f1]; omega⟩
            · by_cases han : a = nxt
              · rw [han] at h3 h4
                exact ⟨cur, List.mem_append_left _ hc1, by omega, by rw [f1]; omega⟩
              · refine ⟨a, ?_, h3, by rw [hsm a ha hac]; exact h4⟩
                rcases List.mem_append.1 ha with h | h
                · exact List.mem_append_left _ h
                · rcases List.mem_cons.1 h with h | h
                  · exact absurd h han
                  · exact List.mem_append_right _ h
          · exact ⟨cur, List.mem_append_left _ hc1, by omega, by rw [f1]; omega⟩
    · simp only [if_pos hf, if_neg hb, List.nil_append] at hfld ⊢
      obtain ⟨f1, f2⟩ := hfld
      refine ⟨?_, f1, fun a ha hac => hsm a ha hac, ?_⟩
      · refine chain_congr ?_ hch
        intro a ha
        by_cases hac : a = cur
        · rw [hac, f2, hnext]
        · exact hnx a ha hac
      · intro y
        constructor
        · rintro ⟨a, ha, h3, h4⟩
          by_cases hac : a = cur
          · rw [hac] at h3 h4
            rw [f1] at h4
            by_cases q1 : y < cur + s.xBlockSize cur
            · exact Or.inl ⟨cur, List.mem_append_left _ hc1, h3, q1⟩
            · exact Or.inr ⟨by omega, by omega⟩
          · rw [hsm a ha hac] at h4
            exact Or.inl ⟨a, ha, h3, h4⟩
        · rintro (⟨a, ha, h3, h4⟩ | ⟨h3, h4⟩)
          · by_cases hac : a = cur
            · rw [hac] at h3 h4
              exact ⟨cur, List.mem_append_left _ hc1, h3, by rw [f1]; omega⟩
            · exact ⟨a, ha, h3, by rw [hsm a ha hac]; exact h4⟩
          · exact ⟨cur, List.mem_append_left _ hc1, by omega, by rw [f1]; omega⟩
  · have hcx : cur ≠ x := by
      rcases hcur with h | h
      · rw [h]; exact hx0.symm
      · have := h1 _ h; omega
    by_cases hb : x + s.xBlockSize x = nxt ∧ nxt ≠ s.pxEnd
    · simp only [if_neg hf, if_pos hb, List.singleton_append] at hfld ⊢
      obtain ⟨f0, f1, f2, f3⟩ := hfld
      have hl := hl2 hb.2
      generalize l2.tail = t at *
      subst hl
      have hxn : x < nxt := h2 nxt (List.mem_cons_self _ _)
      have hsame : ∀ a ∈ l1 ++ nxt :: t, a ≠ x → s'.xBlockSize a = s.xBlockSize a := by
        intro a ha _
        by_cases hac : a = cur
        · rw [hac]; exact f0
        · exact hsm a ha hac
      refine ⟨?_, by rw [f1]; omega, hsame, ?_⟩
      · refine @chain_rebuild _ _ l1 [nxt] t _ x _ hch hnd (by rw [hC]; exact f2)
          (f3.trans (chain_head (chain_append.1 hch).2)) ?_ ?_
        · intro a _ hac hax
          rw [hC] at hac
          exact (hoth a hac hax).1
        · intro h
          rcases List.mem_cons.1 h with h | h
          · exact hx0 h
          · rcases List.mem_append.1 h with h | h
            · exact hxL (List.mem_append_left _ h)
            · exact hxL (List.mem_append_right _ (List.mem_cons_of_mem _ h))
      · intro y
        constructor
        · rintro ⟨a, ha, h3, h4⟩
          by_cases hax : a = x
          · rw [hax] at h3 h4
            rw [f1] at h4
            by_cases q1 : y < x + s.xBlockSize x
            · exact Or.inr ⟨h3, q1⟩
            · exact Or.inl ⟨nxt, by simp, by omega, by omega⟩
          · have ha' : a ∈ l1 ++ nxt :: t := by
              rcases List.mem_append.1 ha with h | h
              · exact List.mem_append_left _ h
              · rcases List.mem_cons.1 h with h | h
                · exact absurd h hax
                · exact List.mem_append_right _ (List.mem_cons_of_mem _ h)
            rw [hsame a ha' hax] at h4
            exact Or.inl ⟨a, ha', h3, h4⟩
        · rintro (⟨a, ha, h3, h4⟩ | ⟨h3, h4⟩)
          · by_cases han : a = nxt
            · rw [han] at h3 h4
              exact ⟨x, by simp, by omega, by rw [f1]; omega⟩
            · have hax : a ≠ x := fun h => hxL (h ▸ ha)
              refine ⟨a, ?_, h3, by rw [hsame a ha hax]; exact h4⟩
              rcases List.mem_append.1 ha with h | h
              · exact List.mem_append_left _ h
              · rcases List.mem_cons.1 h with h | h
                · exact absurd h han
                · exact List.mem_append_right _ (List.mem_cons_of_mem _ h)
          · exact ⟨x, by simp, h3, by rw [f1]; omega⟩
    · simp only [if_neg hf, if_neg hb, List.singleton_append] at hfld ⊢
      obtain ⟨f0, f1, f2, f3⟩ := hfld
      have hsame : ∀ a ∈ l1 ++ l2, a ≠ x → s'.xBlockSize a = s.xBlockSize a := by
        intro a ha _
        by_cases hac : a = cur
        · rw [hac]; exact f0
        · exact hsm a ha hac
      refine ⟨?_, by rw [f1]; omega, hsame, ?_⟩
      · refine @chain_rebuild _ _ l1 [] l2 _ x _ hch hnd (by rw [hC]; exact f2)
          (by rw [hN]; exact f3) ?_ ?_
        · intro a _ hac hax
          rw [hC] at hac
          exact (hoth a hac hax).1
        · intro h
          rcases List.mem_cons.1 h with h | h
          · exact hx0 h
          · exact hxL h
      · intro y
        constructor
        · rintro ⟨a, ha, h3, h4⟩
          by_cases hax : a = x
          · rw [hax] at h3 h4
            rw [f1] at h4
            exact Or.inr ⟨h3, by omega⟩
          · have ha' : a ∈ l1 ++ l2 := by
              rcases List.mem_append.1 ha with h | h
              · exact List.mem_append_left _ h
              · rcases List.mem_cons.1 h with h | h
                · exact absurd h hax
                · exact List.mem_append_right _ h
            rw [hsame a ha' hax] at h4
            exact Or.inl ⟨a, ha', h3, h4⟩
        · rintro (⟨a, ha, h3, h4⟩ | ⟨h3, h4⟩)
          · have hax : a ≠ x := fun h => hxL (h ▸ ha)
            refine ⟨a, ?_, h3, by rw [hsame a ha hax]; exact h4⟩
            rcases List.mem_append.1 ha with h | h
            · exact List.mem_append_left _ h
            · exact List.mem_append_right _ (List.mem_cons_of_mem _ h)
          · exact ⟨x, by simp, h3, by rw [f1]; omega⟩

/-- The statement of C22 on `demo`: the free list holds the region of 96 bytes at 4096 and
the region of 880 bytes at 4240, and the block of 48 bytes at 4192 is inserted.  It is merged
into the region at 4096, which ends at 4192, and absorbs the region at 4240, where it ends:
the list afterwards is the one region at 4096, of 1024 bytes. -/
theorem C22_insert_merges_witness :
    Heap4.freeList demo 1033 Heap4.demoIns = [4096, 4240] ∧
    Heap4.demoIns.xBlockSize 4096 = 96 ∧ Heap4.demoIns.xBlockSize 4192 = 48 ∧
    Heap4.demoIns.xBlockSize 4240 = 880 ∧ Heap4.demoIns.pxEnd = 5120 ∧
    ∃ s', Heap4.prvInsertBlockIntoFreeList demo 1033 Heap4.demoIns 4192 = some s' ∧
      s'.pxEnd = Heap4.demoIns.pxEnd ∧
      Chain s'.pxNextFreeBlock demo.xStart [4096] Heap4.demoIns.pxEnd ∧
      s'.xBlockSize 4096 = 1024 ∧
      (∀ y, (∃ a ∈ [4096], a ≤ y ∧ y < a + s'.xBlockSize a) ↔
        ((∃ a ∈ [4096, 4240], a ≤ y ∧ y < a + Heap4.demoIns.xBlockSize a) ∨
          (4192 ≤ y ∧ y < 4192 + Heap4.demoIns.xBlockSize 4192))) :=
  ⟨by decide, by decide, by decide, by decide, by decide,
    match C22_insert_merges (c := demo) (s := Heap4.demoIns) 4192 1033 [4096] [4240]
      (show Chain _ _ [4096, 4240] _ from ⟨rfl, rfl, rfl⟩) (by decide) (by decide)
      (by decide) (by decide) (by decide) (by decide) (by decide) (by decide)
      (by decide) with
    | ⟨s', a1, a2, a3, a4, _, a6⟩ => ⟨s', a1, a2, a3, a4, a6⟩⟩

/-- The first element of a list with a property is determined by the list. -/
theorem first_unique {α : Type} {P : α → Prop} {l1 l2 m1 m2 : List α} {a b : α}
    (h : l1 ++ a :: l2 = m1 ++ b :: m2) (ha : P a) (hb : P b)
    (hl : ∀ x ∈ l1, ¬ P x) (hm : ∀ x ∈ m1, ¬ P x) : l1 = m1 ∧ a = b ∧ l2 = m2 := by
  induction l1 generalizing m1 with
  | nil =>
    cases m1 with
    | nil =>
      injection h with h1 h2
      exact ⟨rfl, h1, h2⟩
    | cons y m1 =>
      injection h with h1 h2
      exact absurd (h1 ▸ ha) (hm y (List.mem_cons_self _ _))
  | cons x l1 ih =>
    cases m1 with
    | nil =>
      injection h with h1 h2
      exact absurd (h1 ▸ hb) (hl x (List.mem_cons_self _ _))
    | cons y m1 =>
      injection h with h1 h2
      obtain ⟨e1, e2, e3⟩ := ih h2 (fun z hz => hl z (List.mem_cons_of_mem _ hz))
        (fun z hz => hm z (List.mem_cons_of_mem _ hz))
      exact ⟨by rw [h1, e1], e2, e3⟩

/-- With no two free regions that follow one another, the region in front of a free region
is allocated. -/
theorem noAdj_before {pre post : List Blk} {b : Blk} (h : NoAdj (pre ++ b :: post))
    (hf : b.free = true) : pre = [] ∨ ∃ pre' f, pre = pre' ++ [f] ∧ f.free = false := by
  rcases List.eq_nil_or_concat pre with h0 | ⟨pre', f, h0⟩
  · exact Or.inl h0
  · right
    rw [List.concat_eq_append] at h0
    refine ⟨pre', f, h0, ?_⟩
    subst h0
    have h1 := (List.chain'_split.1 h).1
    rw [List.append_assoc] at h1
    have h2 := (List.chain'_split.1 h1).2
    have h3 : f.free = false ∨ b.free = false := (List.chain'_cons.1 h2).1
    rcases h3 with h3 | h3
    · exact h3
    · rw [hf] at h3; exact absurd h3 (by simp)

/-- With no two free regions that follow one another, the region behind a free region is
allocated. -/
theorem noAdj_behind {pre post : List Blk} {b : Blk} (h : NoAdj (pre ++ b :: post))
    (hf : b.free = true) : post = [] ∨ ∃ g post', post = g :: post' ∧ g.free = false := by
  cases post with
  | nil => exact Or.inl rfl
  | cons g post' =>
    right
    refine ⟨g, post', rfl, ?_⟩
    have h2 := (List.chain'_split.1 h).2
    have h3 : b.free = false ∨ g.free = false := (List.chain'_cons.1 h2).1
    rcases h3 with h3 | h3
    · rw [hf] at h3; exact absurd h3 (by simp)
    · exact h3

/-- A region behind an allocated region is not merged with it. -/
theorem coalesce_keep_front {pre : List Blk}
    (h : pre = [] ∨ ∃ pre' f, pre = pre' ++ [f] ∧ f.free = false) (x sz : Nat)
    (post : List Blk) : coalesce pre x sz post = pre ++ coalesce [] x sz post := by
  rcases h with rfl | ⟨pre', f, rfl, hf⟩
  · rfl
  · rw [coalesce_front_used pre' hf, List.append_assoc]
    rfl

/-- Freeing a region that was taken whole from between allocated regions gives the regions
from before. -/
theorem coalesce_restore_whole {pre post : List Blk} {b : Blk} (h : NoAdj (pre ++ b :: post))
    (hf : b.free = true) : coalesce pre b.addr b.size post = pre ++ b :: post := by
  rw [coalesce_keep_front (noAdj_before h hf), coalesce_front_nil]
  have hb : (⟨b.addr, b.size, true⟩ : Blk) = b := by
    cases b with
    | mk a z f => simp only at hf; rw [hf]
  rcases noAdj_behind h hf with rfl | ⟨g, post', rfl, hg⟩
  · simp only [hb]
  · simp only [hg, Bool.false_eq_true, if_false, hb]

/-- Freeing the allocated part of a region that was split gives the regions from before. -/
theorem coalesce_restore_split {pre post : List Blk} {b : Blk} (h : NoAdj (pre ++ b :: post))
    (hf : b.free = true) {w : Nat} (hw : w ≤ b.size) :
    coalesce pre b.addr w (⟨b.addr + w, b.size - w, true⟩ :: post) = pre ++ b :: post := by
  rw [coalesce_keep_front (noAdj_before h hf), coalesce_front_nil]
  have hb : (⟨b.addr, w + (b.size - w), true⟩ : Blk) = b := by
    cases b with
    | mk a z f =>
      simp only at hf hw ⊢
      rw [hf]
      have : w + (z - w) = z := by omega
      rw [this]
  simp only [if_true, hb]

namespace Heap4

variable {c : Config} {s s1 : State} {live : List (Nat × Nat)}

/-- In `heap_4.c`, after `pvPortMalloc` has returned a pointer other than `NULL` in a
reachable state, `vPortFree` of that pointer returns and leaves the free list, the sizes of
its regions and the free bytes as they were before the allocation, and then the same request
gets the same pointer. -/
theorem Reach.same_pointer (hw : c.WF) (hr : Reach c s live) {n fuel p : Nat}
    (hfuel : c.configTOTAL_HEAP_SIZE < fuel)
    (hres : pvPortMalloc c fuel s n = Outcome.ok s1 p) (hp : p ≠ 0) :
    ∃ s2, vPortFree c fuel s1 p = Outcome.ok s2 () ∧
      (∃ s3, pvPortMalloc c fuel s2 n = Outcome.ok s3 p) ∧
      freeList c fuel s2 = freeList c fuel (initialised c s) ∧
      (∀ a ∈ freeList c fuel s2, s2.xBlockSize a = (initialised c s).xBlockSize a) ∧
      s2.xFreeBytesRemaining = (initialised c s).xFreeBytesRemaining := by
  obtain ⟨bs0, hinv0, _, hna⟩ := hr.initialised_strong hw
  rw [malloc_initialised hw] at hres
  rcases hinv0.malloc hw n hfuel with ⟨h1, _⟩ |
    ⟨pre, b, post, s1', hbs, hf, hwb, hpos, hlt, k5, k6, _⟩
  · rw [h1] at hres
    injection hres with _ e2
    exact absurd e2.symm hp
  rw [k5] at hres
  injection hres with e1 e2
  subst e1
  subst e2
  have hb : b ∈ bs0 := by rw [hbs]; simp
  have hbhalf := (size_lt_half hw hinv0.tiled' hb).1
  -- the state after the free satisfies the invariant for the regions from before
  have hfree : ∃ s2, vPortFree c fuel s1' (b.addr + xHeapStructSize c) = Outcome.ok s2 () ∧
      Inv c s2 bs0 := by
    by_cases hsp : b.size - adjustWantedSize c n > heapMINIMUM_BLOCK_SIZE c
    · have hal := allocAt_noAdj_eq (c := c) (adjustWantedSize c n) hf (hbs ▸ hna) hsp
      rw [hal] at k6
      obtain ⟨s2, f1, f2, _⟩ := k6.free hw rfl hfuel
      rw [coalesce_restore_split (hbs ▸ hna) hf hwb, ← hbs] at f2
      exact ⟨s2, f1, f2⟩
    · have hal : allocAt c (adjustWantedSize c n) pre b post
          = pre ++ ⟨b.addr, b.size, false⟩ :: post := by
        unfold allocAt; rw [if_neg hsp]
      rw [hal] at k6
      obtain ⟨s2, f1, f2, _⟩ := k6.free hw rfl hfuel
      rw [coalesce_restore_whole (hbs ▸ hna) hf, ← hbs] at f2
      exact ⟨s2, f1, f2⟩
  obtain ⟨s2, f1, hinv2⟩ := hfree
  refine ⟨s2, f1, ?_, ?_, ?_, ?_⟩
  · rcases hinv2.malloc hw n hfuel with ⟨_, hno | hno⟩ |
      ⟨pre', b', post', s3, hbs', hf', hwb', _, hlt', h3, _⟩
    · exfalso
      apply hno
      refine ⟨(hw.valid_iff (by have := hw.wordMod_eq; omega)).2 (by omega), hpos, ?_⟩
      rw [hinv2.free_eq]
      exact le_trans hwb (size_le_freeSum hb hf)
    · have := hno b hb hf
      omega
    · have hu := first_unique (P := fun x : Blk => x.free = true ∧ adjustWantedSize c n ≤ x.size)
        (hbs.symm.trans hbs') ⟨hf, hwb⟩ ⟨hf', hwb'⟩
        (fun x hx hP => by have := hlt x hx hP.1; omega)
        (fun x hx hP => by have := hlt' x hx hP.1; omega)
      rw [hu.2.1]
      exact ⟨s3, h3⟩
  · rw [hinv2.freeList_eq hw hfuel, hinv0.freeList_eq hw hfuel]
  · intro a ha
    rw [hinv2.freeList_eq hw hfuel] at ha
    obtain ⟨x, hx, hxf, rfl⟩ := mem_freeAddrs.1 ha
    rw [hinv2.sizes x hx, hinv0.sizes x hx]
  · rw [hinv2.free_eq, hinv0.free_eq]

end Heap4

namespace Heap2

variable {c : Config} {s s1 : State} {live : List (Nat × Nat)}

/-- In `heap_2.c`, after `pvPortMalloc` has returned a pointer other than `NULL` in a
reachable state, `vPortFree` of that pointer returns and puts the region on the free list
behind nodes that are all smaller than the adjusted size, and then the same request gets the
same pointer. -/
theorem Reach.same_pointer2 (hw : c.WF) (hr : Reach c s live) {n fuel p : Nat}
    (hfuel : c.configTOTAL_HEAP_SIZE < fuel)
    (hres : pvPortMalloc c fuel s n = Outcome.ok s1 p) (hp : p ≠ 0) :
    ∃ s2, vPortFree c fuel s1 p = Outcome.ok s2 () ∧
      (∃ s3, pvPortMalloc c fuel s2 n = Outcome.ok s3 p) ∧
      (∃ f1 f2, freeList c fuel s2 = f1 ++ (p - heapSTRUCT_SIZE c) :: f2 ∧
        (∀ x ∈ f1, s2.xBlockSize x < adjustWantedSize c n) ∧
        adjustWantedSize c n ≤ s2.xBlockSize (p - heapSTRUCT_SIZE c)) ∧
      s2.xFreeBytesRemaining = (initialised c s).xFreeBytesRemaining := by
  obtain ⟨bs0, fl0, hinv0, _⟩ := hr.initialised_inv2 hw
  rw [malloc_initialised2] at hres
  rcases hinv0.malloc_pos2 hw n hfuel with ⟨h1, _⟩ |
    ⟨pre, b, post, s1', fl1, hbs, hf, hwb, hpos, k5, k6, k7, _, l1, l2, hfl, hlt, hvalid, hle⟩
  · rw [h1] at hres
    injection hres with _ e2
    exact absurd e2.symm hp
  rw [k5] at hres
  injection hres with e1 e2
  subst e1
  subst e2
  have hs := hs_facts2 hw
  have hlk := hw.link_pos
  have hsub : b.addr + heapSTRUCT_SIZE c - heapSTRUCT_SIZE c = b.addr := by omega
  rw [hsub]
  have hb : b ∈ bs0 := by rw [hbs]; simp
  have hbe : (⟨b.addr, b.size, true⟩ : Blk) = b := by
    cases b with
    | mk a z f => simp only at hf; rw [hf]
  -- the state after the free
  have hfree : ∃ s2 fl2 d rest, vPortFree c fuel s1' (b.addr + heapSTRUCT_SIZE c)
        = Outcome.ok s2 () ∧
      Inv c s2 (pre ++ ⟨b.addr, d, true⟩ :: rest) fl2 ∧
      s2.xFreeBytesRemaining = s1'.xFreeBytesRemaining + d ∧
      d = allocSize c (adjustWantedSize c n) b ∧
      (∃ f1 f2, fl2 = f1 ++ b.addr :: f2 ∧ ∀ x ∈ f1, s2.xBlockSize x < d) ∧
      adjustWantedSize c n ≤ d ∧
      (d = adjustWantedSize c n ∨ (d = b.size ∧ rest = post)) := by
    by_cases hsp : b.size - adjustWantedSize c n > heapMINIMUM_BLOCK_SIZE c
    · have hal : allocAt c (adjustWantedSize c n) pre b post
          = pre ++ ⟨b.addr, adjustWantedSize c n, false⟩ ::
              ⟨b.addr + adjustWantedSize c n, b.size - adjustWantedSize c n, true⟩ :: post := by
        unfold allocAt; rw [if_pos hsp]
      rw [hal] at k6
      obtain ⟨s2, fl2, g1, g2, _, g4, _, g6⟩ := k6.free_pos2 hw rfl hfuel
      exact ⟨s2, fl2, _, _, g1, g2, g4, by unfold allocSize; rw [if_pos hsp], g6,
        Nat.le_refl _, Or.inl rfl⟩
    · have hal : allocAt c (adjustWantedSize c n) pre b post
          = pre ++ ⟨b.addr, b.size, false⟩ :: post := by
        unfold allocAt; rw [if_neg hsp]
      rw [hal] at k6
      obtain ⟨s2, fl2, g1, g2, _, g4, _, g6⟩ := k6.free_pos2 hw rfl hfuel
      exact ⟨s2, fl2, _, _, g1, g2, g4, by unfold allocSize; rw [if_neg hsp], g6, hwb,
        Or.inr ⟨rfl, rfl⟩⟩
  obtain ⟨s2, fl2, d, rest, g1, hinv2, g3, g4, ⟨f1, f2, hf12, hf1⟩, hwd, hcase⟩ := hfree
  have hfl2 := hinv2.freeList_eq2 hw hfuel
  have hdm : (⟨b.addr, d, true⟩ : Blk) ∈ pre ++ ⟨b.addr, d, true⟩ :: rest := by simp
  have hsd : s2.xBlockSize b.addr = d := by
    have := hinv2.sizes _ hdm
    simpa using this
  -- the nodes in front of the freed region are too small for the request
  have hsmall : ∀ x ∈ f1, s2.xBlockSize x < adjustWantedSize c n := by
    intro x hx
    have hxd := hf1 x hx
    rcases hcase with h | ⟨h1, h2⟩
    · rw [h] at hxd; exact hxd
    · subst h2
      rw [h1] at hxd hinv2
      rw [hbe, ← hbs] at hinv2
      have hxfl : x ∈ fl2 := by rw [hf12]; exact List.mem_append_left _ hx
      obtain ⟨y, hy, hyf, hya⟩ := hinv2.mem_fl.1 hxfl
      have hs2 : s2.xBlockSize x = y.size := by
        rw [← hya, hinv2.sizes y hy, if_pos hyf]
      have hs0 : (initialised c s).xBlockSize x = y.size := by
        rw [← hya, hinv0.sizes y hy, if_pos hyf]
      have hx0 : x ∈ fl0 := hinv0.mem_fl.2 ⟨y, hy, hyf, hya⟩
      rw [hfl] at hx0
      rcases List.mem_append.1 hx0 with h3 | h3
      · have := hlt x h3
        rw [hs0] at this
        rw [hs2]; exact this
      · exfalso
        have hsb : (initialised c s).xBlockSize b.addr = b.size := by
          rw [hinv0.sizes b hb, if_pos hf]
        rcases List.mem_cons.1 h3 with h4 | h4
        · have : y = b := tiled_addr_inj hinv0.tiled hy hb (hya.trans h4)
          rw [this] at hs2
          omega
        · have hso := hinv0.sorted
          rw [hfl] at hso
          have := (List.pairwise_cons.1 (List.pairwise_append.1 hso).2.1).1 x h4
          rw [hsb, hs0] at this
          omega
  refine ⟨s2, g1, ?_, ⟨f1, f2, by rw [hfl2]; exact hf12, hsmall, by rw [hsd]; exact hwd⟩, ?_⟩
  · rcases hinv2.malloc_pos2 hw n hfuel with ⟨_, hno | hno⟩ |
      ⟨pre', b', post', s3, fl3, hbs', hf', hwb', _, h3, _, _, _, m1, m2, hm12, hm1, _⟩
    · exfalso
      apply hno
      refine ⟨hvalid, hpos, ?_⟩
      rw [hinv2.free_eq]
      exact le_trans hwd (size_le_freeSum hdm rfl)
    · have := hno _ hdm rfl
      have hd' : d < adjustWantedSize c n := this
      omega
    · have hb' : b' ∈ pre ++ ⟨b.addr, d, true⟩ :: rest := by rw [hbs']; simp
      have hsb' : s2.xBlockSize b'.addr = b'.size := by
        rw [hinv2.sizes b' hb', if_pos hf']
      have hu := first_unique (P := fun x : Nat => adjustWantedSize c n ≤ s2.xBlockSize x)
        (hf12.symm.trans hm12)
        (by show adjustWantedSize c n ≤ s2.xBlockSize b.addr; rw [hsd]; exact hwd)
        (by show adjustWantedSize c n ≤ s2.xBlockSize b'.addr; rw [hsb']; exact hwb')
        (fun x hx (hP : adjustWantedSize c n ≤ s2.xBlockSize x) => by
          have := hsmall x hx; omega)
        (fun x hx (hP : adjustWantedSize c n ≤ s2.xBlockSize x) => by
          have := hm1 x hx; omega)
      rw [hu.2.1]
      exact ⟨s3, h3⟩
  · rw [g3, k7, g4, hinv0.free_eq]
    have := size_le_freeSum hb hf
    have h5 : allocSize c (adjustWantedSize c n) b ≤ b.size := by
      unfold allocSize; split <;> omega
    omega

end Heap2

/-- C33: in `heap_4.c` and `heap_2.c`, in every reachable state and for every request size,
when `pvPortMalloc` returns a pointer `p` other than `NULL` and `vPortFree( p )` is called
next, the call returns and after it the same request gets the same pointer `p`.  In
`heap_4.c` the free list, the sizes of its regions and the free bytes are after the free what
they were before the allocation; in `heap_2.c` the freed region is on the free list behind
nodes that are all smaller than the adjusted size of the request, and the free bytes are what
they were. -/
theorem C33_same_pointer {c : Config} (hw : c.WF)
    {s4 : Heap4.State} {live4 : List (Nat × Nat)} (h4 : Heap4.Reach c s4 live4)
    {s2 : Heap2.State} {live2 : List (Nat × Nat)} (h2 : Heap2.Reach c s2 live2)
    (n : Nat) {fuel : Nat} (hfuel : c.configTOTAL_HEAP_SIZE < fuel) :
    (∀ s' p, Heap4.pvPortMalloc c fuel s4 n = Outcome.ok s' p → p ≠ 0 →
      ∃ t, Heap4.vPortFree c fuel s' p = Outcome.ok t () ∧
        (∃ u, Heap4.pvPortMalloc c fuel t n = Outcome.ok u p) ∧
        Heap4.freeList c fuel t = Heap4.freeList c fuel (Heap4.initialised c s4) ∧
        (∀ a ∈ Heap4.freeList c fuel t,
          t.xBlockSize a = (Heap4.initialised c s4).xBlockSize a) ∧
        t.xFreeBytesRemaining = (Heap4.initialised c s4).xFreeBytesRemaining) ∧
    (∀ s' p, Heap2.pvPortMalloc c fuel s2 n = Outcome.ok s' p → p ≠ 0 →
      ∃ t, Heap2.vPortFree c fuel s' p = Outcome.ok t () ∧
        (∃ u, Heap2.pvPortMalloc c fuel t n = Outcome.ok u p) ∧
        (∃ f1 f2, Heap2.freeList c fuel t = f1 ++ (p - Heap2.heapSTRUCT_SIZE c) :: f2 ∧
          (∀ x ∈ f1, t.xBlockSize x < Heap2.adjustWantedSize c n) ∧
          Heap2.adjustWantedSize c n ≤ t.xBlockSize (p - Heap2.heapSTRUCT_SIZE c)) ∧
        t.xFreeBytesRemaining = (Heap2.initialised c s2).xFreeBytesRemaining) :=
  ⟨fun _ _ hres hp => h4.same_pointer hw hfuel hres hp,
    fun _ _ hres hp => h2.same_pointer2 hw hfuel hres hp⟩

/-- The statement of C33 on `demo` for a request of 40 bytes after one allocation, which gets
the pointer 4160: after `vPortFree( 4160 )` the same request gets 4160 again. -/
theorem C33_same_pointer_witness :
    (Heap4.pvPortMalloc demo 1033 Heap4.demo1 40 = Outcome.ok Heap4.demo2 4160 ∧
      ∃ t, Heap4.vPortFree demo 1033 Heap4.demo2 4160 = Outcome.ok t () ∧
        (∃ u, Heap4.pvPortMalloc demo 1033 t 40 = Outcome.ok u 4160) ∧
        Heap4.freeList demo 1033 t
          = Heap4.freeList demo 1033 (Heap4.initialised demo Heap4.demo1)) ∧
    (Heap2.pvPortMalloc demo 1033 Heap2.demo1 40 = Outcome.ok Heap2.demo2 4160 ∧
      ∃ t, Heap2.vPortFree demo 1033 Heap2.demo2 4160 = Outcome.ok t () ∧
        ∃ u, Heap2.pvPortMalloc demo 1033 t 40 = Outcome.ok u 4160) :=
  have h := C33_same_pointer demo_WF Heap4.reach_demo1 Heap2.reach2_demo1 40 demo_fuel
  ⟨⟨Heap4.demo2_eq,
      match h.1 Heap4.demo2 4160 Heap4.demo2_eq (by decide) with
      | ⟨t, a1, a2, a3, _⟩ => ⟨t, a1, a2, a3⟩⟩,
    ⟨Heap2.demo2_eq_heap2,
      match h.2 Heap2.demo2 4160 Heap2.demo2_eq_heap2 (by decide) with
      | ⟨t, a1, a2, _⟩ => ⟨t, a1, a2⟩⟩⟩

/-- Rounding the end of the heap less the header down, as the code does it with the bytes
that are left of the array and as the specification words it with the capacity. -/
theorem round_down_end {A b u h : Nat} (hA : 0 < A) (hb : b % A = 0) (hh : h % A = 0)
    (hu : h ≤ u) :
    (b + u - h) - (b + u - h) % A = ((b + u / A * A) - h) / A * A := by
  obtain ⟨qb, rfl⟩ := Nat.dvd_of_mod_eq_zero hb
  obtain ⟨qh, rfl⟩ := Nat.dvd_of_mod_eq_zero hh
  have hdm := Nat.div_add_mod u A
  have hr := Nat.mod_lt u hA
  have hq : qh ≤ u / A := by
    by_contra hcon
    have h1 : u / A + 1 ≤ qh := by omega
    have h2 : A * (u / A + 1) ≤ A * qh := Nat.mul_le_mul_left A h1
    rw [Nat.mul_add, Nat.mul_one] at h2
    omega
  have e1 : A * (qb + u / A - qh) = A * qb + A * (u / A) - A * qh := by
    rw [Nat.mul_sub, Nat.mul_add]
  have e2 : A * qb + u - A * qh = u % A + A * (qb + u / A - qh) := by
    have h2 : A * qh ≤ A * (u / A) := Nat.mul_le_mul_left A hq
    omega
  have e3 : A * qb + u / A * A - A * qh = A * (qb + u / A - qh) := by
    rw [e1, Nat.mul_comm (u / A) A]
  rw [e3, Nat.mul_div_cancel_left _ hA, e2, Nat.add_mul_mod_self_left, Nat.mod_mod,
    Nat.mul_comm (qb + u / A - qh) A]
  omega

namespace Heap4

variable {c : Config}

/-- The header size of `heap_4.c` is the size of the structure rounded up to the
alignment. -/
theorem hs_eq_roundUp (hw : c.WF) :
    xHeapStructSize c = specRoundUp c.portBYTE_ALIGNMENT c.sizeofBlockLink := by
  obtain ⟨h1, h2, h3⟩ := hs_facts hw
  obtain ⟨q1, q2, q3⟩ := specRoundUp_ge hw.align_pos c.sizeofBlockLink
  exact multiple_unique h1 q3 h2 h3 q1 q2

/-- The bytes of the array that are left from the aligned start on. -/
theorem usable_eq (hw : c.WF) : (alignedHeap c).2 = specUsable c := by
  obtain ⟨b1, b2, b3, b4⟩ := base_facts hw
  have hbase := (region_le_usable hw).1
  unfold specUsable
  rw [← hbase]
  omega

/-- The address of the end marker of `heap_4.c` in the words of the specification: the
aligned start plus the capacity, less the header size, rounded down to the alignment. -/
theorem endAddress_eq (hw : c.WF) :
    endAddress c
      = (specBase c + specTotalAligned c - xHeapStructSize c)
          / c.portBYTE_ALIGNMENT * c.portBYTE_ALIGNMENT := by
  have hb := hw.heap_big
  have hf := hw.heap_fits
  have hA := hw.align_pos
  have hs := hs_facts hw
  obtain ⟨b1, b2, b3, b4⟩ := base_facts hw
  have hbase := (region_le_usable hw).1
  have hus := usable_eq hw
  have he : endAddress c = ((alignedHeap c).1 + (alignedHeap c).2 - xHeapStructSize c)
      - ((alignedHeap c).1 + (alignedHeap c).2 - xHeapStructSize c)
          % c.portBYTE_ALIGNMENT := by
    unfold endAddress
    simp only
    rw [wadd_eq c (by omega), wsub_eq c (by omega) (by omega),
      hw.and_wnot_mask (by omega)]
  have hug := hw.usable_gt
  rw [he, hus, hbase]
  unfold specTotalAligned
  exact round_down_end hA (by rw [← hbase]; exact b1) hs.1 (by omega)

end Heap4

/-- C31: in `heap_4.c`, `pvPortMalloc` in a state in which `pxEnd` is `NULL` first calls
`prvHeapInit`.  For every placement of `ucHeap`, the state that `prvHeapInit` leaves has:
the aligned start `base`, `&ucHeap[ 0 ]` rounded up to the alignment; `pxEnd` at `base` plus
the capacity, the bytes left from `base` on rounded down to the alignment, less the header
size, rounded down to the alignment, with size 0 and link `NULL`; `xStart` with size 0 linked
to the one free region at `base`, whose size is `pxEnd - base` and which is linked to
`pxEnd`; and `xFreeBytesRemaining` and `xMinimumEverFreeBytesRemaining` equal to that
size. -/
theorem C31_heap_init {c : Config} (hw : c.WF) (s : Heap4.State) (h0 : s.pxEnd = 0)
    (n : Nat) {fuel : Nat} (hfuel : c.configTOTAL_HEAP_SIZE < fuel) :
    Heap4.pvPortMalloc c fuel s n = Heap4.pvPortMalloc c fuel (Heap4.prvHeapInit c s) n ∧
    Heap4.initialised c s = Heap4.prvHeapInit c s ∧
    (Heap4.alignedHeap c).1 = specBase c ∧
    (Heap4.alignedHeap c).2 = specUsable c ∧
    Heap4.xHeapStructSize c = specRoundUp c.portBYTE_ALIGNMENT c.sizeofBlockLink ∧
    (Heap4.prvHeapInit c s).pxEnd
      = (specBase c + specTotalAligned c - Heap4.xHeapStructSize c)
          / c.portBYTE_ALIGNMENT * c.portBYTE_ALIGNMENT ∧
    (Heap4.prvHeapInit c s).xBlockSize (Heap4.prvHeapInit c s).pxEnd = 0 ∧
    (Heap4.prvHeapInit c s).pxNextFreeBlock (Heap4.prvHeapInit c s).pxEnd = 0 ∧
    (Heap4.prvHeapInit c s).xBlockSize c.xStart = 0 ∧
    (Heap4.prvHeapInit c s).pxNextFreeBlock c.xStart = specBase c ∧
    (Heap4.prvHeapInit c s).xBlockSize (specBase c)
      = (Heap4.prvHeapInit c s).pxEnd - specBase c ∧
    (Heap4.prvHeapInit c s).pxNextFreeBlock (specBase c) = (Heap4.prvHeapInit c s).pxEnd ∧
    Heap4.freeList c fuel (Heap4.prvHeapInit c s) = [specBase c] ∧
    (Heap4.prvHeapInit c s).xFreeBytesRemaining
      = (Heap4.prvHeapInit c s).pxEnd - specBase c ∧
    (Heap4.prvHeapInit c s).xMinimumEverFreeBytesRemaining
      = (Heap4.prvHeapInit c s).pxEnd - specBase c := by
  have hinv := Heap4.prvHeapInit_inv hw s
  have hbase := (Heap4.region_le_usable hw).1
  have hsz := Heap4.prvHeapInit_size hw s
  have hpe : (Heap4.prvHeapInit c s).pxEnd = Heap4.endAddress c := hinv.pxEnd_eq
  have hch := hinv.chain
  have hch1 : (Heap4.prvHeapInit c s).pxNextFreeBlock c.xStart = (Heap4.alignedHeap c).1 :=
    hch.1
  have hch2 : (Heap4.prvHeapInit c s).pxNextFreeBlock (Heap4.alignedHeap c).1
      = (Heap4.prvHeapInit c s).pxEnd := hch.2
  have hfr : (Heap4.prvHeapInit c s).xFreeBytesRemaining
      = Heap4.endAddress c - (Heap4.alignedHeap c).1 := by
    rw [hinv.free_eq]
    simp [freeSum, freeBlocks]
  have hmin : (Heap4.prvHeapInit c s).xMinimumEverFreeBytesRemaining
      = Heap4.endAddress c - (Heap4.alignedHeap c).1 :=
    (show _ = (Heap4.prvHeapInit c s).xBlockSize (Heap4.alignedHeap c).1 from rfl).trans hsz
  have hfl : Heap4.freeList c fuel (Heap4.prvHeapInit c s) = [(Heap4.alignedHeap c).1] := by
    rw [hinv.freeList_eq hw hfuel]; rfl
  have hi : Heap4.initialised c s = Heap4.prvHeapInit c s := by
    unfold Heap4.initialised
    rw [if_pos h0]
  rw [hbase] at hsz hch1 hch2 hfr hmin hfl
  rw [← hpe] at hsz hfr hmin
  exact ⟨Heap4.malloc_boot hw h0 fuel n, hi, hbase, Heap4.usable_eq hw, Heap4.hs_eq_roundUp hw,
    hpe.trans (Heap4.endAddress_eq hw), hinv.end_size, hinv.end_next, hinv.start_size, hch1,
    hsz, hch2, hfl, hfr, hmin⟩

/-- The configuration `demoCramped`, whose array starts one byte behind an aligned address,
is one of the configurations the proofs are about. -/
theorem demoCramped_WF : demoCramped.WF :=
  ⟨by decide, ⟨3, rfl⟩, by decide, by decide, by decide, by decide, by decide, by decide,
    by decide, by decide, by decide, by decide, by decide, by decide, by decide⟩

/-- The statement of C31 on `demoCramped`, an array of 40 bytes at 4097 with 8-byte
alignment and 16-byte headers: `base` is 4104, 33 bytes are left, the capacity is 32, `pxEnd`
is at 4120, and the one free region has 16 bytes. -/
theorem C31_heap_init_witness :
    specBase demoCramped = 4104 ∧ specUsable demoCramped = 33 ∧
    specTotalAligned demoCramped = 32 ∧ Heap4.xHeapStructSize demoCramped = 16 ∧
    (Heap4.prvHeapInit demoCramped Heap4.demoBoot).pxEnd = 4120 ∧
    (Heap4.prvHeapInit demoCramped Heap4.demoBoot).pxEnd
      = (specBase demoCramped + specTotalAligned demoCramped
          - Heap4.xHeapStructSize demoCramped)
          / demoCramped.portBYTE_ALIGNMENT * demoCramped.portBYTE_ALIGNMENT ∧
    (Heap4.prvHeapInit demoCramped Heap4.demoBoot).xBlockSize 4120 = 0 ∧
    (Heap4.prvHeapInit demoCramped Heap4.demoBoot).pxNextFreeBlock 4120 = 0 ∧
    (Heap4.prvHeapInit demoCramped Heap4.demoBoot).xBlockSize 4104 = 16 ∧
    Heap4.freeList demoCramped 41 (Heap4.prvHeapInit demoCramped Heap4.demoBoot)
      = [specBase demoCramped] ∧
    (Heap4.prvHeapInit demoCramped Heap4.demoBoot).xFreeBytesRemaining = 16 ∧
    (Heap4.prvHeapInit demoCramped Heap4.demoBoot).xMinimumEverFreeBytesRemaining = 16 :=
  have h := C31_heap_init demoCramped_WF Heap4.demoBoot rfl 0
    (show demoCramped.configTOTAL_HEAP_SIZE < 41 by decide)
  ⟨by decide, by decide, by decide, by decide, by decide, h.2.2.2.2.2.1, by decide, by decide,
    by decide, h.2.2.2.2.2.2.2.2.2.2.2.2.1, by decide, by decide⟩

/-! ### Placement of the heap in `ucHeap`, for every array of at least `portBYTE_ALIGNMENT`
bytes -/

theorem and_mask_any {c : Config} (hk : ∃ k, c.portBYTE_ALIGNMENT = 2 ^ k) (x : Nat) :
    x &&& portBYTE_ALIGNMENT_MASK c = x % c.portBYTE_ALIGNMENT := by
  obtain ⟨k, hk⟩ := hk
  unfold portBYTE_ALIGNMENT_MASK
  rw [hk, Nat.and_pow_two_sub_one_eq_mod]

theorem and_wnot_mask_any {c : Config} (hk : ∃ k, c.portBYTE_ALIGNMENT = 2 ^ k)
    (hA : c.portBYTE_ALIGNMENT < c.wordMod) {x : Nat} (hx : x < c.wordMod) :
    x &&& wnot c (portBYTE_ALIGNMENT_MASK c) = x - x % c.portBYTE_ALIGNMENT := by
  obtain ⟨k, hk⟩ := hk
  rw [hk] at hA
  unfold wnot portBYTE_ALIGNMENT_MASK heapSIZE_MAX
  rw [hk]
  apply and_not_low_mask hx
  by_contra hlt
  have h1 : 2 ^ c.bits ≤ 2 ^ k := Nat.pow_le_pow_right (by decide) (by omega)
  unfold Config.wordMod at hA
  omega

/-- The address that `heap_1.c` and `heap_2.c` round `&ucHeap[ 0 ]` up to is the `base` of
the specification, at most `portBYTE_ALIGNMENT - 1` bytes into the array. -/
theorem base_any {c : Config} (hk : ∃ k, c.portBYTE_ALIGNMENT = 2 ^ k)
    (hfit : c.ucHeap + c.configTOTAL_HEAP_SIZE < c.wordMod)
    (hA : c.portBYTE_ALIGNMENT ≤ c.configTOTAL_HEAP_SIZE) :
    wadd c c.ucHeap (c.portBYTE_ALIGNMENT - 1) &&& wnot c (portBYTE_ALIGNMENT_MASK c)
        = specBase c ∧
      c.ucHeap ≤ specBase c ∧ specBase c < c.ucHeap + c.portBYTE_ALIGNMENT ∧
      specBase c % c.portBYTE_ALIGNMENT = 0 := by
  have hpos : 0 < c.portBYTE_ALIGNMENT := by
    obtain ⟨k, hk⟩ := hk
    rw [hk]; exact Nat.pos_pow_of_pos _ (by decide)
  have hy : c.ucHeap + (c.portBYTE_ALIGNMENT - 1) < c.wordMod := by omega
  have hr : wadd c c.ucHeap (c.portBYTE_ALIGNMENT - 1) &&& wnot c (portBYTE_ALIGNMENT_MASK c)
      = (c.ucHeap + (c.portBYTE_ALIGNMENT - 1))
        - (c.ucHeap + (c.portBYTE_ALIGNMENT - 1)) % c.portBYTE_ALIGNMENT := by
    rw [wadd_eq c hy, and_wnot_mask_any hk (by omega) hy]
  have hlt := Nat.mod_lt (c.ucHeap + (c.portBYTE_ALIGNMENT - 1)) hpos
  have hle := Nat.mod_le (c.ucHeap + (c.portBYTE_ALIGNMENT - 1)) c.portBYTE_ALIGNMENT
  have hm := sub_mod_self_mod (c.ucHeap + (c.portBYTE_ALIGNMENT - 1)) c.portBYTE_ALIGNMENT
  obtain ⟨q1, q2, q3⟩ := specRoundUp_ge hpos c.ucHeap
  have he : (c.ucHeap + (c.portBYTE_ALIGNMENT - 1))
        - (c.ucHeap + (c.portBYTE_ALIGNMENT - 1)) % c.portBYTE_ALIGNMENT = specBase c :=
    multiple_unique hm q3 (by omega) (by omega) q1 q2
  rw [hr, he]
  exact ⟨rfl, q1, q2, q3⟩

namespace Heap1

variable {c : Config} {s : State}

end Heap1

namespace Heap4

variable {c : Config}

/-- The first call of `pvPortMalloc` of `heap_4.c`: it returns, and afterwards the free bytes
and the watermark are the size of the first free region less the size of the region
allocated, if any. -/
theorem first_malloc (hw : c.WF) (next0 size0 : Nat → Nat) (n : Nat) {fuel : Nat}
    (hfuel : c.configTOTAL_HEAP_SIZE < fuel) :
    ∃ s' p, pvPortMalloc c fuel (boot next0 size0) n = Outcome.ok s' p ∧
      xPortGetFreeHeapSize s'
        = (endAddress c - (alignedHeap c).1) - (if p = 0 then 0 else regionSize c s' p) ∧
      xPortGetMinimumEverFreeHeapSize s' = xPortGetFreeHeapSize s' ∧
      (p ≠ 0 → 0 < regionSize c s' p ∧
        regionSize c s' p ≤ endAddress c - (alignedHeap c).1) ∧
      (n = 0 → p = 0) := by
  have hinv := prvHeapInit_inv hw (boot next0 size0)
  have hfr : (prvHeapInit c (boot next0 size0)).xFreeBytesRemaining
      = endAddress c - (alignedHeap c).1 := by
    rw [hinv.free_eq]
    simp [freeSum, freeBlocks]
  have hmin : (prvHeapInit c (boot next0 size0)).xMinimumEverFreeBytesRemaining
      = endAddress c - (alignedHeap c).1 :=
    (show _ = (prvHeapInit c (boot next0 size0)).xBlockSize (alignedHeap c).1 from rfl).trans
      (prvHeapInit_size hw _)
  rw [malloc_boot hw rfl fuel n]
  rcases hinv.malloc hw n hfuel with ⟨h1, _⟩ |
    ⟨pre, b, post, s', hbs, hf, hwb, hpos, _, k5, k6, k7, k8, k9, _⟩
  · refine ⟨_, 0, h1, ?_, ?_, fun h => absurd rfl h, fun _ => rfl⟩
    · show (prvHeapInit c (boot next0 size0)).xFreeBytesRemaining = _
      rw [hfr, if_pos rfl]; rfl
    · show (prvHeapInit c (boot next0 size0)).xMinimumEverFreeBytesRemaining
        = (prvHeapInit c (boot next0 size0)).xFreeBytesRemaining
      rw [hfr, hmin]
  · obtain ⟨hreg, hle, hne, _, _⟩ := hinv.malloc_region hw hbs hf k8
    have hb : b ∈ [(⟨(alignedHeap c).1, endAddress c - (alignedHeap c).1, true⟩ : Blk)] := by
      rw [hbs]; simp
    have hbsz : b.size = endAddress c - (alignedHeap c).1 := by
      rw [List.mem_singleton.1 hb]
    have hge := le_allocSize (c := c) hwb
    have hfree : s'.xFreeBytesRemaining
        = (endAddress c - (alignedHeap c).1) - regionSize c s' (b.addr + xHeapStructSize c) := by
      rw [k7, hfr, hreg]
    refine ⟨s', _, k5, ?_, ?_, fun _ => ⟨by rw [hreg]; omega, by rw [hreg]; omega⟩, ?_⟩
    · show s'.xFreeBytesRemaining = _
      rw [if_neg hne]; exact hfree
    · show s'.xMinimumEverFreeBytesRemaining = s'.xFreeBytesRemaining
      rw [k9, hmin, hfree]
      exact Nat.min_eq_right (Nat.sub_le _ _)
    · intro h0
      exfalso
      rw [h0] at hpos
      exact absurd hpos (by unfold adjustWantedSize; simp)

/-- The statistics that `vPortGetHeapStats` of `heap_4.c` reports when `xStart` has no
successor: no free block, and `0` as the size of the largest. -/
theorem stats_unset (c : Config) (fuel : Nat) {s : State} (h0 : s.pxNextFreeBlock c.xStart = 0) :
    ∃ st, vPortGetHeapStats c fuel s = Outcome.ok s st ∧ st.xNumberOfFreeBlocks = 0 ∧
      st.xSizeOfLargestFreeBlockInBytes = 0 ∧
      st.xAvailableHeapSpaceInBytes = s.xFreeBytesRemaining ∧
      st.xMinimumEverFreeBytesRemaining = s.xMinimumEverFreeBytesRemaining := by
  unfold vPortGetHeapStats
  simp only [h0, ne_eq, not_true_eq_false, if_false]
  exact ⟨_, rfl, rfl, rfl, rfl, rfl⟩

end Heap4

/-- C35, as the code has it: in `heap_4.c`, at program start, where the link of `xStart` is
`NULL`, `xPortGetFreeHeapSize` and `xPortGetMinimumEverFreeHeapSize` return 0 and
`vPortGetHeapStats` reports no free block and 0 as the size of the largest.  The first call
of `pvPortMalloc` returns, and after it both functions return the size of the first free
region less the size of the region that the call allocated: the size of the first free
region when the call returns `NULL`, as `pvPortMalloc( 0 )` does, and less when it returns a
pointer. -/
theorem C35_before_first_malloc {c : Config} (hw : c.WF) (next0 size0 : Nat → Nat)
    (h0 : next0 c.xStart = 0) (n f : Nat) {fuel : Nat}
    (hfuel : c.configTOTAL_HEAP_SIZE < fuel) :
    (Heap4.xPortGetFreeHeapSize (Heap4.boot next0 size0) = 0 ∧
      Heap4.xPortGetMinimumEverFreeHeapSize (Heap4.boot next0 size0) = 0 ∧
      ∃ st, Heap4.vPortGetHeapStats c f (Heap4.boot next0 size0)
          = Outcome.ok (Heap4.boot next0 size0) st ∧
        st.xNumberOfFreeBlocks = 0 ∧ st.xSizeOfLargestFreeBlockInBytes = 0 ∧
        st.xAvailableHeapSpaceInBytes = 0 ∧ st.xMinimumEverFreeBytesRemaining = 0) ∧
    (Heap4.initialised c (Heap4.boot next0 size0)).xBlockSize (Heap4.alignedHeap c).1
      = Heap4.endAddress c - (Heap4.alignedHeap c).1 ∧
    (∃ s' p, Heap4.pvPortMalloc c fuel (Heap4.boot next0 size0) n = Outcome.ok s' p ∧
      Heap4.xPortGetFreeHeapSize s'
        = (Heap4.endAddress c - (Heap4.alignedHeap c).1)
          - (if p = 0 then 0 else Heap4.regionSize c s' p) ∧
      Heap4.xPortGetMinimumEverFreeHeapSize s' = Heap4.xPortGetFreeHeapSize s' ∧
      (p = 0 → Heap4.xPortGetFreeHeapSize s'
            = Heap4.endAddress c - (Heap4.alignedHeap c).1 ∧
          Heap4.xPortGetMinimumEverFreeHeapSize s'
            = Heap4.endAddress c - (Heap4.alignedHeap c).1) ∧
      (p ≠ 0 → Heap4.xPortGetFreeHeapSize s'
          < Heap4.endAddress c - (Heap4.alignedHeap c).1)) ∧
    (∃ s', Heap4.pvPortMalloc c fuel (Heap4.boot next0 size0) 0 = Outcome.ok s' 0 ∧
      Heap4.xPortGetFreeHeapSize s' = Heap4.endAddress c - (Heap4.alignedHeap c).1 ∧
      Heap4.xPortGetMinimumEverFreeHeapSize s'
        = Heap4.endAddress c - (Heap4.alignedHeap c).1) := by
  refine ⟨⟨rfl, rfl, ?_⟩, Heap4.prvHeapInit_size hw _, ?_, ?_⟩
  · exact Heap4.stats_unset c f (s := Heap4.boot next0 size0) h0
  · obtain ⟨s', p, h1, h2, h3, h4, _⟩ := Heap4.first_malloc hw next0 size0 n hfuel
    refine ⟨s', p, h1, h2, h3, ?_, ?_⟩
    · intro hp
      rw [if_pos hp] at h2
      exact ⟨h2, h3.trans h2⟩
    · intro hp
      rw [if_neg hp] at h2
      have := h4 hp
      omega
  · obtain ⟨s', p, h1, h2, h3, _, h5⟩ := Heap4.first_malloc hw next0 size0 0 hfuel
    have hp := h5 rfl
    subst hp
    rw [if_pos rfl] at h2
    exact ⟨s', h1, h2, h3.trans h2⟩

/-- The statement of C35 on `demo`, where the first free region has 1024 bytes: before the
first call both functions return 0, and after `pvPortMalloc( 0 )` both return 1024. -/
theorem C35_before_first_malloc_witness :
    Heap4.demoBoot.pxNextFreeBlock demo.xStart = 0 ∧
    (Heap4.xPortGetFreeHeapSize Heap4.demoBoot = 0 ∧
      Heap4.xPortGetMinimumEverFreeHeapSize Heap4.demoBoot = 0 ∧
      ∃ st, Heap4.vPortGetHeapStats demo 0 Heap4.demoBoot = Outcome.ok Heap4.demoBoot st ∧
        st.xNumberOfFreeBlocks = 0 ∧ st.xSizeOfLargestFreeBlockInBytes = 0 ∧
        st.xAvailableHeapSpaceInBytes = 0 ∧ st.xMinimumEverFreeBytesRemaining = 0) ∧
    Heap4.endAddress demo - (Heap4.alignedHeap demo).1 = 1024 ∧
    (∃ s', Heap4.pvPortMalloc demo 1033 Heap4.demoBoot 0 = Outcome.ok s' 0 ∧
      Heap4.xPortGetFreeHeapSize s' = 1024 ∧
      Heap4.xPortGetMinimumEverFreeHeapSize s' = 1024) :=
  have h := C35_before_first_malloc demo_WF (fun _ => 0) (fun _ => 0) rfl 0 0 demo_fuel
  ⟨rfl, h.1, by decide, h.2.2.2⟩

/-- C35 as the specification words it fails on `demo`: the first call `pvPortMalloc( 40 )`
returns the pointer 4104, and after it `xPortGetFreeHeapSize` and
`xPortGetMinimumEverFreeHeapSize` return 968, not the 1024 bytes of the first free
region. -/
theorem C35_counterexample :
    Heap4.demoBoot.pxEnd = 0 ∧ Heap4.demoBoot.pxNextFreeBlock demo.xStart = 0 ∧
    (Heap4.initialised demo Heap4.demoBoot).xBlockSize (Heap4.alignedHeap demo).1 = 1024 ∧
    Heap4.freeList demo 1033 (Heap4.initialised demo Heap4.demoBoot)
      = [(Heap4.alignedHeap demo).1] ∧
    Heap4.pvPortMalloc demo 1033 Heap4.demoBoot 40 = Outcome.ok Heap4.demo1 4104 ∧
    Heap4.xPortGetFreeHeapSize Heap4.demo1 = 968 ∧
    Heap4.xPortGetMinimumEverFreeHeapSize Heap4.demo1 = 968 ∧
    Heap4.xPortGetFreeHeapSize Heap4.demo1
      ≠ (Heap4.initialised demo Heap4.demoBoot).xBlockSize (Heap4.alignedHeap demo).1 :=
  ⟨rfl, rfl, by decide, by decide, rfl, by decide, by decide, by decide⟩

/-- The link out of the head or of a node of a chain leads to a node of the chain or to
its end. -/
theorem chain_next_cons_mem {next : Nat → Nat} {l : List Nat} {p e a : Nat}
    (h : Chain next p l e) (ha : a ∈ p :: l) : next a ∈ l ∨ next a = e := by
  rcases List.mem_cons.1 ha with rfl | ha
  · rw [chain_head h]
    cases l with
    | nil => exact Or.inr rfl
    | cons b l => exact Or.inl (by simp)
  · exact chain_next_mem h ha

/-- The last node of a leading run of a list, or the head when the run is empty, is the
head or a node of the list. -/
theorem takeWhile_getLastD_mem (q : Nat → Bool) (l : List Nat) (p : Nat) :
    (l.takeWhile q).getLastD p ∈ p :: l := by
  rcases getLastD_mem_or (l := l.takeWhile q) (p := p) with h | h
  · rw [h]; exact List.mem_cons_self _ _
  · exact List.mem_cons_of_mem _ ((List.takeWhile_sublist q).subset h)

/-- Where the walk of `prvInsertBlockIntoFreeList` of `heap_4.c` stops, the next block is
not below the block being inserted. -/
theorem Heap4.insertLoop_stop (next : Nat → Nat) (x : Nat) :
    ∀ (fuel p it : Nat), Heap4.insertLoop next x fuel p = some it → ¬ next it < x := by
  intro fuel
  induction fuel with
  | zero => intro p it h; exact absurd h (by simp [Heap4.insertLoop])
  | succ f ih =>
    intro p it h
    unfold Heap4.insertLoop at h
    by_cases hc : next p < x
    · rw [if_pos hc] at h; exact ih _ _ h
    · rw [if_neg hc] at h
      cases h
      exact hc

/-- Where the walk of `prvInsertBlockIntoFreeList` of `heap_2.c` stops, the next block is
not smaller than the block being inserted. -/
theorem Heap2.insertLoop_stop2 (next size : Nat → Nat) (sz : Nat) :
    ∀ (fuel p it : Nat), Heap2.insertLoop next size sz fuel p = some it →
      ¬ size (next it) < sz := by
  intro fuel
  induction fuel with
  | zero => intro p it h; exact absurd h (by simp [Heap2.insertLoop])
  | succ f ih =>
    intro p it h
    unfold Heap2.insertLoop at h
    by_cases hc : size (next p) < sz
    · rw [if_pos hc] at h; exact ih _ _ h
    · rw [if_neg hc] at h
      cases h
      exact hc

namespace Heap4

variable {c : Config} {s : State} {bs : List Blk} {live : List (Nat × Nat)}

/-- The walks over the free list of `heap_4.c` in a state satisfying the invariant: no
link on the way to `pxEnd` is `NULL`, the search and the walk of the insertion stop on
`xStart` or on a node of the list, and the search stops in front of `pxEnd` exactly when
no free region is large enough. -/
theorem Inv.list_walks (hw : c.WF) (h : Inv c s bs) {fuel : Nat}
    (hfuel : c.configTOTAL_HEAP_SIZE < fuel) :
    (s.pxEnd ≠ 0 ∧ s.pxNextFreeBlock s.pxEnd = 0) ∧
    (∀ a ∈ c.xStart :: freeAddrs bs, s.pxNextFreeBlock a ≠ 0 ∧
      (s.pxNextFreeBlock a ∈ freeAddrs bs ∨ s.pxNextFreeBlock a = s.pxEnd)) ∧
    (∀ a ∈ freeAddrs bs, a < s.pxEnd) ∧
    (∀ w, ∃ prev blk,
      searchLoop s.pxNextFreeBlock s.xBlockSize w fuel c.xStart (s.pxNextFreeBlock c.xStart)
        = some (prev, blk) ∧
      prev ∈ c.xStart :: freeAddrs bs ∧ s.pxNextFreeBlock prev = blk ∧
      (blk ∈ freeAddrs bs ∨ blk = s.pxEnd) ∧
      (blk = s.pxEnd ↔ ∀ a ∈ freeAddrs bs, s.xBlockSize a < w) ∧
      (blk ≠ s.pxEnd → w ≤ s.xBlockSize blk)) ∧
    (∀ x, x ≤ s.pxEnd → ∃ it, insertLoop s.pxNextFreeBlock x fuel c.xStart = some it ∧
      it ∈ c.xStart :: freeAddrs bs ∧
      (s.pxNextFreeBlock it ∈ freeAddrs bs ∨ s.pxNextFreeBlock it = s.pxEnd) ∧
      ¬ s.pxNextFreeBlock it < x) := by
  have hg := geometry hw
  have hsz : ∀ b ∈ bs, b.free = true → s.xBlockSize b.addr = b.size := by
    intro b hb hf
    rw [h.sizes b hb, if_pos hf]
  have hlt : ∀ a ∈ freeAddrs bs, a < s.pxEnd := by
    intro a ha
    have := h.mem_free ha
    rw [h.pxEnd_eq]; exact this.2
  refine ⟨⟨h.end_ne hw, h.end_next⟩, ?_, hlt, ?_, ?_⟩
  · intro a ha
    have hn := chain_next_cons_mem h.chain ha
    refine ⟨?_, hn⟩
    rcases hn with h1 | h1
    · have := h.mem_free h1; omega
    · rw [h1]; exact h.end_ne hw
  · intro w
    rcases h.search hw w hfuel with ⟨h1, h2⟩ | ⟨pre, b, post, hbs, hf, hwb, _, h1⟩
    · refine ⟨_, _, h1, ?_, chain_next_last h.chain, Or.inr rfl, ?_, fun hne => absurd rfl hne⟩
      · rcases getLastD_mem_or (l := freeAddrs bs) (p := c.xStart) with h3 | h3
        · rw [h3]; exact List.mem_cons_self _ _
        · exact List.mem_cons_of_mem _ h3
      · refine ⟨fun _ a ha => ?_, fun _ => rfl⟩
        obtain ⟨b, hb, hbf, rfl⟩ := mem_freeAddrs.1 ha
        rw [hsz b hb hbf]; exact h2 b hb hbf
    · have hbm : b ∈ bs := by rw [hbs]; simp
      have hba : b.addr ∈ freeAddrs bs := mem_freeAddrs.2 ⟨b, hbm, hf, rfl⟩
      have hne : b.addr ≠ s.pxEnd := fun he => Nat.lt_irrefl _ (he ▸ hlt _ hba)
      have hfa : freeAddrs bs = freeAddrs pre ++ b.addr :: freeAddrs post := by
        rw [hbs, freeAddrs_append, freeAddrs_cons_free hf]
      refine ⟨_, _, h1, ?_, ?_, Or.inl hba, ?_, fun _ => by rw [hsz b hbm hf]; exact hwb⟩
      · rcases getLastD_mem_or (l := freeAddrs pre) (p := c.xStart) with h3 | h3
        · rw [h3]; exact List.mem_cons_self _ _
        · refine List.mem_cons_of_mem _ ?_
          rw [hfa]; exact List.mem_append_left _ h3
      · have hch := h.chain
        rw [hfa] at hch
        exact chain_next_mid hch
      · refine ⟨fun he => absurd he hne, fun hall => ?_⟩
        have := hall _ hba
        rw [hsz b hbm hf] at this
        omega
  · intro x hx
    have hspec := insertLoop_spec s.pxNextFreeBlock x s.pxEnd (by omega) _ _ _ h.chain
      (h.length_lt hw hfuel)
    refine ⟨_, hspec, takeWhile_getLastD_mem _ _ _, ?_, insertLoop_stop _ _ _ _ _ hspec⟩
    exact chain_next_cons_mem h.chain (takeWhile_getLastD_mem _ _ _)

/-- The walks over the free list in the reachable states of `heap_4.c`, the heap being set
up as `pvPortMalloc` does first. -/
theorem Reach.walks (hw : c.WF) (hr : Reach c s live) {fuel : Nat}
    (hfuel : c.configTOTAL_HEAP_SIZE < fuel) :
    ((initialised c s).pxEnd ≠ 0 ∧
      (initialised c s).pxNextFreeBlock (initialised c s).pxEnd = 0) ∧
    (∀ a ∈ c.xStart :: freeList c fuel (initialised c s),
      (initialised c s).pxNextFreeBlock a ≠ 0 ∧
      ((initialised c s).pxNextFreeBlock a ∈ freeList c fuel (initialised c s) ∨
        (initialised c s).pxNextFreeBlock a = (initialised c s).pxEnd)) ∧
    (∀ a ∈ freeList c fuel (initialised c s), a < (initialised c s).pxEnd) ∧
    (∀ w, ∃ prev blk,
      searchLoop (initialised c s).pxNextFreeBlock (initialised c s).xBlockSize w fuel
          c.xStart ((initialised c s).pxNextFreeBlock c.xStart) = some (prev, blk) ∧
      prev ∈ c.xStart :: freeList c fuel (initialised c s) ∧
      (initialised c s).pxNextFreeBlock prev = blk ∧
      (blk ∈ freeList c fuel (initialised c s) ∨ blk = (initialised c s).pxEnd) ∧
      (blk = (initialised c s).pxEnd ↔
        ∀ a ∈ freeList c fuel (initialised c s), (initialised c s).xBlockSize a < w) ∧
      (blk ≠ (initialised c s).pxEnd → w ≤ (initialised c s).xBlockSize blk)) ∧
    (∀ x, x ≤ (initialised c s).pxEnd →
      ∃ it, insertLoop (initialised c s).pxNextFreeBlock x fuel c.xStart = some it ∧
        it ∈ c.xStart :: freeList c fuel (initialised c s) ∧
        ((initialised c s).pxNextFreeBlock it ∈ freeList c fuel (initialised c s) ∨
          (initialised c s).pxNextFreeBlock it = (initialised c s).pxEnd) ∧
        ¬ (initialised c s).pxNextFreeBlock it < x) ∧
    (∀ p d, (p, d) ∈ live → wsub c p (xHeapStructSize c) < s.pxEnd ∧
      ∃ s', vPortFree c fuel s p = Outcome.ok s' ()) ∧
    (∀ n, ∃ s' p, pvPortMalloc c fuel s n = Outcome.ok s' p) := by
  obtain ⟨bs, hinv, hl⟩ := hr.initialised_inv hw
  rw [hinv.freeList_eq hw hfuel]
  obtain ⟨k1, k2, k3, k4, k5⟩ := hinv.list_walks hw hfuel
  refine ⟨k1, k2, k3, k4, k5, ?_, ?_⟩
  · intro p d hpd
    refine ⟨?_, ((hr.flags hw hfuel).2 p d hpd).2.2.2⟩
    obtain ⟨bs', hinv', hl'⟩ : ∃ bs', Inv c s bs' ∧ LiveOK (xHeapStructSize c) bs' live := by
      rcases hr.inv hw with ⟨_, rfl⟩ | h
      · exact absurd hpd (by simp)
      · exact h
    obtain ⟨b, hb, _, rfl, _⟩ := (hl' p d).1 hpd
    have ht := tiled_mem hinv'.tiled' hb
    have hsm := size_lt_half hw hinv'.tiled' hb
    have h1 := hw.heap_fits
    have h2 := end_facts hw
    have hg := geometry hw
    have hpuc : wsub c (b.addr + xHeapStructSize c) (xHeapStructSize c) = b.addr := by
      rw [wsub_eq c (by omega) (by omega)]
      omega
    rw [hpuc, hinv'.pxEnd_eq]
    omega
  · intro n
    rw [malloc_initialised hw]
    rcases hinv.malloc hw n hfuel with ⟨h1, _⟩ | ⟨_, _, _, s', _, _, _, _, _, h1, _⟩
    · exact ⟨_, _, h1⟩
    · exact ⟨_, _, h1⟩

end Heap4

namespace Heap2

variable {c : Config} {s : State} {bs : List Blk} {fl : List Nat} {live : List (Nat × Nat)}

/-- The walks over the free list of `heap_2.c` in a state satisfying the invariant: no
link on the way to `xEnd` is `NULL`, the search and the walk of the insertion stop on
`xStart` or on a node of the list, and the search stops in front of `xEnd` exactly when no
free region is large enough. -/
theorem Inv.list_walks2 (hw : c.WF) (h : Inv c s bs fl) {fuel : Nat}
    (hfuel : c.configTOTAL_HEAP_SIZE < fuel) :
    (c.xEnd ≠ 0 ∧ s.pxNextFreeBlock c.xEnd = 0 ∧
      s.xBlockSize c.xEnd = configADJUSTED_HEAP_SIZE c) ∧
    (∀ a ∈ c.xStart :: fl, s.pxNextFreeBlock a ≠ 0 ∧
      (s.pxNextFreeBlock a ∈ fl ∨ s.pxNextFreeBlock a = c.xEnd)) ∧
    (∀ a ∈ fl, s.xBlockSize a ≤ s.xBlockSize c.xEnd) ∧
    (∀ w, ∃ prev blk,
      searchLoop s.pxNextFreeBlock s.xBlockSize w fuel c.xStart (s.pxNextFreeBlock c.xStart)
        = some (prev, blk) ∧
      prev ∈ c.xStart :: fl ∧ s.pxNextFreeBlock prev = blk ∧
      (blk ∈ fl ∨ blk = c.xEnd) ∧
      (blk = c.xEnd ↔ ∀ a ∈ fl, s.xBlockSize a < w) ∧
      (blk ≠ c.xEnd → w ≤ s.xBlockSize blk)) ∧
    (∀ z, z ≤ s.xBlockSize c.xEnd →
      ∃ it, insertLoop s.pxNextFreeBlock s.xBlockSize z fuel c.xStart = some it ∧
        it ∈ c.xStart :: fl ∧
        (s.pxNextFreeBlock it ∈ fl ∨ s.pxNextFreeBlock it = c.xEnd) ∧
        ¬ s.xBlockSize (s.pxNextFreeBlock it) < z) := by
  have hsz : ∀ b ∈ bs, b.free = true → s.xBlockSize b.addr = b.size := by
    intro b hb hf
    rw [h.sizes b hb, if_pos hf]
  have hend : c.xEnd ≠ 0 := by have := hw.xEnd_pos; omega
  refine ⟨⟨hend, h.end_next, h.end_size⟩, ?_, ?_, ?_, ?_⟩
  · intro a ha
    have hn := chain_next_cons_mem h.chain ha
    refine ⟨?_, hn⟩
    rcases hn with h1 | h1
    · obtain ⟨b, hb, _, hba⟩ := h.mem_fl.1 h1
      have := (size_lt_half2 hw h.tiled hb).2.2.2.2.2.2.2.2
      omega
    · rw [h1]; exact hend
  · intro a ha
    obtain ⟨b, hb, hbf, rfl⟩ := h.mem_fl.1 ha
    rw [hsz b hb hbf, h.end_size]
    exact (size_lt_half2 hw h.tiled hb).2.2.2.2.2.1
  · intro w
    rcases h.search2 hw w hfuel with ⟨h1, h2⟩ |
      ⟨l1, l2, pre, b, post, hfl, hbs, hf, hwb, _, h1⟩
    · refine ⟨_, _, h1, ?_, chain_next_last h.chain, Or.inr rfl, ?_, fun hne => absurd rfl hne⟩
      · rcases getLastD_mem_or (l := fl) (p := c.xStart) with h3 | h3
        · rw [h3]; exact List.mem_cons_self _ _
        · exact List.mem_cons_of_mem _ h3
      · refine ⟨fun _ a ha => ?_, fun _ => rfl⟩
        obtain ⟨b, hb, hbf, rfl⟩ := h.mem_fl.1 ha
        rw [hsz b hb hbf]; exact h2 b hb hbf
    · have hbm : b ∈ bs := by rw [hbs]; simp
      have hba : b.addr ∈ fl := by rw [hfl]; simp
      have hne : b.addr ≠ c.xEnd := fun he => h.xEnd_not_mem hw (he ▸ hba)
      refine ⟨_, _, h1, ?_, ?_, Or.inl hba, ?_, fun _ => by rw [hsz b hbm hf]; exact hwb⟩
      · rcases getLastD_mem_or (l := l1) (p := c.xStart) with h3 | h3
        · rw [h3]; exact List.mem_cons_self _ _
        · refine List.mem_cons_of_mem _ ?_
          rw [hfl]; exact List.mem_append_left _ h3
      · have hch := h.chain
        rw [hfl] at hch
        exact chain_next_mid hch
      · refine ⟨fun he => absurd he hne, fun hall => ?_⟩
        have := hall _ hba
        rw [hsz b hbm hf] at this
        omega
  · intro z hz
    have hspec := insertLoop_spec2 s.pxNextFreeBlock s.xBlockSize z c.xEnd (by omega) _ _ _
      h.chain (h.length_lt2 hw hfuel)
    refine ⟨_, hspec, takeWhile_getLastD_mem _ _ _, ?_, insertLoop_stop2 _ _ _ _ _ _ hspec⟩
    exact chain_next_cons_mem h.chain (takeWhile_getLastD_mem _ _ _)

/-- The walks over the free list in the reachable states of `heap_2.c`, the heap being set
up as `pvPortMalloc` does first. -/
theorem Reach.walks2 (hw : c.WF) (hr : Reach c s live) {fuel : Nat}
    (hfuel : c.configTOTAL_HEAP_SIZE < fuel) :
    (c.xEnd ≠ 0 ∧ (initialised c s).pxNextFreeBlock c.xEnd = 0 ∧
      (initialised c s).xBlockSize c.xEnd = configADJUSTED_HEAP_SIZE c) ∧
    (∀ a ∈ c.xStart :: freeList c fuel (initialised c s),
      (initialised c s).pxNextFreeBlock a ≠ 0 ∧
      ((initialised c s).pxNextFreeBlock a ∈ freeList c fuel (initialised c s) ∨
        (initialised c s).pxNextFreeBlock a = c.xEnd)) ∧
    (∀ a ∈ freeList c fuel (initialised c s),
      (initialised c s).xBlockSize a ≤ (initialised c s).xBlockSize c.xEnd) ∧
    (∀ w, ∃ prev blk,
      searchLoop (initialised c s).pxNextFreeBlock (initialised c s).xBlockSize w fuel
          c.xStart ((initialised c s).pxNextFreeBlock c.xStart) = some (prev, blk) ∧
      prev ∈ c.xStart :: freeList c fuel (initialised c s) ∧
      (initialised c s).pxNextFreeBlock prev = blk ∧
      (blk ∈ freeList c fuel (initialised c s) ∨ blk = c.xEnd) ∧
      (blk = c.xEnd ↔
        ∀ a ∈ freeList c fuel (initialised c s), (initialised c s).xBlockSize a < w) ∧
      (blk ≠ c.xEnd → w ≤ (initialised c s).xBlockSize blk)) ∧
    (∀ z, z ≤ (initialised c s).xBlockSize c.xEnd →
      ∃ it, insertLoop (initialised c s).pxNextFreeBlock (initialised c s).xBlockSize z fuel
          c.xStart = some it ∧
        it ∈ c.xStart :: freeList c fuel (initialised c s) ∧
        ((initialised c s).pxNextFreeBlock it ∈ freeList c fuel (initialised c s) ∨
          (initialised c s).pxNextFreeBlock it = c.xEnd) ∧
        ¬ (initialised c s).xBlockSize ((initialised c s).pxNextFreeBlock it) < z) ∧
    (∀ p d, (p, d) ∈ live → regionSize c s p ≤ s.xBlockSize c.xEnd ∧
      ∃ s', vPortFree c fuel s p = Outcome.ok s' ()) ∧
    (∀ n, ∃ s' p, pvPortMalloc c fuel s n = Outcome.ok s' p) := by
  obtain ⟨bs, fl, hinv, hl⟩ := hr.initialised_inv2 hw
  rw [hinv.freeList_eq2 hw hfuel]
  obtain ⟨k1, k2, k3, k4, k5⟩ := hinv.list_walks2 hw hfuel
  refine ⟨k1, k2, k3, k4, k5, ?_, ?_⟩
  · intro p d hpd
    refine ⟨?_, ((hr.flags2 hw hfuel).2 p d hpd).2.2.2⟩
    obtain ⟨bs', fl', hinv', hl'⟩ :
        ∃ bs' fl', Inv c s bs' fl' ∧ LiveOK (heapSTRUCT_SIZE c) bs' live := by
      rcases hr.inv2 hw with ⟨_, rfl⟩ | h
      · exact absurd hpd (by simp)
      · exact h
    obtain ⟨h1, _, h2, _⟩ := (hr.size_bounds2 hw hinv'.init hfuel).1 p d hpd
    rw [h1, hinv'.end_size]
    exact h2
  · intro n
    rw [malloc_initialised2]
    rcases hinv.malloc2 hw n hfuel with ⟨h1, _⟩ | ⟨_, _, _, s', _, _, _, _, _, h1, _⟩
    · exact ⟨_, _, h1⟩
    · exact ⟨_, _, h1⟩

end Heap2

/-- C32: in every state of `heap_2.c` and of `heap_4.c` reachable from program start, the
heap being set up as `pvPortMalloc` does first, and with fuel above the heap size, the
walks over the free list end at or before the end marker and follow no `NULL` link.  The
link out of `xStart` and out of every node of the free list is not `NULL` and leads to a node
of the list or to the end marker, whose own link is `NULL`.  In `heap_4.c` every node of the
list lies below `pxEnd`, and in `heap_2.c` no node is larger than the size recorded in
`xEnd`, the adjusted heap size.  The search of `pvPortMalloc` for any wanted size returns a
block that is a node of the list or the end marker, reached by the link of a previous block
that is `xStart` or a node, and it is the end marker exactly when no node of the list has the
wanted size.  The walk of `prvInsertBlockIntoFreeList`, for any block not above `pxEnd` in
`heap_4.c` and any size not above the size of `xEnd` in `heap_2.c`, stops on `xStart` or on a
node of the list, in front of a node or of the end marker; the blocks that `vPortFree`
inserts, those of the live pointers, are such blocks.  `pvPortMalloc` with any argument and
`vPortFree` on any live pointer return. -/
theorem C32_walks_stop_at_end {c : Config} (hw : c.WF)
    {s4 : Heap4.State} {live4 : List (Nat × Nat)} (h4 : Heap4.Reach c s4 live4)
    {s2 : Heap2.State} {live2 : List (Nat × Nat)} (h2 : Heap2.Reach c s2 live2)
    {fuel : Nat} (hfuel : c.configTOTAL_HEAP_SIZE < fuel) :
    (((Heap4.initialised c s4).pxEnd ≠ 0 ∧
        (Heap4.initialised c s4).pxNextFreeBlock (Heap4.initialised c s4).pxEnd = 0) ∧
      (∀ a ∈ c.xStart :: Heap4.freeList c fuel (Heap4.initialised c s4),
        (Heap4.initialised c s4).pxNextFreeBlock a ≠ 0 ∧
        ((Heap4.initialised c s4).pxNextFreeBlock a
            ∈ Heap4.freeList c fuel (Heap4.initialised c s4) ∨
          (Heap4.initialised c s4).pxNextFreeBlock a = (Heap4.initialised c s4).pxEnd)) ∧
      (∀ a ∈ Heap4.freeList c fuel (Heap4.initialised c s4),
        a < (Heap4.initialised c s4).pxEnd) ∧
      (∀ w, ∃ prev blk,
        searchLoop (Heap4.initialised c s4).pxNextFreeBlock
            (Heap4.initialised c s4).xBlockSize w fuel c.xStart
            ((Heap4.initialised c s4).pxNextFreeBlock c.xStart) = some (prev, blk) ∧
        prev ∈ c.xStart :: Heap4.freeList c fuel (Heap4.initialised c s4) ∧
        (Heap4.initialised c s4).pxNextFreeBlock prev = blk ∧
        (blk ∈ Heap4.freeList c fuel (Heap4.initialised c s4) ∨
          blk = (Heap4.initialised c s4).pxEnd) ∧
        (blk = (Heap4.initialised c s4).pxEnd ↔
          ∀ a ∈ Heap4.freeList c fuel (Heap4.initialised c s4),
            (Heap4.initialised c s4).xBlockSize a < w) ∧
        (blk ≠ (Heap4.initialised c s4).pxEnd →
          w ≤ (Heap4.initialised c s4).xBlockSize blk)) ∧
      (∀ x, x ≤ (Heap4.initialised c s4).pxEnd →
        ∃ it, Heap4.insertLoop (Heap4.initialised c s4).pxNextFreeBlock x fuel c.xStart
            = some it ∧
          it ∈ c.xStart :: Heap4.freeList c fuel (Heap4.initialised c s4) ∧
          ((Heap4.initialised c s4).pxNextFreeBlock it
              ∈ Heap4.freeList c fuel (Heap4.initialised c s4) ∨
            (Heap4.initialised c s4).pxNextFreeBlock it = (Heap4.initialised c s4).pxEnd) ∧
          ¬ (Heap4.initialised c s4).pxNextFreeBlock it < x) ∧
      (∀ p d, (p, d) ∈ live4 → wsub c p (Heap4.xHeapStructSize c) < s4.pxEnd ∧
        ∃ s', Heap4.vPortFree c fuel s4 p = Outcome.ok s' ()) ∧
      (∀ n, ∃ s' p, Heap4.pvPortMalloc c fuel s4 n = Outcome.ok s' p)) ∧
    ((c.xEnd ≠ 0 ∧ (Heap2.initialised c s2).pxNextFreeBlock c.xEnd = 0 ∧
        (Heap2.initialised c s2).xBlockSize c.xEnd = Heap2.configADJUSTED_HEAP_SIZE c) ∧
      (∀ a ∈ c.xStart :: Heap2.freeList c fuel (Heap2.initialised c s2),
        (Heap2.initialised c s2).pxNextFreeBlock a ≠ 0 ∧
        ((Heap2.initialised c s2).pxNextFreeBlock a
            ∈ Heap2.freeList c fuel (Heap2.initialised c s2) ∨
          (Heap2.initialised c s2).pxNextFreeBlock a = c.xEnd)) ∧
      (∀ a ∈ Heap2.freeList c fuel (Heap2.initialised c s2),
        (Heap2.initialised c s2).xBlockSize a ≤ (Heap2.initialised c s2).xBlockSize c.xEnd) ∧
      (∀ w, ∃ prev blk,
        searchLoop (Heap2.initialised c s2).pxNextFreeBlock
            (Heap2.initialised c s2).xBlockSize w fuel c.xStart
            ((Heap2.initialised c s2).pxNextFreeBlock c.xStart) = some (prev, blk) ∧
        prev ∈ c.xStart :: Heap2.freeList c fuel (Heap2.initialised c s2) ∧
        (Heap2.initialised c s2).pxNextFreeBlock prev = blk ∧
        (blk ∈ Heap2.freeList c fuel (Heap2.initialised c s2) ∨ blk = c.xEnd) ∧
        (blk = c.xEnd ↔
          ∀ a ∈ Heap2.freeList c fuel (Heap2.initialised c s2),
            (Heap2.initialised c s2).xBlockSize a < w) ∧
        (blk ≠ c.xEnd → w ≤ (Heap2.initialised c s2).xBlockSize blk)) ∧
      (∀ z, z ≤ (Heap2.initialised c s2).xBlockSize c.xEnd →
        ∃ it, Heap2.insertLoop (Heap2.initialised c s2).pxNextFreeBlock
            (Heap2.initialised c s2).xBlockSize z fuel c.xStart = some it ∧
          it ∈ c.xStart :: Heap2.freeList c fuel (Heap2.initialised c s2) ∧
          ((Heap2.initialised c s2).pxNextFreeBlock it
              ∈ Heap2.freeList c fuel (Heap2.initialised c s2) ∨
            (Heap2.initialised c s2).pxNextFreeBlock it = c.xEnd) ∧
          ¬ (Heap2.initialised c s2).xBlockSize
              ((Heap2.initialised c s2).pxNextFreeBlock it) < z) ∧
      (∀ p d, (p, d) ∈ live2 → Heap2.regionSize c s2 p ≤ s2.xBlockSize c.xEnd ∧
        ∃ s', Heap2.vPortFree c fuel s2 p = Outcome.ok s' ()) ∧
      (∀ n, ∃ s' p, Heap2.pvPortMalloc c fuel s2 n = Outcome.ok s' p)) :=
  ⟨h4.walks hw hfuel, h2.walks2 hw hfuel⟩

/-- The statement of C32 on `demo`, in the states with the free regions at 4096 and 4208, of
56 and 912 bytes, and the live pointer 4160: the nodes lie below `pxEnd`, 5120, and are not
larger than the 1024 bytes recorded in `xEnd`; the search for 64 bytes stops on 4208 and the
search for 2000 bytes on the end marker; the walk of the insertion for the block of the live
pointer stops on 4096 in `heap_4.c` and on `xStart` in `heap_2.c`. -/
theorem C32_walks_stop_at_end_witness :
    (Heap4.initialised demo Heap4.demo3 = Heap4.demo3 ∧
      Heap4.freeList demo 1033 Heap4.demo3 = [4096, 4208] ∧ Heap4.demo3.pxEnd = 5120 ∧
      (∀ a ∈ Heap4.freeList demo 1033 (Heap4.initialised demo Heap4.demo3),
        a < (Heap4.initialised demo Heap4.demo3).pxEnd) ∧
      (∀ a ∈ demo.xStart :: Heap4.freeList demo 1033 (Heap4.initialised demo Heap4.demo3),
        (Heap4.initialised demo Heap4.demo3).pxNextFreeBlock a ≠ 0 ∧
        ((Heap4.initialised demo Heap4.demo3).pxNextFreeBlock a
            ∈ Heap4.freeList demo 1033 (Heap4.initialised demo Heap4.demo3) ∨
          (Heap4.initialised demo Heap4.demo3).pxNextFreeBlock a
            = (Heap4.initialised demo Heap4.demo3).pxEnd)) ∧
      searchLoop Heap4.demo3.pxNextFreeBlock Heap4.demo3.xBlockSize 64 1033 demo.xStart
          (Heap4.demo3.pxNextFreeBlock demo.xStart) = some (4096, 4208) ∧
      searchLoop Heap4.demo3.pxNextFreeBlock Heap4.demo3.xBlockSize 2000 1033 demo.xStart
          (Heap4.demo3.pxNextFreeBlock demo.xStart) = some (4208, 5120) ∧
      wsub demo 4160 (Heap4.xHeapStructSize demo) = 4152 ∧
      Heap4.insertLoop Heap4.demo3.pxNextFreeBlock 4152 1033 demo.xStart = some 4096 ∧
      (∀ p d, (p, d) ∈ [(4160, 56)] →
        wsub demo p (Heap4.xHeapStructSize demo) < Heap4.demo3.pxEnd ∧
        ∃ s', Heap4.vPortFree demo 1033 Heap4.demo3 p = Outcome.ok s' ())) ∧
    (Heap2.initialised demo Heap2.demo3 = Heap2.demo3 ∧
      Heap2.freeList demo 1033 Heap2.demo3 = [4096, 4208] ∧
      Heap2.demo3.xBlockSize 4096 = 56 ∧ Heap2.demo3.xBlockSize 4208 = 912 ∧
      Heap2.demo3.xBlockSize demo.xEnd = 1024 ∧
      (∀ a ∈ Heap2.freeList demo 1033 (Heap2.initialised demo Heap2.demo3),
        (Heap2.initialised demo Heap2.demo3).xBlockSize a
          ≤ (Heap2.initialised demo Heap2.demo3).xBlockSize demo.xEnd) ∧
      (∀ a ∈ demo.xStart :: Heap2.freeList demo 1033 (Heap2.initialised demo Heap2.demo3),
        (Heap2.initialised demo Heap2.demo3).pxNextFreeBlock a ≠ 0 ∧
        ((Heap2.initialised demo Heap2.demo3).pxNextFreeBlock a
            ∈ Heap2.freeList demo 1033 (Heap2.initialised demo Heap2.demo3) ∨
          (Heap2.initialised demo Heap2.demo3).pxNextFreeBlock a = demo.xEnd)) ∧
      searchLoop Heap2.demo3.pxNextFreeBlock Heap2.demo3.xBlockSize 64 1033 demo.xStart
          (Heap2.demo3.pxNextFreeBlock demo.xStart) = some (4096, 4208) ∧
      searchLoop Heap2.demo3.pxNextFreeBlock Heap2.demo3.xBlockSize 2000 1033 demo.xStart
          (Heap2.demo3.pxNextFreeBlock demo.xStart) = some (4208, demo.xEnd) ∧
      Heap2.regionSize demo Heap2.demo3 4160 = 56 ∧
      Heap2.insertLoop Heap2.demo3.pxNextFreeBlock Heap2.demo3.xBlockSize 56 1033 demo.xStart
        = some demo.xStart ∧
      (∀ p d, (p, d) ∈ [(4160, 56)] →
        Heap2.regionSize demo Heap2.demo3 p ≤ Heap2.demo3.xBlockSize demo.xEnd ∧
        ∃ s', Heap2.vPortFree demo 1033 Heap2.demo3 p = Outcome.ok s' ())) :=
  have h := C32_walks_stop_at_end demo_WF Heap4.reach_demo3 Heap2.reach2_demo3 demo_fuel
  ⟨⟨rfl, by decide, by decide, h.1.2.2.1, h.1.2.1, by decide, by decide, by decide,
      by decide, h.1.2.2.2.2.2.1⟩,
    ⟨rfl, by decide, by decide, by decide, by decide, h.2.2.2.1, h.2.2.1, by decide,
      by decide, by decide, by decide, h.2.2.2.2.2.2.1⟩⟩

namespace Heap4

variable {c : Config} {s : State} {live : List (Nat × Nat)}

/-- The aligned header size of `heap_4.c` for every alignment that is a power of two, the
header and two alignment units fitting a `size_t`: it is a multiple of the alignment, not
below the header, and less than an alignment unit above it. -/
theorem hs_any (hk : ∃ k, c.portBYTE_ALIGNMENT = 2 ^ k)
    (hl : c.sizeofBlockLink + 2 * c.portBYTE_ALIGNMENT ≤ c.wordMod) :
    xHeapStructSize c % c.portBYTE_ALIGNMENT = 0 ∧ c.sizeofBlockLink ≤ xHeapStructSize c ∧
      xHeapStructSize c < c.sizeofBlockLink + c.portBYTE_ALIGNMENT := by
  have hpos : 0 < c.portBYTE_ALIGNMENT := by
    obtain ⟨k, hk⟩ := hk
    rw [hk]; exact Nat.pos_pow_of_pos _ (by decide)
  have hy : c.sizeofBlockLink + (c.portBYTE_ALIGNMENT - 1) < c.wordMod := by omega
  have hr : xHeapStructSize c = (c.sizeofBlockLink + (c.portBYTE_ALIGNMENT - 1))
      - (c.sizeofBlockLink + (c.portBYTE_ALIGNMENT - 1)) % c.portBYTE_ALIGNMENT := by
    unfold xHeapStructSize
    rw [wadd_eq c hy, and_wnot_mask_any hk (by omega) hy]
  have hlt := Nat.mod_lt (c.sizeofBlockLink + (c.portBYTE_ALIGNMENT - 1)) hpos
  have hle := Nat.mod_le (c.sizeofBlockLink + (c.portBYTE_ALIGNMENT - 1)) c.portBYTE_ALIGNMENT
  have hm := sub_mod_self_mod (c.sizeofBlockLink + (c.portBYTE_ALIGNMENT - 1))
    c.portBYTE_ALIGNMENT
  rw [hr]
  exact ⟨hm, by omega, by omega⟩

/-- The first step of `prvHeapInit` of `heap_4.c` in terms of the specification, for every
array of at least one alignment unit: the heap starts at `base` and `usable` bytes are
left. -/
theorem alignedHeap_any (hk : ∃ k, c.portBYTE_ALIGNMENT = 2 ^ k)
    (hfit : c.ucHeap + c.configTOTAL_HEAP_SIZE < c.wordMod)
    (hA : c.portBYTE_ALIGNMENT ≤ c.configTOTAL_HEAP_SIZE) :
    alignedHeap c = (specBase c, specUsable c) := by
  obtain ⟨b1, b2, b3, b4⟩ := base_any hk hfit hA
  unfold alignedHeap
  simp only [and_mask_any hk]
  by_cases h0 : c.ucHeap % c.portBYTE_ALIGNMENT = 0
  · rw [if_neg (fun hh => hh h0)]
    have hb : specBase c = c.ucHeap :=
      multiple_unique b4 h0 b2 b3 (Nat.le_refl _) (by omega)
    unfold specUsable
    rw [hb, Nat.sub_self, Nat.sub_zero]
  · rw [if_pos h0, b1, wsub_eq c b2 (by omega), wsub_eq c (by omega) (by omega)]
    rfl

/-- The size of the first free region of `heap_4.c` when at least a header is usable: the
bytes left after the header of `pxEnd`, rounded down, with no wrap in its computation. -/
theorem region_any (hk : ∃ k, c.portBYTE_ALIGNMENT = 2 ^ k)
    (hlink : 0 < c.sizeofBlockLink)
    (hl : c.sizeofBlockLink + 2 * c.portBYTE_ALIGNMENT ≤ c.wordMod)
    (hfit : c.ucHeap + c.configTOTAL_HEAP_SIZE < c.wordMod)
    (hh : xHeapStructSize c ≤ specUsable c) :
    (alignedHeap c).1 = specBase c ∧ specBase c ≤ endAddress c ∧
      endAddress c + xHeapStructSize c ≤ c.ucHeap + c.configTOTAL_HEAP_SIZE ∧
      wsub c (endAddress c) (alignedHeap c).1 = endAddress c - specBase c ∧
      endAddress c - specBase c ≤ specUsable c - xHeapStructSize c ∧
      specUsable c - xHeapStructSize c < endAddress c - specBase c + c.portBYTE_ALIGNMENT := by
  have hpos : 0 < c.portBYTE_ALIGNMENT := by
    obtain ⟨k, hk⟩ := hk
    rw [hk]; exact Nat.pos_pow_of_pos _ (by decide)
  obtain ⟨s1, s2, s3⟩ := hs_any hk hl
  have hAh : c.portBYTE_ALIGNMENT ≤ xHeapStructSize c := by
    rcases Nat.lt_or_ge (xHeapStructSize c) c.portBYTE_ALIGNMENT with h | h
    · rw [Nat.mod_eq_of_lt h] at s1; omega
    · exact h
  have hus : specUsable c ≤ c.configTOTAL_HEAP_SIZE := Nat.sub_le _ _
  have hA : c.portBYTE_ALIGNMENT ≤ c.configTOTAL_HEAP_SIZE := by omega
  obtain ⟨_, b2, b3, b4⟩ := base_any hk hfit hA
  have hal := alignedHeap_any hk hfit hA
  have hsum : specBase c + specUsable c = c.ucHeap + c.configTOTAL_HEAP_SIZE := by
    unfold specUsable; omega
  have he : endAddress c = (specBase c + specUsable c - xHeapStructSize c)
      - (specBase c + specUsable c - xHeapStructSize c) % c.portBYTE_ALIGNMENT := by
    unfold endAddress
    simp only [hal]
    rw [wadd_eq c (by omega), wsub_eq c (by omega) (by omega),
      and_wnot_mask_any hk (by omega) (by omega)]
  have hmod : (specBase c + specUsable c - xHeapStructSize c) % c.portBYTE_ALIGNMENT
      = (specUsable c - xHeapStructSize c) % c.portBYTE_ALIGNMENT := by
    have e : specBase c + specUsable c - xHeapStructSize c
        = (specUsable c - xHeapStructSize c) + specBase c := by omega
    rw [e, Nat.add_mod, b4, Nat.add_zero, Nat.mod_mod]
  have hle := Nat.mod_le (specUsable c - xHeapStructSize c) c.portBYTE_ALIGNMENT
  have hlt := Nat.mod_lt (specUsable c - xHeapStructSize c) hpos
  rw [hmod] at he
  have hge : specBase c ≤ endAddress c := by rw [he]; omega
  refine ⟨by rw [hal], hge, by rw [he]; omega, ?_, by rw [he]; omega, by rw [he]; omega⟩
  rw [hal]
  exact wsub_eq c hge (by rw [he]; omega)

/-- The free bytes that `prvHeapInit` of `heap_4.c` sets: the size it has written in the
header of the first free region. -/
theorem prvHeapInit_free (c : Config) (s : State) :
    (prvHeapInit c s).xFreeBytesRemaining = wsub c (endAddress c) (alignedHeap c).1 := by
  simp [prvHeapInit, State.setSize, State.setNext, store]

/-- The adjusted size of a request in `heap_4.c` is `0` or at least a header and an
alignment unit. -/
theorem adjust_any (hk : ∃ k, c.portBYTE_ALIGNMENT = 2 ^ k)
    (hl : c.sizeofBlockLink + 2 * c.portBYTE_ALIGNMENT ≤ c.wordMod) (n : Nat) :
    adjustWantedSize c n = 0 ∨
      xHeapStructSize c + c.portBYTE_ALIGNMENT ≤ adjustWantedSize c n := by
  have hpos : 0 < c.portBYTE_ALIGNMENT := by
    obtain ⟨k, hk⟩ := hk
    rw [hk]; exact Nat.pos_pow_of_pos _ (by decide)
  obtain ⟨_, _, s3⟩ := hs_any hk hl
  have hmod := Nat.mod_lt n hpos
  have hmle := Nat.mod_le n c.portBYTE_ALIGNMENT
  have hadd : wsub c (wadd c (xHeapStructSize c) c.portBYTE_ALIGNMENT)
      (n &&& portBYTE_ALIGNMENT_MASK c)
      = xHeapStructSize c + c.portBYTE_ALIGNMENT - n % c.portBYTE_ALIGNMENT := by
    rw [and_mask_any hk, wadd_eq c (by omega), wsub_eq c (by omega) (by omega)]
  by_cases h0 : n > 0
  · have hval : adjustWantedSize c n =
        if heapADD_WILL_OVERFLOW c n
            (xHeapStructSize c + c.portBYTE_ALIGNMENT - n % c.portBYTE_ALIGNMENT) = false then
          wadd c n (xHeapStructSize c + c.portBYTE_ALIGNMENT - n % c.portBYTE_ALIGNMENT)
        else 0 := by
      unfold adjustWantedSize
      rw [if_pos h0]
      simp only [hadd]
    rw [hval]
    by_cases hov : heapADD_WILL_OVERFLOW c n
        (xHeapStructSize c + c.portBYTE_ALIGNMENT - n % c.portBYTE_ALIGNMENT) = false
    · right
      have : n + (xHeapStructSize c + c.portBYTE_ALIGNMENT - n % c.portBYTE_ALIGNMENT)
          < c.wordMod := by
        unfold heapADD_WILL_OVERFLOW heapSIZE_MAX at hov
        simp only [gt_iff_lt, decide_eq_false_iff_not, not_lt] at hov
        omega
      rw [if_pos hov, wadd_eq c this]
      omega
    · left
      rw [if_neg hov]
  · left
    unfold adjustWantedSize
    rw [if_neg h0]
    omega

/-- A request whose adjusted size is `0` or above the free bytes: `pvPortMalloc` of
`heap_4.c` returns `NULL` without looking at the free list. -/
theorem allocateBlock_null (c : Config) (fuel : Nat) (s : State) {w : Nat}
    (h : w = 0 ∨ s.xFreeBytesRemaining < w) : allocateBlock c fuel s w = Outcome.ok s 0 := by
  unfold allocateBlock
  rw [if_neg]
  rintro ⟨_, h1, h2⟩
  omega

/-- In a configuration of `heap_4.c` in which at least a header and less than the minimum
block size and an alignment unit are usable, the heap once set up has fewer free bytes than
any request needs. -/
theorem init_tiny (hk : ∃ k, c.portBYTE_ALIGNMENT = 2 ^ k)
    (hlink : 0 < c.sizeofBlockLink)
    (hl : c.sizeofBlockLink + 2 * c.portBYTE_ALIGNMENT ≤ c.wordMod)
    (hfit : c.ucHeap + c.configTOTAL_HEAP_SIZE < c.wordMod)
    (hh : xHeapStructSize c ≤ specUsable c)
    (hu : specUsable c < heapMINIMUM_BLOCK_SIZE c + c.portBYTE_ALIGNMENT) (s : State) :
    (prvHeapInit c s).xFreeBytesRemaining = endAddress c - specBase c ∧
      endAddress c - specBase c < xHeapStructSize c + c.portBYTE_ALIGNMENT := by
  obtain ⟨_, _, _, r4, r5, _⟩ := region_any hk hlink hl hfit hh
  have hmin : heapMINIMUM_BLOCK_SIZE c ≤ 2 * xHeapStructSize c := by
    unfold heapMINIMUM_BLOCK_SIZE
    rw [Nat.shiftLeft_eq, Nat.pow_one]
    have := Nat.mod_le (xHeapStructSize c * 2) c.wordMod
    omega
  rw [prvHeapInit_free, r4]
  exact ⟨rfl, by omega⟩

/-- In such a configuration every call of `pvPortMalloc`, in every reachable state, returns
`NULL` and leaves the heap as it is once set up; no allocation is ever live. -/
theorem Reach.null_of_tiny (hk : ∃ k, c.portBYTE_ALIGNMENT = 2 ^ k)
    (hlink : 0 < c.sizeofBlockLink)
    (hl : c.sizeofBlockLink + 2 * c.portBYTE_ALIGNMENT ≤ c.wordMod)
    (hfit : c.ucHeap + c.configTOTAL_HEAP_SIZE < c.wordMod)
    (hh : xHeapStructSize c ≤ specUsable c)
    (hu : specUsable c < heapMINIMUM_BLOCK_SIZE c + c.portBYTE_ALIGNMENT)
    (hr : Reach c s live) :
    live = [] ∧
      (initialised c s).xFreeBytesRemaining < xHeapStructSize c + c.portBYTE_ALIGNMENT ∧
      ∀ fuel n, pvPortMalloc c fuel s n = Outcome.ok (initialised c s) 0 := by
  have hinit := init_tiny hk hlink hl hfit hh hu
  have key : ∀ t : State,
      (initialised c t).xFreeBytesRemaining < xHeapStructSize c + c.portBYTE_ALIGNMENT →
      ∀ fuel n, pvPortMalloc c fuel t n = Outcome.ok (initialised c t) 0 := by
    intro t ht fuel n
    show allocateBlock c fuel (initialised c t) (adjustWantedSize c n) = _
    apply allocateBlock_null
    rcases adjust_any hk hl n with h | h
    · exact Or.inl h
    · exact Or.inr (by omega)
  have main : live = [] ∧
      (initialised c s).xFreeBytesRemaining < xHeapStructSize c + c.portBYTE_ALIGNMENT := by
    induction hr with
    | boot next0 size0 =>
      refine ⟨rfl, ?_⟩
      show (prvHeapInit c (Heap4.boot next0 size0)).xFreeBytesRemaining < _
      rw [(hinit _).1]; exact (hinit (Heap4.boot next0 size0)).2
    | malloc fuel n _ _ hres ih =>
      obtain ⟨hl0, hf⟩ := ih
      rw [key _ hf fuel n] at hres
      cases hres
      refine ⟨by rw [if_pos rfl]; exact hl0, ?_⟩
      generalize initialised c _ = t at hf ⊢
      unfold initialised
      by_cases h0 : t.pxEnd = 0
      · rw [if_pos h0, (hinit _).1]; exact (hinit t).2
      · rw [if_neg h0]; exact hf
    | free fuel p d _ hmem _ ih =>
      rw [ih.1] at hmem
      exact absurd hmem (by simp)
  exact ⟨main.1, main.2, key s main.2⟩

/-- When the size check of `pvPortMalloc` of `heap_4.c` passes and the search stops on a
block other than `pxEnd`, the call does not return `NULL`. -/
theorem allocateBlock_found {c : Config} {fuel : Nat} {s : State} {w : Nat} (prev blk : Nat)
    (hv : heapBLOCK_SIZE_IS_VALID c w = true ∧ (w > 0 ∧ w ≤ s.xFreeBytesRemaining))
    (hs : searchLoop s.pxNextFreeBlock s.xBlockSize w fuel c.xStart
      (s.pxNextFreeBlock c.xStart) = some (prev, blk))
    (hb : blk ≠ s.pxEnd) (hp : wadd c (s.pxNextFreeBlock prev) (xHeapStructSize c) ≠ 0)
    (s' : State) : allocateBlock c fuel s w ≠ Outcome.ok s' 0 := by
  intro h
  unfold allocateBlock at h
  rw [if_pos hv, hs] at h
  simp only [] at h
  rw [if_pos hb] at h
  split at h
  · cases h
  · cases h
  · split at h
    · cases h
    · injection h with _ h2
      exact hp h2

/-- An array shorter than a header on `demoSliver`, 4 bytes for a header of 8: `prvHeapInit`
of `heap_4.c` places `pxEnd` at 4088, before the array at 4096, the size written in the
header of the first free region wraps to `2 ^ 32 - 8`, which is what
`xPortGetFreeHeapSize` then returns, and `pvPortMalloc( 1 )` at program start does not
return `NULL`, whatever the fuel: the search stops on the block at 4096. -/
theorem sliver_not_null :
    specUsable demoSliver = 4 ∧ xHeapStructSize demoSliver = 8 ∧
    demoSliver.ucHeap = 4096 ∧ endAddress demoSliver = 4088 ∧
    xPortGetFreeHeapSize (initialised demoSliver demoBoot) = 4294967288 ∧
    searchLoop (initialised demoSliver demoBoot).pxNextFreeBlock
        (initialised demoSliver demoBoot).xBlockSize (adjustWantedSize demoSliver 1) 1
        demoSliver.xStart ((initialised demoSliver demoBoot).pxNextFreeBlock demoSliver.xStart)
      = some (demoSliver.xStart, 4096) ∧
    ∀ fuel s', pvPortMalloc demoSliver fuel demoBoot 1 ≠ Outcome.ok s' 0 := by
  refine ⟨by decide, by decide, rfl, by decide, by decide, by decide, ?_⟩
  intro fuel s'
  cases fuel with
  | zero => intro h; cases h
  | succ f =>
    show allocateBlock demoSliver (f + 1) (initialised demoSliver demoBoot)
      (adjustWantedSize demoSliver 1) ≠ _
    refine allocateBlock_found demoSliver.xStart 4096 (by decide) ?_ (by decide) (by decide) s'
    unfold searchLoop
    rw [if_neg (by decide)]
    rfl

end Heap4

/-- C19, as the code has it: in `heap_4.c`, for every alignment that is a power of two, every
header size and every placement and length of `ucHeap`, the array not wrapping the address
space, with `xHeapStructSize <= usable < heapMINIMUM_BLOCK_SIZE + portBYTE_ALIGNMENT`, where
`usable` is `configTOTAL_HEAP_SIZE` less the bytes lost in aligning the start of `ucHeap`:
every `pvPortMalloc`, in every reachable state, for every request and whatever the fuel,
returns `NULL` and leaves the heap as it is once set up, with fewer free bytes than a
header and an alignment unit; no allocation is ever live and no assertion fails. -/
theorem C19_tiny_heap {c : Config} (hk : ∃ k, c.portBYTE_ALIGNMENT = 2 ^ k)
    (hlink : 0 < c.sizeofBlockLink)
    (hl : c.sizeofBlockLink + 2 * c.portBYTE_ALIGNMENT ≤ c.wordMod)
    (hfit : c.ucHeap + c.configTOTAL_HEAP_SIZE < c.wordMod)
    (hh : Heap4.xHeapStructSize c ≤ specUsable c)
    (hu : specUsable c < Heap4.heapMINIMUM_BLOCK_SIZE c + c.portBYTE_ALIGNMENT)
    {s : Heap4.State} {live : List (Nat × Nat)} (hr : Heap4.Reach c s live) (n : Nat) :
    live = [] ∧
    (∀ fuel, Heap4.pvPortMalloc c fuel s n = Outcome.ok (Heap4.initialised c s) 0) ∧
    (∀ fuel s' p, Heap4.pvPortMalloc c fuel s n = Outcome.ok s' p → p = 0) ∧
    (∀ fuel s', Heap4.pvPortMalloc c fuel s n ≠ Outcome.assertFailed s') ∧
    Heap4.xPortGetFreeHeapSize (Heap4.initialised c s)
      < Heap4.xHeapStructSize c + c.portBYTE_ALIGNMENT := by
  obtain ⟨h1, h2, h3⟩ := hr.null_of_tiny hk hlink hl hfit hh hu
  refine ⟨h1, fun fuel => h3 fuel n, ?_, ?_, h2⟩
  · intro fuel s' p hres
    rw [h3 fuel n] at hres
    cases hres
    rfl
  · intro fuel s' hres
    rw [h3 fuel n] at hres
    cases hres

/-- The statement of C19 on `demoTiny`, an aligned array of 20 bytes with a header of 8
bytes and a minimum block size of 16, and on `demoCramped`, where 33 bytes are usable and
the minimum block size is 32: `pvPortMalloc( 1 )` at program start returns `NULL`. -/
theorem C19_tiny_heap_witness :
    (specUsable demoTiny = 20 ∧ Heap4.xHeapStructSize demoTiny = 8 ∧
      Heap4.heapMINIMUM_BLOCK_SIZE demoTiny = 16 ∧
      Heap4.endAddress demoTiny - specBase demoTiny = 8 ∧
      Heap4.pvPortMalloc demoTiny 21 Heap4.demoBoot 1
        = Outcome.ok (Heap4.initialised demoTiny Heap4.demoBoot) 0) ∧
    (specUsable demoCramped = 33 ∧ Heap4.heapMINIMUM_BLOCK_SIZE demoCramped = 32 ∧
      (Heap4.pvPortMalloc demoCramped 41 Heap4.demoBoot 1).result = some 0) :=
  have h := C19_tiny_heap (c := demoTiny) ⟨3, rfl⟩ (by decide) (by decide) (by decide)
    (by decide) (by decide) (Heap4.Reach.boot (fun _ => 0) (fun _ => 0)) 1
  have k := C19_tiny_heap (c := demoCramped) ⟨3, rfl⟩ (by decide) (by decide) (by decide)
    (by decide) (by decide) (Heap4.Reach.boot (fun _ => 0) (fun _ => 0)) 1
  ⟨⟨by decide, by decide, by decide, by decide, h.2.1 21⟩,
    ⟨by decide, by decide, (congrArg Outcome.result (k.2.1 41)).trans rfl⟩⟩

/-- The statement of C19 fails on either side of the range in which it holds.  On
`demoTight` the usable bytes are 47, below `heapMINIMUM_BLOCK_SIZE + xHeapStructSize = 48`,
and `pvPortMalloc( 1 )` at program start returns the pointer 4112, the first free region
being 24 bytes.  On `demoSliver` the usable bytes are 4, less than a header of 8 bytes:
`prvHeapInit` places `pxEnd` at 4088, before the array at 4096, the size it writes in the
header of the first free region wraps to `2 ^ 32 - 8`, which `xPortGetFreeHeapSize` then
returns, the search of `pvPortMalloc( 1 )` stops on the block at 4096, and the call does not
return `NULL`, whatever the fuel. -/
theorem C19_counterexample :
    (demoTight.WF ∧ specUsable demoTight = 47 ∧
      Heap4.heapMINIMUM_BLOCK_SIZE demoTight + Heap4.xHeapStructSize demoTight = 48 ∧
      Heap4.endAddress demoTight - (Heap4.alignedHeap demoTight).1 = 24 ∧
      (Heap4.pvPortMalloc demoTight 48 Heap4.demoBoot 1).result = some 4112) ∧
    (specUsable demoSliver = 4 ∧ Heap4.xHeapStructSize demoSliver = 8 ∧
      Heap4.heapMINIMUM_BLOCK_SIZE demoSliver + Heap4.xHeapStructSize demoSliver = 24 ∧
      demoSliver.ucHeap = 4096 ∧ Heap4.endAddress demoSliver = 4088 ∧
      Heap4.xPortGetFreeHeapSize (Heap4.initialised demoSliver Heap4.demoBoot) = 4294967288 ∧
      searchLoop (Heap4.initialised demoSliver Heap4.demoBoot).pxNextFreeBlock
          (Heap4.initialised demoSliver Heap4.demoBoot).xBlockSize
          (Heap4.adjustWantedSize demoSliver 1) 1 demoSliver.xStart
          ((Heap4.initialised demoSliver Heap4.demoBoot).pxNextFreeBlock demoSliver.xStart)
        = some (demoSliver.xStart, 4096) ∧
      ∀ fuel s', Heap4.pvPortMalloc demoSliver fuel Heap4.demoBoot 1 ≠ Outcome.ok s' 0) :=
  ⟨⟨⟨by decide, ⟨3, rfl⟩, by decide, by decide, by decide, by decide, by decide, by decide,
      by decide, by decide, by decide, by decide, by decide, by decide, by decide⟩,
      by decide, by decide, by decide, by decide⟩,
    ⟨Heap4.sliver_not_null.1, Heap4.sliver_not_null.2.1, by decide,
      Heap4.sliver_not_null.2.2.1, Heap4.sliver_not_null.2.2.2.1,
      Heap4.sliver_not_null.2.2.2.2.1, Heap4.sliver_not_null.2.2.2.2.2.1,
      Heap4.sliver_not_null.2.2.2.2.2.2⟩⟩

end FreeRTOS

